import Mathlib

/-!
# FMI++ model-exchange integration core

A shallow embedding of the event-detecting integration machinery of FMI++:

* `IntegratorStepper.cpp` : the steppers (`OdeintStepper` and its subclasses, the
  dense-output steppers `DormandPrince`, `BulirschStoer`, `Rosenbrock`);
* `Integrator.cpp`        : `Integrator::integrate` with its event-search loop;
* `FMUModelExchange_v2.cpp` : the driver `FMUModelExchange::integrate`.

Time and state components are rationals (exact arithmetic).  Members that C++ mutates in
place are passed and returned explicitly.  Loops that C++ may run forever carry a fuel
argument and return `none` when it runs out.
-/

namespace FMIPP

abbrev fmiTime := ℚ

abbrev fmiReal := ℚ

/-- The `state_type` of the integrators: `std::vector<fmiReal>`. -/
abbrev state_type := List fmiReal

/-- The record `Integrator::EventInfo` that `invokeMethod` fills in. -/
structure EventInfo where
  stateEvent : Bool
  stepEvent : Bool
  tLower : fmiTime
  tUpper : fmiTime
deriving DecidableEq

/-- The abstract class `DynamicalSystem`, as far as the integrators call it.  `M` is the
whole state of the object behind the `fmu_` pointer. -/
structure DynamicalSystem (M : Type) where
  getTime : M → fmiTime
  setTime : fmiTime → M → M
  getContinuousStates : M → state_type × M
  setContinuousStates : state_type → M → M
  getDerivatives : M → state_type × M
  checkStateEvent : M → Bool × M
  checkStepEvent : M → Bool × M

/-- The functor `system_wrapper::operator()`: set time and states, read the derivatives. -/
def system_wrapper {M : Type} (ds : DynamicalSystem M) (x : state_type) (t : fmiTime)
    (m : M) : state_type × M :=
  ds.getDerivatives (ds.setContinuousStates x (ds.setTime t m))

/-! ## OdeintStepper -/

/-- The variables a `do_step` / `do_step_const` call works on: the subclass's own odeint
workspace, the model and the three reference parameters `states`, `currentTime`, `dt`.
(The `EventInfo&` parameter is not touched by any override and is left out.) -/
structure StepVars (W M : Type) where
  stepper : W
  fmu : M
  states : state_type
  currentTime : fmiTime
  dt : fmiTime
deriving DecidableEq

/-- The virtual methods a subclass of `OdeintStepper` supplies.  `none` stands for a call
that does not return (the retry loop of a controlled stepper). -/
structure OdeintStepper (W M : Type) where
  do_step : StepVars W M → Option (StepVars W M)
  do_step_const : StepVars W M → Option (StepVars W M)
  reset : W → W

/-- The members of an `OdeintStepper` object: the two backups and the subclass part. -/
structure OdeintObj (W : Type) where
  states_bak_ : state_type
  time_bak_ : fmiTime
  stepper : W
deriving DecidableEq

/-- What an `invokeMethod` call leaves behind. -/
structure InvokeResult (S M : Type) where
  eventInfo : EventInfo
  states : state_type
  stepper : S
  fmu : M
deriving DecidableEq

/-- The variables live in the `while` loop of `OdeintStepper::invokeMethod`. -/
structure InvokeState (W M : Type) where
  eventInfo : EventInfo
  states : state_type
  currentTime : fmiTime
  dt : fmiTime
  stop : Bool
  obj : OdeintObj W
  fmu : M
deriving DecidableEq

/-- Outcome of one pass through a loop body: go round again, or `return`. -/
inductive Iter (σ ρ : Type) where
  | next : σ → Iter σ ρ
  | done : ρ → Iter σ ρ

/-- The substep of one pass through the loop of `OdeintStepper::invokeMethod`: the forced
last step (`do_step_const`, `reset`, `stop = true`) if the step size would reach the
integration end, a free `do_step` otherwise.  Returns the variables behind the step
and the new value of `stop`. -/
def OdeintStepper.substep {W M : Type} (st : OdeintStepper W M)
    (time step_size : fmiTime) (s : InvokeState W M) : Option (StepVars W M × Bool) :=
  if s.currentTime + s.dt ≥ time + step_size then
    -- perform the last step, force stepsize
    match st.do_step_const ⟨s.obj.stepper, s.fmu, s.states, s.currentTime,
        time + step_size - s.currentTime⟩ with
    | none => none
    | some v => some ({ v with stepper := st.reset v.stepper }, true)
  else
    match st.do_step ⟨s.obj.stepper, s.fmu, s.states, s.currentTime, s.dt⟩ with
    | none => none
    | some v => some (v, s.stop)

/-- One pass through the body of the `while` loop of `OdeintStepper::invokeMethod`. -/
def OdeintStepper.iteration {W M : Type} (ds : DynamicalSystem M) (st : OdeintStepper W M)
    (time step_size : fmiTime) (s : InvokeState W M) :
    Option (Iter (InvokeState W M) (InvokeResult (OdeintObj W) M)) :=
  -- make backup
  let time_bak := s.currentTime
  let states_bak := s.states
  match OdeintStepper.substep st time step_size s with
  | none => none
  | some (v, stop) =>
    let obj : OdeintObj W := ⟨states_bak, time_bak, v.stepper⟩
    -- update the state and time
    let fmu1 := ds.setContinuousStates v.states (ds.setTime v.currentTime v.fmu)
    -- check whether a state event occured
    let ev := ds.checkStateEvent fmu1
    if ev.1 then
      -- set the fmu back to the backup state/time
      let fmu3 := ds.setContinuousStates states_bak (ds.setTime time_bak ev.2)
      some (Iter.done
        { eventInfo := { stateEvent := true, stepEvent := false,
                         tLower := time_bak, tUpper := v.currentTime },
          states := states_bak, stepper := obj, fmu := fmu3 })
    else
      -- check for step events
      let se := ds.checkStepEvent ev.2
      if se.1 then
        some (Iter.done
          { eventInfo := { s.eventInfo with stepEvent := true, stateEvent := false },
            states := v.states, stepper := obj, fmu := se.2 })
      else
        some (Iter.next
          { eventInfo := s.eventInfo, states := v.states, currentTime := v.currentTime,
            dt := v.dt, stop := stop, obj := obj, fmu := se.2 })

/-- The `while` loop of `OdeintStepper::invokeMethod` together with the two assignments
behind it. -/
def OdeintStepper.loop {W M : Type} (ds : DynamicalSystem M) (st : OdeintStepper W M)
    (time step_size : fmiTime) (fuel : Nat) (s : InvokeState W M) :
    Option (InvokeResult (OdeintObj W) M) :=
  if s.currentTime < time + step_size ∧ s.stop = false then
    match fuel with
    | 0 => none
    | n + 1 =>
      match OdeintStepper.iteration ds st time step_size s with
      | none => none
      | some (Iter.done r) => some r
      | some (Iter.next s') => OdeintStepper.loop ds st time step_size n s'
  else
    -- while loop terminated without events.
    some { eventInfo := { s.eventInfo with stateEvent := false, stepEvent := false },
           states := s.states, stepper := s.obj, fmu := s.fmu }

/-- `OdeintStepper::invokeMethod`. -/
def OdeintStepper.invokeMethod {W M : Type} (ds : DynamicalSystem M)
    (st : OdeintStepper W M) (fuel : Nat) (eventInfo : EventInfo) (states : state_type)
    (time step_size dt _eventSearchPrecision : fmiTime) (obj : OdeintObj W) (fmu : M) :
    Option (InvokeResult (OdeintObj W) M) :=
  OdeintStepper.loop ds st time step_size fuel
    { eventInfo := eventInfo, states := states, currentTime := time, dt := dt,
      stop := false, obj := obj, fmu := fmu }

/-- The odeint call `euler<state_type>::do_step( sys, x, t, dt )`: one evaluation of the
right-hand side, then `x += dt * dxdt`. -/
def euler_do_step {M : Type} (ds : DynamicalSystem M) (x : state_type) (t dt : fmiTime)
    (m : M) : state_type × M :=
  let d := system_wrapper ds x t m
  (List.zipWith (fun xi di => xi + dt * di) x d.1, d.2)

/-- `Euler::do_step`. -/
def Euler.do_step {M : Type} (ds : DynamicalSystem M) (v : StepVars Unit M) :
    Option (StepVars Unit M) :=
  let r := euler_do_step ds v.states v.currentTime v.dt v.fmu
  some { v with fmu := r.2, states := r.1, currentTime := v.currentTime + v.dt }

/-- The class `Euler`: `do_step_const` is inherited (it calls `do_step`), and so is the
empty `reset`. -/
def Euler {M : Type} (ds : DynamicalSystem M) : OdeintStepper Unit M where
  do_step := Euler.do_step ds
  do_step_const := Euler.do_step ds
  reset := fun w => w

/-! ## Dense-output steppers -/

/-- The part of an odeint dense-output stepper (`dense_output_runge_kutta`,
`bulirsch_stoer_dense_out`, `rosenbrock4_dense_output`) that the wrappers call.  `W` is
the odeint object; `do_step` evaluates the right-hand side through `sys_` and so also
acts on the model. -/
structure DenseOutput (W M : Type) where
  initialise : state_type → fmiTime → fmiTime → W → W
  do_step : W → M → W × M
  current_time : W → fmiTime
  previous_time : W → fmiTime
  current_state : W → state_type
  previous_state : W → state_type
  calc_state : W → fmiTime → state_type
  reset : W → W

/-- The variables live in the `while ( true )` loop of a dense-output `invokeMethod`. -/
structure DenseState (S M : Type) where
  eventInfo : EventInfo
  stepper : S
  fmu : M

/-- One pass through the body of the loop of `DormandPrince::invokeMethod`; `Iter.next`
with `true` stands for `break`. -/
def DormandPrince.iteration {W M : Type} (ds : DynamicalSystem M) (lib : DenseOutput W M)
    (states : state_type) (time step_size : fmiTime) (s : DenseState W M) :
    Iter (DenseState W M × Bool) (InvokeResult W M) :=
  -- perform a step
  let d := lib.do_step s.stepper s.fmu
  let w := d.1
  -- event detection like in OdeintStepper
  let fmu1 := ds.setContinuousStates (lib.current_state w) (ds.setTime (lib.current_time w) d.2)
  let ev := ds.checkStateEvent fmu1
  if ev.1 then
    -- set back to the backup state/time
    let fmu3 := ds.setContinuousStates (lib.previous_state w)
      (ds.setTime (lib.previous_time w) ev.2)
    Iter.done
      { eventInfo := { stepEvent := false, stateEvent := true,
                         tLower := lib.previous_time w, tUpper := lib.current_time w },
        states := states, stepper := w, fmu := fmu3 }
  else if lib.current_time w ≥ time + step_size then
    Iter.next ({ eventInfo := s.eventInfo, stepper := w, fmu := ev.2 }, true)
  else
    let se := ds.checkStepEvent ev.2
    if se.1 then
      Iter.done
        { eventInfo := { s.eventInfo with stepEvent := true, stateEvent := false },
          states := states, stepper := w, fmu := se.2 }
    else
      Iter.next ({ eventInfo := s.eventInfo, stepper := w, fmu := se.2 }, false)

/-- The code of `DormandPrince::invokeMethod` behind the loop: interpolate to
`time + step_size`, write the result to the model, check for a step event once more. -/
def DormandPrince.finish {W M : Type} (ds : DynamicalSystem M) (lib : DenseOutput W M)
    (time step_size : fmiTime) (s : DenseState W M) : InvokeResult W M :=
  let states := lib.calc_state s.stepper (time + step_size)
  let fmu1 := ds.setContinuousStates states (ds.setTime (time + step_size) s.fmu)
  let se := ds.checkStepEvent fmu1
  let eventInfo := if se.1 then { s.eventInfo with stepEvent := true } else s.eventInfo
  { eventInfo := { eventInfo with stateEvent := false },
    states := states, stepper := s.stepper, fmu := se.2 }

/-- The `while ( true )` loop of `DormandPrince::invokeMethod` and the code behind it. -/
def DormandPrince.loop {W M : Type} (ds : DynamicalSystem M) (lib : DenseOutput W M)
    (states : state_type) (time step_size : fmiTime) :
    Nat → DenseState W M → Option (InvokeResult W M)
  | 0, _ => none
  | n + 1, s =>
    match DormandPrince.iteration ds lib states time step_size s with
    | Iter.done r => some r
    | Iter.next (s', true) => some (DormandPrince.finish ds lib time step_size s')
    | Iter.next (s', false) => DormandPrince.loop ds lib states time step_size n s'

/-- `DormandPrince::invokeMethod`. -/
def DormandPrince.invokeMethod {W M : Type} (ds : DynamicalSystem M)
    (lib : DenseOutput W M) (fuel : Nat) (eventInfo : EventInfo) (states : state_type)
    (time step_size dt _eventSearchPrecision : fmiTime) (stepper : W) (fmu : M) :
    Option (InvokeResult W M) :=
  DormandPrince.loop ds lib states time step_size fuel
    { eventInfo := eventInfo, stepper := lib.initialise states time dt stepper, fmu := fmu }

/-- What a `do_step_const` call of an `IntegratorStepper` leaves behind. -/
structure ConstResult (S M : Type) where
  states : state_type
  time : fmiTime
  stepper : S
  fmu : M
deriving DecidableEq

/-- `DormandPrince::do_step_const`: interpolation, and the only `do_step_const` that
writes to the model itself. -/
def DormandPrince.do_step_const {W M : Type} (ds : DynamicalSystem M)
    (lib : DenseOutput W M) (_states : state_type) (time dt : fmiTime) (stepper : W)
    (fmu : M) : ConstResult W M :=
  let states := lib.calc_state stepper (time + dt)
  { states := states, time := time + dt, stepper := stepper,
    fmu := ds.setContinuousStates states (ds.setTime (time + dt) fmu) }

/-- `DormandPrince::reset`: empty. -/
def DormandPrince.reset {W : Type} (stepper : W) : W := stepper

/-- One pass through the body of the loop of `BulirschStoer::invokeMethod`. -/
def BulirschStoer.iteration {W M : Type} (ds : DynamicalSystem M) (lib : DenseOutput W M)
    (states : state_type) (time step_size : fmiTime) (s : DenseState W M) :
    Iter (DenseState W M × Bool) (InvokeResult W M) :=
  -- perform a step
  let d := lib.do_step s.stepper s.fmu
  let w := d.1
  -- event detection like in OdeintStepper
  let fmu1 := ds.setContinuousStates (lib.current_state w) (ds.setTime (lib.current_time w) d.2)
  let ev := ds.checkStateEvent fmu1
  if ev.1 then
    -- set back the backup state/time
    let fmu3 := ds.setContinuousStates (lib.previous_state w)
      (ds.setTime (lib.previous_time w) ev.2)
    Iter.done
      { eventInfo := { stateEvent := true, stepEvent := false,
                         tLower := lib.previous_time w, tUpper := lib.current_time w },
        states := states, stepper := w, fmu := fmu3 }
  else if lib.current_time w ≥ time + step_size then
    Iter.next ({ eventInfo := s.eventInfo, stepper := w, fmu := ev.2 }, true)
  else
    let se := ds.checkStepEvent ev.2
    if se.1 then
      Iter.done
        { eventInfo := { s.eventInfo with stepEvent := true, stateEvent := false },
          states := states, stepper := w, fmu := se.2 }
    else
      Iter.next ({ eventInfo := s.eventInfo, stepper := w, fmu := se.2 }, false)

/-- The code of `BulirschStoer::invokeMethod` behind the loop. -/
def BulirschStoer.finish {W M : Type} (ds : DynamicalSystem M) (lib : DenseOutput W M)
    (time step_size : fmiTime) (s : DenseState W M) : InvokeResult W M :=
  let states := lib.calc_state s.stepper (time + step_size)
  let fmu1 := ds.setContinuousStates states (ds.setTime (time + step_size) s.fmu)
  let se := ds.checkStepEvent fmu1
  let eventInfo := if se.1 then { s.eventInfo with stepEvent := true } else s.eventInfo
  { eventInfo := { eventInfo with stateEvent := false },
    states := states, stepper := s.stepper, fmu := se.2 }

/-- The `while ( true )` loop of `BulirschStoer::invokeMethod` and the code behind it. -/
def BulirschStoer.loop {W M : Type} (ds : DynamicalSystem M) (lib : DenseOutput W M)
    (states : state_type) (time step_size : fmiTime) :
    Nat → DenseState W M → Option (InvokeResult W M)
  | 0, _ => none
  | n + 1, s =>
    match BulirschStoer.iteration ds lib states time step_size s with
    | Iter.done r => some r
    | Iter.next (s', true) => some (BulirschStoer.finish ds lib time step_size s')
    | Iter.next (s', false) => BulirschStoer.loop ds lib states time step_size n s'

/-- `BulirschStoer::reset`: resets the odeint stepper. -/
def BulirschStoer.reset {W M : Type} (lib : DenseOutput W M) (stepper : W) : W :=
  lib.reset stepper

/-- `BulirschStoer::invokeMethod`. -/
def BulirschStoer.invokeMethod {W M : Type} (ds : DynamicalSystem M)
    (lib : DenseOutput W M) (fuel : Nat) (eventInfo : EventInfo) (states : state_type)
    (time step_size dt _eventSearchPrecision : fmiTime) (stepper : W) (fmu : M) :
    Option (InvokeResult W M) :=
  BulirschStoer.loop ds lib states time step_size fuel
    { eventInfo := eventInfo,
      stepper := lib.initialise states time dt (BulirschStoer.reset lib stepper),
      fmu := fmu }

/-- `BulirschStoer::do_step_const`: interpolation only. -/
def BulirschStoer.do_step_const {W M : Type} (lib : DenseOutput W M)
    (_states : state_type) (time dt : fmiTime) (stepper : W) (fmu : M) :
    ConstResult W M :=
  { states := lib.calc_state stepper (time + dt), time := time + dt, stepper := stepper,
    fmu := fmu }

/-- The members of a `Rosenbrock` object that the calls below use: the odeint stepper
and the `ublas` copy `statesV_` of the states. -/
structure RosenbrockObj (W : Type) where
  statesV_ : state_type
  stepper : W
deriving DecidableEq

/-- One pass through the body of the loop of `Rosenbrock::invokeMethod`.  On a state
event only `stateEvent`, `tLower` and `tUpper` are assigned. -/
def Rosenbrock.iteration {W M : Type} (ds : DynamicalSystem M) (lib : DenseOutput W M)
    (states : state_type) (time step_size : fmiTime) (s : DenseState (RosenbrockObj W) M) :
    Iter (DenseState (RosenbrockObj W) M × Bool) (InvokeResult (RosenbrockObj W) M) :=
  -- perform a step
  let d := lib.do_step s.stepper.stepper s.fmu
  let w := d.1
  let obj : RosenbrockObj W := { s.stepper with stepper := w }
  -- event detection like in OdeintStepper
  let fmu1 := ds.setContinuousStates (lib.current_state w) (ds.setTime (lib.current_time w) d.2)
  let ev := ds.checkStateEvent fmu1
  if ev.1 then
    -- set back the backup state/time
    let fmu3 := ds.setContinuousStates (lib.previous_state w)
      (ds.setTime (lib.previous_time w) ev.2)
    Iter.done
      { eventInfo := { stateEvent := true, stepEvent := s.eventInfo.stepEvent,
                         tLower := lib.previous_time w, tUpper := lib.current_time w },
        states := states, stepper := obj, fmu := fmu3 }
  else if lib.current_time w ≥ time + step_size then
    Iter.next ({ eventInfo := s.eventInfo, stepper := obj, fmu := ev.2 }, true)
  else
    let se := ds.checkStepEvent ev.2
    if se.1 then
      Iter.done
        { eventInfo := { s.eventInfo with stateEvent := false, stepEvent := true },
          states := states, stepper := obj, fmu := se.2 }
    else
      Iter.next ({ eventInfo := s.eventInfo, stepper := obj, fmu := se.2 }, false)

/-- The code of `Rosenbrock::invokeMethod` behind the loop. -/
def Rosenbrock.finish {W M : Type} (ds : DynamicalSystem M) (lib : DenseOutput W M)
    (time step_size : fmiTime) (s : DenseState (RosenbrockObj W) M) :
    InvokeResult (RosenbrockObj W) M :=
  let statesV := lib.calc_state s.stepper.stepper (time + step_size)
  let states := statesV
  let fmu1 := ds.setContinuousStates states (ds.setTime (time + step_size) s.fmu)
  let se := ds.checkStepEvent fmu1
  let eventInfo := if se.1 then { s.eventInfo with stepEvent := true } else s.eventInfo
  { eventInfo := { eventInfo with stateEvent := false },
    states := states, stepper := { s.stepper with statesV_ := statesV }, fmu := se.2 }

/-- The `while ( true )` loop of `Rosenbrock::invokeMethod` and the code behind it. -/
def Rosenbrock.loop {W M : Type} (ds : DynamicalSystem M) (lib : DenseOutput W M)
    (states : state_type) (time step_size : fmiTime) :
    Nat → DenseState (RosenbrockObj W) M → Option (InvokeResult (RosenbrockObj W) M)
  | 0, _ => none
  | n + 1, s =>
    match Rosenbrock.iteration ds lib states time step_size s with
    | Iter.done r => some r
    | Iter.next (s', true) => some (Rosenbrock.finish ds lib time step_size s')
    | Iter.next (s', false) => Rosenbrock.loop ds lib states time step_size n s'

/-- `Rosenbrock::reset`: empty (the call of the odeint reset is commented out). -/
def Rosenbrock.reset {W : Type} (obj : RosenbrockObj W) : RosenbrockObj W := obj

/-- `Rosenbrock::invokeMethod`; `change_type` copies the states component by
component. -/
def Rosenbrock.invokeMethod {W M : Type} (ds : DynamicalSystem M)
    (lib : DenseOutput W M) (fuel : Nat) (eventInfo : EventInfo) (states : state_type)
    (time step_size dt _eventSearchPrecision : fmiTime) (obj : RosenbrockObj W) (fmu : M) :
    Option (InvokeResult (RosenbrockObj W) M) :=
  let obj0 := Rosenbrock.reset obj
  let statesV := states
  Rosenbrock.loop ds lib states time step_size fuel
    { eventInfo := eventInfo,
      stepper := { statesV_ := statesV,
                   stepper := lib.initialise statesV time dt obj0.stepper },
      fmu := fmu }

/-- `Rosenbrock::do_step_const`: interpolation only. -/
def Rosenbrock.do_step_const {W M : Type} (lib : DenseOutput W M)
    (_states : state_type) (time dt : fmiTime) (obj : RosenbrockObj W) (fmu : M) :
    ConstResult (RosenbrockObj W) M :=
  let statesV := lib.calc_state obj.stepper (time + dt)
  { states := statesV, time := time + dt, stepper := { obj with statesV_ := statesV },
    fmu := fmu }

/-! ## The stepper interface and the Integrator -/

/-- The abstract class `IntegratorStepper`: the three virtual methods that
`Integrator::integrate` calls.  (No `do_step_const` in the repository writes to its
`EventInfo&` or reads back its `dt`, so both are left out of the result.) -/
structure IntegratorStepper (S M : Type) where
  invokeMethod : EventInfo → state_type → fmiTime → fmiTime → fmiTime → fmiTime →
    S → M → Option (InvokeResult S M)
  do_step_const : state_type → fmiTime → fmiTime → S → M → Option (ConstResult S M)
  reset : S → S

/-- A subclass of `OdeintStepper` seen through the `IntegratorStepper` interface. -/
def OdeintStepper.toStepper {W M : Type} (ds : DynamicalSystem M) (st : OdeintStepper W M)
    (fuel : Nat) : IntegratorStepper (OdeintObj W) M where
  invokeMethod := OdeintStepper.invokeMethod ds st fuel
  do_step_const := fun states time dt obj fmu =>
    match st.do_step_const ⟨obj.stepper, fmu, states, time, dt⟩ with
    | none => none
    | some v => some { states := v.states, time := v.currentTime,
                       stepper := { obj with stepper := v.stepper }, fmu := v.fmu }
  reset := fun obj => { obj with stepper := st.reset obj.stepper }

/-- The class `DormandPrince` seen through the `IntegratorStepper` interface. -/
def DormandPrince {W M : Type} (ds : DynamicalSystem M) (lib : DenseOutput W M)
    (fuel : Nat) : IntegratorStepper W M where
  invokeMethod := DormandPrince.invokeMethod ds lib fuel
  do_step_const := fun states time dt w fmu =>
    some (DormandPrince.do_step_const ds lib states time dt w fmu)
  reset := DormandPrince.reset

/-- The class `BulirschStoer` seen through the `IntegratorStepper` interface. -/
def BulirschStoer {W M : Type} (ds : DynamicalSystem M) (lib : DenseOutput W M)
    (fuel : Nat) : IntegratorStepper W M where
  invokeMethod := BulirschStoer.invokeMethod ds lib fuel
  do_step_const := fun states time dt w fmu =>
    some (BulirschStoer.do_step_const lib states time dt w fmu)
  reset := BulirschStoer.reset lib

/-- The class `Rosenbrock` seen through the `IntegratorStepper` interface. -/
def Rosenbrock {W M : Type} (ds : DynamicalSystem M) (lib : DenseOutput W M)
    (fuel : Nat) : IntegratorStepper (RosenbrockObj W) M where
  invokeMethod := Rosenbrock.invokeMethod ds lib fuel
  do_step_const := fun states time dt obj fmu =>
    some (Rosenbrock.do_step_const lib states time dt obj fmu)
  reset := Rosenbrock.reset

/-- The members of an `Integrator` that `integrate` works on (the model behind `fmu_`
is passed next to it). -/
structure Integrator (S : Type) where
  stepper_ : S
  states_ : state_type
  time_ : fmiTime
  eventInfo_ : EventInfo
deriving DecidableEq

/-- One pass through the body of the event-search loop of `Integrator::integrate`. -/
def Integrator.searchStep {S M : Type} (ds : DynamicalSystem M)
    (st : IntegratorStepper S M) (self : Integrator S) (fmu : M) :
    Option (Integrator S × M) :=
  -- create backup states
  let states_bak := self.states_
  -- let the stepper integrate the left half of the Interval [tLower_,tUpper_]
  let dt := (self.eventInfo_.tUpper - self.eventInfo_.tLower) / 2
  let time := self.eventInfo_.tLower
  match st.do_step_const self.states_ time dt self.stepper_ fmu with
  | none => none
  | some c =>
    -- write the result in the model and check for int events
    let fmu1 := ds.setTime c.time (ds.setContinuousStates c.states c.fmu)
    let ev := ds.checkStateEvent fmu1
    if !ev.1 then
      -- update the event horizon
      some ({ self with
                stepper_ := c.stepper, states_ := c.states,
                eventInfo_ := { self.eventInfo_ with
                  tLower := (self.eventInfo_.tUpper + self.eventInfo_.tLower) / 2 } },
            ev.2)
    else
      -- use the backup variables
      let fmu3 := ds.setTime self.eventInfo_.tLower (ds.setContinuousStates states_bak ev.2)
      some ({ self with
                -- reset the stepper
                stepper_ := st.reset c.stepper, states_ := states_bak,
                -- update the event horizon
                eventInfo_ := { self.eventInfo_ with
                  tUpper := (self.eventInfo_.tUpper + self.eventInfo_.tLower) / 2 } },
            fmu3)

/-- The event-search loop (binary search) of `Integrator::integrate`. -/
def Integrator.search {S M : Type} (ds : DynamicalSystem M) (st : IntegratorStepper S M)
    (eventSearchPrecision : fmiTime) (fuel : Nat) (self : Integrator S) (fmu : M) :
    Option (Integrator S × M) :=
  if self.eventInfo_.tUpper - self.eventInfo_.tLower > eventSearchPrecision / 2 then
    match fuel with
    | 0 => none
    | n + 1 =>
      match Integrator.searchStep ds st self fmu with
      | none => none
      | some r => Integrator.search ds st eventSearchPrecision n r.1 r.2
  else
    some (self, fmu)

/-- What `Integrator::integrate` leaves behind: the `EventInfo` it returns by value, the
integrator's members and the model. -/
structure IntegrateResult (S M : Type) where
  ret : EventInfo
  self : Integrator S
  fmu : M
deriving DecidableEq

/-- The last three statements of `Integrator::integrate`, behind the event-search
loop. -/
def Integrator.conclude {S M : Type} (eventSearchPrecision : fmiTime)
    (r : Integrator S × M) : IntegrateResult S M :=
  -- make sure the event is *strictly* inside the interval [tLower_, tUpper_]
  let eventInfo := { r.1.eventInfo_ with
    tUpper := r.1.eventInfo_.tUpper + eventSearchPrecision / 8 }
  { ret := eventInfo,
    self := { r.1 with eventInfo_ := eventInfo, time_ := eventInfo.tLower },
    fmu := r.2 }

/-- `Integrator::integrate`. -/
def Integrator.integrate {S M : Type} (ds : DynamicalSystem M)
    (st : IntegratorStepper S M) (fuel : Nat)
    (step_size dt eventSearchPrecision : fmiTime) (self : Integrator S) (fmu : M) :
    Option (IntegrateResult S M) :=
  -- Get current time.
  let time_ := ds.getTime fmu
  -- Get current continuous states.
  let g := ds.getContinuousStates fmu
  -- Invoke integration method.
  match st.invokeMethod self.eventInfo_ g.1 time_ step_size dt eventSearchPrecision
      self.stepper_ g.2 with
  | none => none
  | some r =>
    let self1 : Integrator S :=
      { stepper_ := r.stepper, states_ := r.states, time_ := time_,
        eventInfo_ := r.eventInfo }
    -- if no event happened, return
    if !r.eventInfo.stateEvent then
      some { ret := r.eventInfo, self := self1, fmu := r.fmu }
    else if r.eventInfo.tUpper > time_ + step_size then
      -- only search for an event within the integration limits
      let currentTime := ds.getTime r.fmu
      let stepSize := time_ + step_size - ds.getTime r.fmu
      match st.do_step_const r.states currentTime stepSize r.stepper r.fmu with
      | none => none
      | some c =>
        let fmu1 := ds.setTime (time_ + step_size) (ds.setContinuousStates c.states c.fmu)
        let ev := ds.checkStateEvent fmu1
        let self2 : Integrator S := { self1 with stepper_ := c.stepper, states_ := c.states }
        if !ev.1 then
          let eventInfo := { r.eventInfo with stateEvent := false }
          some { ret := eventInfo, self := { self2 with eventInfo_ := eventInfo },
                 fmu := ev.2 }
        else
          let self3 : Integrator S :=
            { self2 with eventInfo_ := { r.eventInfo with tUpper := time_ + step_size } }
          match Integrator.search ds st eventSearchPrecision fuel self3 ev.2 with
          | none => none
          | some q => some (Integrator.conclude eventSearchPrecision q)
    else
      match Integrator.search ds st eventSearchPrecision fuel self1 r.fmu with
      | none => none
      | some q => some (Integrator.conclude eventSearchPrecision q)

/-- `Integrator::getEventHorizon`: reads back `( tLower, tUpper )`. -/
def Integrator.getEventHorizon {S : Type} (self : Integrator S) : fmiTime × fmiTime :=
  (self.eventInfo_.tLower, self.eventInfo_.tUpper)

/-! ## Concrete models and steppers for the examples -/

/-- A call through the `DynamicalSystem` interface that can change or query the model
behind it. -/
inductive Call where
  | setTime (t : fmiTime)
  | setContinuousStates (x : state_type)
  | getContinuousStates
  | getDerivatives
  | checkStateEvent
  | checkStepEvent
deriving DecidableEq

/-- Any `DynamicalSystem` with a record of the calls made to it, oldest first. -/
def DynamicalSystem.traced {M : Type} (ds : DynamicalSystem M) :
    DynamicalSystem (M × List Call) where
  getTime := fun m => ds.getTime m.1
  setTime := fun t m => (ds.setTime t m.1, m.2 ++ [Call.setTime t])
  getContinuousStates := fun m =>
    ((ds.getContinuousStates m.1).1,
     ((ds.getContinuousStates m.1).2, m.2 ++ [Call.getContinuousStates]))
  setContinuousStates := fun x m =>
    (ds.setContinuousStates x m.1, m.2 ++ [Call.setContinuousStates x])
  getDerivatives := fun m =>
    ((ds.getDerivatives m.1).1, ((ds.getDerivatives m.1).2, m.2 ++ [Call.getDerivatives]))
  checkStateEvent := fun m =>
    ((ds.checkStateEvent m.1).1, ((ds.checkStateEvent m.1).2, m.2 ++ [Call.checkStateEvent]))
  checkStepEvent := fun m =>
    ((ds.checkStepEvent m.1).1, ((ds.checkStepEvent m.1).2, m.2 ++ [Call.checkStepEvent]))

/-- Modelled from the spec: the sign comparison of `DynamicalSystem::checkStateEvent`
(`DynamicalSystem.h` is not among the sources).  A state event is signalled iff some
indicator changes sign strictly; an exact zero on either side is no sign change. -/
def signChange (pre now : List fmiReal) : Bool :=
  (List.zipWith (fun p n => decide (p * n < 0)) pre now).any id

/-- A small model: time, continuous states and the indicator snapshot taken before the
integration. -/
structure Plant where
  time : fmiTime
  x : state_type
  pre : List fmiReal
deriving DecidableEq

/-- The `DynamicalSystem` of a `Plant` with right-hand side `f`, event indicators `g`
and step-event request `h`. -/
def Plant.system (f : fmiTime → state_type → state_type)
    (g : fmiTime → state_type → List fmiReal) (h : fmiTime → state_type → Bool) :
    DynamicalSystem Plant where
  getTime := fun m => m.time
  setTime := fun t m => { m with time := t }
  getContinuousStates := fun m => (m.x, m)
  setContinuousStates := fun x m => { m with x := x }
  getDerivatives := fun m => (f m.time m.x, m)
  checkStateEvent := fun m => (signChange m.pre (g m.time m.x), m)
  checkStepEvent := fun m => (h m.time m.x, m)

/-- The workspace of the dense-output stepper `linearDense`. -/
structure LinearDense where
  t_prev : fmiTime
  x_prev : state_type
  t_cur : fmiTime
  x_cur : state_type
  dt : fmiTime
deriving DecidableEq

/-- A dense-output stepper for the examples: each `do_step` is one explicit Euler step
of the current step size, `calc_state` is the straight line through the previous and
the current point.  On a model with constant right-hand side it is exact, as every
Runge-Kutta step and its dense output are. -/
def linearDense {M : Type} (ds : DynamicalSystem M) : DenseOutput LinearDense M where
  initialise := fun x t dt _ => { t_prev := t, x_prev := x, t_cur := t, x_cur := x, dt := dt }
  do_step := fun w m =>
    let r := euler_do_step ds w.x_cur w.t_cur w.dt m
    ({ w with t_prev := w.t_cur, x_prev := w.x_cur, t_cur := w.t_cur + w.dt, x_cur := r.1 },
     r.2)
  current_time := fun w => w.t_cur
  previous_time := fun w => w.t_prev
  current_state := fun w => w.x_cur
  previous_state := fun w => w.x_prev
  calc_state := fun w t =>
    List.zipWith (fun a b => a + (t - w.t_prev) * ((b - a) / (w.t_cur - w.t_prev)))
      w.x_prev w.x_cur
  reset := fun w => w

/-- The model `dx/dt = 1` with the single event indicator `c - x` and no step events. -/
def ramp (c : fmiReal) : DynamicalSystem Plant :=
  Plant.system (fun _ _ => [1]) (fun _ x => x.map (fun xi => c - xi)) (fun _ _ => false)

/-! ## Named intermediate states of `Integrator::integrate` -/

/-- The integrator right behind the `invokeMethod` call of `integrate`. -/
def Integrator.afterInvoke {S M : Type} (ds : DynamicalSystem M) (fmu : M)
    (inv : InvokeResult S M) : Integrator S :=
  { stepper_ := inv.stepper, states_ := inv.states, time_ := ds.getTime fmu,
    eventInfo_ := inv.eventInfo }

/-- The model right behind the writes of the clamped path of `integrate`: states of the
forced step, then the time of the integration end. -/
def Integrator.clampedModel {S M : Type} (ds : DynamicalSystem M) (fmu : M)
    (step_size : fmiTime) (c : ConstResult S M) : M :=
  ds.setTime (ds.getTime fmu + step_size) (ds.setContinuousStates c.states c.fmu)

/-- The integrator at the start of the event search on the clamped path. -/
def Integrator.afterClamp {S M : Type} (ds : DynamicalSystem M) (fmu : M)
    (step_size : fmiTime) (inv : InvokeResult S M) (c : ConstResult S M) : Integrator S :=
  { stepper_ := c.stepper, states_ := c.states, time_ := ds.getTime fmu,
    eventInfo_ := { inv.eventInfo with tUpper := ds.getTime fmu + step_size } }

/-! ## Example scenarios -/

/-- An integrator that has not run yet, for a stepper with workspace `w`. -/
def Integrator.fresh {S : Type} (w : S) : Integrator S :=
  { stepper_ := w, states_ := [], time_ := 0,
    eventInfo_ := { stateEvent := false, stepEvent := false, tLower := 0, tUpper := 0 } }

/-- A `LinearDense` workspace that has not been initialised yet. -/
def LinearDense.fresh : LinearDense :=
  { t_prev := 0, x_prev := [], t_cur := 0, x_cur := [], dt := 0 }

/-- The ramp model at `t = 0`, `x = 0`, with the indicator snapshot `c - 0` of that
state. -/
def rampStart (c : fmiReal) : Plant := { time := 0, x := [0], pre := [c] }

/-- The Dormand-Prince wrapper on the ramp model, driven by `linearDense`. -/
def rampDormandPrince (c : fmiReal) : IntegratorStepper LinearDense Plant :=
  DormandPrince (ramp c) (linearDense (ramp c)) 10

/-! ## Assumptions on the odeint library -/

/-- A subclass of `OdeintStepper` steps forward: with a positive step size, `do_step`
advances the time and leaves a positive step size for the next call, and `do_step_const`
advances the time.  (`Euler`, `RungeKutta`, `AdamsBashforthMoulton` add `dt` to the
time; a controlled stepper adds the step size it accepted.) -/
structure OdeintStepper.Forward {W M : Type} (st : OdeintStepper W M) : Prop where
  do_step : ∀ v v', st.do_step v = some v' → 0 < v.dt →
    v.currentTime < v'.currentTime ∧ 0 < v'.dt
  do_step_const : ∀ v v', st.do_step_const v = some v' → 0 < v.dt →
    v.currentTime < v'.currentTime

/-- An odeint dense-output stepper steps forward on the workspaces `Inv`: `initialize`
with a positive step size sets the current time to the start time, and each `do_step`
makes the old current time the previous time and moves the current time forward. -/
structure DenseOutput.Forward {W M : Type} (lib : DenseOutput W M) (Inv : W → Prop) :
    Prop where
  initialise : ∀ x t dt w, 0 < dt →
    Inv (lib.initialise x t dt w) ∧ lib.current_time (lib.initialise x t dt w) = t
  do_step : ∀ w m, Inv w →
    Inv (lib.do_step w m).1 ∧
    lib.previous_time (lib.do_step w m).1 = lib.current_time w ∧
    lib.current_time w < lib.current_time (lib.do_step w m).1

/-- An `OdeintStepper` object that has not run yet. -/
def OdeintObj.fresh {W : Type} (w : W) : OdeintObj W :=
  { states_bak_ := [], time_bak_ := 0, stepper := w }

/-- The `Euler` stepper on the ramp model. -/
def rampEuler (c : fmiReal) : IntegratorStepper (OdeintObj Unit) Plant :=
  (Euler (ramp c)).toStepper (ramp c) 10

/-- The model right behind "update the state and time" in a pass of
`OdeintStepper::invokeMethod`: the time and then the states of the substep are written. -/
def OdeintStepper.written {W M : Type} (ds : DynamicalSystem M) (v : StepVars W M) : M :=
  ds.setContinuousStates v.states (ds.setTime v.currentTime v.fmu)

/-- The ramp model with the event at `x = c` that requests event mode when a step is
completed at time `1`. -/
def rampStepEvent (c : fmiReal) : DynamicalSystem Plant :=
  Plant.system (fun _ _ => [1]) (fun _ x => x.map (fun xi => c - xi))
    (fun t _ => decide (t = 1))

/-- An `EventInfo` left behind by an earlier call that ended with a step event. -/
def EventInfo.afterStepEvent : EventInfo :=
  { stateEvent := false, stepEvent := true, tLower := 0, tUpper := 0 }

/-- The loop variables of `OdeintStepper::invokeMethod` after `k` passes that all went
round again (no event, loop condition true at entry); `none` if the loop ends earlier. -/
def OdeintStepper.passes {W M : Type} (ds : DynamicalSystem M) (st : OdeintStepper W M)
    (time step_size : fmiTime) : Nat → InvokeState W M → Option (InvokeState W M)
  | 0, s => some s
  | k + 1, s =>
    if s.currentTime < time + step_size ∧ s.stop = false then
      match OdeintStepper.iteration ds st time step_size s with
      | some (Iter.next s') => OdeintStepper.passes ds st time step_size k s'
      | _ => none
    else none

/-- The model `dx/dt = 1` with two event indicators, `1/2 - x` and `x + 1/2`: one event
ahead of `x = 0` and one behind it. -/
def twoSided : DynamicalSystem Plant :=
  Plant.system (fun _ _ => [1]) (fun _ x => x.flatMap (fun xi => [1/2 - xi, xi + 1/2]))
    (fun _ _ => false)

/-- The two-sided model at `t = 0`, `x = 0`, with the indicator snapshot of that state. -/
def twoSidedStart : Plant := { time := 0, x := [0], pre := [1/2, 1/2] }

/-! ## The driver `fmi_2_0::FMUModelExchange` -/

/-- The status codes of FMI 2.0. -/
inductive fmi2Status where
  | fmi2OK
  | fmi2Warning
  | fmi2Discard
  | fmi2Error
  | fmi2Fatal
  | fmi2Pending
deriving DecidableEq

/-- The record `fmi2EventInfo` that `newDiscreteStates` fills in. -/
structure fmi2EventInfo where
  newDiscreteStatesNeeded : Bool
  terminateSimulation : Bool
  nominalsOfContinuousStatesChanged : Bool
  valuesOfContinuousStatesChanged : Bool
  nextEventTimeDefined : Bool
  nextEventTime : fmiTime
deriving DecidableEq

/-- The part of the function table `fmu_->functions` of a loaded FMU that the integration
calls.  `F` is the state of the model instance; functions that can change it return the
new state. -/
structure FMU2Functions (F : Type) where
  setTime : F → fmiTime → fmi2Status × F
  setContinuousStates : F → state_type → fmi2Status × F
  getContinuousStates : F → fmi2Status × state_type
  getDerivatives : F → fmi2Status × state_type
  getEventIndicators : F → fmi2Status × List fmiReal
  completedIntegratorStep : F → fmi2Status × Bool × Bool × F
  enterEventMode : F → fmi2Status × F
  newDiscreteStates : F → fmi2EventInfo → fmi2Status × fmi2EventInfo × F
  enterContinuousTimeMode : F → fmi2Status × F

/-- The members of an instantiated `FMUModelExchange` that the integration reads or
writes.  `F` is the state of the model instance behind `instance_`, `S` the stepper
object of the integrator. -/
structure FMUModelExchange (F S : Type) where
  instance_ : F
  nStateVars_ : Nat
  stopBeforeEvent_ : Bool
  eventSearchPrecision_ : fmiTime
  integrator_ : Integrator S
  intStates_ : state_type
  intDerivatives_ : state_type
  time_ : fmiTime
  tend_ : fmiTime
  eventinfo_ : fmi2EventInfo
  eventsind_ : List fmiReal
  preeventsind_ : List fmiReal
  stateEvent_ : Bool
  timeEvent_ : Bool
  enterEventMode_ : Bool
  terminateSimulation_ : Bool
  upcomingEvent_ : Bool
  eventFlag_ : Bool
  intEventFlag_ : Bool
  lastStatus_ : fmi2Status
deriving DecidableEq

/-- `maxEventIterations_`. -/
def maxEventIterations_ : Nat := 5

/-- `FMUModelExchange::getTime`. -/
def FMUModelExchange.getTime {F S : Type} (self : FMUModelExchange F S) : fmiTime :=
  self.time_

/-- `FMUModelExchange::setTime` (on an instantiated driver). -/
def FMUModelExchange.setTime {F S : Type} (fn : FMU2Functions F) (time : fmiTime)
    (self : FMUModelExchange F S) : FMUModelExchange F S :=
  { self with time_ := time, instance_ := (fn.setTime self.instance_ time).2 }

/-- `FMUModelExchange::getContinuousStates`: the values read and the driver with the
status recorded. -/
def FMUModelExchange.getContinuousStates {F S : Type} (fn : FMU2Functions F)
    (self : FMUModelExchange F S) : state_type × FMUModelExchange F S :=
  ((fn.getContinuousStates self.instance_).2,
   { self with lastStatus_ := (fn.getContinuousStates self.instance_).1 })

/-- `FMUModelExchange::setContinuousStates`. -/
def FMUModelExchange.setContinuousStates {F S : Type} (fn : FMU2Functions F)
    (val : state_type) (self : FMUModelExchange F S) : FMUModelExchange F S :=
  { self with instance_ := (fn.setContinuousStates self.instance_ val).2,
              lastStatus_ := (fn.setContinuousStates self.instance_ val).1 }

/-- `FMUModelExchange::getDerivatives`. -/
def FMUModelExchange.getDerivatives {F S : Type} (fn : FMU2Functions F)
    (self : FMUModelExchange F S) : state_type × FMUModelExchange F S :=
  ((fn.getDerivatives self.instance_).2,
   { self with lastStatus_ := (fn.getDerivatives self.instance_).1 })

/-- `FMUModelExchange::getEventIndicators`. -/
def FMUModelExchange.getEventIndicators {F S : Type} (fn : FMU2Functions F)
    (self : FMUModelExchange F S) : List fmiReal × FMUModelExchange F S :=
  ((fn.getEventIndicators self.instance_).2,
   { self with lastStatus_ := (fn.getEventIndicators self.instance_).1 })

/-- Modelled from the spec: `DynamicalSystem::saveEventIndicators` (`DynamicalSystem.h`
is not among the sources), the snapshot of the event indicators into the "previous"
copy. -/
def FMUModelExchange.saveEventIndicators {F S : Type} (fn : FMU2Functions F)
    (self : FMUModelExchange F S) : FMUModelExchange F S :=
  let g := FMUModelExchange.getEventIndicators fn self
  { g.2 with preeventsind_ := g.1 }

/-- Modelled from the spec: `DynamicalSystem::checkStateEvent` (`DynamicalSystem.h` is
not among the sources): read the event indicators into the "current" copy and signal a
state event iff some indicator has changed sign strictly against the "previous" copy. -/
def FMUModelExchange.baseCheckStateEvent {F S : Type} (fn : FMU2Functions F)
    (self : FMUModelExchange F S) : Bool × FMUModelExchange F S :=
  let g := FMUModelExchange.getEventIndicators fn self
  (signChange self.preeventsind_ g.1, { g.2 with eventsind_ := g.1 })

/-- `FMUModelExchange::checkStateEvent`. -/
def FMUModelExchange.checkStateEvent {F S : Type} (fn : FMU2Functions F)
    (self : FMUModelExchange F S) : Bool × FMUModelExchange F S :=
  let r := FMUModelExchange.baseCheckStateEvent fn self
  (r.1, { r.2 with intEventFlag_ := r.2.intEventFlag_ || r.1,
                   eventFlag_ := r.2.eventFlag_ || r.1 })

/-- `FMUModelExchange::completedIntegratorStep`. -/
def FMUModelExchange.completedIntegratorStep {F S : Type} (fn : FMU2Functions F)
    (self : FMUModelExchange F S) : FMUModelExchange F S :=
  let r := fn.completedIntegratorStep self.instance_
  { self with instance_ := r.2.2.2, enterEventMode_ := r.2.1,
              terminateSimulation_ := r.2.2.1, lastStatus_ := r.1 }

/-- `FMUModelExchange::checkStepEvent`. -/
def FMUModelExchange.checkStepEvent {F S : Type} (fn : FMU2Functions F)
    (self : FMUModelExchange F S) : Bool × FMUModelExchange F S :=
  let r := FMUModelExchange.completedIntegratorStep fn self
  (r.enterEventMode_, r)

/-- The `for` loop of `FMUModelExchange::handleEvents`, with `n` iterations left of the
`maxEventIterations_`. -/
def FMUModelExchange.eventIterations {F : Type} (fn : FMU2Functions F) :
    Nat → F → fmi2EventInfo → F × fmi2EventInfo
  | 0, inst, info => (inst, info)
  | n + 1, inst, info =>
    if info.newDiscreteStatesNeeded && !info.terminateSimulation then
      let r := fn.newDiscreteStates inst info
      FMUModelExchange.eventIterations fn n r.2.2 r.2.1
    else (inst, info)

/-- `FMUModelExchange::handleEvents`. -/
def FMUModelExchange.handleEvents {F S : Type} (fn : FMU2Functions F)
    (self : FMUModelExchange F S) : FMUModelExchange F S :=
  -- change mode to eventmode
  let inst1 := (fn.enterEventMode self.instance_).2
  -- adapt the eventInfo so newDiscreteStates gets called at least once
  let info1 := { self.eventinfo_ with newDiscreteStatesNeeded := true,
                                      terminateSimulation := false }
  -- call newDiscreteStates several times if necessary
  let r := FMUModelExchange.eventIterations fn maxEventIterations_ inst1 info1
  -- go back to the "default mode": continuousTimeMode
  { self with instance_ := (fn.enterContinuousTimeMode r.1).2, eventinfo_ := r.2 }

/-- `FMUModelExchange::stepOverEvent`. -/
def FMUModelExchange.stepOverEvent {F S : Type} (fn : FMU2Functions F)
    (self : FMUModelExchange F S) : Bool × FMUModelExchange F S :=
  if !self.stateEvent_ && !self.timeEvent_ then (false, self)
  else
    let g := FMUModelExchange.getContinuousStates fn self
    let d := FMUModelExchange.getDerivatives fn g.2
    -- make one step from t = time_ to t = tend_ with explicit euler
    let intStates := List.zipWith (fun x dx => x + (self.tend_ - self.time_) * dx) g.1 d.1
    let s1 : FMUModelExchange F S := { d.2 with intStates_ := intStates, intDerivatives_ := d.1 }
    -- write the result of the eulerstep into the FMU
    let s2 := FMUModelExchange.setContinuousStates fn intStates
      (FMUModelExchange.setTime fn s1.tend_ s1)
    -- handle events and set flags
    let s3 := FMUModelExchange.handleEvents fn (FMUModelExchange.completedIntegratorStep fn s2)
    -- update the event indicators
    (true, FMUModelExchange.saveEventIndicators fn { s3 with upcomingEvent_ := false })

/-- The driver as the `DynamicalSystem` behind the integrator's `fmu_` pointer. -/
def FMUModelExchange.system {F S : Type} (fn : FMU2Functions F) :
    DynamicalSystem (FMUModelExchange F S) where
  getTime := FMUModelExchange.getTime
  setTime := FMUModelExchange.setTime fn
  getContinuousStates := FMUModelExchange.getContinuousStates fn
  setContinuousStates := FMUModelExchange.setContinuousStates fn
  getDerivatives := FMUModelExchange.getDerivatives fn
  checkStateEvent := FMUModelExchange.checkStateEvent fn
  checkStepEvent := FMUModelExchange.checkStepEvent fn

/-- The branch of `FMUModelExchange::integrate` for a model without continuous states. -/
def FMUModelExchange.integrateNoStates {F S : Type} (fn : FMU2Functions F)
    (tend : fmiTime) (self : FMUModelExchange F S) : fmiTime × FMUModelExchange F S :=
  let s1 :=
    if self.stopBeforeEvent_ then
      -- completedIntegratorStep is called at the beginning of the integration
      let a := FMUModelExchange.completedIntegratorStep fn self
      if a.upcomingEvent_ then
        { FMUModelExchange.saveEventIndicators fn (FMUModelExchange.handleEvents fn a) with
            upcomingEvent_ := false }
      else a
    else self
  -- determine wether a time event will happen in the time horizon we want to integrate
  let timeEvent := s1.eventinfo_.nextEventTimeDefined && decide (s1.eventinfo_.nextEventTime ≤ tend)
  let tend1 := if timeEvent then s1.eventinfo_.nextEventTime else tend
  let s2 := FMUModelExchange.setTime fn tend1 { s1 with timeEvent_ := timeEvent }
  let c := FMUModelExchange.checkStateEvent fn s2
  let s3 : FMUModelExchange F S := { c.2 with stateEvent_ := c.1 }
  if !s3.stopBeforeEvent_ then
    let s4 := FMUModelExchange.completedIntegratorStep fn s3
    if s4.timeEvent_ || s4.enterEventMode_ || s4.stateEvent_ then
      (tend1, FMUModelExchange.saveEventIndicators fn (FMUModelExchange.handleEvents fn s4))
    else (tend1, s4)
  else
    -- set a flag so the eventhandling will be done at the beginning of the next step
    if s3.timeEvent_ || s3.enterEventMode_ || s3.stateEvent_ then
      (tend1, { s3 with upcomingEvent_ := true })
    else (tend1, s3)

/-- The part of `FMUModelExchange::integrate` behind the call of the integrator: the
classification of what the integrator reports. -/
def FMUModelExchange.classify {F S : Type} (fn : FMU2Functions F) (eventInfo : EventInfo)
    (self : FMUModelExchange F S) : fmiTime × FMUModelExchange F S :=
  -- update the event flags
  let s1 : FMUModelExchange F S := { self with stateEvent_ := eventInfo.stateEvent }
  let s2 :=
    if eventInfo.stepEvent then
      -- make event iterations
      FMUModelExchange.handleEvents fn s1
    else if s1.stateEvent_ then
      -- ask the integrator for an possibly small interval containing the eventTime
      let hor := Integrator.getEventHorizon s1.integrator_
      let a : FMUModelExchange F S := { s1 with time_ := hor.1, tend_ := hor.2 }
      if !a.stopBeforeEvent_ then
        -- trigger the event
        (FMUModelExchange.stepOverEvent fn a).2
      else
        -- the events are handeled at the beginning of the next integrate call
        { a with upcomingEvent_ := true }
    else if s1.timeEvent_ then
      let a : FMUModelExchange F S :=
        { s1 with tend_ := FMUModelExchange.getTime s1 + s1.eventSearchPrecision_ }
      if !a.stopBeforeEvent_ then (FMUModelExchange.stepOverEvent fn a).2
      else { a with upcomingEvent_ := true }
    else s1
  let s3 : FMUModelExchange F S :=
    { s2 with eventFlag_ :=
        s2.timeEvent_ || s2.stateEvent_ || s2.upcomingEvent_ || eventInfo.stepEvent }
  (s3.time_, s3)

/-- The part of `FMUModelExchange::integrate` in front of the call of the integrator,
for a model with continuous states: step over a latched event, clamp `tend` to a
scheduled time event, save the event indicators.  Returns the adjusted `tend`. -/
def FMUModelExchange.prepare {F S : Type} (fn : FMU2Functions F) (tend : fmiTime)
    (self : FMUModelExchange F S) : fmiTime × FMUModelExchange F S :=
  -- if we stopped because of an event, we have to trigger and handle it first
  let s1 :=
    if self.stopBeforeEvent_ && self.upcomingEvent_ then
      (FMUModelExchange.stepOverEvent fn self).2
    else self
  -- check wether time events prevent the integration to tend and adjust tend
  let timeEvent := s1.eventinfo_.nextEventTimeDefined && decide (s1.eventinfo_.nextEventTime ≤ tend)
  let tend1 :=
    if timeEvent then s1.eventinfo_.nextEventTime - s1.eventSearchPrecision_ / 2 else tend
  -- save the current event indicators for the integrator
  (tend1, FMUModelExchange.saveEventIndicators fn { s1 with timeEvent_ := timeEvent })

/-- `FMUModelExchange::integrate( tend, deltaT )`.  `st` is the stepper object's method
table (`integrator_->stepper_`), `fuel` bounds the event search. -/
def FMUModelExchange.integrate {F S : Type} (fn : FMU2Functions F)
    (st : IntegratorStepper S (FMUModelExchange F S)) (fuel : Nat)
    (tend deltaT : fmiTime) (self : FMUModelExchange F S) :
    Option (fmiTime × FMUModelExchange F S) :=
  -- if there are no continuous states, skip integration
  if self.nStateVars_ = 0 then
    some (FMUModelExchange.integrateNoStates fn tend self)
  else
    let p := FMUModelExchange.prepare fn tend self
    -- integrate the fmu. Receive informations about state and time events
    match Integrator.integrate (FMUModelExchange.system fn) st fuel
        (p.1 - p.2.time_) deltaT p.2.eventSearchPrecision_ p.2.integrator_ p.2 with
    | none => none
    | some r =>
      some (FMUModelExchange.classify fn r.ret { r.fmu with integrator_ := r.self })

/-! ## A concrete FMU for the driver examples -/

/-- A call of the function table that can change the model instance. -/
inductive FmiCall where
  | setTime (t : fmiTime)
  | setContinuousStates (x : state_type)
  | completedIntegratorStep
  | enterEventMode
  | newDiscreteStates
  | enterContinuousTimeMode
deriving DecidableEq

/-- The instance of the zigzag model: time, state `x`, slope `k`, and the record of the
calls that reached it, oldest first. -/
structure Zigzag where
  t : fmiTime
  x : fmiReal
  k : fmiReal
  log : List FmiCall
deriving DecidableEq

/-- The zigzag model `dx/dt = k`: one event indicator, `1 - x` while `x` rises and
`1 + x` while it falls; the event update turns the slope round beyond `x = 1` and
beyond `x = -1`.  No time events, no step events. -/
def zigzag : FMU2Functions Zigzag where
  setTime := fun z t => (fmi2Status.fmi2OK, { z with t := t, log := z.log ++ [FmiCall.setTime t] })
  setContinuousStates := fun z xs =>
    (fmi2Status.fmi2OK,
     { z with x := xs.headD z.x, log := z.log ++ [FmiCall.setContinuousStates xs] })
  getContinuousStates := fun z => (fmi2Status.fmi2OK, [z.x])
  getDerivatives := fun z => (fmi2Status.fmi2OK, [z.k])
  getEventIndicators := fun z =>
    (fmi2Status.fmi2OK, [if 0 < z.k then 1 - z.x else 1 + z.x])
  completedIntegratorStep := fun z =>
    (fmi2Status.fmi2OK, false, false,
     { z with log := z.log ++ [FmiCall.completedIntegratorStep] })
  enterEventMode := fun z =>
    (fmi2Status.fmi2OK, { z with log := z.log ++ [FmiCall.enterEventMode] })
  newDiscreteStates := fun z info =>
    (fmi2Status.fmi2OK,
     { info with newDiscreteStatesNeeded := false, terminateSimulation := false,
                 nextEventTimeDefined := false },
     { z with k := if 0 < z.k ∧ 1 < z.x then -1 else if z.k < 0 ∧ z.x < -1 then 1 else z.k,
              log := z.log ++ [FmiCall.newDiscreteStates] })
  enterContinuousTimeMode := fun z =>
    (fmi2Status.fmi2OK, { z with log := z.log ++ [FmiCall.enterContinuousTimeMode] })

/-- The `Euler` stepper of a driver on the zigzag model. -/
def zigzagEuler : IntegratorStepper (OdeintObj Unit) (FMUModelExchange Zigzag (OdeintObj Unit)) :=
  (Euler (FMUModelExchange.system zigzag)).toStepper (FMUModelExchange.system zigzag) 10

/-- A driver on the zigzag model right after `initialize`: time `0`, `x = 0`, rising
with slope `1`, no event pending, all flags clear. -/
def zigzagDriver (stopBeforeEvent : Bool) (eventSearchPrecision : fmiTime) :
    FMUModelExchange Zigzag (OdeintObj Unit) :=
  { instance_ := { t := 0, x := 0, k := 1, log := [] },
    nStateVars_ := 1,
    stopBeforeEvent_ := stopBeforeEvent,
    eventSearchPrecision_ := eventSearchPrecision,
    integrator_ := Integrator.fresh (OdeintObj.fresh ()),
    intStates_ := [0], intDerivatives_ := [0],
    time_ := 0, tend_ := 0,
    eventinfo_ := { newDiscreteStatesNeeded := false, terminateSimulation := false,
                    nominalsOfContinuousStatesChanged := false,
                    valuesOfContinuousStatesChanged := false,
                    nextEventTimeDefined := false, nextEventTime := 0 },
    eventsind_ := [0], preeventsind_ := [0],
    stateEvent_ := false, timeEvent_ := false, enterEventMode_ := false,
    terminateSimulation_ := false, upcomingEvent_ := false, eventFlag_ := false,
    intEventFlag_ := false, lastStatus_ := fmi2Status.fmi2OK }

/-! ## Notions for the driver theorems -/

/-- Two driver states agree in the members that no call through the `DynamicalSystem`
interface writes: the configuration, the time-event flag and the latch. -/
def FMUModelExchange.SameSetup {F S : Type} (m m' : FMUModelExchange F S) : Prop :=
  m'.nStateVars_ = m.nStateVars_ ∧ m'.stopBeforeEvent_ = m.stopBeforeEvent_ ∧
  m'.eventSearchPrecision_ = m.eventSearchPrecision_ ∧ m'.timeEvent_ = m.timeEvent_ ∧
  m'.upcomingEvent_ = m.upcomingEvent_

/-- A subclass of `OdeintStepper` working on a driver is regular: with a positive step
size `do_step` advances the time by at most that step size and leaves a positive step
size; `do_step_const` advances the time by exactly the step size; and both act on the
driver only through the `DynamicalSystem` interface, so that the members of `SameSetup`
keep their values. -/
structure OdeintStepper.Regular {W F : Type}
    (st : OdeintStepper W (FMUModelExchange F (OdeintObj W))) : Prop where
  do_step : ∀ v v', st.do_step v = some v' → 0 < v.dt →
    v.currentTime < v'.currentTime ∧ v'.currentTime ≤ v.currentTime + v.dt ∧ 0 < v'.dt
  do_step_const : ∀ v v', st.do_step_const v = some v' →
    v'.currentTime = v.currentTime + v.dt
  do_step_setup : ∀ v v', st.do_step v = some v' → FMUModelExchange.SameSetup v.fmu v'.fmu
  do_step_const_setup : ∀ v v', st.do_step_const v = some v' →
    FMUModelExchange.SameSetup v.fmu v'.fmu

/-- A latched event is in order: in stop-before-event mode a set latch comes with a
state-event or time-event flag and with an event horizon `tend_` that does not lie
before the driver time. -/
def FMUModelExchange.LatchInOrder {F S : Type} (d : FMUModelExchange F S) : Prop :=
  d.stopBeforeEvent_ = true → d.upcomingEvent_ = true →
    (d.stateEvent_ = true ∨ d.timeEvent_ = true) ∧ d.time_ ≤ d.tend_

/-- A sequence of `integrate( tend, deltaT )` calls on one driver: the times returned,
in order, and the driver behind the last call; `none` if a call does not return. -/
def FMUModelExchange.integrateAll {F S : Type} (fn : FMU2Functions F)
    (st : IntegratorStepper S (FMUModelExchange F S)) (fuel : Nat) :
    List (fmiTime × fmiTime) → FMUModelExchange F S →
      Option (List fmiTime × FMUModelExchange F S)
  | [], d => some ([], d)
  | c :: rest, d =>
    match FMUModelExchange.integrate fn st fuel c.1 c.2 d with
    | none => none
    | some r =>
      match FMUModelExchange.integrateAll fn st fuel rest r.2 with
      | none => none
      | some q => some (r.1 :: q.1, q.2)

/-- What the integrator hands back to the driver in the first call of the zigzag
example (stop-before-event mode, `ε = 8`, `integrate( 2, 2 )`): the state event located
in `[0, 3]`, the model rewound to `t = 0`. -/
def zigzagFirstEngineResult :
    IntegrateResult (OdeintObj Unit) (FMUModelExchange Zigzag (OdeintObj Unit)) :=
  { ret := { stateEvent := true, stepEvent := false, tLower := 0, tUpper := 3 },
    self := { stepper_ := { states_bak_ := [0], time_bak_ := 0, stepper := () },
              states_ := [0], time_ := 0,
              eventInfo_ := { stateEvent := true, stepEvent := false, tLower := 0, tUpper := 3 } },
    fmu := { zigzagDriver true 8 with
      instance_ := { t := 0, x := 0, k := 1,
                     log := [FmiCall.setTime 0, FmiCall.setContinuousStates [0],
                             FmiCall.setTime 2, FmiCall.setContinuousStates [2],
                             FmiCall.setTime 0, FmiCall.setContinuousStates [0]] },
      eventsind_ := [-1], preeventsind_ := [1],
      eventFlag_ := true, intEventFlag_ := true } }

/-! ## Records of the model calls -/

/-- The model instance keeps a record of the calls that can change it: `log` reads the
record, and each such function of the table appends its own call. -/
structure FMU2Functions.Logs {F : Type} (fn : FMU2Functions F) (log : F → List FmiCall) :
    Prop where
  setTime : ∀ z t, log (fn.setTime z t).2 = log z ++ [FmiCall.setTime t]
  setContinuousStates : ∀ z x,
    log (fn.setContinuousStates z x).2 = log z ++ [FmiCall.setContinuousStates x]
  completedIntegratorStep : ∀ z,
    log (fn.completedIntegratorStep z).2.2.2 = log z ++ [FmiCall.completedIntegratorStep]
  enterEventMode : ∀ z, log (fn.enterEventMode z).2 = log z ++ [FmiCall.enterEventMode]
  newDiscreteStates : ∀ z info,
    log (fn.newDiscreteStates z info).2.2 = log z ++ [FmiCall.newDiscreteStates]
  enterContinuousTimeMode : ∀ z,
    log (fn.enterContinuousTimeMode z).2 = log z ++ [FmiCall.enterContinuousTimeMode]

/-- Any function table with a record of the calls put next to the model instance. -/
def FMU2Functions.traced {F : Type} (fn : FMU2Functions F) :
    FMU2Functions (F × List FmiCall) where
  setTime := fun z t => ((fn.setTime z.1 t).1, (fn.setTime z.1 t).2, z.2 ++ [FmiCall.setTime t])
  setContinuousStates := fun z x =>
    ((fn.setContinuousStates z.1 x).1, (fn.setContinuousStates z.1 x).2,
     z.2 ++ [FmiCall.setContinuousStates x])
  getContinuousStates := fun z => fn.getContinuousStates z.1
  getDerivatives := fun z => fn.getDerivatives z.1
  getEventIndicators := fun z => fn.getEventIndicators z.1
  completedIntegratorStep := fun z =>
    ((fn.completedIntegratorStep z.1).1, (fn.completedIntegratorStep z.1).2.1,
     (fn.completedIntegratorStep z.1).2.2.1, (fn.completedIntegratorStep z.1).2.2.2,
     z.2 ++ [FmiCall.completedIntegratorStep])
  enterEventMode := fun z =>
    ((fn.enterEventMode z.1).1, (fn.enterEventMode z.1).2, z.2 ++ [FmiCall.enterEventMode])
  newDiscreteStates := fun z info =>
    ((fn.newDiscreteStates z.1 info).1, (fn.newDiscreteStates z.1 info).2.1,
     (fn.newDiscreteStates z.1 info).2.2, z.2 ++ [FmiCall.newDiscreteStates])
  enterContinuousTimeMode := fun z =>
    ((fn.enterContinuousTimeMode z.1).1, (fn.enterContinuousTimeMode z.1).2,
     z.2 ++ [FmiCall.enterContinuousTimeMode])

/-- The model instance and the event info after `n` calls of `newDiscreteStates` in a
row. -/
def FMUModelExchange.newDiscreteStatesTimes {F : Type} (fn : FMU2Functions F) :
    Nat → F → fmi2EventInfo → F × fmi2EventInfo
  | 0, inst, info => (inst, info)
  | n + 1, inst, info =>
    FMUModelExchange.newDiscreteStatesTimes fn n (fn.newDiscreteStates inst info).2.2
      (fn.newDiscreteStates inst info).2.1

/-- The event info that the model has reported after `n` calls of `newDiscreteStates`
in the handshake of `handleEvents` on the driver `self`. -/
def FMUModelExchange.reported {F S : Type} (fn : FMU2Functions F)
    (self : FMUModelExchange F S) (n : Nat) : fmi2EventInfo :=
  (FMUModelExchange.newDiscreteStatesTimes fn n (fn.enterEventMode self.instance_).2
    { self.eventinfo_ with newDiscreteStatesNeeded := true,
                           terminateSimulation := false }).2

/-- The driver right behind the start of `FMUModelExchange::integrate`, where an event
latched by the call before is stepped over (model with continuous states). -/
def FMUModelExchange.afterLatch {F S : Type} (fn : FMU2Functions F)
    (self : FMUModelExchange F S) : FMUModelExchange F S :=
  if self.stopBeforeEvent_ && self.upcomingEvent_ then
    (FMUModelExchange.stepOverEvent fn self).2
  else self

/-- The driver right behind the start of `FMUModelExchange::integrate` for a model
without continuous states: in stop-before-event mode the model is notified and an event
latched by the call before is handled. -/
def FMUModelExchange.afterLatchNoStates {F S : Type} (fn : FMU2Functions F)
    (self : FMUModelExchange F S) : FMUModelExchange F S :=
  if self.stopBeforeEvent_ then
    if (FMUModelExchange.completedIntegratorStep fn self).upcomingEvent_ then
      { FMUModelExchange.saveEventIndicators fn
          (FMUModelExchange.handleEvents fn (FMUModelExchange.completedIntegratorStep fn self))
        with upcomingEvent_ := false }
    else FMUModelExchange.completedIntegratorStep fn self
  else self

/-! ## Two more concrete FMUs for the driver examples -/

/-- The instance of the clock model: time, the continuous states (none, or states that
rise with slope `1`), the number `rounds` of `newDiscreteStates` calls an event needs
until the discrete states have settled, the number `made` of such calls in the current
event, and the record of the calls, oldest first. -/
structure Clock where
  t : fmiTime
  x : state_type
  rounds : Nat
  made : Nat
  log : List FmiCall
deriving DecidableEq

/-- The clock model: no event indicators, no step events; every handshake schedules the
next time event one time unit behind the model time, and asks for another
`newDiscreteStates` call until `rounds` calls have been made. -/
def clock : FMU2Functions Clock where
  setTime := fun z t => (fmi2Status.fmi2OK, { z with t := t, log := z.log ++ [FmiCall.setTime t] })
  setContinuousStates := fun z xs =>
    (fmi2Status.fmi2OK, { z with x := xs, log := z.log ++ [FmiCall.setContinuousStates xs] })
  getContinuousStates := fun z => (fmi2Status.fmi2OK, z.x)
  getDerivatives := fun z => (fmi2Status.fmi2OK, z.x.map (fun _ => 1))
  getEventIndicators := fun _ => (fmi2Status.fmi2OK, [])
  completedIntegratorStep := fun z =>
    (fmi2Status.fmi2OK, false, false,
     { z with log := z.log ++ [FmiCall.completedIntegratorStep] })
  enterEventMode := fun z =>
    (fmi2Status.fmi2OK, { z with made := 0, log := z.log ++ [FmiCall.enterEventMode] })
  newDiscreteStates := fun z info =>
    (fmi2Status.fmi2OK,
     { info with newDiscreteStatesNeeded := decide (z.made + 1 < z.rounds),
                 terminateSimulation := false,
                 nextEventTimeDefined := true, nextEventTime := z.t + 1 },
     { z with made := z.made + 1, log := z.log ++ [FmiCall.newDiscreteStates] })
  enterContinuousTimeMode := fun z =>
    (fmi2Status.fmi2OK, { z with log := z.log ++ [FmiCall.enterContinuousTimeMode] })

/-- A driver on the clock model right after `initialize`, with the continuous states
`x` (their number is `nStateVars_`): time `0`, the first time event scheduled at `1`,
no event pending, all flags clear. -/
def clockDriver (x : state_type) (rounds : Nat) (stopBeforeEvent : Bool)
    (eventSearchPrecision : fmiTime) : FMUModelExchange Clock (OdeintObj Unit) :=
  { instance_ := { t := 0, x := x, rounds := rounds, made := 0, log := [] },
    nStateVars_ := x.length,
    stopBeforeEvent_ := stopBeforeEvent,
    eventSearchPrecision_ := eventSearchPrecision,
    integrator_ := Integrator.fresh (OdeintObj.fresh ()),
    intStates_ := x, intDerivatives_ := x,
    time_ := 0, tend_ := 0,
    eventinfo_ := { newDiscreteStatesNeeded := false, terminateSimulation := false,
                    nominalsOfContinuousStatesChanged := false,
                    valuesOfContinuousStatesChanged := false,
                    nextEventTimeDefined := true, nextEventTime := 1 },
    eventsind_ := [], preeventsind_ := [],
    stateEvent_ := false, timeEvent_ := false, enterEventMode_ := false,
    terminateSimulation_ := false, upcomingEvent_ := false, eventFlag_ := false,
    intEventFlag_ := false, lastStatus_ := fmi2Status.fmi2OK }

/-- The `Euler` stepper of a driver on the clock model. -/
def clockEuler : IntegratorStepper (OdeintObj Unit) (FMUModelExchange Clock (OdeintObj Unit)) :=
  (Euler (FMUModelExchange.system clock)).toStepper (FMUModelExchange.system clock) 10

/-- The instance of the bumper model: time, state `x`, the number `n` of events handled,
and the record of the calls, oldest first. -/
structure Bumper where
  t : fmiTime
  x : fmiReal
  n : Nat
  log : List FmiCall
deriving DecidableEq

/-- The bumper model `dx/dt = 1`: one event indicator `10 (n + 1) - x`; before the first
event has been handled, `completedIntegratorStep` asks for event mode once `x` has come
to `1` (a step event); the event update counts the event. -/
def bumper : FMU2Functions Bumper where
  setTime := fun z t => (fmi2Status.fmi2OK, { z with t := t, log := z.log ++ [FmiCall.setTime t] })
  setContinuousStates := fun z xs =>
    (fmi2Status.fmi2OK,
     { z with x := xs.headD z.x, log := z.log ++ [FmiCall.setContinuousStates xs] })
  getContinuousStates := fun z => (fmi2Status.fmi2OK, [z.x])
  getDerivatives := fun _ => (fmi2Status.fmi2OK, [1])
  getEventIndicators := fun z => (fmi2Status.fmi2OK, [10 * ((z.n : fmiReal) + 1) - z.x])
  completedIntegratorStep := fun z =>
    (fmi2Status.fmi2OK, decide (z.n = 0 ∧ 1 ≤ z.x), false,
     { z with log := z.log ++ [FmiCall.completedIntegratorStep] })
  enterEventMode := fun z =>
    (fmi2Status.fmi2OK, { z with log := z.log ++ [FmiCall.enterEventMode] })
  newDiscreteStates := fun z info =>
    (fmi2Status.fmi2OK,
     { info with newDiscreteStatesNeeded := false, terminateSimulation := false,
                 nextEventTimeDefined := false },
     { z with n := z.n + 1, log := z.log ++ [FmiCall.newDiscreteStates] })
  enterContinuousTimeMode := fun z =>
    (fmi2Status.fmi2OK, { z with log := z.log ++ [FmiCall.enterContinuousTimeMode] })

/-- A driver on the bumper model right after `initialize`: time `0`, `x = 0`, no event
handled yet, no event pending, all flags clear. -/
def bumperDriver (stopBeforeEvent : Bool) (eventSearchPrecision : fmiTime) :
    FMUModelExchange Bumper (OdeintObj Unit) :=
  { instance_ := { t := 0, x := 0, n := 0, log := [] },
    nStateVars_ := 1,
    stopBeforeEvent_ := stopBeforeEvent,
    eventSearchPrecision_ := eventSearchPrecision,
    integrator_ := Integrator.fresh (OdeintObj.fresh ()),
    intStates_ := [0], intDerivatives_ := [0],
    time_ := 0, tend_ := 0,
    eventinfo_ := { newDiscreteStatesNeeded := false, terminateSimulation := false,
                    nominalsOfContinuousStatesChanged := false,
                    valuesOfContinuousStatesChanged := false,
                    nextEventTimeDefined := false, nextEventTime := 0 },
    eventsind_ := [10], preeventsind_ := [10],
    stateEvent_ := false, timeEvent_ := false, enterEventMode_ := false,
    terminateSimulation_ := false, upcomingEvent_ := false, eventFlag_ := false,
    intEventFlag_ := false, lastStatus_ := fmi2Status.fmi2OK }

/-- The `Euler` stepper of a driver on the bumper model. -/
def bumperEuler :
    IntegratorStepper (OdeintObj Unit) (FMUModelExchange Bumper (OdeintObj Unit)) :=
  (Euler (FMUModelExchange.system bumper)).toStepper (FMUModelExchange.system bumper) 10

/-! ## Stepper properties -/

/-- A value of type `double` as far as the handling of the tolerances tells values
apart: not a number, plus or minus infinity, or a finite value. -/
inductive Double where
  | nan
  | inf
  | neginf
  | finite (q : ℚ)
deriving DecidableEq

/-- The comparison `a == b` of two doubles: `false` as soon as one is not a number. -/
def Double.eq : Double → Double → Bool
  | Double.nan, _ => false
  | _, Double.nan => false
  | a, b => decide (a = b)

/-- The comparison `a != b` of two doubles. -/
def Double.ne (a b : Double) : Bool := !Double.eq a b

/-- The comparison `a < b` of two doubles: `false` as soon as one is not a number. -/
def Double.lt : Double → Double → Bool
  | Double.nan, _ => false
  | _, Double.nan => false
  | Double.neginf, Double.neginf => false
  | Double.neginf, _ => true
  | _, Double.neginf => false
  | Double.inf, _ => false
  | Double.finite _, Double.inf => true
  | Double.finite p, Double.finite q => decide (p < q)

/-- The enumeration `IntegratorType`, as listed by the `switch` of `createStepper` (the
two Sundials types are there with `USE_SUNDIALS`). -/
inductive IntegratorType where
  | eu
  | rk
  | ck
  | dp
  | fe
  | bs
  | abm
  | ro
  | bdf
  | abm2
  | NSTEPPERS
deriving DecidableEq

/-- The record `Integrator::Properties`, with the members that the stepper constructors
and `createStepper` use. -/
structure Integrator.Properties where
  type : IntegratorType
  name : String
  order : Int
  abstol : Double
  reltol : Double
deriving DecidableEq

/-- The classes that `createStepper` instantiates. -/
inductive StepperClass where
  | Euler
  | RungeKutta
  | CashKarp
  | DormandPrince
  | Fehlberg
  | BulirschStoer
  | AdamsBashforthMoulton
  | Rosenbrock
  | BackwardsDifferentiationFormula
  | AdamsBashforthMoulton2
deriving DecidableEq

/-- What the constructor `Euler::Euler` does to the properties passed by reference. -/
def Euler.new (properties : Integrator.Properties) : Integrator.Properties :=
  { properties with name := "Euler", order := 1, abstol := Double.inf, reltol := Double.inf }

/-- What the constructor `RungeKutta::RungeKutta` does to the properties. -/
def RungeKutta.new (properties : Integrator.Properties) : Integrator.Properties :=
  { properties with name := "Runge Kutta", order := 4, abstol := Double.inf,
                    reltol := Double.inf }

/-- The statements "add missing tolerances if necessary" of the constructors of the
adaptive steppers, with the default `dflt`. -/
def addMissingTolerances (dflt : ℚ) (properties : Integrator.Properties) :
    Integrator.Properties :=
  let p1 :=
    if Double.ne properties.abstol properties.abstol then
      { properties with abstol := Double.finite dflt }
    else properties
  if Double.ne p1.reltol p1.reltol then { p1 with reltol := Double.finite dflt } else p1

/-- What the constructor `CashKarp::CashKarp` does to the properties. -/
def CashKarp.new (properties : Integrator.Properties) : Integrator.Properties :=
  addMissingTolerances (1 / 1000000) { properties with name := "Cash Karp", order := 5 }

/-- What the constructor `DormandPrince::DormandPrince` does to the properties. -/
def DormandPrince.new (properties : Integrator.Properties) : Integrator.Properties :=
  addMissingTolerances (1 / 1000000) { properties with name := "Dormand Prince", order := 5 }

/-- What the constructor `Fehlberg::Fehlberg` does to the properties. -/
def Fehlberg.new (properties : Integrator.Properties) : Integrator.Properties :=
  addMissingTolerances (1 / 1000000) { properties with name := "Fehlberg", order := 8 }

/-- What the constructor `BulirschStoer::BulirschStoer` does to the properties. -/
def BulirschStoer.new (properties : Integrator.Properties) : Integrator.Properties :=
  addMissingTolerances (1 / 1000000) { properties with name := "Bulirsch Stoer", order := 0 }

/-- What the constructor `AdamsBashforthMoulton::AdamsBashforthMoulton` does to the
properties. -/
def AdamsBashforthMoulton.new (properties : Integrator.Properties) : Integrator.Properties :=
  { properties with name := "ABM", order := 5, abstol := Double.inf, reltol := Double.inf }

/-- What the constructor `Rosenbrock::Rosenbrock` does to the properties. -/
def Rosenbrock.new (properties : Integrator.Properties) : Integrator.Properties :=
  addMissingTolerances (1 / 1000000) { properties with name := "Rosenbrock", order := 4 }

/-- What the constructor `SundialsStepper::SundialsStepper` does to the properties. -/
def SundialsStepper.new (properties : Integrator.Properties) : Integrator.Properties :=
  addMissingTolerances (1 / 10000000000) properties

/-- What the constructor of `BackwardsDifferentiationFormula` does to the properties. -/
def BackwardsDifferentiationFormula.new (properties : Integrator.Properties) :
    Integrator.Properties :=
  { SundialsStepper.new properties with name := "BDF", order := 0 }

/-- What the constructor of `AdamsBashforthMoulton2` does to the properties. -/
def AdamsBashforthMoulton2.new (properties : Integrator.Properties) :
    Integrator.Properties :=
  { SundialsStepper.new properties with name := "ABM2", order := 0 }

/-- `IntegratorStepper::createStepper`: the class of the stepper created (`none` for the
null pointer) and the properties, which are passed by reference, behind the call. -/
def IntegratorStepper.createStepper (properties : Integrator.Properties) :
    Option StepperClass × Integrator.Properties :=
  let type := properties.type
  -- correct ill formated inputs
  let p1 :=
    if Double.eq properties.abstol Double.inf || Double.lt properties.abstol (Double.finite 0)
    then { properties with abstol := Double.nan } else properties
  let p2 :=
    if Double.eq p1.reltol Double.inf || Double.lt p1.reltol (Double.finite 0)
    then { p1 with reltol := Double.nan } else p1
  match type with
  | IntegratorType.eu => (some StepperClass.Euler, Euler.new p2)
  | IntegratorType.rk => (some StepperClass.RungeKutta, RungeKutta.new p2)
  | IntegratorType.ck => (some StepperClass.CashKarp, CashKarp.new p2)
  | IntegratorType.dp => (some StepperClass.DormandPrince, DormandPrince.new p2)
  | IntegratorType.fe => (some StepperClass.Fehlberg, Fehlberg.new p2)
  | IntegratorType.bs => (some StepperClass.BulirschStoer, BulirschStoer.new p2)
  | IntegratorType.abm => (some StepperClass.AdamsBashforthMoulton, AdamsBashforthMoulton.new p2)
  | IntegratorType.ro => (some StepperClass.Rosenbrock, Rosenbrock.new p2)
  | IntegratorType.bdf =>
    (some StepperClass.BackwardsDifferentiationFormula, BackwardsDifferentiationFormula.new p2)
  | IntegratorType.abm2 => (some StepperClass.AdamsBashforthMoulton2, AdamsBashforthMoulton2.new p2)
  | IntegratorType.NSTEPPERS => (none, p2)

/-- The members `stepper_` (by its class) and `properties_` of an `Integrator`. -/
structure Integrator.Setup where
  stepper_ : Option StepperClass
  properties_ : Integrator.Properties
deriving DecidableEq

/-- `Integrator::setType`. -/
def Integrator.setType (type : IntegratorType) (self : Integrator.Setup) : Integrator.Setup :=
  let r := IntegratorStepper.createStepper { self.properties_ with type := type }
  { stepper_ := r.1, properties_ := r.2 }

/-- `Integrator::setProperties`: the integrator and the caller's properties, which are
passed by reference, behind the call. -/
def Integrator.setProperties (properties : Integrator.Properties) (_self : Integrator.Setup) :
    Integrator.Setup × Integrator.Properties :=
  let r := IntegratorStepper.createStepper properties
  ({ stepper_ := r.1, properties_ := r.2 }, r.2)

/-- `Integrator::getProperties`. -/
def Integrator.getProperties (self : Integrator.Setup) : Integrator.Properties :=
  self.properties_

/-! ## Fixed-step subclasses of `OdeintStepper` -/

/-- `RungeKutta::do_step`.  The odeint call `runge_kutta4<state_type>::do_step( sys_, x,
t, dt )` is taken as given (`rk4`); it evaluates the right-hand side through `sys_` and so
also acts on the model. -/
def RungeKutta.do_step {M : Type} (rk4 : state_type → fmiTime → fmiTime → M → state_type × M)
    (v : StepVars Unit M) : Option (StepVars Unit M) :=
  let r := rk4 v.states v.currentTime v.dt v.fmu
  some { v with fmu := r.2, states := r.1, currentTime := v.currentTime + v.dt }

/-- The class `RungeKutta`: `do_step_const` is inherited (it calls `do_step`), and so is
the empty `reset`. -/
def RungeKutta {M : Type} (rk4 : state_type → fmiTime → fmiTime → M → state_type × M) :
    OdeintStepper Unit M where
  do_step := RungeKutta.do_step rk4
  do_step_const := RungeKutta.do_step rk4
  reset := fun w => w

/-- The members of an `AdamsBashforthMoulton` object: the odeint stepper with its history
and the step size `dt_` of the last call. -/
structure AdamsBashforthMoultonObj (A : Type) where
  stepper : A
  dt_ : fmiTime

/-- `AdamsBashforthMoulton::do_step`.  The odeint stepper is taken as given: `fresh` is a
newly constructed `adams_bashforth_moulton< 5, state_type >`, `abm` its `do_step`. -/
def AdamsBashforthMoulton.do_step {A M : Type} (fresh : A)
    (abm : A → state_type → fmiTime → fmiTime → M → state_type × A × M)
    (v : StepVars (AdamsBashforthMoultonObj A) M) :
    Option (StepVars (AdamsBashforthMoultonObj A) M) :=
  let w : AdamsBashforthMoultonObj A :=
    if v.dt ≠ v.stepper.dt_ then { stepper := fresh, dt_ := v.dt } else v.stepper
  let r := abm w.stepper v.states v.currentTime v.dt v.fmu
  some { v with stepper := { w with stepper := r.2.1 }, fmu := r.2.2, states := r.1,
                currentTime := v.currentTime + v.dt }

/-- The class `AdamsBashforthMoulton`: `do_step_const` is inherited (it calls `do_step`),
`reset` puts a newly constructed odeint stepper in place. -/
def AdamsBashforthMoulton {A M : Type} (fresh : A)
    (abm : A → state_type → fmiTime → fmiTime → M → state_type × A × M) :
    OdeintStepper (AdamsBashforthMoultonObj A) M where
  do_step := AdamsBashforthMoulton.do_step fresh abm
  do_step_const := AdamsBashforthMoulton.do_step fresh abm
  reset := fun w => { w with stepper := fresh }

/-- A subclass of `OdeintStepper` with fixed step size: `do_step` and `do_step_const`
return, advance the time by exactly the step size passed in and leave the step size as it
is. -/
structure OdeintStepper.FixedStep {W M : Type} (st : OdeintStepper W M) : Prop where
  do_step : ∀ v, ∃ v', st.do_step v = some v' ∧
    v'.currentTime = v.currentTime + v.dt ∧ v'.dt = v.dt
  do_step_const : ∀ v, ∃ v', st.do_step_const v = some v' ∧
    v'.currentTime = v.currentTime + v.dt ∧ v'.dt = v.dt

/-- A model that raises neither state events nor step events, and whose time is the one
written last when the two checks are made. -/
structure DynamicalSystem.Quiet {M : Type} (ds : DynamicalSystem M) : Prop where
  no_state_event : ∀ m, (ds.checkStateEvent m).1 = false
  no_step_event : ∀ m, (ds.checkStepEvent m).1 = false
  time_written : ∀ t x m,
    ds.getTime (ds.checkStepEvent (ds.checkStateEvent
      (ds.setContinuousStates x (ds.setTime t m))).2).2 = t

/-- The model `dx/dt = 1` without event indicators and without step events. -/
def drift : DynamicalSystem Plant :=
  Plant.system (fun _ _ => [1]) (fun _ _ => []) (fun _ _ => false)

/-! ## Driver calls in sequence -/

/-- `FMUModelExchange::resetEventFlags`. -/
def FMUModelExchange.resetEventFlags {F S : Type} (self : FMUModelExchange F S) :
    FMUModelExchange F S :=
  { self with eventFlag_ := false, intEventFlag_ := false, timeEvent_ := false,
              stateEvent_ := false, upcomingEvent_ := false }

/-- The two calls that drive the event flags. -/
inductive DriverCall where
  | integrate (tend deltaT : fmiTime)
  | resetEventFlags

/-- A sequence of `integrate` and `resetEventFlags` calls on one driver: the driver
behind the last call; `none` if a call does not return. -/
def FMUModelExchange.run {F S : Type} (fn : FMU2Functions F)
    (st : IntegratorStepper S (FMUModelExchange F S)) (fuel : Nat) :
    List DriverCall → FMUModelExchange F S → Option (FMUModelExchange F S)
  | [], d => some d
  | DriverCall.integrate tend deltaT :: rest, d =>
    match FMUModelExchange.integrate fn st fuel tend deltaT d with
    | none => none
    | some r => FMUModelExchange.run fn st fuel rest r.2
  | DriverCall.resetEventFlags :: rest, d =>
    FMUModelExchange.run fn st fuel rest (FMUModelExchange.resetEventFlags d)

/-- The integrator acts on the driver only through the `DynamicalSystem` interface: an
`Integrator::integrate` call keeps the members of `SameSetup`. -/
def Integrator.KeepsSetup {F S : Type} (fn : FMU2Functions F)
    (st : IntegratorStepper S (FMUModelExchange F S)) : Prop :=
  ∀ (fuel : Nat) (step_size dt eps : fmiTime) (self : Integrator S)
    (m : FMUModelExchange F S) (r : IntegrateResult S (FMUModelExchange F S)),
    Integrator.integrate (FMUModelExchange.system fn) st fuel step_size dt eps self m = some r →
    FMUModelExchange.SameSetup m r.fmu

/-! ## Access to variables by name -/

/-- The status codes of FMI 1.0, to which the driver casts its status. -/
inductive fmiStatus where
  | fmiOK
  | fmiWarning
  | fmiDiscard
  | fmiError
  | fmiFatal
  | fmiPending
deriving DecidableEq

/-- The cast `(fmiStatus) lastStatus_`. -/
def fmi2Status.toFmiStatus : fmi2Status → fmiStatus
  | fmi2Status.fmi2OK => fmiStatus.fmiOK
  | fmi2Status.fmi2Warning => fmiStatus.fmiWarning
  | fmi2Status.fmi2Discard => fmiStatus.fmiDiscard
  | fmi2Status.fmi2Error => fmiStatus.fmiError
  | fmi2Status.fmi2Fatal => fmiStatus.fmiFatal
  | fmi2Status.fmi2Pending => fmiStatus.fmiPending

/-- Value references. -/
abbrev fmi2ValueReference := Nat

/-- The getters and setters of the function table `fmu_->functions`, called for one
value.  Every call can change the model instance; a getter is passed the value that its
output argument holds and returns the value it holds behind the call. -/
structure FMU2ValueFunctions (F : Type) where
  setReal : F → fmi2ValueReference → fmiReal → fmi2Status × F
  setInteger : F → fmi2ValueReference → Int → fmi2Status × F
  setBoolean : F → fmi2ValueReference → Bool → fmi2Status × F
  setString : F → fmi2ValueReference → String → fmi2Status × F
  getReal : F → fmi2ValueReference → fmiReal → fmi2Status × fmiReal × F
  getInteger : F → fmi2ValueReference → Int → fmi2Status × Int × F
  getBoolean : F → fmi2ValueReference → Bool → fmi2Status × Bool × F
  getString : F → fmi2ValueReference → fmi2Status × String × F

/-- A message passed to a logger: status, category, text. -/
abbrev LogMessage := fmi2Status × String × String

/-- The members of an instantiated `FMUModelExchange` that the access by name reads or
writes: the model instance, the variable table `varMap_` (in the order of insertion),
the status, and the messages that `logger` has passed to the callback of the
environment. -/
structure FMUModelExchange.Variables (F : Type) where
  instance_ : F
  varMap_ : List (String × fmi2ValueReference)
  lastStatus_ : fmi2Status
  logged : List LogMessage

/-- The branch of the accessors by name for a name that `varMap_.find` does not find. -/
def FMUModelExchange.Variables.doesNotExist {F : Type} (name : String)
    (self : FMUModelExchange.Variables F) : FMUModelExchange.Variables F :=
  { self with
    logged := self.logged ++ [(fmi2Status.fmi2Discard, "WARNING", name ++ " does not exist")],
    lastStatus_ := fmi2Status.fmi2Discard }

/-- `FMUModelExchange::setValue( const string& name, fmiReal val )`. -/
def FMUModelExchange.setValueReal {F : Type} (fn : FMU2ValueFunctions F) (name : String)
    (val : fmiReal) (self : FMUModelExchange.Variables F) :
    fmiStatus × FMUModelExchange.Variables F :=
  match self.varMap_.lookup name with
  | some vr =>
    let r := fn.setReal self.instance_ vr val
    (r.1.toFmiStatus, { self with instance_ := r.2, lastStatus_ := r.1 })
  | none =>
    let s := FMUModelExchange.Variables.doesNotExist name self
    (s.lastStatus_.toFmiStatus, s)

/-- `FMUModelExchange::setValue( const string& name, fmiInteger val )`. -/
def FMUModelExchange.setValueInteger {F : Type} (fn : FMU2ValueFunctions F) (name : String)
    (val : Int) (self : FMUModelExchange.Variables F) :
    fmiStatus × FMUModelExchange.Variables F :=
  match self.varMap_.lookup name with
  | some vr =>
    let r := fn.setInteger self.instance_ vr val
    (r.1.toFmiStatus, { self with instance_ := r.2, lastStatus_ := r.1 })
  | none =>
    let s := FMUModelExchange.Variables.doesNotExist name self
    (s.lastStatus_.toFmiStatus, s)

/-- `FMUModelExchange::setValue( const string& name, fmiBoolean val )`. -/
def FMUModelExchange.setValueBoolean {F : Type} (fn : FMU2ValueFunctions F) (name : String)
    (val : Bool) (self : FMUModelExchange.Variables F) :
    fmiStatus × FMUModelExchange.Variables F :=
  match self.varMap_.lookup name with
  | some vr =>
    let r := fn.setBoolean self.instance_ vr val
    (r.1.toFmiStatus, { self with instance_ := r.2, lastStatus_ := r.1 })
  | none =>
    let s := FMUModelExchange.Variables.doesNotExist name self
    (s.lastStatus_.toFmiStatus, s)

/-- `FMUModelExchange::setValue( const string& name, string val )`. -/
def FMUModelExchange.setValueString {F : Type} (fn : FMU2ValueFunctions F) (name : String)
    (val : String) (self : FMUModelExchange.Variables F) :
    fmiStatus × FMUModelExchange.Variables F :=
  match self.varMap_.lookup name with
  | some vr =>
    let r := fn.setString self.instance_ vr val
    (r.1.toFmiStatus, { self with instance_ := r.2, lastStatus_ := r.1 })
  | none =>
    let s := FMUModelExchange.Variables.doesNotExist name self
    (s.lastStatus_.toFmiStatus, s)

/-- `FMUModelExchange::getValue( const string& name, fmiReal& val )`: the status, the
value of `val` behind the call, and the driver. -/
def FMUModelExchange.getValueReal {F : Type} (fn : FMU2ValueFunctions F) (name : String)
    (val : fmiReal) (self : FMUModelExchange.Variables F) :
    fmiStatus × fmiReal × FMUModelExchange.Variables F :=
  match self.varMap_.lookup name with
  | some vr =>
    let r := fn.getReal self.instance_ vr val
    (r.1.toFmiStatus, r.2.1, { self with instance_ := r.2.2, lastStatus_ := r.1 })
  | none =>
    let s := FMUModelExchange.Variables.doesNotExist name self
    (s.lastStatus_.toFmiStatus, val, s)

/-- `FMUModelExchange::getValue( const string& name, fmiInteger& val )`. -/
def FMUModelExchange.getValueInteger {F : Type} (fn : FMU2ValueFunctions F) (name : String)
    (val : Int) (self : FMUModelExchange.Variables F) :
    fmiStatus × Int × FMUModelExchange.Variables F :=
  match self.varMap_.lookup name with
  | some vr =>
    let r := fn.getInteger self.instance_ vr val
    (r.1.toFmiStatus, r.2.1, { self with instance_ := r.2.2, lastStatus_ := r.1 })
  | none =>
    let s := FMUModelExchange.Variables.doesNotExist name self
    (s.lastStatus_.toFmiStatus, val, s)

/-- `FMUModelExchange::getValue( const string& name, fmiBoolean& val )`. -/
def FMUModelExchange.getValueBoolean {F : Type} (fn : FMU2ValueFunctions F) (name : String)
    (val : Bool) (self : FMUModelExchange.Variables F) :
    fmiStatus × Bool × FMUModelExchange.Variables F :=
  match self.varMap_.lookup name with
  | some vr =>
    let val2 := val
    let r := fn.getBoolean self.instance_ vr val2
    (r.1.toFmiStatus, r.2.1, { self with instance_ := r.2.2, lastStatus_ := r.1 })
  | none =>
    let s := FMUModelExchange.Variables.doesNotExist name self
    (s.lastStatus_.toFmiStatus, val, s)

/-- `FMUModelExchange::getValue( const string& name, string& val )`. -/
def FMUModelExchange.getValueString {F : Type} (fn : FMU2ValueFunctions F) (name : String)
    (val : String) (self : FMUModelExchange.Variables F) :
    fmiStatus × String × FMUModelExchange.Variables F :=
  match self.varMap_.lookup name with
  | some vr =>
    let r := fn.getString self.instance_ vr
    (r.1.toFmiStatus, r.2.1, { self with instance_ := r.2.2, lastStatus_ := r.1 })
  | none =>
    let s := FMUModelExchange.Variables.doesNotExist name self
    (s.lastStatus_.toFmiStatus, val, s)

/-- A model instance with four variables, one of each type, at the value references `0`
to `3`, and the number of calls that have reached it. -/
structure Store where
  real : fmiReal
  integer : Int
  boolean : Bool
  string : String
  calls : Nat
deriving DecidableEq

/-- The getters and setters of the `Store` model: an access through the value reference
of the right type succeeds, any other is discarded. -/
def store : FMU2ValueFunctions Store where
  setReal := fun z vr v =>
    if vr = 0 then (fmi2Status.fmi2OK, { z with real := v, calls := z.calls + 1 })
    else (fmi2Status.fmi2Discard, { z with calls := z.calls + 1 })
  setInteger := fun z vr v =>
    if vr = 1 then (fmi2Status.fmi2OK, { z with integer := v, calls := z.calls + 1 })
    else (fmi2Status.fmi2Discard, { z with calls := z.calls + 1 })
  setBoolean := fun z vr v =>
    if vr = 2 then (fmi2Status.fmi2OK, { z with boolean := v, calls := z.calls + 1 })
    else (fmi2Status.fmi2Discard, { z with calls := z.calls + 1 })
  setString := fun z vr v =>
    if vr = 3 then (fmi2Status.fmi2OK, { z with string := v, calls := z.calls + 1 })
    else (fmi2Status.fmi2Discard, { z with calls := z.calls + 1 })
  getReal := fun z vr v =>
    if vr = 0 then (fmi2Status.fmi2OK, z.real, { z with calls := z.calls + 1 })
    else (fmi2Status.fmi2Discard, v, { z with calls := z.calls + 1 })
  getInteger := fun z vr v =>
    if vr = 1 then (fmi2Status.fmi2OK, z.integer, { z with calls := z.calls + 1 })
    else (fmi2Status.fmi2Discard, v, { z with calls := z.calls + 1 })
  getBoolean := fun z vr v =>
    if vr = 2 then (fmi2Status.fmi2OK, z.boolean, { z with calls := z.calls + 1 })
    else (fmi2Status.fmi2Discard, v, { z with calls := z.calls + 1 })
  getString := fun z vr =>
    if vr = 3 then (fmi2Status.fmi2OK, z.string, { z with calls := z.calls + 1 })
    else (fmi2Status.fmi2Discard, "", { z with calls := z.calls + 1 })

/-- A driver on the `Store` model with the variable table `x`, `n`, `b`, `s`. -/
def storeDriver : FMUModelExchange.Variables Store :=
  { instance_ := { real := 1, integer := 2, boolean := true, string := "abc", calls := 0 },
    varMap_ := [("x", 0), ("n", 1), ("b", 2), ("s", 3)],
    lastStatus_ := fmi2Status.fmi2OK,
    logged := [] }

/-! ## Construction, `instantiate` and `initialize` of the driver -/

/-- The queries to the parsed model description that the driver's constructor,
`instantiate` and `initialize` make (`ModelDescription.h` is not among the sources).  The
four values of the default experiment are not a number where the description does not
declare them. -/
structure ModelDescription where
  numberOfContinuousStates : Nat
  numberOfEventIndicators : Nat
  hasDefaultExperiment : Bool
  startTime : Double
  stopTime : Double
  tolerance : Double
  stepSize : Double
  guid : String

/-- The part of the function table `fmu_->functions` that `instantiate` and `initialize`
call.  `instantiate` returns the new model instance, or nothing (a null pointer). -/
structure FMU2LifecycleFunctions (F : Type) where
  instantiate : String → String → Bool → Option F
  setDebugLogging : F → Bool → fmi2Status × F
  setupExperiment : F → Bool → Double → Double → Bool → Double → fmi2Status × F
  enterInitializationMode : F → fmi2Status × F
  exitInitializationMode : F → fmi2Status × F
  newDiscreteStates : F → fmi2EventInfo → fmi2Status × fmi2EventInfo × F
  enterContinuousTimeMode : F → fmi2Status × F

/-- The struct `BareFMU2` that the model manager hands out for a loaded FMU. -/
structure BareFMU2 (F : Type) where
  functions : FMU2LifecycleFunctions F
  description : ModelDescription

/-- The members of an `FMUModelExchange` that the constructor, `instantiate` and
`initialize` read or write.  `fmu_` and `instance_` are pointers (`none` is the null
pointer), and so are the event info and the two indicator buffers.  The state buffers
`intStates_` and `intDerivatives_`, which `instantiate` allocates without initialising
them, and the variable table are left out. -/
structure FMUModelExchange.Shell (F : Type) where
  fmu_ : Option (BareFMU2 F)
  instance_ : Option F
  instanceName_ : String
  loggingOn_ : Bool
  nStateVars_ : Nat
  nEventInds_ : Nat
  integrator_ : Integrator.Setup
  time_ : Double
  tnextevent_ : Double
  eventinfo_ : Option fmi2EventInfo
  eventsind_ : Option (List fmiReal)
  preeventsind_ : Option (List fmiReal)
  lastStatus_ : fmi2Status

/-- `FMUModelExchange::readModelDescription`, as far as it writes to the members of
`Shell`. -/
def FMUModelExchange.readModelDescription {F : Type} (description : ModelDescription)
    (self : FMUModelExchange.Shell F) : FMUModelExchange.Shell F :=
  let s1 := { self with nStateVars_ := description.numberOfContinuousStates,
                        nEventInds_ := description.numberOfEventIndicators }
  if description.hasDefaultExperiment then
    let properties := Integrator.getProperties s1.integrator_
    let s2 :=
      if Double.eq description.tolerance description.tolerance then
        { s1 with integrator_ :=
            (Integrator.setProperties
              { properties with reltol := description.tolerance,
                                abstol := description.tolerance } s1.integrator_).1 }
      else s1
    if Double.eq description.startTime description.startTime then
      { s2 with time_ := description.startTime }
    else { s2 with time_ := Double.finite 0 }
  else { s1 with time_ := Double.finite 0 }

/-- The constructor of `FMUModelExchange`: `loaded` is what the model manager returns for
the path and the model name (`none` if the FMU could not be loaded), `integrator` the
integrator object of the base class. -/
def FMUModelExchange.new {F : Type} (loaded : Option (BareFMU2 F)) (loggingOn : Bool)
    (type : IntegratorType) (integrator : Integrator.Setup) : FMUModelExchange.Shell F :=
  let self : FMUModelExchange.Shell F :=
    { fmu_ := loaded, instance_ := none, instanceName_ := "", loggingOn_ := loggingOn,
      nStateVars_ := 0, nEventInds_ := 0, integrator_ := integrator,
      time_ := Double.nan, tnextevent_ := Double.nan,
      eventinfo_ := none, eventsind_ := none, preeventsind_ := none,
      lastStatus_ := fmi2Status.fmi2OK }
  match loaded with
  | some fmu =>
    let s1 := FMUModelExchange.readModelDescription fmu.description self
    { s1 with integrator_ := Integrator.setType type s1.integrator_ }
  | none => self

/-- `FMUModelExchange::instantiate`.  `allocated` is the content of the event info that
`new fmi2EventInfo` returns (the code does not initialise it). -/
def FMUModelExchange.instantiate {F : Type} (instanceName : String)
    (allocated : fmi2EventInfo) (self : FMUModelExchange.Shell F) :
    fmiStatus × FMUModelExchange.Shell F :=
  let s0 := { self with instanceName_ := instanceName }
  match s0.fmu_ with
  | none =>
    let s := { s0 with lastStatus_ := fmi2Status.fmi2Error }
    (s.lastStatus_.toFmiStatus, s)
  | some fmu =>
    let s1 := { s0 with time_ := Double.finite 0, tnextevent_ := Double.inf }
    -- Memory allocation, and the loop that sets the indicators to zero.
    let s2 :=
      if s1.nEventInds_ > 0 then
        { s1 with eventsind_ := some (List.replicate s1.nEventInds_ 0),
                  preeventsind_ := some (List.replicate s1.nEventInds_ 0) }
      else s1
    let s3 := { s2 with eventinfo_ := some allocated }
    -- call instantiate
    match fmu.functions.instantiate s3.instanceName_ fmu.description.guid s3.loggingOn_ with
    | none =>
      -- instantiate returned a trivial object
      let s := { s3 with instance_ := none, lastStatus_ := fmi2Status.fmi2Error }
      (s.lastStatus_.toFmiStatus, s)
    | some inst =>
      let r := fmu.functions.setDebugLogging inst s3.loggingOn_
      let s := { s3 with instance_ := some r.2, lastStatus_ := r.1 }
      (s.lastStatus_.toFmiStatus, s)

/-- `FMUModelExchange::initialize`.  The code tests `instance_` only; where there is an
instance there are an FMU and an event info as well, since `instantiate` makes the
instance last. -/
def FMUModelExchange.initialize {F : Type} (self : FMUModelExchange.Shell F) :
    fmiStatus × FMUModelExchange.Shell F :=
  match self.instance_, self.fmu_, self.eventinfo_ with
  | some inst, some fmu, some info =>
    let tol : Bool × Double :=
      if fmu.description.hasDefaultExperiment &&
          Double.eq fmu.description.tolerance fmu.description.tolerance
      then (true, fmu.description.tolerance) else (false, Double.finite (1 / 1000))
    let stop : Bool × Double :=
      if fmu.description.hasDefaultExperiment &&
          Double.eq fmu.description.stopTime fmu.description.stopTime
      then (true, fmu.description.stopTime) else (false, Double.finite 1)
    let r1 := fmu.functions.setupExperiment inst tol.1 tol.2 self.time_ stop.1 stop.2
    let r2 := fmu.functions.enterInitializationMode r1.2
    -- exit initialization mode and enter discrete time mode
    let r3 := fmu.functions.exitInitializationMode r2.2
    -- call newDiscreteStates to get the eventinfo
    let r4 := fmu.functions.newDiscreteStates r3.2 info
    -- go into the "default mode": continuousTimeMode
    let r5 := fmu.functions.enterContinuousTimeMode r4.2.2
    let s := { self with instance_ := some r5.2, eventinfo_ := some r4.2.1,
                         lastStatus_ := r3.1 }
    (s.lastStatus_.toFmiStatus, s)
  | _, _, _ => (fmiStatus.fmiError, self)

/-- A lifecycle function table for the examples: the model instance counts the calls
that have reached it. -/
def counter : FMU2LifecycleFunctions Nat where
  instantiate := fun _ _ _ => some 0
  setDebugLogging := fun z _ => (fmi2Status.fmi2OK, z + 1)
  setupExperiment := fun z _ _ _ _ _ => (fmi2Status.fmi2OK, z + 1)
  enterInitializationMode := fun z => (fmi2Status.fmi2OK, z + 1)
  exitInitializationMode := fun z => (fmi2Status.fmi2OK, z + 1)
  newDiscreteStates := fun z info => (fmi2Status.fmi2OK, info, z + 1)
  enterContinuousTimeMode := fun z => (fmi2Status.fmi2OK, z + 1)

/-- A loaded FMU for the examples: two event indicators and a default experiment that
starts at time `5`. -/
def counterFMU : BareFMU2 Nat :=
  { functions := counter,
    description :=
      { numberOfContinuousStates := 1, numberOfEventIndicators := 2,
        hasDefaultExperiment := true, startTime := Double.finite 5,
        stopTime := Double.nan, tolerance := Double.nan, stepSize := Double.nan,
        guid := "" } }

/-- An integrator object as the examples pass it to the constructor. -/
def Integrator.Setup.fresh : Integrator.Setup :=
  { stepper_ := none,
    properties_ := { type := IntegratorType.dp, name := "", order := 0,
                     abstol := Double.nan, reltol := Double.nan } }

/-- An event info with all flags clear. -/
def fmi2EventInfo.clear : fmi2EventInfo :=
  { newDiscreteStatesNeeded := false, terminateSimulation := false,
    nominalsOfContinuousStatesChanged := false, valuesOfContinuousStatesChanged := false,
    nextEventTimeDefined := false, nextEventTime := 0 }

/-! ## The PowerFactory front end -/

/-- The calls of the PowerFactory API wrapper `pf_` that `doStep` makes.  `P` is the state
of the PowerFactory application, `T` the type of the trigger objects; `true` stands for
the return value `pf_->Ok`. -/
structure PowerFactory (P T : Type) where
  setAttributeDouble : P → T → String → fmiReal → Bool × P
  calculatePowerFlow : P → Bool × P
  isPowerFlowValid : P → Bool × P

/-- A message passed to the logger of the front end: status, category, text. -/
abbrev FrontEndMessage := fmiStatus × String × String

/-- The members of a `PowerFactoryFrontEnd` that `doStep` reads or writes, and the
messages it has logged. -/
structure PowerFactoryFrontEnd (P T : Type) where
  pf_ : P
  triggers_ : List (T × fmiReal)
  lastComPoint_ : fmiReal
  logged : List FrontEndMessage

/-- The loop of `doStep` over the triggers: each trigger is set to the scaled time;
`none` as soon as one cannot be set. -/
def PowerFactoryFrontEnd.setTriggers {P T : Type} (api : PowerFactory P T) (time : fmiReal) :
    List (T × fmiReal) → P → Option P
  | [], p => some p
  | trigger :: rest, p =>
    -- The trigger value will be set to the current simulation time (scaled).
    let value := time / trigger.2
    let r := api.setAttributeDouble p trigger.1 "ftrigger" value
    if r.1 then PowerFactoryFrontEnd.setTriggers api time rest r.2
    else none

/-- `PowerFactoryFrontEnd::doStep( comPoint, stepSize, newStep )`.  (For the PowerFactory
state behind a trigger that could not be set, the state before the loop is kept: the
call is fatal.) -/
def PowerFactoryFrontEnd.doStep {P T : Type} (api : PowerFactory P T)
    (comPoint stepSize : fmiReal) (self : PowerFactoryFrontEnd P T) :
    fmiStatus × PowerFactoryFrontEnd P T :=
  -- Sanity check for step size.
  if stepSize < 0 then
    (fmiStatus.fmiDiscard,
     { self with logged := self.logged ++
        [(fmiStatus.fmiDiscard, "DISCARD", "step size has to be greater equal zero")] })
  -- Sanity check for the current communication point.
  else if |comPoint - self.lastComPoint_| > 1 / 1000000000 then
    (fmiStatus.fmiDiscard,
     { self with logged := self.logged ++
        [(fmiStatus.fmiDiscard, "DISCARD", "wrong communication point")] })
  else
    -- The internal simulation time is set to the communication point plus the step size.
    let time := comPoint + stepSize
    match PowerFactoryFrontEnd.setTriggers api time self.triggers_ self.pf_ with
    | none =>
      (fmiStatus.fmiFatal,
       { self with logged := self.logged ++
          [(fmiStatus.fmiFatal, "ABORT", "could not set trigger value")] })
    | some p1 =>
      -- Set the current simulation time as the next communication point.
      let s1 := { self with pf_ := p1, lastComPoint_ := time }
      -- Make a power flow calculation (triggers calculation of "flexible data").
      let c := api.calculatePowerFlow s1.pf_
      if !c.1 then
        (fmiStatus.fmiFatal,
         { s1 with pf_ := c.2, logged := s1.logged ++
            [(fmiStatus.fmiFatal, "ABORT", "power flow calculation failed")] })
      else
        -- Check if power flow is valid.
        let v := api.isPowerFlowValid c.2
        if !v.1 then
          (fmiStatus.fmiDiscard,
           { s1 with pf_ := v.2, logged := s1.logged ++
              [(fmiStatus.fmiDiscard, "DISCARD", "power flow calculation not valid")] })
        else (fmiStatus.fmiOK, { s1 with pf_ := v.2 })

/-- A PowerFactory application for the examples: its state is the value of the trigger;
every call succeeds, and the power flow is valid while the trigger value is at most
`1/2`. -/
def grid : PowerFactory fmiReal Unit where
  setAttributeDouble := fun _ _ _ value => (true, value)
  calculatePowerFlow := fun p => (true, p)
  isPowerFlowValid := fun p => (decide (p ≤ 1 / 2), p)

/-- A front end on `grid` with one trigger of scale `1`, at the communication point
`0`. -/
def gridFrontEnd : PowerFactoryFrontEnd fmiReal Unit :=
  { pf_ := 0, triggers_ := [((), 1)], lastComPoint_ := 0, logged := [] }

/-! ## The back end of an FMI component -/

/-- A `ScalarVariable<Type>` in the shared memory: its name, its causality and its
value.  `value_` stands for the address `&value_` that the back end stores. -/
structure ScalarVariable (C P : Type) where
  name_ : String
  causality_ : C
  value_ : P

/-- The map `scalarMap` of `initializeVariables` behind its filling loop,
`scalarMap[ name ] = scalar` for the retrieved scalars in order: a later scalar replaces
an earlier one of the same name. -/
def FMIComponentBackEnd.scalarMap {C P : Type} :
    List (ScalarVariable C P) → String → Option (ScalarVariable C P)
  | [], _ => none
  | s :: rest, name =>
    match FMIComponentBackEnd.scalarMap rest name with
    | some later => some later
    | none => if s.name_ = name then some s else none

/-- The loop of `initializeVariables` through the requested names: `result` and
`variablePointers` as they are behind the loop, and the messages logged. -/
def FMIComponentBackEnd.storePointers {C P : Type} [DecidableEq C]
    (find : String → Option (ScalarVariable C P)) (causality : C) (describe : C → String) :
    List String → fmiStatus → List P → List FrontEndMessage →
      fmiStatus × List P × List FrontEndMessage
  | [], result, variablePointers, logged => (result, variablePointers, logged)
  | name :: rest, result, variablePointers, logged =>
    -- Search for name in map.
    match find name with
    | none =>
      -- break
      (fmiStatus.fmiFatal, variablePointers,
       logged ++ [(fmiStatus.fmiFatal, "ABORT", "scalar variable not found: " ++ name)])
    | some s =>
      if causality ≠ s.causality_ then
        FMIComponentBackEnd.storePointers find causality describe rest fmiStatus.fmiWarning
          (variablePointers ++ [s.value_])
          (logged ++ [(fmiStatus.fmiFatal, "ABORT",
            "scalar variable '" ++ name ++ "' has wrong causality: "
              ++ describe s.causality_ ++ " instead of " ++ describe causality)])
      else
        FMIComponentBackEnd.storePointers find causality describe rest result
          (variablePointers ++ [s.value_]) logged

/-- `FMIComponentBackEnd::initializeVariables`.  `variablePointers` is the vector passed
by reference, `scalars` what `ipcSlave_->retrieveScalars( scalarCollection, scalars )`
hands back, `describe` the output operator of the causality. -/
def FMIComponentBackEnd.initializeVariables {C P : Type} [DecidableEq C]
    (describe : C → String) (variablePointers : List P) (scalars : List (ScalarVariable C P))
    (scalarNames : List String) (causality : C) :
    fmiStatus × List P × List FrontEndMessage :=
  -- Clear the vector.
  let cleared : List P × List FrontEndMessage :=
    if !variablePointers.isEmpty then
      ([], [(fmiStatus.fmiWarning, "WARNING",
        "previous elements of input vector have been erased")])
    else (variablePointers, [])
  FMIComponentBackEnd.storePointers (FMIComponentBackEnd.scalarMap scalars) causality
    describe scalarNames fmiStatus.fmiOK cleared.1 cleared.2

/-! # Verification -/

/-! ## The event-search loop -/

/-- One pass of the event search keeps the flags, halves the width of the horizon and
moves exactly one end point to the midpoint. -/
theorem Integrator.searchStep_spec {S M : Type} (ds : DynamicalSystem M)
    (st : IntegratorStepper S M) (self : Integrator S) (fmu : M) (r : Integrator S × M)
    (h : Integrator.searchStep ds st self fmu = some r) :
    r.1.eventInfo_.stateEvent = self.eventInfo_.stateEvent ∧
    r.1.eventInfo_.stepEvent = self.eventInfo_.stepEvent ∧
    r.1.time_ = self.time_ ∧
    r.1.eventInfo_.tUpper - r.1.eventInfo_.tLower
      = (self.eventInfo_.tUpper - self.eventInfo_.tLower) / 2 ∧
    ((r.1.eventInfo_.tLower = (self.eventInfo_.tUpper + self.eventInfo_.tLower) / 2 ∧
        r.1.eventInfo_.tUpper = self.eventInfo_.tUpper) ∨
     (r.1.eventInfo_.tLower = self.eventInfo_.tLower ∧
        r.1.eventInfo_.tUpper = (self.eventInfo_.tUpper + self.eventInfo_.tLower) / 2)) := by
  unfold Integrator.searchStep at h
  cases hc : st.do_step_const self.states_ self.eventInfo_.tLower
      ((self.eventInfo_.tUpper - self.eventInfo_.tLower) / 2) self.stepper_ fmu with
  | none => simp [hc] at h
  | some c =>
    simp only [hc] at h
    split at h
    · cases h
      refine ⟨rfl, rfl, rfl, ?_, Or.inl ⟨rfl, rfl⟩⟩
      simp only
      ring
    · cases h
      refine ⟨rfl, rfl, rfl, ?_, Or.inr ⟨rfl, rfl⟩⟩
      simp only
      ring

/-- When the event search returns, the horizon is at most half the search precision
wide. -/
theorem Integrator.search_width {S M : Type} (ds : DynamicalSystem M)
    (st : IntegratorStepper S M) (eps : fmiTime) :
    ∀ (fuel : Nat) (self : Integrator S) (fmu : M) (q : Integrator S × M),
      Integrator.search ds st eps fuel self fmu = some q →
      q.1.eventInfo_.tUpper - q.1.eventInfo_.tLower ≤ eps / 2 := by
  intro fuel
  induction fuel with
  | zero =>
    intro self fmu q h
    unfold Integrator.search at h
    split at h
    · simp at h
    · rename_i hn
      cases h
      exact not_lt.mp hn
  | succ n ih =>
    intro self fmu q h
    unfold Integrator.search at h
    split at h
    · simp only at h
      cases hs : Integrator.searchStep ds st self fmu with
      | none => simp [hs] at h
      | some r =>
        simp only [hs] at h
        exact ih _ _ _ h
    · rename_i hn
      cases h
      exact not_lt.mp hn

/-- The event search keeps the flags and the integrator's `time_`. -/
theorem Integrator.search_flags {S M : Type} (ds : DynamicalSystem M)
    (st : IntegratorStepper S M) (eps : fmiTime) :
    ∀ (fuel : Nat) (self : Integrator S) (fmu : M) (q : Integrator S × M),
      Integrator.search ds st eps fuel self fmu = some q →
      q.1.eventInfo_.stateEvent = self.eventInfo_.stateEvent ∧
      q.1.eventInfo_.stepEvent = self.eventInfo_.stepEvent ∧
      q.1.time_ = self.time_ := by
  intro fuel
  induction fuel with
  | zero =>
    intro self fmu q h
    unfold Integrator.search at h
    split at h
    · simp at h
    · cases h
      exact ⟨rfl, rfl, rfl⟩
  | succ n ih =>
    intro self fmu q h
    unfold Integrator.search at h
    split at h
    · simp only at h
      cases hs : Integrator.searchStep ds st self fmu with
      | none => simp [hs] at h
      | some r =>
        simp only [hs] at h
        obtain ⟨h1, h2, h3⟩ := ih _ _ _ h
        obtain ⟨g1, g2, g3, -, -⟩ := Integrator.searchStep_spec ds st self fmu r hs
        exact ⟨h1.trans g1, h2.trans g2, h3.trans g3⟩
    · cases h
      exact ⟨rfl, rfl, rfl⟩

/-- With a `do_step_const` that returns, the event search terminates once the width of
the horizon is at most `2 ^ n` times half the precision: any fuel from `n` on is
enough. -/
theorem Integrator.search_terminates {S M : Type} (ds : DynamicalSystem M)
    (st : IntegratorStepper S M) (eps : fmiTime)
    (hconst : ∀ x t h s m, (st.do_step_const x t h s m).isSome = true) :
    ∀ (n : Nat) (self : Integrator S) (fmu : M),
      self.eventInfo_.tUpper - self.eventInfo_.tLower ≤ 2 ^ n * (eps / 2) →
      ∀ fuel, n ≤ fuel → (Integrator.search ds st eps fuel self fmu).isSome = true := by
  intro n
  induction n with
  | zero =>
    intro self fmu hw fuel _
    unfold Integrator.search
    have : ¬ (self.eventInfo_.tUpper - self.eventInfo_.tLower > eps / 2) := by
      simpa using hw
    simp [this]
  | succ n ih =>
    intro self fmu hw fuel hfuel
    unfold Integrator.search
    split
    · obtain ⟨k, rfl⟩ : ∃ k, fuel = k + 1 := ⟨fuel - 1, by omega⟩
      simp only
      have hs : (Integrator.searchStep ds st self fmu).isSome = true := by
        unfold Integrator.searchStep
        have := hconst self.states_ self.eventInfo_.tLower
          ((self.eventInfo_.tUpper - self.eventInfo_.tLower) / 2) self.stepper_ fmu
        obtain ⟨c, hc⟩ := Option.isSome_iff_exists.mp this
        simp only [hc]
        split <;> rfl
      obtain ⟨r, hr⟩ := Option.isSome_iff_exists.mp hs
      simp only [hr]
      apply ih _ _ _ k (by omega)
      obtain ⟨-, -, -, hwid, -⟩ := Integrator.searchStep_spec ds st self fmu r hr
      rw [hwid]
      have : (2 : ℚ) ^ (n + 1) = 2 * 2 ^ n := by ring
      rw [this] at hw
      linarith
    · rfl

/-! ## The paths through `Integrator::integrate` -/

/-- The four ways in which `Integrator::integrate` returns: (1) the stepper saw no state
event; (2) clamped path, no event at the integration end; (3) clamped path, event
search; (4) event search on the stepper's own horizon. -/
theorem Integrator.integrate_cases {S M : Type} (ds : DynamicalSystem M)
    (st : IntegratorStepper S M) (fuel : Nat) (step_size dt eps : fmiTime)
    (self : Integrator S) (fmu : M) (r : IntegrateResult S M)
    (h : Integrator.integrate ds st fuel step_size dt eps self fmu = some r) :
    ∃ inv, st.invokeMethod self.eventInfo_ (ds.getContinuousStates fmu).1 (ds.getTime fmu)
        step_size dt eps self.stepper_ (ds.getContinuousStates fmu).2 = some inv ∧
      ((inv.eventInfo.stateEvent = false ∧
          r = { ret := inv.eventInfo, self := Integrator.afterInvoke ds fmu inv,
                fmu := inv.fmu }) ∨
       (inv.eventInfo.stateEvent = true ∧ inv.eventInfo.tUpper > ds.getTime fmu + step_size ∧
          ∃ c, st.do_step_const inv.states (ds.getTime inv.fmu)
              (ds.getTime fmu + step_size - ds.getTime inv.fmu) inv.stepper inv.fmu = some c ∧
            (((ds.checkStateEvent (Integrator.clampedModel ds fmu step_size c)).1 = false ∧
                r = { ret := { inv.eventInfo with stateEvent := false },
                      self := { Integrator.afterInvoke ds fmu inv with
                                  stepper_ := c.stepper, states_ := c.states,
                                  eventInfo_ := { inv.eventInfo with stateEvent := false } },
                      fmu := (ds.checkStateEvent
                        (Integrator.clampedModel ds fmu step_size c)).2 }) ∨
             ((ds.checkStateEvent (Integrator.clampedModel ds fmu step_size c)).1 = true ∧
                ∃ q, Integrator.search ds st eps fuel
                    (Integrator.afterClamp ds fmu step_size inv c)
                    (ds.checkStateEvent (Integrator.clampedModel ds fmu step_size c)).2
                      = some q ∧
                  r = Integrator.conclude eps q))) ∨
       (inv.eventInfo.stateEvent = true ∧
          ¬ inv.eventInfo.tUpper > ds.getTime fmu + step_size ∧
          ∃ q, Integrator.search ds st eps fuel (Integrator.afterInvoke ds fmu inv) inv.fmu
              = some q ∧
            r = Integrator.conclude eps q)) := by
  unfold Integrator.integrate at h
  simp only at h
  split at h
  · cases h
  · rename_i inv hinv
    refine ⟨inv, hinv, ?_⟩
    split at h
    · rename_i hse
      left
      cases h
      exact ⟨by simpa using hse, rfl⟩
    · rename_i hse
      right
      have hse' : inv.eventInfo.stateEvent = true := by simpa using hse
      split at h
      · rename_i hup
        left
        refine ⟨hse', hup, ?_⟩
        split at h
        · cases h
        · rename_i c hc
          refine ⟨c, hc, ?_⟩
          split at h
          · rename_i hev
            left
            cases h
            exact ⟨by simpa using hev, rfl⟩
          · rename_i hev
            right
            split at h
            · cases h
            · rename_i q hq
              cases h
              exact ⟨by simpa using hev, q, hq, rfl⟩
      · rename_i hup
        right
        refine ⟨hse', hup, ?_⟩
        split at h
        · cases h
        · rename_i q hq
          cases h
          exact ⟨q, hq, rfl⟩

/-! ## C1: width of the returned event horizon -/

/-- C1, as stated, fails: a call in which the stepper reports a state event (here with
`tLower = 0 ≤ tUpper = 2`) can return a horizon wider than `3ε/4`.  The model is
`dx/dt = 1` with the event at `x = 3/2`, integrated from `t = 0` over `span = 1` with
`ε = 1` by the Dormand-Prince wrapper whose first substep reaches `t = 2`.  The stepper
reports the event in `[0, 2]`; `integrate` clamps to `t = 1`, finds no event there and
returns `stateEvent = false` with the horizon `[0, 2]` unchanged, which is also what
`getEventHorizon` reads back. -/
theorem integrate_horizon_wide_without_event_at_end :
    (DormandPrince.invokeMethod (ramp (3/2)) (linearDense (ramp (3/2))) 10
        (Integrator.fresh LinearDense.fresh).eventInfo_ [0] 0 1 2 1 LinearDense.fresh
        (rampStart (3/2))).map
      (fun a => (a.eventInfo.stateEvent, a.eventInfo.tLower, a.eventInfo.tUpper))
      = some (true, 0, 2) ∧
    (Integrator.integrate (ramp (3/2)) (DormandPrince (ramp (3/2)) (linearDense (ramp (3/2))) 10)
        10 1 2 1 (Integrator.fresh LinearDense.fresh) (rampStart (3/2))).map
      (fun r => (r.ret.stateEvent, r.ret.tLower, r.ret.tUpper,
        Integrator.getEventHorizon r.self))
      = some (false, 0, 2, (0, 2)) ∧
    ¬ ((2 : fmiTime) - 0 ≤ 3 * 1 / 4) := by
  refine ⟨?_, ?_, by norm_num⟩
  · norm_num [DormandPrince.invokeMethod, DormandPrince.loop, DormandPrince.iteration,
      linearDense, ramp, Plant.system, euler_do_step, system_wrapper, signChange,
      Integrator.fresh, LinearDense.fresh, rampStart]
  · norm_num [Integrator.integrate, DormandPrince, DormandPrince.invokeMethod,
      DormandPrince.loop, DormandPrince.iteration, DormandPrince.do_step_const,
      linearDense, ramp, Plant.system, euler_do_step, system_wrapper, signChange,
      Integrator.getEventHorizon, Integrator.fresh, LinearDense.fresh, rampStart]

/-- C1 (amended): for every stepper, model and call of `Integrator::integrate` with
search precision `ε > 0` that returns `stateEvent = true`, the returned horizon satisfies
`tUpper − tLower ≤ ε/2 + ε/8 = 5ε/8 < 3ε/4`, and `getEventHorizon` reads back that same
horizon.  Moreover such a call does return: if `invokeMethod` returns and `do_step_const`
always returns, every fuel from some bound on lets `integrate` return. -/
theorem integrate_event_horizon_width {S M : Type} (ds : DynamicalSystem M)
    (st : IntegratorStepper S M) (step_size dt eps : fmiTime) (self : Integrator S) (fmu : M)
    (heps : 0 < eps) :
    (∀ fuel r, Integrator.integrate ds st fuel step_size dt eps self fmu = some r →
        r.ret.stateEvent = true →
        r.ret.tUpper - r.ret.tLower ≤ eps / 2 + eps / 8 ∧
        eps / 2 + eps / 8 = 5 * eps / 8 ∧
        r.ret.tUpper - r.ret.tLower < 3 * eps / 4 ∧
        Integrator.getEventHorizon r.self = (r.ret.tLower, r.ret.tUpper)) ∧
    ((∀ x t h s m, (st.do_step_const x t h s m).isSome = true) →
      (st.invokeMethod self.eventInfo_ (ds.getContinuousStates fmu).1 (ds.getTime fmu)
        step_size dt eps self.stepper_ (ds.getContinuousStates fmu).2).isSome = true →
      ∃ N, ∀ fuel, N ≤ fuel →
        (Integrator.integrate ds st fuel step_size dt eps self fmu).isSome = true) := by
  constructor
  · intro fuel r h hse
    have key : ∀ q : Integrator S × M,
        q.1.eventInfo_.tUpper - q.1.eventInfo_.tLower ≤ eps / 2 →
        r = Integrator.conclude eps q →
        r.ret.tUpper - r.ret.tLower ≤ eps / 2 + eps / 8 ∧
        eps / 2 + eps / 8 = 5 * eps / 8 ∧
        r.ret.tUpper - r.ret.tLower < 3 * eps / 4 ∧
        Integrator.getEventHorizon r.self = (r.ret.tLower, r.ret.tUpper) := by
      intro q hq hr
      subst hr
      refine ⟨?_, by ring, ?_, rfl⟩
      · simp only [Integrator.conclude]
        linarith
      · simp only [Integrator.conclude]
        linarith
    obtain ⟨inv, -, hcase⟩ := Integrator.integrate_cases ds st fuel step_size dt eps self fmu r h
    rcases hcase with ⟨hno, hr⟩ | ⟨-, -, c, -, ⟨-, hr⟩ | ⟨-, q, hq, hr⟩⟩ | ⟨-, -, q, hq, hr⟩
    · subst hr
      simp only at hse
      rw [hno] at hse
      cases hse
    · subst hr
      simp at hse
    · exact key q (Integrator.search_width ds st eps fuel _ _ q hq) hr
    · exact key q (Integrator.search_width ds st eps fuel _ _ q hq) hr
  · intro hconst hinv
    obtain ⟨inv, hinv⟩ := Option.isSome_iff_exists.mp hinv
    -- a bound for the width of any horizon the search can start from
    have hbound : ∀ w : fmiTime, ∃ n : Nat, w ≤ 2 ^ n * (eps / 2) := by
      intro w
      obtain ⟨n, hn⟩ := pow_unbounded_of_one_lt (w / (eps / 2)) (by norm_num : (1 : ℚ) < 2)
      refine ⟨n, ?_⟩
      have hpos : (0 : ℚ) < eps / 2 := by linarith
      have := (div_lt_iff₀ hpos).mp hn
      linarith
    obtain ⟨n1, hn1⟩ := hbound (inv.eventInfo.tUpper - inv.eventInfo.tLower)
    obtain ⟨n2, hn2⟩ := hbound (ds.getTime fmu + step_size - inv.eventInfo.tLower)
    refine ⟨max n1 n2, ?_⟩
    intro fuel hfuel
    unfold Integrator.integrate
    simp only [hinv]
    split
    · rfl
    · split
      · obtain ⟨c, hc⟩ := Option.isSome_iff_exists.mp (hconst inv.states (ds.getTime inv.fmu)
          (ds.getTime fmu + step_size - ds.getTime inv.fmu) inv.stepper inv.fmu)
        simp only [hc]
        split
        · rfl
        · have := Integrator.search_terminates ds st eps hconst n2
            (Integrator.afterClamp ds fmu step_size inv c)
            (ds.checkStateEvent (Integrator.clampedModel ds fmu step_size c)).2
            (by simpa [Integrator.afterClamp] using hn2) fuel
            (le_trans (le_max_right _ _) hfuel)
          obtain ⟨q, hq⟩ := Option.isSome_iff_exists.mp this
          simp only [Integrator.afterClamp, Integrator.clampedModel] at hq
          split
          · rename_i hnone
            rw [hq] at hnone
            cases hnone
          · rfl
      · have := Integrator.search_terminates ds st eps hconst n1
          (Integrator.afterInvoke ds fmu inv) inv.fmu
          (by simpa [Integrator.afterInvoke] using hn1) fuel
          (le_trans (le_max_left _ _) hfuel)
        obtain ⟨q, hq⟩ := Option.isSome_iff_exists.mp this
        simp only [Integrator.afterInvoke] at hq
        split
        · rename_i hnone
          rw [hq] at hnone
          cases hnone
        · rfl

/-- Witness for C1 (amended): the ramp with the event at `x = 1/2`, integrated from `0`
over `span = 1` with `ε = 1`.  The call returns the state event with the horizon
`[1/2, 9/8]`, of width `5/8`. -/
theorem integrate_event_horizon_width_witness :
    (0 : fmiTime) < 1 ∧
    (Integrator.integrate (ramp (1/2)) (rampDormandPrince (1/2)) 10 1 2 1
        (Integrator.fresh LinearDense.fresh) (rampStart (1/2))).map
      (fun r => (r.ret.stateEvent, r.ret.tLower, r.ret.tUpper)) = some (true, 1/2, 9/8) ∧
    (∀ r, Integrator.integrate (ramp (1/2)) (rampDormandPrince (1/2)) 10 1 2 1
        (Integrator.fresh LinearDense.fresh) (rampStart (1/2)) = some r →
      r.ret.stateEvent = true →
      r.ret.tUpper - r.ret.tLower ≤ 1 / 2 + 1 / 8 ∧
      (1 : fmiTime) / 2 + 1 / 8 = 5 * 1 / 8 ∧
      r.ret.tUpper - r.ret.tLower < 3 * 1 / 4 ∧
      Integrator.getEventHorizon r.self = (r.ret.tLower, r.ret.tUpper)) :=
  ⟨by norm_num,
   by norm_num [Integrator.integrate, rampDormandPrince, DormandPrince,
      DormandPrince.invokeMethod, DormandPrince.loop, DormandPrince.iteration,
      DormandPrince.do_step_const, DormandPrince.reset, linearDense, ramp, Plant.system,
      euler_do_step, system_wrapper, signChange, Integrator.search, Integrator.searchStep,
      Integrator.conclude, Integrator.fresh, LinearDense.fresh, rampStart],
   fun r h hs =>
     (integrate_event_horizon_width (ramp (1/2)) (rampDormandPrince (1/2)) 1 2 1
        (Integrator.fresh LinearDense.fresh) (rampStart (1/2)) (by norm_num)).1 10 r h hs⟩

/-! ## C2: the state on return from `integrate` -/

/-- C2 fails on the code for the dense-output steppers; two runs of the Dormand-Prince
wrapper on the model `dx/dt = 1`, `x(0) = 0` (so the state at time `t` is `x = t`).

(a) Event at `x = 5/4`, `span = 2`, step hint `1`, `ε = 1`.  The stepper finds the event
in its second substep and rewinds the model to `(t, x) = (1, 1)`, but leaves the caller's
state vector at the start value `[0]`.  The first event-search step finds the event at
`3/2` and "restores" that stale backup: `integrate` returns `tLower = 1` with the model
time `1` but the model states and its own `states_` equal to `[0]`, the states of time `0`.

(b) Event at `x = 1/2`, `span = 1`, step hint `2`, `ε = 2` (clamped path, no event-search
iteration): `integrate` returns `tLower = 0` with the model left at the clamped end,
time `1` and states `[1]`. -/
theorem integrate_state_not_at_tLower :
    (DormandPrince.invokeMethod (ramp (5/4)) (linearDense (ramp (5/4))) 10
        (Integrator.fresh LinearDense.fresh).eventInfo_ [0] 0 2 1 1 LinearDense.fresh
        (rampStart (5/4))).map
      (fun a => (a.eventInfo.stateEvent, a.eventInfo.tLower, a.eventInfo.tUpper,
        a.fmu.time, a.fmu.x, a.states))
      = some (true, 1, 2, 1, [1], [0]) ∧
    (Integrator.integrate (ramp (5/4)) (rampDormandPrince (5/4)) 10 2 1 1
        (Integrator.fresh LinearDense.fresh) (rampStart (5/4))).map
      (fun r => (r.ret.stateEvent, r.ret.tLower, r.ret.tUpper, r.fmu.time, r.fmu.x,
        r.self.states_))
      = some (true, 1, 13/8, 1, [0], [0]) ∧
    (Integrator.integrate (ramp (1/2)) (rampDormandPrince (1/2)) 10 1 2 2
        (Integrator.fresh LinearDense.fresh) (rampStart (1/2))).map
      (fun r => (r.ret.stateEvent, r.ret.tLower, r.ret.tUpper, r.fmu.time, r.fmu.x,
        r.self.states_))
      = some (true, 0, 5/4, 1, [1], [1]) := by
  refine ⟨?_, ?_, ?_⟩
  · norm_num [DormandPrince.invokeMethod, DormandPrince.loop, DormandPrince.iteration,
      linearDense, ramp, Plant.system, euler_do_step, system_wrapper, signChange,
      Integrator.fresh, LinearDense.fresh, rampStart]
  · norm_num [Integrator.integrate, rampDormandPrince, DormandPrince,
      DormandPrince.invokeMethod, DormandPrince.loop, DormandPrince.iteration,
      DormandPrince.do_step_const, DormandPrince.reset, linearDense, ramp, Plant.system,
      euler_do_step, system_wrapper, signChange, Integrator.search, Integrator.searchStep,
      Integrator.conclude, Integrator.fresh, LinearDense.fresh, rampStart]
  · norm_num [Integrator.integrate, rampDormandPrince, DormandPrince,
      DormandPrince.invokeMethod, DormandPrince.loop, DormandPrince.iteration,
      DormandPrince.do_step_const, DormandPrince.reset, linearDense, ramp, Plant.system,
      euler_do_step, system_wrapper, signChange, Integrator.search, Integrator.searchStep,
      Integrator.conclude, Integrator.fresh, LinearDense.fresh, rampStart]

/-! ## C3: order of the returned horizon -/

/-- C3, as stated, fails for a negative step-size hint.  Model `dx/dt = 1`, `x(0) = 0`,
event indicator `-1/2 - x`; `Euler` stepper; start `t = 0`, `span = 1 > 0`, `ε = 1 > 0`,
hint `dt = -1`.  The only substep goes back to `t = -1`, where the indicator has changed
sign, so the stepper reports `tLower = 0`, `tUpper = -1`; no search step is taken and
`integrate` returns `stateEvent = true` with `tUpper = -1 + 1/8 < tLower = 0`. -/
theorem integrate_horizon_reversed_for_negative_hint :
    (Integrator.integrate (ramp (-1/2)) (rampEuler (-1/2)) 10 1 (-1) 1
        (Integrator.fresh (OdeintObj.fresh ())) (rampStart (-1/2))).map
      (fun r => (r.ret.stateEvent, r.ret.tLower, r.ret.tUpper)) = some (true, 0, -7/8) ∧
    ¬ ((0 : fmiTime) ≤ 0 ∧ (0 : fmiTime) < -7/8) := by
  refine ⟨?_, by norm_num⟩
  norm_num [Integrator.integrate, rampEuler, OdeintStepper.toStepper,
    OdeintStepper.invokeMethod, OdeintStepper.loop, OdeintStepper.iteration,
    OdeintStepper.substep, Euler,
    Euler.do_step, ramp, Plant.system, euler_do_step, system_wrapper, signChange,
    Integrator.search, Integrator.searchStep, Integrator.conclude, Integrator.fresh,
    OdeintObj.fresh, rampStart]

/-- The event search moves the two end points towards each other. -/
theorem Integrator.search_bounds {S M : Type} (ds : DynamicalSystem M)
    (st : IntegratorStepper S M) (eps : fmiTime) :
    ∀ (fuel : Nat) (self : Integrator S) (fmu : M) (q : Integrator S × M),
      Integrator.search ds st eps fuel self fmu = some q →
      self.eventInfo_.tLower ≤ self.eventInfo_.tUpper →
      self.eventInfo_.tLower ≤ q.1.eventInfo_.tLower ∧
      q.1.eventInfo_.tLower ≤ q.1.eventInfo_.tUpper ∧
      q.1.eventInfo_.tUpper ≤ self.eventInfo_.tUpper := by
  intro fuel
  induction fuel with
  | zero =>
    intro self fmu q h hle
    unfold Integrator.search at h
    split at h
    · simp at h
    · cases h
      exact ⟨le_refl _, hle, le_refl _⟩
  | succ n ih =>
    intro self fmu q h hle
    unfold Integrator.search at h
    split at h
    · simp only at h
      cases hs : Integrator.searchStep ds st self fmu with
      | none => simp [hs] at h
      | some r =>
        simp only [hs] at h
        obtain ⟨-, -, -, -, hends⟩ := Integrator.searchStep_spec ds st self fmu r hs
        have hr : self.eventInfo_.tLower ≤ r.1.eventInfo_.tLower ∧
            r.1.eventInfo_.tLower ≤ r.1.eventInfo_.tUpper ∧
            r.1.eventInfo_.tUpper ≤ self.eventInfo_.tUpper := by
          rcases hends with ⟨h1, h2⟩ | ⟨h1, h2⟩
          · rw [h1, h2]
            refine ⟨by linarith, by linarith, le_refl _⟩
          · rw [h1, h2]
            refine ⟨le_refl _, by linarith, by linarith⟩
        obtain ⟨g1, g2, g3⟩ := ih _ _ _ h hr.2.1
        exact ⟨le_trans hr.1 g1, g2, le_trans g3 hr.2.2⟩
    · cases h
      exact ⟨le_refl _, hle, le_refl _⟩

/-- If the stepper's state events come with a horizon that starts at or after the start
time, is not reversed and starts before the integration end, then with `ε > 0` every
state event that `integrate` returns has `t ≤ tLower < tUpper`. -/
theorem Integrator.integrate_ordered {S M : Type} (ds : DynamicalSystem M)
    (st : IntegratorStepper S M) (fuel : Nat) (step_size dt eps : fmiTime)
    (self : Integrator S) (fmu : M) (heps : 0 < eps)
    (hst : ∀ inv, st.invokeMethod self.eventInfo_ (ds.getContinuousStates fmu).1
        (ds.getTime fmu) step_size dt eps self.stepper_ (ds.getContinuousStates fmu).2
          = some inv →
      inv.eventInfo.stateEvent = true →
      ds.getTime fmu ≤ inv.eventInfo.tLower ∧ inv.eventInfo.tLower ≤ inv.eventInfo.tUpper ∧
      inv.eventInfo.tLower ≤ ds.getTime fmu + step_size)
    (r : IntegrateResult S M)
    (h : Integrator.integrate ds st fuel step_size dt eps self fmu = some r)
    (hse : r.ret.stateEvent = true) :
    ds.getTime fmu ≤ r.ret.tLower ∧ r.ret.tLower < r.ret.tUpper := by
  obtain ⟨inv, hinv, hcase⟩ := Integrator.integrate_cases ds st fuel step_size dt eps self fmu r h
  rcases hcase with ⟨hno, hr⟩ | ⟨hev, -, c, -, ⟨-, hr⟩ | ⟨-, q, hq, hr⟩⟩ | ⟨hev, -, q, hq, hr⟩
  · subst hr
    simp only at hse
    rw [hno] at hse
    cases hse
  · subst hr
    simp at hse
  · obtain ⟨h1, h2, h3⟩ := hst inv hinv hev
    obtain ⟨g1, g2, -⟩ := Integrator.search_bounds ds st eps fuel _ _ q hq
      (by simpa [Integrator.afterClamp] using h3)
    subst hr
    simp only [Integrator.conclude]
    simp only [Integrator.afterClamp] at g1
    constructor
    · linarith
    · linarith
  · obtain ⟨h1, h2, h3⟩ := hst inv hinv hev
    obtain ⟨g1, g2, -⟩ := Integrator.search_bounds ds st eps fuel _ _ q hq
      (by simpa [Integrator.afterInvoke] using h2)
    subst hr
    simp only [Integrator.conclude]
    simp only [Integrator.afterInvoke] at g1
    constructor
    · linarith
    · linarith

/-! ## The passes of `OdeintStepper::invokeMethod` -/

/-- The three ways in which a pass through the loop of `OdeintStepper::invokeMethod`
ends: state event (rewind and return), step event (return), or go round again. -/
theorem OdeintStepper.iteration_cases {W M : Type} (ds : DynamicalSystem M)
    (st : OdeintStepper W M) (time step_size : fmiTime) (s : InvokeState W M)
    (out : Iter (InvokeState W M) (InvokeResult (OdeintObj W) M))
    (h : OdeintStepper.iteration ds st time step_size s = some out) :
    ∃ v stop, OdeintStepper.substep st time step_size s = some (v, stop) ∧
      (((ds.checkStateEvent (OdeintStepper.written ds v)).1 = true ∧
          out = Iter.done
            { eventInfo := { stateEvent := true, stepEvent := false,
                             tLower := s.currentTime, tUpper := v.currentTime },
              states := s.states,
              stepper := ⟨s.states, s.currentTime, v.stepper⟩,
              fmu := ds.setContinuousStates s.states
                (ds.setTime s.currentTime (ds.checkStateEvent (OdeintStepper.written ds v)).2) }) ∨
       ((ds.checkStateEvent (OdeintStepper.written ds v)).1 = false ∧
          (ds.checkStepEvent (ds.checkStateEvent (OdeintStepper.written ds v)).2).1 = true ∧
          out = Iter.done
            { eventInfo := { s.eventInfo with stepEvent := true, stateEvent := false },
              states := v.states,
              stepper := ⟨s.states, s.currentTime, v.stepper⟩,
              fmu := (ds.checkStepEvent
                (ds.checkStateEvent (OdeintStepper.written ds v)).2).2 }) ∨
       ((ds.checkStateEvent (OdeintStepper.written ds v)).1 = false ∧
          (ds.checkStepEvent (ds.checkStateEvent (OdeintStepper.written ds v)).2).1 = false ∧
          out = Iter.next
            { eventInfo := s.eventInfo, states := v.states, currentTime := v.currentTime,
              dt := v.dt, stop := stop,
              obj := ⟨s.states, s.currentTime, v.stepper⟩,
              fmu := (ds.checkStepEvent
                (ds.checkStateEvent (OdeintStepper.written ds v)).2).2 })) := by
  unfold OdeintStepper.iteration at h
  simp only at h
  split at h
  · cases h
  · rename_i v stop hsub
    refine ⟨v, stop, hsub, ?_⟩
    split at h
    · rename_i hev
      left
      cases h
      exact ⟨hev, rfl⟩
    · rename_i hev
      right
      split at h
      · rename_i hse
        left
        cases h
        exact ⟨by simpa using hev, hse, rfl⟩
      · rename_i hse
        right
        cases h
        exact ⟨by simpa using hev, by simpa using hse, rfl⟩

/-- With a forward-stepping subclass, a substep entered under the loop condition with a
positive step size moves the time forward and, unless it was the forced last step,
leaves a positive step size. -/
theorem OdeintStepper.substep_forward {W M : Type} (st : OdeintStepper W M)
    (hf : st.Forward) (time step_size : fmiTime) (s : InvokeState W M)
    (v : StepVars W M) (stop : Bool)
    (h : OdeintStepper.substep st time step_size s = some (v, stop))
    (hcond : s.currentTime < time + step_size ∧ s.stop = false)
    (hdt : s.stop = false → 0 < s.dt) :
    s.currentTime < v.currentTime ∧ (stop = false → 0 < v.dt) := by
  unfold OdeintStepper.substep at h
  split at h
  · split at h
    · cases h
    · rename_i v0 hv0
      cases h
      have := hf.do_step_const _ _ hv0 (by simp only; linarith [hcond.1])
      exact ⟨this, by simp⟩
  · split at h
    · cases h
    · rename_i v0 hv0
      cases h
      have := hf.do_step _ _ hv0 (hdt hcond.2)
      exact ⟨this.1, fun _ => this.2⟩

/-- With a forward-stepping subclass and a positive step-size hint, a state event
reported by the loop of `OdeintStepper::invokeMethod` has a horizon that starts at or
after the start time and before the integration end and is not reversed. -/
theorem OdeintStepper.loop_event_horizon {W M : Type} (ds : DynamicalSystem M)
    (st : OdeintStepper W M) (hf : st.Forward) (time step_size : fmiTime) :
    ∀ (fuel : Nat) (s : InvokeState W M) (r : InvokeResult (OdeintObj W) M),
      OdeintStepper.loop ds st time step_size fuel s = some r →
      time ≤ s.currentTime → (s.stop = false → 0 < s.dt) →
      r.eventInfo.stateEvent = true →
      time ≤ r.eventInfo.tLower ∧ r.eventInfo.tLower < r.eventInfo.tUpper ∧
      r.eventInfo.tLower < time + step_size := by
  intro fuel
  induction fuel with
  | zero =>
    intro s r h _ _ hse
    unfold OdeintStepper.loop at h
    split at h
    · cases h
    · cases h
      simp at hse
  | succ n ih =>
    intro s r h ht hdt hse
    unfold OdeintStepper.loop at h
    split at h
    · rename_i hcond
      simp only at h
      cases hit : OdeintStepper.iteration ds st time step_size s with
      | none => simp [hit] at h
      | some out =>
        obtain ⟨v, stop, hsub, hcase⟩ :=
          OdeintStepper.iteration_cases ds st time step_size s out hit
        obtain ⟨hfw, hdt'⟩ :=
          OdeintStepper.substep_forward st hf time step_size s v stop hsub hcond hdt
        rcases hcase with ⟨-, hout⟩ | ⟨-, -, hout⟩ | ⟨-, -, hout⟩
        · subst hout
          simp only [hit] at h
          cases h
          exact ⟨ht, hfw, hcond.1⟩
        · subst hout
          simp only [hit] at h
          cases h
          simp at hse
        · subst hout
          simp only [hit] at h
          exact ih _ r h (le_of_lt (lt_of_le_of_lt ht hfw)) hdt' hse
    · cases h
      simp at hse

/-! ## The passes of the dense-output `invokeMethod`s -/

/-- With a forward-stepping odeint stepper, a state event reported by the loop of
`DormandPrince::invokeMethod` has a horizon that starts at or after the start time and
not behind the integration end, and is not reversed. -/
theorem DormandPrince.dp_loop_event_horizon {W M : Type} (ds : DynamicalSystem M)
    (lib : DenseOutput W M) (Inv : W → Prop) (hf : lib.Forward Inv)
    (states : state_type) (time step_size : fmiTime) :
    ∀ (fuel : Nat) (s : DenseState W M) (r : InvokeResult W M),
      DormandPrince.loop ds lib states time step_size fuel s = some r →
      Inv s.stepper → time ≤ lib.current_time s.stepper →
      lib.current_time s.stepper ≤ time + step_size →
      r.eventInfo.stateEvent = true →
      time ≤ r.eventInfo.tLower ∧ r.eventInfo.tLower < r.eventInfo.tUpper ∧
      r.eventInfo.tLower ≤ time + step_size := by
  intro fuel
  induction fuel with
  | zero =>
    intro s r h
    simp [DormandPrince.loop] at h
  | succ n ih =>
    intro s r h hinv ht hlt hse
    obtain ⟨hI, hprev, hcur⟩ := hf.do_step s.stepper s.fmu hinv
    simp only [DormandPrince.loop, DormandPrince.iteration] at h
    split at h
    · rename_i r' hit
      cases h
      split at hit
      · cases hit
        simp only [hprev]
        exact ⟨ht, hcur, hlt⟩
      · split at hit
        · cases hit
        · split at hit
          · cases hit
            simp at hse
          · cases hit
    · rename_i s' hit
      cases h
      simp [DormandPrince.finish] at hse
    · rename_i s' hit
      split at hit
      · cases hit
      · split at hit
        · cases hit
        · rename_i hnb
          split at hit
          · cases hit
          · cases hit
            exact ih _ r h hI (le_of_lt (lt_of_le_of_lt ht hcur)) (le_of_lt (not_le.mp hnb)) hse

/-- The same for the loop of `BulirschStoer::invokeMethod`. -/
theorem BulirschStoer.bs_loop_event_horizon {W M : Type} (ds : DynamicalSystem M)
    (lib : DenseOutput W M) (Inv : W → Prop) (hf : lib.Forward Inv)
    (states : state_type) (time step_size : fmiTime) :
    ∀ (fuel : Nat) (s : DenseState W M) (r : InvokeResult W M),
      BulirschStoer.loop ds lib states time step_size fuel s = some r →
      Inv s.stepper → time ≤ lib.current_time s.stepper →
      lib.current_time s.stepper ≤ time + step_size →
      r.eventInfo.stateEvent = true →
      time ≤ r.eventInfo.tLower ∧ r.eventInfo.tLower < r.eventInfo.tUpper ∧
      r.eventInfo.tLower ≤ time + step_size := by
  intro fuel
  induction fuel with
  | zero =>
    intro s r h
    simp [BulirschStoer.loop] at h
  | succ n ih =>
    intro s r h hinv ht hlt hse
    obtain ⟨hI, hprev, hcur⟩ := hf.do_step s.stepper s.fmu hinv
    simp only [BulirschStoer.loop, BulirschStoer.iteration] at h
    split at h
    · rename_i r' hit
      cases h
      split at hit
      · cases hit
        simp only [hprev]
        exact ⟨ht, hcur, hlt⟩
      · split at hit
        · cases hit
        · split at hit
          · cases hit
            simp at hse
          · cases hit
    · rename_i s' hit
      cases h
      simp [BulirschStoer.finish] at hse
    · rename_i s' hit
      split at hit
      · cases hit
      · split at hit
        · cases hit
        · rename_i hnb
          split at hit
          · cases hit
          · cases hit
            exact ih _ r h hI (le_of_lt (lt_of_le_of_lt ht hcur)) (le_of_lt (not_le.mp hnb)) hse

/-- The same for the loop of `Rosenbrock::invokeMethod`. -/
theorem Rosenbrock.ro_loop_event_horizon {W M : Type} (ds : DynamicalSystem M)
    (lib : DenseOutput W M) (Inv : W → Prop) (hf : lib.Forward Inv)
    (states : state_type) (time step_size : fmiTime) :
    ∀ (fuel : Nat) (s : DenseState (RosenbrockObj W) M)
      (r : InvokeResult (RosenbrockObj W) M),
      Rosenbrock.loop ds lib states time step_size fuel s = some r →
      Inv s.stepper.stepper → time ≤ lib.current_time s.stepper.stepper →
      lib.current_time s.stepper.stepper ≤ time + step_size →
      r.eventInfo.stateEvent = true →
      time ≤ r.eventInfo.tLower ∧ r.eventInfo.tLower < r.eventInfo.tUpper ∧
      r.eventInfo.tLower ≤ time + step_size := by
  intro fuel
  induction fuel with
  | zero =>
    intro s r h
    simp [Rosenbrock.loop] at h
  | succ n ih =>
    intro s r h hinv ht hlt hse
    obtain ⟨hI, hprev, hcur⟩ := hf.do_step s.stepper.stepper s.fmu hinv
    simp only [Rosenbrock.loop, Rosenbrock.iteration] at h
    split at h
    · rename_i r' hit
      cases h
      split at hit
      · cases hit
        simp only [hprev]
        exact ⟨ht, hcur, hlt⟩
      · split at hit
        · cases hit
        · split at hit
          · cases hit
            simp at hse
          · cases hit
    · rename_i s' hit
      cases h
      simp [Rosenbrock.finish] at hse
    · rename_i s' hit
      split at hit
      · cases hit
      · split at hit
        · cases hit
        · rename_i hnb
          split at hit
          · cases hit
          · cases hit
            exact ih _ r h hI (le_of_lt (lt_of_le_of_lt ht hcur)) (le_of_lt (not_le.mp hnb)) hse

/-- C3 (amended): for every call of `Integrator::integrate` started at time `t` with
`span > 0`, `ε > 0` and a positive step-size hint `dt > 0` that returns
`stateEvent = true`, the returned horizon satisfies `t ≤ tLower < tUpper`.  This holds
for each stepper family (the subclasses of `OdeintStepper`, `DormandPrince`,
`BulirschStoer`, `Rosenbrock`) whenever the odeint stepper underneath steps forward. -/
theorem integrate_horizon_ordered (step_size dt eps : fmiTime)
    (hspan : 0 < step_size) (hdt : 0 < dt) (heps : 0 < eps) :
    (∀ {W M : Type} (ds : DynamicalSystem M) (st : OdeintStepper W M), st.Forward →
      ∀ (fuel fuel' : Nat) (self : Integrator (OdeintObj W)) (fmu : M)
        (r : IntegrateResult (OdeintObj W) M),
        Integrator.integrate ds (st.toStepper ds fuel) fuel' step_size dt eps self fmu
          = some r →
        r.ret.stateEvent = true →
        ds.getTime fmu ≤ r.ret.tLower ∧ r.ret.tLower < r.ret.tUpper) ∧
    (∀ {W M : Type} (ds : DynamicalSystem M) (lib : DenseOutput W M) (Inv : W → Prop),
      lib.Forward Inv →
      ∀ (fuel fuel' : Nat) (self : Integrator W) (fmu : M) (r : IntegrateResult W M),
        Integrator.integrate ds (DormandPrince ds lib fuel) fuel' step_size dt eps self fmu
          = some r →
        r.ret.stateEvent = true →
        ds.getTime fmu ≤ r.ret.tLower ∧ r.ret.tLower < r.ret.tUpper) ∧
    (∀ {W M : Type} (ds : DynamicalSystem M) (lib : DenseOutput W M) (Inv : W → Prop),
      lib.Forward Inv →
      ∀ (fuel fuel' : Nat) (self : Integrator W) (fmu : M) (r : IntegrateResult W M),
        Integrator.integrate ds (BulirschStoer ds lib fuel) fuel' step_size dt eps self fmu
          = some r →
        r.ret.stateEvent = true →
        ds.getTime fmu ≤ r.ret.tLower ∧ r.ret.tLower < r.ret.tUpper) ∧
    (∀ {W M : Type} (ds : DynamicalSystem M) (lib : DenseOutput W M) (Inv : W → Prop),
      lib.Forward Inv →
      ∀ (fuel fuel' : Nat) (self : Integrator (RosenbrockObj W)) (fmu : M)
        (r : IntegrateResult (RosenbrockObj W) M),
        Integrator.integrate ds (Rosenbrock ds lib fuel) fuel' step_size dt eps self fmu
          = some r →
        r.ret.stateEvent = true →
        ds.getTime fmu ≤ r.ret.tLower ∧ r.ret.tLower < r.ret.tUpper) := by
  refine ⟨?_, ?_, ?_, ?_⟩
  · intro W M ds st hf fuel fuel' self fmu r h hse
    refine Integrator.integrate_ordered ds _ fuel' step_size dt eps self fmu heps ?_ r h hse
    intro inv hinv hev
    have := OdeintStepper.loop_event_horizon ds st hf (ds.getTime fmu) step_size fuel _ inv
      hinv (le_refl _) (fun _ => hdt) hev
    exact ⟨this.1, le_of_lt this.2.1, le_of_lt this.2.2⟩
  · intro W M ds lib Inv hf fuel fuel' self fmu r h hse
    refine Integrator.integrate_ordered ds _ fuel' step_size dt eps self fmu heps ?_ r h hse
    intro inv hinv hev
    obtain ⟨hI, hcur⟩ := hf.initialise (ds.getContinuousStates fmu).1 (ds.getTime fmu) dt
      self.stepper_ hdt
    have := DormandPrince.dp_loop_event_horizon ds lib Inv hf _ (ds.getTime fmu) step_size
      fuel _ inv hinv hI (by simp only [hcur]; exact le_refl _)
      (by simp only [hcur]; linarith) hev
    exact ⟨this.1, le_of_lt this.2.1, this.2.2⟩
  · intro W M ds lib Inv hf fuel fuel' self fmu r h hse
    refine Integrator.integrate_ordered ds _ fuel' step_size dt eps self fmu heps ?_ r h hse
    intro inv hinv hev
    obtain ⟨hI, hcur⟩ := hf.initialise (ds.getContinuousStates fmu).1 (ds.getTime fmu) dt
      (BulirschStoer.reset lib self.stepper_) hdt
    have := BulirschStoer.bs_loop_event_horizon ds lib Inv hf _ (ds.getTime fmu) step_size
      fuel _ inv hinv hI (by simp only [hcur]; exact le_refl _)
      (by simp only [hcur]; linarith) hev
    exact ⟨this.1, le_of_lt this.2.1, this.2.2⟩
  · intro W M ds lib Inv hf fuel fuel' self fmu r h hse
    refine Integrator.integrate_ordered ds _ fuel' step_size dt eps self fmu heps ?_ r h hse
    intro inv hinv hev
    obtain ⟨hI, hcur⟩ := hf.initialise (ds.getContinuousStates fmu).1 (ds.getTime fmu) dt
      (Rosenbrock.reset self.stepper_).stepper hdt
    have := Rosenbrock.ro_loop_event_horizon ds lib Inv hf _ (ds.getTime fmu) step_size
      fuel _ inv hinv hI (by simp only [hcur]; exact le_refl _)
      (by simp only [hcur]; linarith) hev
    exact ⟨this.1, le_of_lt this.2.1, this.2.2⟩

/-- `Euler` steps forward: it adds `dt` to the time and keeps `dt`. -/
theorem Euler.forward {M : Type} (ds : DynamicalSystem M) : (Euler ds).Forward := by
  constructor
  · intro v v' h hdt
    simp only [Euler, Euler.do_step, Option.some.injEq] at h
    subst h
    simp only
    exact ⟨by linarith, hdt⟩
  · intro v v' h hdt
    simp only [Euler, Euler.do_step, Option.some.injEq] at h
    subst h
    simp only
    linarith

/-- `linearDense` steps forward on the workspaces with a positive step size. -/
theorem linearDense_forward {M : Type} (ds : DynamicalSystem M) :
    (linearDense ds).Forward (fun w => 0 < w.dt) := by
  constructor
  · intro x t dt w hdt
    exact ⟨hdt, rfl⟩
  · intro w m hw
    refine ⟨hw, rfl, ?_⟩
    simp only [linearDense]
    linarith

/-- Witness for C3 (amended): `Euler` on the ramp with the event at `x = 3/4`, from
`t = 0` over `span = 1` with hint `dt = 1/2` and `ε = 1`; the state event comes back with
the horizon `[1/2, 9/8]`. -/
theorem integrate_horizon_ordered_witness :
    (0 : fmiTime) < 1 ∧ (0 : fmiTime) < 1 / 2 ∧
    (Integrator.integrate (ramp (3/4)) (rampEuler (3/4)) 10 1 (1/2) 1
        (Integrator.fresh (OdeintObj.fresh ())) (rampStart (3/4))).map
      (fun r => (r.ret.stateEvent, r.ret.tLower, r.ret.tUpper)) = some (true, 1/2, 9/8) ∧
    (∀ r, Integrator.integrate (ramp (3/4)) (rampEuler (3/4)) 10 1 (1/2) 1
        (Integrator.fresh (OdeintObj.fresh ())) (rampStart (3/4)) = some r →
      r.ret.stateEvent = true →
      (ramp (3/4)).getTime (rampStart (3/4)) ≤ r.ret.tLower ∧ r.ret.tLower < r.ret.tUpper) :=
  ⟨by norm_num, by norm_num,
   by norm_num [Integrator.integrate, rampEuler, OdeintStepper.toStepper,
      OdeintStepper.invokeMethod, OdeintStepper.loop, OdeintStepper.iteration,
      OdeintStepper.substep, Euler, Euler.do_step, ramp, Plant.system, euler_do_step,
      system_wrapper, signChange, Integrator.search, Integrator.searchStep,
      Integrator.conclude, Integrator.fresh, OdeintObj.fresh, rampStart],
   fun r h hs =>
     (integrate_horizon_ordered 1 (1/2) 1 (by norm_num) (by norm_num) (by norm_num)).1
       (ramp (3/4)) (Euler (ramp (3/4))) (Euler.forward _) 10 10
       (Integrator.fresh (OdeintObj.fresh ())) (rampStart (3/4)) r h hs⟩

/-! ## C4: the flags on a state event -/

/-- C4 fails on the code for `Rosenbrock`, whose `invokeMethod` does not clear
`stepEvent` when it detects a state event.

(a) Two consecutive `integrate` calls on the same integrator (model `dx/dt = 1`, event at
`x = 3/2`, event mode requested at `t = 1`): the first call (`span = 2`, hint `1`) ends
with a step event at `t = 1`; the second (`span = 1`) detects the state event in
`[1, 2]` and returns `stateEvent = true` together with the stale `stepEvent = true`.

(b) The same state event detected by `invokeMethod` directly on an `EventInfo` with
`stepEvent = true`: `Rosenbrock` returns both flags set, `DormandPrince` and
`BulirschStoer` return `stepEvent = false`. -/
theorem rosenbrock_state_event_keeps_step_flag :
    ((Integrator.integrate (rampStepEvent (3/2))
          (Rosenbrock (rampStepEvent (3/2)) (linearDense (rampStepEvent (3/2))) 10)
          10 2 1 2 (Integrator.fresh ⟨[], LinearDense.fresh⟩) (rampStart (3/2))).bind
      (fun r1 =>
        (Integrator.integrate (rampStepEvent (3/2))
          (Rosenbrock (rampStepEvent (3/2)) (linearDense (rampStepEvent (3/2))) 10)
          10 1 1 2 r1.self r1.fmu).map
        (fun r2 => (r1.ret.stateEvent, r1.ret.stepEvent, r1.fmu.time,
          r2.ret.stateEvent, r2.ret.stepEvent, r2.ret.tLower, r2.ret.tUpper))))
      = some (false, true, 1, true, true, 1, 9/4) ∧
    (Rosenbrock.invokeMethod (ramp (1/2)) (linearDense (ramp (1/2))) 10
        EventInfo.afterStepEvent [0] 0 1 1 1 ⟨[], LinearDense.fresh⟩ (rampStart (1/2))).map
      (fun a => (a.eventInfo.stateEvent, a.eventInfo.stepEvent)) = some (true, true) ∧
    (DormandPrince.invokeMethod (ramp (1/2)) (linearDense (ramp (1/2))) 10
        EventInfo.afterStepEvent [0] 0 1 1 1 LinearDense.fresh (rampStart (1/2))).map
      (fun a => (a.eventInfo.stateEvent, a.eventInfo.stepEvent)) = some (true, false) ∧
    (BulirschStoer.invokeMethod (ramp (1/2)) (linearDense (ramp (1/2))) 10
        EventInfo.afterStepEvent [0] 0 1 1 1 LinearDense.fresh (rampStart (1/2))).map
      (fun a => (a.eventInfo.stateEvent, a.eventInfo.stepEvent)) = some (true, false) := by
  refine ⟨?_, ?_, ?_, ?_⟩
  · norm_num [Integrator.integrate, Rosenbrock, Rosenbrock.invokeMethod, Rosenbrock.loop,
      Rosenbrock.iteration, Rosenbrock.finish, Rosenbrock.do_step_const, Rosenbrock.reset,
      linearDense, rampStepEvent, Plant.system, euler_do_step, system_wrapper, signChange,
      Integrator.search, Integrator.searchStep, Integrator.conclude, Integrator.fresh,
      LinearDense.fresh, rampStart]
  · norm_num [Rosenbrock.invokeMethod, Rosenbrock.loop, Rosenbrock.iteration,
      Rosenbrock.reset, linearDense, ramp, Plant.system, euler_do_step, system_wrapper,
      signChange, EventInfo.afterStepEvent, LinearDense.fresh, rampStart]
  · norm_num [DormandPrince.invokeMethod, DormandPrince.loop, DormandPrince.iteration,
      linearDense, ramp, Plant.system, euler_do_step, system_wrapper,
      signChange, EventInfo.afterStepEvent, LinearDense.fresh, rampStart]
  · norm_num [BulirschStoer.invokeMethod, BulirschStoer.loop, BulirschStoer.iteration,
      BulirschStoer.reset, linearDense, ramp, Plant.system, euler_do_step, system_wrapper,
      signChange, EventInfo.afterStepEvent, LinearDense.fresh, rampStart]

/-! ## C5 and C6: events in `OdeintStepper::invokeMethod` -/

/-- After `k` passes that went round again, the loop goes on from the state reached. -/
theorem OdeintStepper.loop_after_passes {W M : Type} (ds : DynamicalSystem M)
    (st : OdeintStepper W M) (time step_size : fmiTime) :
    ∀ (k : Nat) (s0 s : InvokeState W M),
      OdeintStepper.passes ds st time step_size k s0 = some s →
      ∀ n, OdeintStepper.loop ds st time step_size (k + n) s0
        = OdeintStepper.loop ds st time step_size n s := by
  intro k
  induction k with
  | zero =>
    intro s0 s h n
    simp only [OdeintStepper.passes, Option.some.injEq] at h
    subst h
    simp
  | succ k ih =>
    intro s0 s h n
    simp only [OdeintStepper.passes] at h
    split at h
    · rename_i hcond
      split at h
      · rename_i s' hit
        have hk : k + 1 + n = (k + n) + 1 := by omega
        rw [hk]
        conv_lhs => unfold OdeintStepper.loop
        simp only [hcond, and_self, if_true, hit]
        exact ih s' s h n
      · cases h
    · cases h

/-- The passes that go round again leave the `EventInfo` record untouched. -/
theorem OdeintStepper.passes_eventInfo {W M : Type} (ds : DynamicalSystem M)
    (st : OdeintStepper W M) (time step_size : fmiTime) :
    ∀ (k : Nat) (s0 s : InvokeState W M),
      OdeintStepper.passes ds st time step_size k s0 = some s →
      s.eventInfo = s0.eventInfo := by
  intro k
  induction k with
  | zero =>
    intro s0 s h
    simp only [OdeintStepper.passes, Option.some.injEq] at h
    subst h
    rfl
  | succ k ih =>
    intro s0 s h
    simp only [OdeintStepper.passes] at h
    split at h
    · split at h
      · rename_i s' hit
        obtain ⟨v, stop, -, hcase⟩ :=
          OdeintStepper.iteration_cases ds st time step_size s0 _ hit
        rcases hcase with ⟨-, hout⟩ | ⟨-, -, hout⟩ | ⟨-, -, hout⟩
        · cases hout
        · cases hout
        · cases hout
          have := ih _ s h
          simpa using this
      · cases h
    · cases h

/-- C5: in `OdeintStepper::invokeMethod`, let the `(k+1)`-th substep take
`(t_k, x_k) = (s.currentTime, s.states)` to `(t_k+1, x_k+1) = (v.currentTime, v.states)`,
and let the model report a state event after it.  Then the method returns right there
(fuel `k + 1` is enough) with the caller's state vector `x_k`, with
`eventInfo = { stateEvent: true, stepEvent: false, tLower: t_k, tUpper: t_k+1 }`, and with
`t_k` and `x_k` as the last two writes to the model (`setTime`, then
`setContinuousStates`). -/
theorem invokeMethod_state_event_rewinds {W M : Type} (ds : DynamicalSystem M)
    (st : OdeintStepper W M) (eventInfo : EventInfo) (states : state_type)
    (time step_size dt eps : fmiTime) (obj : OdeintObj W) (fmu : M)
    (k : Nat) (s : InvokeState W M) (v : StepVars W M) (stop : Bool)
    (hreach : OdeintStepper.passes ds st time step_size k
      ⟨eventInfo, states, time, dt, false, obj, fmu⟩ = some s)
    (hcond : s.currentTime < time + step_size ∧ s.stop = false)
    (hsub : OdeintStepper.substep st time step_size s = some (v, stop))
    (hev : (ds.checkStateEvent (OdeintStepper.written ds v)).1 = true)
    (fuel : Nat) (hfuel : k < fuel) :
    OdeintStepper.invokeMethod ds st fuel eventInfo states time step_size dt eps obj fmu
      = some
        { eventInfo := { stateEvent := true, stepEvent := false,
                         tLower := s.currentTime, tUpper := v.currentTime },
          states := s.states,
          stepper := ⟨s.states, s.currentTime, v.stepper⟩,
          fmu := ds.setContinuousStates s.states
            (ds.setTime s.currentTime (ds.checkStateEvent (OdeintStepper.written ds v)).2) } := by
  obtain ⟨n, rfl⟩ : ∃ n, fuel = k + (n + 1) := ⟨fuel - k - 1, by omega⟩
  unfold OdeintStepper.invokeMethod
  rw [OdeintStepper.loop_after_passes ds st time step_size k _ s hreach (n + 1)]
  unfold OdeintStepper.loop
  simp only [hcond, and_self, if_true]
  simp only [OdeintStepper.iteration, hsub]
  simp only [OdeintStepper.written] at hev
  simp only [hev, if_true, OdeintStepper.written]

/-- C6: in `OdeintStepper::invokeMethod`, let the `(k+1)`-th substep reach
`(v.currentTime, v.states)`, let the model report no state event after it, and let its
`completedIntegratorStep` request event mode (`checkStepEvent` is true).  Then the method
returns right there (fuel `k + 1` is enough) with `stepEvent = true`,
`stateEvent = false` and without rewind: the caller's state vector is the one reached by
the substep, and the last writes to the model are the time and states of the substep. -/
theorem invokeMethod_step_event_no_rewind {W M : Type} (ds : DynamicalSystem M)
    (st : OdeintStepper W M) (eventInfo : EventInfo) (states : state_type)
    (time step_size dt eps : fmiTime) (obj : OdeintObj W) (fmu : M)
    (k : Nat) (s : InvokeState W M) (v : StepVars W M) (stop : Bool)
    (hreach : OdeintStepper.passes ds st time step_size k
      ⟨eventInfo, states, time, dt, false, obj, fmu⟩ = some s)
    (hcond : s.currentTime < time + step_size ∧ s.stop = false)
    (hsub : OdeintStepper.substep st time step_size s = some (v, stop))
    (hev : (ds.checkStateEvent (OdeintStepper.written ds v)).1 = false)
    (hse : (ds.checkStepEvent (ds.checkStateEvent (OdeintStepper.written ds v)).2).1 = true)
    (fuel : Nat) (hfuel : k < fuel) :
    OdeintStepper.invokeMethod ds st fuel eventInfo states time step_size dt eps obj fmu
      = some
        { eventInfo := { eventInfo with stepEvent := true, stateEvent := false },
          states := v.states,
          stepper := ⟨s.states, s.currentTime, v.stepper⟩,
          fmu := (ds.checkStepEvent
            (ds.checkStateEvent
              (ds.setContinuousStates v.states (ds.setTime v.currentTime v.fmu))).2).2 } := by
  obtain ⟨n, rfl⟩ : ∃ n, fuel = k + (n + 1) := ⟨fuel - k - 1, by omega⟩
  have hinfo := OdeintStepper.passes_eventInfo ds st time step_size k _ s hreach
  simp only at hinfo
  unfold OdeintStepper.invokeMethod
  rw [OdeintStepper.loop_after_passes ds st time step_size k _ s hreach (n + 1)]
  unfold OdeintStepper.loop
  simp only [hcond, and_self, if_true]
  simp only [OdeintStepper.iteration, hsub]
  simp only [OdeintStepper.written] at hev hse
  simp only [hev, hse, if_true, hinfo, Bool.false_eq_true, if_false]

/-- Witness for C5: `Euler` on the ramp with the event at `x = 3/4`, from `t = 0` over
`span = 1` with hint `1/2`.  The first substep reaches `(1/2, [1/2])` without event,
the second takes it to `(1, [1])` behind the event; the method returns with the states
`[1/2]`, the horizon `[1/2, 1]` and the model back at `(1/2, [1/2])`. -/
theorem invokeMethod_state_event_rewinds_witness :
    OdeintStepper.invokeMethod (ramp (3/4)) (Euler (ramp (3/4))) 2
        (Integrator.fresh ()).eventInfo_ [0] 0 1 (1/2) 1 (OdeintObj.fresh ())
        (rampStart (3/4))
      = some
        { eventInfo := { stateEvent := true, stepEvent := false, tLower := 1/2, tUpper := 1 },
          states := [1/2],
          stepper := ⟨[1/2], 1/2, ()⟩,
          fmu := { time := 1/2, x := [1/2], pre := [3/4] } } :=
  invokeMethod_state_event_rewinds (ramp (3/4)) (Euler (ramp (3/4)))
    (Integrator.fresh ()).eventInfo_ [0] 0 1 (1/2) 1 (OdeintObj.fresh ()) (rampStart (3/4))
    1
    ⟨(Integrator.fresh ()).eventInfo_, [1/2], 1/2, 1/2, false, ⟨[0], 0, ()⟩,
      { time := 1/2, x := [1/2], pre := [3/4] }⟩
    ⟨(), { time := 1/2, x := [1/2], pre := [3/4] }, [1], 1, 1/2⟩ true
    (by norm_num [OdeintStepper.passes, OdeintStepper.iteration, OdeintStepper.substep,
      Euler, Euler.do_step, ramp, Plant.system, euler_do_step, system_wrapper, signChange,
      Integrator.fresh, OdeintObj.fresh, rampStart])
    (by norm_num)
    (by norm_num [OdeintStepper.substep, Euler, Euler.do_step, ramp, Plant.system,
      euler_do_step, system_wrapper])
    (by norm_num [OdeintStepper.written, ramp, Plant.system, signChange])
    2 (by norm_num)

/-- Witness for C6: `Euler` on the ramp that requests event mode at `t = 1` (event
indicator far away), from `t = 0` over `span = 2` with hint `1`.  The first substep
reaches `(1, [1])` without state event; the step event ends the call there, with the
model and the caller's states at `(1, [1])`. -/
theorem invokeMethod_step_event_no_rewind_witness :
    OdeintStepper.invokeMethod (rampStepEvent 5) (Euler (rampStepEvent 5)) 1
        (Integrator.fresh ()).eventInfo_ [0] 0 2 1 1 (OdeintObj.fresh ()) (rampStart 5)
      = some
        { eventInfo := { stateEvent := false, stepEvent := true, tLower := 0, tUpper := 0 },
          states := [1],
          stepper := ⟨[0], 0, ()⟩,
          fmu := { time := 1, x := [1], pre := [5] } } :=
  invokeMethod_step_event_no_rewind (rampStepEvent 5) (Euler (rampStepEvent 5))
    (Integrator.fresh ()).eventInfo_ [0] 0 2 1 1 (OdeintObj.fresh ()) (rampStart 5)
    0
    ⟨(Integrator.fresh ()).eventInfo_, [0], 0, 1, false, OdeintObj.fresh (), rampStart 5⟩
    ⟨(), { time := 0, x := [0], pre := [5] }, [1], 1, 1⟩ false
    rfl
    (by norm_num)
    (by norm_num [OdeintStepper.substep, Euler, Euler.do_step, rampStepEvent, Plant.system,
      euler_do_step, system_wrapper, rampStart])
    (by norm_num [OdeintStepper.written, rampStepEvent, Plant.system, signChange])
    (by norm_num [OdeintStepper.written, rampStepEvent, Plant.system])
    1 (by norm_num)

/-! ## C7: `invokeMethod` with `span ≤ 0` -/

/-- C7, as stated, fails for the dense-output steppers, which take a substep before they
look at the span.  `DormandPrince::invokeMethod` with `span = 0` on the ramp model
(start `t = 0`, hint `1`):

(a) event far away (`x = 5`), calls to the model recorded: one integrator step to
`t = 1` is taken and nine calls reach the model;

(b) event at `x = 1/2`: the call returns `stateEvent = true` with the horizon `[0, 1]`. -/
theorem densePrince_steps_on_zero_span :
    (DormandPrince.invokeMethod (ramp 5).traced (linearDense (ramp 5).traced) 10
        (Integrator.fresh ()).eventInfo_ [0] 0 0 1 1 LinearDense.fresh (rampStart 5, [])).map
      (fun a => (a.stepper.t_cur, a.fmu.2))
      = some (1, [Call.setTime 0, Call.setContinuousStates [0], Call.getDerivatives,
          Call.setTime 1, Call.setContinuousStates [1], Call.checkStateEvent,
          Call.setTime 0, Call.setContinuousStates [0], Call.checkStepEvent]) ∧
    (DormandPrince.invokeMethod (ramp (1/2)) (linearDense (ramp (1/2))) 10
        (Integrator.fresh ()).eventInfo_ [0] 0 0 1 1 LinearDense.fresh (rampStart (1/2))).map
      (fun a => (a.eventInfo.stateEvent, a.eventInfo.stepEvent, a.eventInfo.tLower,
        a.eventInfo.tUpper))
      = some (true, false, 0, 1) := by
  refine ⟨?_, ?_⟩
  · norm_num [DormandPrince.invokeMethod, DormandPrince.loop, DormandPrince.iteration,
      DormandPrince.finish, DynamicalSystem.traced, linearDense, ramp, Plant.system,
      euler_do_step, system_wrapper, signChange, Integrator.fresh, LinearDense.fresh,
      rampStart]
  · norm_num [DormandPrince.invokeMethod, DormandPrince.loop, DormandPrince.iteration,
      linearDense, ramp, Plant.system, euler_do_step, system_wrapper, signChange,
      Integrator.fresh, LinearDense.fresh, rampStart]

/-- C7 (amended): for every stepper derived from `OdeintStepper`, `invokeMethod` called
with `span ≤ 0` returns immediately (whatever the fuel) with `stateEvent = false` and
`stepEvent = false`; the stepper object, the state vector and the model come back as
they went in, so no integrator step is taken and, the model being arbitrary, no call
reaches it. -/
theorem odeint_invokeMethod_nonpositive_span {W M : Type} (ds : DynamicalSystem M)
    (st : OdeintStepper W M) (fuel : Nat) (eventInfo : EventInfo) (states : state_type)
    (time step_size dt eps : fmiTime) (obj : OdeintObj W) (fmu : M)
    (hspan : step_size ≤ 0) :
    OdeintStepper.invokeMethod ds st fuel eventInfo states time step_size dt eps obj fmu
      = some { eventInfo := { eventInfo with stateEvent := false, stepEvent := false },
               states := states, stepper := obj, fmu := fmu } := by
  unfold OdeintStepper.invokeMethod OdeintStepper.loop
  have : ¬ (time < time + step_size) := by linarith
  simp [this]

/-- Witness for C7 (amended): `Euler` on the ramp model with its calls recorded,
`span = -1`: the call returns with both flags cleared, the states `[0]` and an empty
record of calls. -/
theorem odeint_invokeMethod_nonpositive_span_witness :
    (-1 : fmiTime) ≤ 0 ∧
    OdeintStepper.invokeMethod (ramp 5).traced (Euler (ramp 5).traced) 0
        EventInfo.afterStepEvent [0] 0 (-1) 1 1 (OdeintObj.fresh ()) (rampStart 5, [])
      = some { eventInfo := { stateEvent := false, stepEvent := false,
                              tLower := 0, tUpper := 0 },
               states := [0], stepper := OdeintObj.fresh (), fmu := (rampStart 5, []) } :=
  ⟨by norm_num,
   odeint_invokeMethod_nonpositive_span (ramp 5).traced (Euler (ramp 5).traced) 0
     EventInfo.afterStepEvent [0] 0 (-1) 1 1 (OdeintObj.fresh ()) (rampStart 5, [])
     (by norm_num)⟩

/-! ## C8: the clamped path of `integrate` -/

/-- C8, as stated, fails for a dense-output stepper called with a negative span: the
returned `tLower` can lie behind `t + span`.  Model `dx/dt = 1`, `x(0) = 0` with the
indicators `1/2 - x` and `x + 1/2`; Dormand-Prince wrapper, start `t = 0`, `span = -1`,
hint `1`, `ε = 1`.  The first substep reaches `t = 1` behind the first event, so the
stepper reports `[0, 1]`; `integrate` clamps to `t + span = -1`, where the second
indicator has changed sign, sets `tUpper = -1` and returns the state event with
`tLower = 0 > t + span = -1` (and `tUpper = -1 + 1/8`). -/
theorem integrate_tLower_beyond_end_for_negative_span :
    (Integrator.integrate twoSided (DormandPrince twoSided (linearDense twoSided) 10)
        10 (-1) 1 1 (Integrator.fresh LinearDense.fresh) twoSidedStart).map
      (fun r => (r.ret.stateEvent, r.ret.tLower, r.ret.tUpper)) = some (true, 0, -7/8) ∧
    ¬ ((0 : fmiTime) ≤ twoSided.getTime twoSidedStart + (-1)) := by
  refine ⟨?_, ?_⟩
  · norm_num [Integrator.integrate, DormandPrince, DormandPrince.invokeMethod,
      DormandPrince.loop, DormandPrince.iteration, DormandPrince.do_step_const,
      DormandPrince.reset, linearDense, twoSided, twoSidedStart, Plant.system,
      euler_do_step, system_wrapper, signChange, Integrator.search, Integrator.searchStep,
      Integrator.conclude, Integrator.fresh, LinearDense.fresh]
  · norm_num [twoSided, twoSidedStart, Plant.system]

/-- An event search that starts from a reversed horizon returns it unchanged. -/
theorem Integrator.search_reversed {S M : Type} (ds : DynamicalSystem M)
    (st : IntegratorStepper S M) (eps : fmiTime) :
    ∀ (fuel : Nat) (self : Integrator S) (fmu : M) (q : Integrator S × M),
      Integrator.search ds st eps fuel self fmu = some q →
      self.eventInfo_.tUpper - self.eventInfo_.tLower < 0 →
      q.1.eventInfo_ = self.eventInfo_ := by
  intro fuel
  induction fuel with
  | zero =>
    intro self fmu q h _
    unfold Integrator.search at h
    split at h
    · simp at h
    · cases h
      rfl
  | succ n ih =>
    intro self fmu q h hneg
    unfold Integrator.search at h
    split at h
    · rename_i hcond
      simp only at h
      cases hs : Integrator.searchStep ds st self fmu with
      | none => simp [hs] at h
      | some r =>
        simp only [hs] at h
        obtain ⟨-, -, -, hwid, -⟩ := Integrator.searchStep_spec ds st self fmu r hs
        have hq := ih _ _ _ h (by rw [hwid]; linarith)
        have hw := Integrator.search_width ds st eps n _ _ q h
        rw [hq, hwid] at hw
        exfalso
        linarith
    · cases h
      rfl

/-- The event search either leaves the horizon as it is or, starting from an ordered
horizon, moves the two end points towards each other. -/
theorem Integrator.search_within {S M : Type} (ds : DynamicalSystem M)
    (st : IntegratorStepper S M) (eps : fmiTime) (fuel : Nat) (self : Integrator S)
    (fmu : M) (q : Integrator S × M)
    (h : Integrator.search ds st eps fuel self fmu = some q) :
    q.1.eventInfo_ = self.eventInfo_ ∨
    (self.eventInfo_.tLower ≤ q.1.eventInfo_.tLower ∧
      q.1.eventInfo_.tLower ≤ q.1.eventInfo_.tUpper ∧
      q.1.eventInfo_.tUpper ≤ self.eventInfo_.tUpper) := by
  by_cases hneg : self.eventInfo_.tUpper - self.eventInfo_.tLower < 0
  · exact Or.inl (Integrator.search_reversed ds st eps fuel self fmu q h hneg)
  · exact Or.inr (Integrator.search_bounds ds st eps fuel self fmu q h (by linarith))

/-- Every state event that `integrate` returns has `tUpper ≤ t + span + ε/8`; it has
`tLower ≤ t + span` if the horizon reported by the stepper starts at or before
`t + span`. -/
theorem Integrator.integrate_within {S M : Type} (ds : DynamicalSystem M)
    (st : IntegratorStepper S M) (fuel : Nat) (step_size dt eps : fmiTime)
    (self : Integrator S) (fmu : M) (r : IntegrateResult S M)
    (h : Integrator.integrate ds st fuel step_size dt eps self fmu = some r)
    (hse : r.ret.stateEvent = true) :
    r.ret.tUpper ≤ ds.getTime fmu + step_size + eps / 8 ∧
    ((∀ inv, st.invokeMethod self.eventInfo_ (ds.getContinuousStates fmu).1
        (ds.getTime fmu) step_size dt eps self.stepper_ (ds.getContinuousStates fmu).2
          = some inv →
        inv.eventInfo.stateEvent = true →
        inv.eventInfo.tLower ≤ ds.getTime fmu + step_size) →
      r.ret.tLower ≤ ds.getTime fmu + step_size) := by
  obtain ⟨inv, hinv, hcase⟩ := Integrator.integrate_cases ds st fuel step_size dt eps self fmu r h
  rcases hcase with ⟨hno, hr⟩ | ⟨hev, -, c, -, ⟨-, hr⟩ | ⟨-, q, hq, hr⟩⟩ | ⟨hev, hup, q, hq, hr⟩
  · subst hr
    simp only at hse
    rw [hno] at hse
    cases hse
  · subst hr
    simp at hse
  · have hw := Integrator.search_within ds st eps fuel _ _ q hq
    subst hr
    simp only [Integrator.conclude]
    simp only [Integrator.afterClamp] at hw
    constructor
    · rcases hw with hw | ⟨-, -, hw⟩
      · rw [hw]
      · linarith
    · intro hst
      have := hst inv hinv hev
      rcases hw with hw | ⟨-, h2, h3⟩
      · rw [hw]
        exact this
      · linarith
  · have hw := Integrator.search_within ds st eps fuel _ _ q hq
    subst hr
    simp only [Integrator.conclude]
    simp only [Integrator.afterInvoke] at hw
    have hup' : inv.eventInfo.tUpper ≤ ds.getTime fmu + step_size := not_lt.mp hup
    constructor
    · rcases hw with hw | ⟨-, -, hw⟩
      · rw [hw]
        linarith
      · linarith
    · intro hst
      have := hst inv hinv hev
      rcases hw with hw | ⟨-, h2, h3⟩
      · rw [hw]
        exact this
      · linarith

/-- A state event reported by the loop of `OdeintStepper::invokeMethod` starts before
the integration end, whatever the subclass does. -/
theorem OdeintStepper.loop_tLower_lt {W M : Type} (ds : DynamicalSystem M)
    (st : OdeintStepper W M) (time step_size : fmiTime) :
    ∀ (fuel : Nat) (s : InvokeState W M) (r : InvokeResult (OdeintObj W) M),
      OdeintStepper.loop ds st time step_size fuel s = some r →
      r.eventInfo.stateEvent = true →
      r.eventInfo.tLower < time + step_size := by
  intro fuel
  induction fuel with
  | zero =>
    intro s r h hse
    unfold OdeintStepper.loop at h
    split at h
    · cases h
    · cases h
      simp at hse
  | succ n ih =>
    intro s r h hse
    unfold OdeintStepper.loop at h
    split at h
    · rename_i hcond
      simp only at h
      cases hit : OdeintStepper.iteration ds st time step_size s with
      | none => simp [hit] at h
      | some out =>
        obtain ⟨v, stop, -, hcase⟩ :=
          OdeintStepper.iteration_cases ds st time step_size s out hit
        rcases hcase with ⟨-, hout⟩ | ⟨-, -, hout⟩ | ⟨-, -, hout⟩
        · subst hout
          simp only [hit] at h
          cases h
          exact hcond.1
        · subst hout
          simp only [hit] at h
          cases h
          simp at hse
        · subst hout
          simp only [hit] at h
          exact ih _ r h hse
    · cases h
      simp at hse

/-- C8 (amended).  (1) When the stepper reports a state event whose `tUpper` lies beyond
`t + span`, `integrate` calls `do_step_const` from the model's time with the step that
ends exactly at `t + span`, writes the states and the time `t + span` to the model and
checks for a state event there: if there is none it returns `stateEvent = false` with
the model as left by that write and check, otherwise it runs the event search with
`tUpper = t + span`.  (2) Every state event returned has `tUpper ≤ t + span + ε/8`.
(3) It has `tLower ≤ t + span` for every stepper derived from `OdeintStepper`, and for
the dense-output steppers when `span ≥ 0` and the odeint stepper steps forward. -/
theorem integrate_clamps_to_integration_end (step_size dt eps : fmiTime) :
    (∀ {S M : Type} (ds : DynamicalSystem M) (st : IntegratorStepper S M) (fuel : Nat)
        (self : Integrator S) (fmu : M) (inv : InvokeResult S M) (c : ConstResult S M),
      st.invokeMethod self.eventInfo_ (ds.getContinuousStates fmu).1 (ds.getTime fmu)
        step_size dt eps self.stepper_ (ds.getContinuousStates fmu).2 = some inv →
      inv.eventInfo.stateEvent = true →
      inv.eventInfo.tUpper > ds.getTime fmu + step_size →
      st.do_step_const inv.states (ds.getTime inv.fmu)
        (ds.getTime fmu + step_size - ds.getTime inv.fmu) inv.stepper inv.fmu = some c →
      ds.getTime inv.fmu + (ds.getTime fmu + step_size - ds.getTime inv.fmu)
        = ds.getTime fmu + step_size ∧
      Integrator.integrate ds st fuel step_size dt eps self fmu =
        if (ds.checkStateEvent (ds.setTime (ds.getTime fmu + step_size)
              (ds.setContinuousStates c.states c.fmu))).1 = false then
          some { ret := { inv.eventInfo with stateEvent := false },
                 self := { stepper_ := c.stepper, states_ := c.states,
                           time_ := ds.getTime fmu,
                           eventInfo_ := { inv.eventInfo with stateEvent := false } },
                 fmu := (ds.checkStateEvent (ds.setTime (ds.getTime fmu + step_size)
                   (ds.setContinuousStates c.states c.fmu))).2 }
        else
          (Integrator.search ds st eps fuel
            { stepper_ := c.stepper, states_ := c.states, time_ := ds.getTime fmu,
              eventInfo_ := { inv.eventInfo with tUpper := ds.getTime fmu + step_size } }
            (ds.checkStateEvent (ds.setTime (ds.getTime fmu + step_size)
              (ds.setContinuousStates c.states c.fmu))).2).map
            (Integrator.conclude eps)) ∧
    (∀ {S M : Type} (ds : DynamicalSystem M) (st : IntegratorStepper S M) (fuel : Nat)
        (self : Integrator S) (fmu : M) (r : IntegrateResult S M),
      Integrator.integrate ds st fuel step_size dt eps self fmu = some r →
      r.ret.stateEvent = true →
      r.ret.tUpper ≤ ds.getTime fmu + step_size + eps / 8) ∧
    (∀ {W M : Type} (ds : DynamicalSystem M) (st : OdeintStepper W M)
        (fuel fuel' : Nat) (self : Integrator (OdeintObj W)) (fmu : M)
        (r : IntegrateResult (OdeintObj W) M),
      Integrator.integrate ds (st.toStepper ds fuel) fuel' step_size dt eps self fmu
        = some r →
      r.ret.stateEvent = true →
      r.ret.tLower ≤ ds.getTime fmu + step_size) ∧
    (0 ≤ step_size → 0 < dt →
      ∀ {W M : Type} (ds : DynamicalSystem M) (lib : DenseOutput W M) (Inv : W → Prop),
        lib.Forward Inv →
        (∀ (fuel fuel' : Nat) (self : Integrator W) (fmu : M) (r : IntegrateResult W M),
          Integrator.integrate ds (DormandPrince ds lib fuel) fuel' step_size dt eps self fmu
            = some r →
          r.ret.stateEvent = true → r.ret.tLower ≤ ds.getTime fmu + step_size) ∧
        (∀ (fuel fuel' : Nat) (self : Integrator W) (fmu : M) (r : IntegrateResult W M),
          Integrator.integrate ds (BulirschStoer ds lib fuel) fuel' step_size dt eps self fmu
            = some r →
          r.ret.stateEvent = true → r.ret.tLower ≤ ds.getTime fmu + step_size) ∧
        (∀ (fuel fuel' : Nat) (self : Integrator (RosenbrockObj W)) (fmu : M)
            (r : IntegrateResult (RosenbrockObj W) M),
          Integrator.integrate ds (Rosenbrock ds lib fuel) fuel' step_size dt eps self fmu
            = some r →
          r.ret.stateEvent = true → r.ret.tLower ≤ ds.getTime fmu + step_size)) := by
  refine ⟨?_, ?_, ?_, ?_⟩
  · intro S M ds st fuel self fmu inv c hinv hse hup hc
    refine ⟨by ring, ?_⟩
    unfold Integrator.integrate
    simp only [hinv, hse, hup, hc, Bool.not_true, Bool.false_eq_true, if_false, if_true]
    split
    · rename_i hev
      have hev' : (ds.checkStateEvent (ds.setTime (ds.getTime fmu + step_size)
          (ds.setContinuousStates c.states c.fmu))).1 = false := by simpa using hev
      simp only [hev', if_true]
    · rename_i hev
      have hev' : ¬ (ds.checkStateEvent (ds.setTime (ds.getTime fmu + step_size)
          (ds.setContinuousStates c.states c.fmu))).1 = false := by simpa using hev
      simp only [hev', if_false]
      split
      · rename_i hq
        simp [hq]
      · rename_i q hq
        simp [hq]
  · intro S M ds st fuel self fmu r h hse
    exact (Integrator.integrate_within ds st fuel step_size dt eps self fmu r h hse).1
  · intro W M ds st fuel fuel' self fmu r h hse
    refine (Integrator.integrate_within ds _ fuel' step_size dt eps self fmu r h hse).2 ?_
    intro inv hinv hev
    exact le_of_lt (OdeintStepper.loop_tLower_lt ds st (ds.getTime fmu) step_size fuel _ inv
      hinv hev)
  · intro hspan hdt W M ds lib Inv hf
    refine ⟨?_, ?_, ?_⟩
    · intro fuel fuel' self fmu r h hse
      refine (Integrator.integrate_within ds _ fuel' step_size dt eps self fmu r h hse).2 ?_
      intro inv hinv hev
      obtain ⟨hI, hcur⟩ := hf.initialise (ds.getContinuousStates fmu).1 (ds.getTime fmu) dt
        self.stepper_ hdt
      exact (DormandPrince.dp_loop_event_horizon ds lib Inv hf _ (ds.getTime fmu) step_size
        fuel _ inv hinv hI (by simp only [hcur]; exact le_refl _)
        (by simp only [hcur]; linarith) hev).2.2
    · intro fuel fuel' self fmu r h hse
      refine (Integrator.integrate_within ds _ fuel' step_size dt eps self fmu r h hse).2 ?_
      intro inv hinv hev
      obtain ⟨hI, hcur⟩ := hf.initialise (ds.getContinuousStates fmu).1 (ds.getTime fmu) dt
        (BulirschStoer.reset lib self.stepper_) hdt
      exact (BulirschStoer.bs_loop_event_horizon ds lib Inv hf _ (ds.getTime fmu) step_size
        fuel _ inv hinv hI (by simp only [hcur]; exact le_refl _)
        (by simp only [hcur]; linarith) hev).2.2
    · intro fuel fuel' self fmu r h hse
      refine (Integrator.integrate_within ds _ fuel' step_size dt eps self fmu r h hse).2 ?_
      intro inv hinv hev
      obtain ⟨hI, hcur⟩ := hf.initialise (ds.getContinuousStates fmu).1 (ds.getTime fmu) dt
        (Rosenbrock.reset self.stepper_).stepper hdt
      exact (Rosenbrock.ro_loop_event_horizon ds lib Inv hf _ (ds.getTime fmu) step_size
        fuel _ inv hinv hI (by simp only [hcur]; exact le_refl _)
        (by simp only [hcur]; linarith) hev).2.2

/-- Witness for C8 (amended): the Dormand-Prince wrapper on the ramp with the event at
`x = 1/2`, from `t = 0` over `span = 1` with hint `2` and `ε = 1`.  The stepper reports
`[0, 2]`, `integrate` clamps to `1` and the search returns `[1/2, 9/8]`, within
`t + span = 1` and `t + span + ε/8 = 9/8`. -/
theorem integrate_clamps_to_integration_end_witness :
    (DormandPrince.invokeMethod (ramp (1/2)) (linearDense (ramp (1/2))) 10
        (Integrator.fresh LinearDense.fresh).eventInfo_ [0] 0 1 2 1 LinearDense.fresh
        (rampStart (1/2))).map
      (fun a => (a.eventInfo.stateEvent, a.eventInfo.tLower, a.eventInfo.tUpper))
      = some (true, 0, 2) ∧
    (Integrator.integrate (ramp (1/2)) (rampDormandPrince (1/2)) 10 1 2 1
        (Integrator.fresh LinearDense.fresh) (rampStart (1/2))).map
      (fun r => (r.ret.stateEvent, r.ret.tLower, r.ret.tUpper)) = some (true, 1/2, 9/8) ∧
    (∀ r, Integrator.integrate (ramp (1/2)) (rampDormandPrince (1/2)) 10 1 2 1
        (Integrator.fresh LinearDense.fresh) (rampStart (1/2)) = some r →
      r.ret.stateEvent = true →
      r.ret.tUpper ≤ (ramp (1/2)).getTime (rampStart (1/2)) + 1 + 1 / 8 ∧
      r.ret.tLower ≤ (ramp (1/2)).getTime (rampStart (1/2)) + 1) :=
  ⟨by norm_num [DormandPrince.invokeMethod, DormandPrince.loop, DormandPrince.iteration,
      linearDense, ramp, Plant.system, euler_do_step, system_wrapper, signChange,
      Integrator.fresh, LinearDense.fresh, rampStart],
   by norm_num [Integrator.integrate, rampDormandPrince, DormandPrince,
      DormandPrince.invokeMethod, DormandPrince.loop, DormandPrince.iteration,
      DormandPrince.do_step_const, DormandPrince.reset, linearDense, ramp, Plant.system,
      euler_do_step, system_wrapper, signChange, Integrator.search, Integrator.searchStep,
      Integrator.conclude, Integrator.fresh, LinearDense.fresh, rampStart],
   fun r h hs =>
     ⟨(integrate_clamps_to_integration_end 1 2 1).2.1 (ramp (1/2)) (rampDormandPrince (1/2))
        10 (Integrator.fresh LinearDense.fresh) (rampStart (1/2)) r h hs,
      ((integrate_clamps_to_integration_end 1 2 1).2.2.2 (by norm_num) (by norm_num)
        (ramp (1/2)) (linearDense (ramp (1/2))) (fun w => 0 < w.dt)
        (linearDense_forward (ramp (1/2)))).1 10 10
        (Integrator.fresh LinearDense.fresh) (rampStart (1/2)) r h hs⟩⟩

/-! ## C10: stopping before a state event -/

/-- `Integrator::integrate` returns a copy of its member `eventInfo_`. -/
theorem Integrator.integrate_ret {S M : Type} (ds : DynamicalSystem M)
    (st : IntegratorStepper S M) (fuel : Nat) (step_size dt eps : fmiTime)
    (self : Integrator S) (fmu : M) (r : IntegrateResult S M)
    (h : Integrator.integrate ds st fuel step_size dt eps self fmu = some r) :
    r.self.eventInfo_ = r.ret := by
  obtain ⟨inv, -, hcase⟩ := Integrator.integrate_cases ds st fuel step_size dt eps self fmu r h
  rcases hcase with ⟨-, hr⟩ | ⟨-, -, c, -, ⟨-, hr⟩ | ⟨-, q, -, hr⟩⟩ | ⟨-, -, q, -, hr⟩
  · subst hr; rfl
  · subst hr; rfl
  · subst hr; rfl
  · subst hr; rfl

/-- C10, as stated, fails when an event is still latched from the call before: the call
then does run the event handshake.  Zigzag model, `Euler` stepper, stop-before-event
mode, `ε = 8`.  The first call `integrate( 2, 2 )` locates the first event and latches
it (returns `0`).  The second call `integrate( 8, 3 )` (record of model calls emptied
before it) has the engine report the next state event and no step event, returns its
`tLower = 6` and latches it, but it has first stepped over the latched event:
`setTime 3`, `setContinuousStates [3]`, `completedIntegratorStep`, `enterEventMode`,
`newDiscreteStates`, `enterContinuousTimeMode`. -/
theorem integrate_handshake_for_latched_event :
    ((FMUModelExchange.integrate zigzag zigzagEuler 10 2 2 (zigzagDriver true 8)).bind
      (fun r1 =>
        (FMUModelExchange.integrate zigzag zigzagEuler 10 8 3
          { r1.2 with instance_ := { r1.2.instance_ with log := [] } }).map
        (fun r2 => ((r1.1, r1.2.upcomingEvent_),
          (r2.1, r2.2.upcomingEvent_, r2.2.integrator_.eventInfo_.stateEvent,
            r2.2.integrator_.eventInfo_.stepEvent),
          r2.2.instance_.log.take 6))))
      = some ((0, true), (6, true, true, false),
          [FmiCall.setTime 3, FmiCall.setContinuousStates [3],
           FmiCall.completedIntegratorStep, FmiCall.enterEventMode,
           FmiCall.newDiscreteStates, FmiCall.enterContinuousTimeMode]) := by
  decide!

/-- C10 (amended): with `stopBeforeEvent = true` and at least one continuous state, when
the integration engine reports a state event and no step event, `integrate` stops
before the event: it returns the located `tLower`, which is the driver time, latches
`upcomingEvent = true`, sets the event flag, and does nothing else behind the engine:
apart from these flags, the time and the horizon, the driver and with it the model
instance are as the engine left them, so neither the step over that event nor an event
handshake takes place.  (`hkeep`: the stepper does not write the driver's
`stopBeforeEvent_`.) -/
theorem integrate_latches_state_event {F S : Type} (fn : FMU2Functions F)
    (st : IntegratorStepper S (FMUModelExchange F S)) (fuel : Nat) (tend deltaT : fmiTime)
    (self : FMUModelExchange F S) (r : IntegrateResult S (FMUModelExchange F S))
    (hn : self.nStateVars_ ≠ 0)
    (hstop : self.stopBeforeEvent_ = true)
    (hr : Integrator.integrate (FMUModelExchange.system fn) st fuel
        ((FMUModelExchange.prepare fn tend self).1
          - (FMUModelExchange.prepare fn tend self).2.time_)
        deltaT (FMUModelExchange.prepare fn tend self).2.eventSearchPrecision_
        (FMUModelExchange.prepare fn tend self).2.integrator_
        (FMUModelExchange.prepare fn tend self).2 = some r)
    (hkeep : r.fmu.stopBeforeEvent_ = self.stopBeforeEvent_)
    (hse : r.ret.stateEvent = true) (hstep : r.ret.stepEvent = false) :
    FMUModelExchange.integrate fn st fuel tend deltaT self
      = some (r.ret.tLower,
          { r.fmu with integrator_ := r.self, stateEvent_ := true, time_ := r.ret.tLower,
                       tend_ := r.ret.tUpper, upcomingEvent_ := true,
                       eventFlag_ := true }) := by
  have hret := Integrator.integrate_ret _ _ _ _ _ _ _ _ r hr
  unfold FMUModelExchange.integrate
  simp only [hn, if_false, hr]
  simp only [FMUModelExchange.classify, hstep, hse, Integrator.getEventHorizon, hret,
    hkeep, hstop, Bool.false_eq_true, if_false, if_true, Bool.not_true, Bool.or_true,
    Bool.true_or]

/-- Witness for C10 (amended): the first call of the zigzag example.  The engine hands
back the state event located in `[0, 3]`; `integrate( 2, 2 )` returns `0`, latches the
event, and the model has only seen the engine's six calls. -/
theorem integrate_latches_state_event_witness :
    FMUModelExchange.integrate zigzag zigzagEuler 10 2 2 (zigzagDriver true 8)
      = some (0,
          { zigzagFirstEngineResult.fmu with
              integrator_ := zigzagFirstEngineResult.self, stateEvent_ := true, time_ := 0,
              tend_ := 3, upcomingEvent_ := true, eventFlag_ := true }) :=
  integrate_latches_state_event zigzag zigzagEuler 10 2 2 (zigzagDriver true 8)
    zigzagFirstEngineResult (by decide) rfl (by decide!) rfl rfl rfl

/-! ## The driver time behind `FMUModelExchange::integrate` -/

theorem FMUModelExchange.SameSetup.refl {F S : Type} (m : FMUModelExchange F S) :
    FMUModelExchange.SameSetup m m :=
  ⟨rfl, rfl, rfl, rfl, rfl⟩

theorem FMUModelExchange.SameSetup.trans {F S : Type} {a b c : FMUModelExchange F S}
    (h1 : FMUModelExchange.SameSetup a b) (h2 : FMUModelExchange.SameSetup b c) :
    FMUModelExchange.SameSetup a c :=
  ⟨h2.1.trans h1.1, h2.2.1.trans h1.2.1, h2.2.2.1.trans h1.2.2.1,
    h2.2.2.2.1.trans h1.2.2.2.1, h2.2.2.2.2.trans h1.2.2.2.2⟩

/-- Writing time and states of a substep and the two checks behind it leave the driver
time at the time written and keep the setup. -/
theorem FMUModelExchange.after_checks {F S : Type} (fn : FMU2Functions F)
    (x : state_type) (t : fmiTime) (m : FMUModelExchange F S) :
    let ds := FMUModelExchange.system (S := S) fn
    let m1 := ds.setContinuousStates x (ds.setTime t m)
    (ds.checkStateEvent m1).2.time_ = t ∧
    (ds.checkStepEvent (ds.checkStateEvent m1).2).2.time_ = t ∧
    FMUModelExchange.SameSetup m (ds.checkStateEvent m1).2 ∧
    FMUModelExchange.SameSetup m (ds.checkStepEvent (ds.checkStateEvent m1).2).2 ∧
    (ds.setContinuousStates x (ds.setTime t m)).time_ = t ∧
    FMUModelExchange.SameSetup m (ds.setContinuousStates x (ds.setTime t m)) := by
  refine ⟨rfl, rfl, ⟨rfl, rfl, rfl, rfl, rfl⟩, ⟨rfl, rfl, rfl, rfl, rfl⟩, rfl,
    ⟨rfl, rfl, rfl, rfl, rfl⟩⟩


/-- A substep of a regular subclass, entered under the loop condition with a positive
step size, ends behind its start and not behind the integration end; the forced last
step ends exactly at the integration end. -/
theorem OdeintStepper.substep_regular {W F : Type}
    (st : OdeintStepper W (FMUModelExchange F (OdeintObj W))) (hreg : st.Regular)
    (time step_size : fmiTime) (s : InvokeState W (FMUModelExchange F (OdeintObj W)))
    (v : StepVars W (FMUModelExchange F (OdeintObj W))) (stop : Bool)
    (h : OdeintStepper.substep st time step_size s = some (v, stop))
    (hcond : s.currentTime < time + step_size ∧ s.stop = false)
    (hdt : s.stop = false → 0 < s.dt) :
    s.currentTime < v.currentTime ∧ v.currentTime ≤ time + step_size ∧
    (stop = false → 0 < v.dt) ∧ (stop = true → v.currentTime = time + step_size) ∧
    FMUModelExchange.SameSetup s.fmu v.fmu := by
  unfold OdeintStepper.substep at h
  split at h
  · split at h
    · cases h
    · rename_i v0 hv0
      cases h
      have h1 := hreg.do_step_const _ _ hv0
      have h2 := hreg.do_step_const_setup _ _ hv0
      simp only at h1 h2
      refine ⟨?_, ?_, by simp, ?_, h2⟩
      · simp only [h1]; linarith [hcond.1]
      · simp only [h1]; linarith
      · intro _; simp only [h1]; ring
  · rename_i hlt
    split at h
    · cases h
    · rename_i v0 hv0
      cases h
      have h1 := hreg.do_step _ _ hv0 (hdt hcond.2)
      have h2 := hreg.do_step_setup _ _ hv0
      simp only at h1 h2
      refine ⟨h1.1, ?_, fun _ => h1.2.2, ?_, h2⟩
      · have := not_le.mp hlt
        linarith [h1.2.1]
      · intro hs
        rw [hcond.2] at hs
        cases hs

/-- The loop of `OdeintStepper::invokeMethod` on a driver, for a regular subclass: the
setup is kept; a step event excludes a state event; without state event the driver time
lies between the start time and the later of start and integration end, and without any
event it is the later of the two; a state event has `tUpper` within the integration
end. -/
theorem OdeintStepper.loop_on_driver {W F : Type} (fn : FMU2Functions F)
    (st : OdeintStepper W (FMUModelExchange F (OdeintObj W))) (hreg : st.Regular)
    (m0 : FMUModelExchange F (OdeintObj W)) (time step_size : fmiTime) :
    ∀ (fuel : Nat) (s : InvokeState W (FMUModelExchange F (OdeintObj W)))
      (r : InvokeResult (OdeintObj W) (FMUModelExchange F (OdeintObj W))),
      OdeintStepper.loop (FMUModelExchange.system fn) st time step_size fuel s = some r →
      time ≤ s.currentTime → s.currentTime ≤ max time (time + step_size) →
      s.fmu.time_ = s.currentTime → (s.stop = false → 0 < s.dt) →
      (s.stop = true → s.currentTime = time + step_size) →
      FMUModelExchange.SameSetup m0 s.fmu →
      FMUModelExchange.SameSetup m0 r.fmu ∧
      (r.eventInfo.stepEvent = true → r.eventInfo.stateEvent = false) ∧
      (r.eventInfo.stateEvent = false →
        time ≤ r.fmu.time_ ∧ r.fmu.time_ ≤ max time (time + step_size)) ∧
      (r.eventInfo.stateEvent = false → r.eventInfo.stepEvent = false →
        r.fmu.time_ = max time (time + step_size)) ∧
      (r.eventInfo.stateEvent = true → r.eventInfo.tUpper ≤ time + step_size) := by
  intro fuel
  induction fuel with
  | zero =>
    intro s r h ht hB htime hdt hstop hsetup
    unfold OdeintStepper.loop at h
    split at h
    · cases h
    · rename_i hcond
      cases h
      refine ⟨hsetup, by simp, fun _ => ⟨htime ▸ ht, htime ▸ hB⟩, fun _ _ => ?_, by simp⟩
      simp only [htime]
      apply le_antisymm hB
      apply max_le ht
      by_cases hs : s.stop = false
      · have : ¬ s.currentTime < time + step_size := fun h => hcond ⟨h, hs⟩
        exact not_lt.mp this
      · have : s.stop = true := by simpa using hs
        exact le_of_eq (hstop this).symm
  | succ n ih =>
    intro s r h ht hB htime hdt hstop hsetup
    unfold OdeintStepper.loop at h
    split at h
    · rename_i hcond
      simp only at h
      cases hit : OdeintStepper.iteration (FMUModelExchange.system fn) st time step_size s with
      | none => simp [hit] at h
      | some out =>
        obtain ⟨v, stop, hsub, hcase⟩ :=
          OdeintStepper.iteration_cases (FMUModelExchange.system fn) st time step_size s out hit
        obtain ⟨h1, h2, h3, h4, h5⟩ :=
          OdeintStepper.substep_regular st hreg time step_size s v stop hsub hcond hdt
        have hB' : max time (time + step_size) = time + step_size :=
          max_eq_right (by linarith [hcond.1])
        have hchk := FMUModelExchange.after_checks fn v.states v.currentTime v.fmu
        simp only at hchk
        obtain ⟨c1, c2, c3, c4, -, -⟩ := hchk
        rcases hcase with ⟨-, hout⟩ | ⟨-, -, hout⟩ | ⟨-, -, hout⟩
        · subst hout
          simp only [hit] at h
          cases h
          refine ⟨?_, by simp, by simp, by simp, fun _ => h2⟩
          exact (hsetup.trans (h5.trans c3)).trans ⟨rfl, rfl, rfl, rfl, rfl⟩
        · subst hout
          simp only [hit] at h
          cases h
          refine ⟨hsetup.trans (h5.trans c4), by simp, fun _ => ?_, by simp, by simp⟩
          simp only [OdeintStepper.written] at c2 ⊢
          rw [c2, hB']
          exact ⟨by linarith, h2⟩
        · subst hout
          simp only [hit] at h
          refine ih _ r h (by simp only; linarith) (by simp only; rw [hB']; exact h2) c2 h3 h4
            (hsetup.trans (h5.trans c4))
    · rename_i hcond
      cases h
      refine ⟨hsetup, by simp, fun _ => ⟨htime ▸ ht, htime ▸ hB⟩, fun _ _ => ?_, by simp⟩
      simp only [htime]
      apply le_antisymm hB
      apply max_le ht
      by_cases hs : s.stop = false
      · have : ¬ s.currentTime < time + step_size := fun h => hcond ⟨h, hs⟩
        exact not_lt.mp this
      · have : s.stop = true := by simpa using hs
        exact le_of_eq (hstop this).symm


/-- A regular subclass steps forward. -/
theorem OdeintStepper.Regular.to_forward {W F : Type}
    {st : OdeintStepper W (FMUModelExchange F (OdeintObj W))} (hreg : st.Regular) :
    st.Forward := by
  constructor
  · intro v v' h hdt
    have := hreg.do_step v v' h hdt
    exact ⟨this.1, this.2.2⟩
  · intro v v' h hdt
    have := hreg.do_step_const v v' h
    rw [this]
    linarith

/-- The event search with a regular subclass keeps the setup of the driver. -/
theorem Integrator.search_on_driver {W F : Type} (fn : FMU2Functions F)
    (st : OdeintStepper W (FMUModelExchange F (OdeintObj W))) (hreg : st.Regular)
    (fuel : Nat) (eps : fmiTime) :
    ∀ (fuel' : Nat) (self : Integrator (OdeintObj W)) (fmu : FMUModelExchange F (OdeintObj W))
      (q : Integrator (OdeintObj W) × FMUModelExchange F (OdeintObj W)),
      Integrator.search (FMUModelExchange.system fn)
        (st.toStepper (FMUModelExchange.system fn) fuel) eps fuel' self fmu = some q →
      FMUModelExchange.SameSetup fmu q.2 := by
  intro fuel'
  induction fuel' with
  | zero =>
    intro self fmu q h
    unfold Integrator.search at h
    split at h
    · cases h
    · cases h
      exact FMUModelExchange.SameSetup.refl _
  | succ n ih =>
    intro self fmu q h
    unfold Integrator.search at h
    split at h
    · simp only at h
      cases hs : Integrator.searchStep (FMUModelExchange.system fn)
          (st.toStepper (FMUModelExchange.system fn) fuel) self fmu with
      | none => simp [hs] at h
      | some r =>
        simp only [hs] at h
        refine FMUModelExchange.SameSetup.trans ?_ (ih _ _ _ h)
        unfold Integrator.searchStep at hs
        simp only [OdeintStepper.toStepper] at hs
        split at hs
        · cases hs
        · rename_i c hc
          split at hc
          · cases hc
          · rename_i v hv
            cases hc
            have hset := hreg.do_step_const_setup _ _ hv
            simp only at hset
            split at hs
            · cases hs
              exact hset.trans ⟨rfl, rfl, rfl, rfl, rfl⟩
            · cases hs
              exact hset.trans ⟨rfl, rfl, rfl, rfl, rfl⟩
    · cases h
      exact FMUModelExchange.SameSetup.refl _

/-- `Integrator::integrate` on a driver with a regular subclass of `OdeintStepper`, a
positive step-size hint and a positive search precision: what it returns and where it
leaves the driver time, seen from the time `fmu.time_` at which it starts. -/
theorem Integrator.integrate_on_driver {W F : Type} (fn : FMU2Functions F)
    (st : OdeintStepper W (FMUModelExchange F (OdeintObj W))) (hreg : st.Regular)
    (fuel fuel' : Nat) (step_size dt eps : fmiTime) (hdt : 0 < dt) (heps : 0 < eps)
    (self : Integrator (OdeintObj W)) (fmu : FMUModelExchange F (OdeintObj W))
    (r : IntegrateResult (OdeintObj W) (FMUModelExchange F (OdeintObj W)))
    (h : Integrator.integrate (FMUModelExchange.system fn)
      (st.toStepper (FMUModelExchange.system fn) fuel) fuel' step_size dt eps self fmu
        = some r) :
    FMUModelExchange.SameSetup fmu r.fmu ∧
    (r.ret.stepEvent = true → r.ret.stateEvent = false) ∧
    (r.ret.stateEvent = false →
      fmu.time_ ≤ r.fmu.time_ ∧ r.fmu.time_ ≤ max fmu.time_ (fmu.time_ + step_size)) ∧
    (r.ret.stateEvent = false → r.ret.stepEvent = false →
      r.fmu.time_ = max fmu.time_ (fmu.time_ + step_size)) ∧
    (r.ret.stateEvent = true →
      fmu.time_ ≤ r.ret.tLower ∧ r.ret.tLower < r.ret.tUpper ∧
      r.ret.tLower ≤ fmu.time_ + step_size ∧
      r.ret.tUpper ≤ fmu.time_ + step_size + eps / 8) := by
  have hloop : ∀ inv, (st.toStepper (FMUModelExchange.system fn) fuel).invokeMethod
      self.eventInfo_ ((FMUModelExchange.system fn).getContinuousStates fmu).1
      ((FMUModelExchange.system fn).getTime fmu) step_size dt eps self.stepper_
      ((FMUModelExchange.system fn).getContinuousStates fmu).2 = some inv →
      FMUModelExchange.SameSetup fmu inv.fmu ∧
      (inv.eventInfo.stepEvent = true → inv.eventInfo.stateEvent = false) ∧
      (inv.eventInfo.stateEvent = false →
        fmu.time_ ≤ inv.fmu.time_ ∧ inv.fmu.time_ ≤ max fmu.time_ (fmu.time_ + step_size)) ∧
      (inv.eventInfo.stateEvent = false → inv.eventInfo.stepEvent = false →
        inv.fmu.time_ = max fmu.time_ (fmu.time_ + step_size)) ∧
      (inv.eventInfo.stateEvent = true → inv.eventInfo.tUpper ≤ fmu.time_ + step_size) := by
    intro inv hinv
    exact OdeintStepper.loop_on_driver fn st hreg fmu fmu.time_ step_size fuel _ inv hinv
      (le_refl _) (le_max_left _ _) rfl (fun _ => hdt) (by simp) ⟨rfl, rfl, rfl, rfl, rfl⟩
  have hhor : ∀ inv, (st.toStepper (FMUModelExchange.system fn) fuel).invokeMethod
      self.eventInfo_ ((FMUModelExchange.system fn).getContinuousStates fmu).1
      ((FMUModelExchange.system fn).getTime fmu) step_size dt eps self.stepper_
      ((FMUModelExchange.system fn).getContinuousStates fmu).2 = some inv →
      inv.eventInfo.stateEvent = true →
      fmu.time_ ≤ inv.eventInfo.tLower ∧ inv.eventInfo.tLower < inv.eventInfo.tUpper ∧
      inv.eventInfo.tLower < fmu.time_ + step_size := by
    intro inv hinv hev
    exact OdeintStepper.loop_event_horizon (FMUModelExchange.system fn) st hreg.to_forward
      fmu.time_ step_size fuel _ inv hinv (le_refl _) (fun _ => hdt) hev
  obtain ⟨inv, hinv, hcase⟩ := Integrator.integrate_cases _ _ fuel' step_size dt eps self fmu r h
  obtain ⟨l1, l2, l3, l4, l5⟩ := hloop inv hinv
  rcases hcase with ⟨hno, hr⟩ | ⟨hev, hup, -⟩ | ⟨hev, -, q, hq, hr⟩
  · subst hr
    refine ⟨l1, l2, l3, l4, ?_⟩
    intro hse
    simp only at hse
    rw [hno] at hse
    cases hse
  · exfalso
    have := l5 hev
    have hup' : inv.eventInfo.tUpper > fmu.time_ + step_size := hup
    linarith
  · have hflags := Integrator.search_flags _ _ eps fuel' _ _ q hq
    have hset := Integrator.search_on_driver fn st hreg fuel eps fuel' _ _ q hq
    have hstate : r.ret.stateEvent = true := by
      subst hr
      simp only [Integrator.conclude]
      rw [hflags.1]
      exact hev
    have hstepf : r.ret.stepEvent = false := by
      subst hr
      simp only [Integrator.conclude]
      rw [hflags.2.1]
      show inv.eventInfo.stepEvent = false
      cases hs : inv.eventInfo.stepEvent with
      | false => rfl
      | true =>
        have := l2 hs
        rw [hev] at this
        cases this
    have hord := Integrator.integrate_ordered (FMUModelExchange.system fn) _ fuel' step_size dt
      eps self fmu heps
      (fun inv' hinv' hev' =>
        ⟨(hhor inv' hinv' hev').1, le_of_lt (hhor inv' hinv' hev').2.1,
          le_of_lt (hhor inv' hinv' hev').2.2⟩) r h hstate
    have hwit := Integrator.integrate_within (FMUModelExchange.system fn) _ fuel' step_size dt
      eps self fmu r h hstate
    refine ⟨?_, ?_, ?_, ?_, ?_⟩
    · subst hr
      exact l1.trans hset
    · intro hs
      rw [hstepf] at hs
      cases hs
    · intro hs
      rw [hstate] at hs
      cases hs
    · intro hs
      rw [hstate] at hs
      cases hs
    · intro _
      exact ⟨hord.1, hord.2, hwit.2 (fun inv' hinv' hev' => le_of_lt (hhor inv' hinv' hev').2.2),
        hwit.1⟩


/-- What `stepOverEvent` does to the members that decide the driver time. -/
theorem FMUModelExchange.stepOverEvent_spec {F S : Type} (fn : FMU2Functions F)
    (d : FMUModelExchange F S) :
    (FMUModelExchange.stepOverEvent fn d).2.nStateVars_ = d.nStateVars_ ∧
    (FMUModelExchange.stepOverEvent fn d).2.stopBeforeEvent_ = d.stopBeforeEvent_ ∧
    (FMUModelExchange.stepOverEvent fn d).2.eventSearchPrecision_ = d.eventSearchPrecision_ ∧
    (FMUModelExchange.stepOverEvent fn d).2.stateEvent_ = d.stateEvent_ ∧
    (FMUModelExchange.stepOverEvent fn d).2.timeEvent_ = d.timeEvent_ ∧
    (FMUModelExchange.stepOverEvent fn d).2.integrator_ = d.integrator_ ∧
    ((d.stateEvent_ = true ∨ d.timeEvent_ = true) →
      (FMUModelExchange.stepOverEvent fn d).2.time_ = d.tend_ ∧
      (FMUModelExchange.stepOverEvent fn d).2.upcomingEvent_ = false) ∧
    (d.stateEvent_ = false → d.timeEvent_ = false →
      FMUModelExchange.stepOverEvent fn d = (false, d)) := by
  unfold FMUModelExchange.stepOverEvent
  cases hs : d.stateEvent_ <;> cases ht : d.timeEvent_ <;>
    simp [hs, ht, FMUModelExchange.saveEventIndicators, FMUModelExchange.getEventIndicators,
      FMUModelExchange.handleEvents, FMUModelExchange.completedIntegratorStep,
      FMUModelExchange.setContinuousStates, FMUModelExchange.setTime,
      FMUModelExchange.getDerivatives, FMUModelExchange.getContinuousStates]

/-- The driver behind the first statement of `integrate` (models with continuous
states): a latched event has been stepped over. -/
theorem FMUModelExchange.prepare_fields {F S : Type} (fn : FMU2Functions F)
    (tend : fmiTime) (d s1 : FMUModelExchange F S)
    (hs1 : s1 = if d.stopBeforeEvent_ && d.upcomingEvent_ then
      (FMUModelExchange.stepOverEvent fn d).2 else d) :
    (FMUModelExchange.prepare fn tend d).2.time_ = s1.time_ ∧
    (FMUModelExchange.prepare fn tend d).2.nStateVars_ = s1.nStateVars_ ∧
    (FMUModelExchange.prepare fn tend d).2.stopBeforeEvent_ = s1.stopBeforeEvent_ ∧
    (FMUModelExchange.prepare fn tend d).2.eventSearchPrecision_ = s1.eventSearchPrecision_ ∧
    (FMUModelExchange.prepare fn tend d).2.upcomingEvent_ = s1.upcomingEvent_ ∧
    (FMUModelExchange.prepare fn tend d).2.timeEvent_ =
      (s1.eventinfo_.nextEventTimeDefined && decide (s1.eventinfo_.nextEventTime ≤ tend)) ∧
    (FMUModelExchange.prepare fn tend d).1 =
      if (s1.eventinfo_.nextEventTimeDefined && decide (s1.eventinfo_.nextEventTime ≤ tend))
      then s1.eventinfo_.nextEventTime - s1.eventSearchPrecision_ / 2 else tend := by
  subst hs1
  exact ⟨rfl, rfl, rfl, rfl, rfl, rfl, rfl⟩

/-- What the code of `integrate` in front of the integrator call does to the members
that decide the driver time, for a driver whose latch is in order. -/
theorem FMUModelExchange.prepare_spec {F S : Type} (fn : FMU2Functions F) (tend : fmiTime)
    (d : FMUModelExchange F S) (hlatch : d.LatchInOrder)
    (heps : 0 ≤ d.eventSearchPrecision_) :
    (FMUModelExchange.prepare fn tend d).2.nStateVars_ = d.nStateVars_ ∧
    (FMUModelExchange.prepare fn tend d).2.stopBeforeEvent_ = d.stopBeforeEvent_ ∧
    (FMUModelExchange.prepare fn tend d).2.eventSearchPrecision_ = d.eventSearchPrecision_ ∧
    d.time_ ≤ (FMUModelExchange.prepare fn tend d).2.time_ ∧
    (d.stopBeforeEvent_ = false → (FMUModelExchange.prepare fn tend d).2.time_ = d.time_) ∧
    (d.stopBeforeEvent_ = true →
      (FMUModelExchange.prepare fn tend d).2.upcomingEvent_ = false) ∧
    (FMUModelExchange.prepare fn tend d).1 ≤ tend ∧
    ((FMUModelExchange.prepare fn tend d).2.timeEvent_ = false →
      (FMUModelExchange.prepare fn tend d).1 = tend) := by
  obtain ⟨s1, s2, s3, s4, s5, s6, s7, s8⟩ := FMUModelExchange.stepOverEvent_spec fn d
  obtain ⟨p1, p2, p3, p4, p5, p6, p7⟩ := FMUModelExchange.prepare_fields fn tend d _ rfl
  rw [p1, p2, p3, p4, p5, p6, p7]
  have hfacts : ∀ s : FMUModelExchange F S, s.eventSearchPrecision_ = d.eventSearchPrecision_ →
      (if (s.eventinfo_.nextEventTimeDefined && decide (s.eventinfo_.nextEventTime ≤ tend))
        then s.eventinfo_.nextEventTime - s.eventSearchPrecision_ / 2 else tend) ≤ tend ∧
      ((s.eventinfo_.nextEventTimeDefined && decide (s.eventinfo_.nextEventTime ≤ tend)) = false →
        (if (s.eventinfo_.nextEventTimeDefined && decide (s.eventinfo_.nextEventTime ≤ tend))
          then s.eventinfo_.nextEventTime - s.eventSearchPrecision_ / 2 else tend) = tend) := by
    intro s hs
    constructor
    · split
      · rename_i hte
        have : s.eventinfo_.nextEventTime ≤ tend := by
          simp only [Bool.and_eq_true, decide_eq_true_eq] at hte
          exact hte.2
        rw [hs]
        linarith
      · exact le_refl _
    · intro hte
      rw [hte]
      rfl
  unfold FMUModelExchange.LatchInOrder at hlatch
  by_cases hgo : (d.stopBeforeEvent_ && d.upcomingEvent_) = true
  · rw [if_pos hgo]
    have hb : d.stopBeforeEvent_ = true ∧ d.upcomingEvent_ = true := by simpa using hgo
    obtain ⟨hflag, hord⟩ := hlatch hb.1 hb.2
    obtain ⟨t1, t2⟩ := s7 hflag
    refine ⟨s1, s2, s3, by rw [t1]; exact hord, ?_, fun _ => t2, (hfacts _ s3).1,
      (hfacts _ s3).2⟩
    intro hf
    rw [hb.1] at hf
    cases hf
  · rw [if_neg hgo]
    refine ⟨rfl, rfl, rfl, le_refl _, fun _ => rfl, ?_, (hfacts _ rfl).1, (hfacts _ rfl).2⟩
    intro hstop
    cases hu : d.upcomingEvent_ with
    | false => rfl
    | true => simp [hstop, hu] at hgo


/-- What the code of `integrate` behind the integrator call does to the members that
decide the driver time, case by case. -/
theorem FMUModelExchange.classify_spec {F S : Type} (fn : FMU2Functions F) (e : EventInfo)
    (s : FMUModelExchange F S) :
    (FMUModelExchange.classify fn e s).2.time_ = (FMUModelExchange.classify fn e s).1 ∧
    (FMUModelExchange.classify fn e s).2.nStateVars_ = s.nStateVars_ ∧
    (FMUModelExchange.classify fn e s).2.stopBeforeEvent_ = s.stopBeforeEvent_ ∧
    (FMUModelExchange.classify fn e s).2.eventSearchPrecision_ = s.eventSearchPrecision_ ∧
    (FMUModelExchange.classify fn e s).2.timeEvent_ = s.timeEvent_ ∧
    (FMUModelExchange.classify fn e s).2.stateEvent_ = e.stateEvent ∧
    (FMUModelExchange.classify fn e s).2.integrator_ = s.integrator_ ∧
    (e.stepEvent = true →
      (FMUModelExchange.classify fn e s).1 = s.time_ ∧
      (FMUModelExchange.classify fn e s).2.upcomingEvent_ = s.upcomingEvent_) ∧
    (e.stepEvent = false → e.stateEvent = true → s.stopBeforeEvent_ = true →
      (FMUModelExchange.classify fn e s).1 = s.integrator_.eventInfo_.tLower ∧
      (FMUModelExchange.classify fn e s).2.tend_ = s.integrator_.eventInfo_.tUpper ∧
      (FMUModelExchange.classify fn e s).2.upcomingEvent_ = true) ∧
    (e.stepEvent = false → e.stateEvent = true → s.stopBeforeEvent_ = false →
      (FMUModelExchange.classify fn e s).1 = s.integrator_.eventInfo_.tUpper) ∧
    (e.stepEvent = false → e.stateEvent = false → s.timeEvent_ = true →
        s.stopBeforeEvent_ = true →
      (FMUModelExchange.classify fn e s).1 = s.time_ ∧
      (FMUModelExchange.classify fn e s).2.tend_ = s.time_ + s.eventSearchPrecision_ ∧
      (FMUModelExchange.classify fn e s).2.upcomingEvent_ = true) ∧
    (e.stepEvent = false → e.stateEvent = false → s.timeEvent_ = true →
        s.stopBeforeEvent_ = false →
      (FMUModelExchange.classify fn e s).1 = s.time_ + s.eventSearchPrecision_) ∧
    (e.stepEvent = false → e.stateEvent = false → s.timeEvent_ = false →
      (FMUModelExchange.classify fn e s).1 = s.time_ ∧
      (FMUModelExchange.classify fn e s).2.upcomingEvent_ = s.upcomingEvent_) := by
  cases h1 : e.stepEvent <;> cases h2 : e.stateEvent <;> cases h3 : s.timeEvent_ <;>
    cases h4 : s.stopBeforeEvent_ <;>
    simp [FMUModelExchange.classify, h1, h2, h3, h4, Integrator.getEventHorizon,
      FMUModelExchange.getTime, FMUModelExchange.stepOverEvent,
      FMUModelExchange.saveEventIndicators, FMUModelExchange.getEventIndicators,
      FMUModelExchange.handleEvents, FMUModelExchange.completedIntegratorStep,
      FMUModelExchange.setContinuousStates, FMUModelExchange.setTime,
      FMUModelExchange.getDerivatives, FMUModelExchange.getContinuousStates]


/-- One `integrate( tend, deltaT )` call of a driver with continuous states, a regular
subclass of `OdeintStepper`, `deltaT > 0`, `ε > 0` and a latch that is in order.  With
`T'` the driver time behind the step over a latched event at the start of the call:
the driver time after the call is the value returned; it is not before `T'`, which is
not before the driver time at the start; it is at most `max T' tend` in
stop-before-event mode and at most `max T tend + ε` in step-over-event mode; a located
state event is returned as `tLower ≤ tend` (stop before) or as `tUpper ≤ tend + ε/8`
(step over); without any event it is `max T' tend`; and the latch is in order again. -/
theorem FMUModelExchange.integrate_time {W F : Type} (fn : FMU2Functions F)
    (st : OdeintStepper W (FMUModelExchange F (OdeintObj W))) (hreg : st.Regular)
    (fuel fuel' : Nat) (tend deltaT : fmiTime) (d : FMUModelExchange F (OdeintObj W))
    (out : fmiTime × FMUModelExchange F (OdeintObj W))
    (hn : d.nStateVars_ ≠ 0) (heps : 0 < d.eventSearchPrecision_) (hdt : 0 < deltaT)
    (hlatch : d.LatchInOrder)
    (h : FMUModelExchange.integrate fn (st.toStepper (FMUModelExchange.system fn) fuel) fuel'
      tend deltaT d = some out) :
    out.2.time_ = out.1 ∧
    d.time_ ≤ (FMUModelExchange.prepare fn tend d).2.time_ ∧
    (FMUModelExchange.prepare fn tend d).2.time_ ≤ out.1 ∧
    (d.stopBeforeEvent_ = true →
      out.1 ≤ max (FMUModelExchange.prepare fn tend d).2.time_ tend) ∧
    (d.stopBeforeEvent_ = false → out.1 ≤ max d.time_ tend + d.eventSearchPrecision_) ∧
    (out.2.stateEvent_ = true → d.stopBeforeEvent_ = true →
      out.1 = out.2.integrator_.eventInfo_.tLower ∧ out.1 ≤ tend) ∧
    (out.2.stateEvent_ = true → d.stopBeforeEvent_ = false →
      out.1 = out.2.integrator_.eventInfo_.tUpper ∧
      out.1 ≤ tend + d.eventSearchPrecision_ / 8) ∧
    (out.2.stateEvent_ = false → out.2.timeEvent_ = false →
      out.2.integrator_.eventInfo_.stepEvent = false →
      out.1 = max (FMUModelExchange.prepare fn tend d).2.time_ tend) ∧
    out.2.LatchInOrder ∧ out.2.nStateVars_ = d.nStateVars_ ∧
    out.2.stopBeforeEvent_ = d.stopBeforeEvent_ ∧
    out.2.eventSearchPrecision_ = d.eventSearchPrecision_ := by
  obtain ⟨P1, P2, P3, P4, P5, P6, P7, P8⟩ :=
    FMUModelExchange.prepare_spec fn tend d hlatch (le_of_lt heps)
  unfold FMUModelExchange.integrate at h
  simp only [hn, if_false] at h
  split at h
  · cases h
  · rename_i r0 hr0
    simp only [Option.some.injEq] at h
    have heps' : 0 < (FMUModelExchange.prepare fn tend d).2.eventSearchPrecision_ := by
      rw [P3]; exact heps
    obtain ⟨⟨e11, e12, e13, e14, e15⟩, e2, e3, e4, e5⟩ :=
      Integrator.integrate_on_driver fn st hreg fuel fuel' _ deltaT _ hdt heps' _ _ r0 hr0
    have hret := Integrator.integrate_ret _ _ _ _ _ _ _ _ r0 hr0
    have hsum : (FMUModelExchange.prepare fn tend d).2.time_
        + ((FMUModelExchange.prepare fn tend d).1 - (FMUModelExchange.prepare fn tend d).2.time_)
        = (FMUModelExchange.prepare fn tend d).1 := by ring
    rw [hsum] at e3 e4 e5
    obtain ⟨C1, C2, C3, C4, C5, C6, C7, C8, C9, C10, C11, C12, C13⟩ :=
      FMUModelExchange.classify_spec fn r0.ret { r0.fmu with integrator_ := r0.self }
    rw [h] at C1 C2 C3 C4 C5 C6 C7 C8 C9 C10 C11 C12 C13
    simp only at C2 C3 C4 C5 C7 C8 C9 C10 C11 C12 C13
    rw [hret] at C9 C10
    have hstop : out.2.stopBeforeEvent_ = d.stopBeforeEvent_ := by rw [C3, e12, P2]
    have hepsEq : out.2.eventSearchPrecision_ = d.eventSearchPrecision_ := by rw [C4, e13, P3]
    have hnEq : out.2.nStateVars_ = d.nStateVars_ := by rw [C2, e11, P1]
    have hmono : (FMUModelExchange.prepare fn tend d).1 ≤ tend := P7
    have hmax : max (FMUModelExchange.prepare fn tend d).2.time_
        (FMUModelExchange.prepare fn tend d).1
        ≤ max (FMUModelExchange.prepare fn tend d).2.time_ tend :=
      max_le_max (le_refl _) hmono
    have hintS : out.2.integrator_.eventInfo_ = r0.ret := by rw [C7]; exact hret
    have hr0eps : r0.fmu.eventSearchPrecision_ = d.eventSearchPrecision_ := by rw [e13, P3]
    have hr0stop : r0.fmu.stopBeforeEvent_ = d.stopBeforeEvent_ := by rw [e12, P2]
    refine ⟨C1, P4, ?_, ?_, ?_, ?_, ?_, ?_, ?_, hnEq, hstop, hepsEq⟩
    -- the value returned is not before `T'`
    · cases hstep : r0.ret.stepEvent with
      | true =>
        rw [(C8 hstep).1]
        exact (e3 (e2 hstep)).1
      | false =>
        cases hstate : r0.ret.stateEvent with
        | true =>
          obtain ⟨f1, f2, f3, f4⟩ := e5 hstate
          cases hsb : d.stopBeforeEvent_ with
          | true =>
            rw [(C9 hstep hstate (hr0stop.trans hsb)).1]
            exact f1
          | false =>
            rw [C10 hstep hstate (hr0stop.trans hsb)]
            linarith
        | false =>
          cases hte : r0.fmu.timeEvent_ with
          | true =>
            cases hsb : d.stopBeforeEvent_ with
            | true =>
              rw [(C11 hstep hstate hte (hr0stop.trans hsb)).1]
              exact (e3 hstate).1
            | false =>
              rw [C12 hstep hstate hte (hr0stop.trans hsb), hr0eps]
              linarith [(e3 hstate).1]
          | false =>
            rw [(C13 hstep hstate hte).1]
            exact (e3 hstate).1
    -- stop-before-event mode: at most `max T' tend`
    · intro hsb
      cases hstep : r0.ret.stepEvent with
      | true =>
        rw [(C8 hstep).1]
        exact le_trans (e3 (e2 hstep)).2 hmax
      | false =>
        cases hstate : r0.ret.stateEvent with
        | true =>
          obtain ⟨f1, f2, f3, f4⟩ := e5 hstate
          rw [(C9 hstep hstate (hr0stop.trans hsb)).1]
          exact le_trans (le_trans f3 hmono) (le_max_right _ _)
        | false =>
          cases hte : r0.fmu.timeEvent_ with
          | true =>
            rw [(C11 hstep hstate hte (hr0stop.trans hsb)).1]
            exact le_trans (e3 hstate).2 hmax
          | false =>
            rw [(C13 hstep hstate hte).1]
            exact le_trans (e3 hstate).2 hmax
    -- step-over-event mode: at most `max T tend + ε`
    · intro hsb
      have hT : (FMUModelExchange.prepare fn tend d).2.time_ = d.time_ := P5 hsb
      rw [hT] at hmax e3 e5
      cases hstep : r0.ret.stepEvent with
      | true =>
        rw [(C8 hstep).1]
        linarith [le_trans (e3 (e2 hstep)).2 hmax]
      | false =>
        cases hstate : r0.ret.stateEvent with
        | true =>
          obtain ⟨f1, f2, f3, f4⟩ := e5 hstate
          rw [C10 hstep hstate (hr0stop.trans hsb)]
          rw [P3] at f4
          have : tend ≤ max d.time_ tend := le_max_right _ _
          linarith
        | false =>
          cases hte : r0.fmu.timeEvent_ with
          | true =>
            rw [C12 hstep hstate hte (hr0stop.trans hsb), hr0eps]
            linarith [le_trans (e3 hstate).2 hmax]
          | false =>
            rw [(C13 hstep hstate hte).1]
            linarith [le_trans (e3 hstate).2 hmax]
    -- a state event, stop-before-event mode
    · intro hst hsb
      rw [C6] at hst
      obtain ⟨f1, f2, f3, f4⟩ := e5 hst
      have hstep : r0.ret.stepEvent = false := by
        cases hs : r0.ret.stepEvent with
        | false => rfl
        | true =>
          have := e2 hs
          rw [hst] at this
          cases this
      rw [(C9 hstep hst (hr0stop.trans hsb)).1, hintS]
      exact ⟨rfl, le_trans f3 hmono⟩
    -- a state event, step-over-event mode
    · intro hst hsb
      rw [C6] at hst
      obtain ⟨f1, f2, f3, f4⟩ := e5 hst
      have hstep : r0.ret.stepEvent = false := by
        cases hs : r0.ret.stepEvent with
        | false => rfl
        | true =>
          have := e2 hs
          rw [hst] at this
          cases this
      rw [C10 hstep hst (hr0stop.trans hsb), hintS]
      rw [P3] at f4
      exact ⟨rfl, by linarith⟩
    -- no event at all
    · intro hst hte hse
      rw [C6] at hst
      rw [C5] at hte
      rw [hintS] at hse
      rw [(C13 hse hst hte).1, e4 hst hse]
      have : (FMUModelExchange.prepare fn tend d).1 = tend := P8 (by rw [← e14]; exact hte)
      rw [this]
    -- the latch is in order again
    · intro hsb hup
      rw [hstop] at hsb
      have hnoUp : r0.fmu.upcomingEvent_ = false := by rw [e15]; exact P6 hsb
      cases hstep : r0.ret.stepEvent with
      | true =>
        rw [(C8 hstep).2, hnoUp] at hup
        cases hup
      | false =>
        cases hstate : r0.ret.stateEvent with
        | true =>
          obtain ⟨f1, f2, f3, f4⟩ := e5 hstate
          obtain ⟨g1, g2, g3⟩ := C9 hstep hstate (hr0stop.trans hsb)
          refine ⟨Or.inl (by rw [C6]; exact hstate), ?_⟩
          rw [C1, g1, g2]
          exact le_of_lt f2
        | false =>
          cases hte : r0.fmu.timeEvent_ with
          | true =>
            obtain ⟨g1, g2, g3⟩ := C11 hstep hstate hte (hr0stop.trans hsb)
            refine ⟨Or.inr (by rw [C5]; exact hte), ?_⟩
            rw [C1, g1, g2, hr0eps]
            linarith
          | false =>
            rw [(C13 hstep hstate hte).2, hnoUp] at hup
            cases hup


/-- `Euler` on a driver is regular. -/
theorem Euler.regular {F : Type} (fn : FMU2Functions F) :
    (Euler (FMUModelExchange.system (S := OdeintObj Unit) fn)).Regular := by
  constructor
  · intro v v' h hdt
    simp only [Euler, Euler.do_step, Option.some.injEq] at h
    subst h
    simp only
    exact ⟨by linarith, le_refl _, hdt⟩
  · intro v v' h
    simp only [Euler, Euler.do_step, Option.some.injEq] at h
    subst h
    rfl
  · intro v v' h
    simp only [Euler, Euler.do_step, Option.some.injEq] at h
    subst h
    exact ⟨rfl, rfl, rfl, rfl, rfl⟩
  · intro v v' h
    simp only [Euler, Euler.do_step, Option.some.injEq] at h
    subst h
    exact ⟨rfl, rfl, rfl, rfl, rfl⟩

/-- A driver without continuous states: `integrate` returns `tend`, or the scheduled
time event if that is not later; the driver time is the value returned. -/
theorem FMUModelExchange.integrateNoStates_time {F S : Type} (fn : FMU2Functions F)
    (tend : fmiTime) (d : FMUModelExchange F S) :
    (FMUModelExchange.integrateNoStates fn tend d).2.time_
      = (FMUModelExchange.integrateNoStates fn tend d).1 ∧
    (FMUModelExchange.integrateNoStates fn tend d).1 ≤ tend ∧
    ((FMUModelExchange.integrateNoStates fn tend d).2.timeEvent_ = false →
      (FMUModelExchange.integrateNoStates fn tend d).1 = tend) := by
  suffices h : ∀ r, r = FMUModelExchange.integrateNoStates fn tend d →
      r.2.time_ = r.1 ∧ r.1 ≤ tend ∧ (r.2.timeEvent_ = false → r.1 = tend) from h _ rfl
  intro r hr
  unfold FMUModelExchange.integrateNoStates at hr
  lift_lets at hr
  extract_lets a src1 s1 timeEvent tend1 s2 c src2 s3 s4 at hr
  have hle : tend1 ≤ tend := by
    show (if timeEvent = true then s1.eventinfo_.nextEventTime else tend) ≤ tend
    split
    · rename_i hte
      have : (s1.eventinfo_.nextEventTimeDefined &&
          decide (s1.eventinfo_.nextEventTime ≤ tend)) = true := hte
      simp only [Bool.and_eq_true, decide_eq_true_eq] at this
      exact this.2
    · exact le_refl _
  have heq : timeEvent = false → tend1 = tend := by
    intro hte
    show (if timeEvent = true then s1.eventinfo_.nextEventTime else tend) = tend
    rw [hte]
    rfl
  split at hr
  · split at hr
    · subst hr
      exact ⟨rfl, hle, heq⟩
    · subst hr
      exact ⟨rfl, hle, heq⟩
  · split at hr
    · subst hr
      exact ⟨rfl, hle, heq⟩
    · subst hr
      exact ⟨rfl, hle, heq⟩


/-- A sequence of `integrate` calls (regular subclass of `OdeintStepper`, positive
step-size hints, `ε > 0`, latch in order at the start) keeps the setup and the latch in
order, and the times returned never decrease: starting from the driver time before the
first call they form a chain that any time not before the last driver time prolongs. -/
theorem FMUModelExchange.integrateAll_inv {W F : Type} (fn : FMU2Functions F)
    (st : OdeintStepper W (FMUModelExchange F (OdeintObj W))) (hreg : st.Regular)
    (fuel fuel' : Nat) :
    ∀ (calls : List (fmiTime × fmiTime)) (d : FMUModelExchange F (OdeintObj W))
      (out : List fmiTime × FMUModelExchange F (OdeintObj W)),
      (∀ c ∈ calls, 0 < c.2) → d.nStateVars_ ≠ 0 → 0 < d.eventSearchPrecision_ →
      d.LatchInOrder →
      FMUModelExchange.integrateAll fn (st.toStepper (FMUModelExchange.system fn) fuel) fuel'
        calls d = some out →
      out.2.nStateVars_ = d.nStateVars_ ∧
      out.2.eventSearchPrecision_ = d.eventSearchPrecision_ ∧
      out.2.stopBeforeEvent_ = d.stopBeforeEvent_ ∧
      out.2.LatchInOrder ∧
      ∀ x, out.2.time_ ≤ x → List.Chain (· ≤ ·) d.time_ (out.1 ++ [x]) := by
  intro calls
  induction calls with
  | nil =>
    intro d out _ _ _ hlatch h
    simp only [FMUModelExchange.integrateAll, Option.some.injEq] at h
    subst h
    exact ⟨rfl, rfl, rfl, hlatch, fun x hx => List.Chain.cons hx List.Chain.nil⟩
  | cons c rest ih =>
    intro d out hpos hn heps hlatch h
    simp only [FMUModelExchange.integrateAll] at h
    split at h
    · cases h
    · rename_i r hr
      split at h
      · cases h
      · rename_i q hq
        cases h
        obtain ⟨t1, t2, t3, -, -, -, -, -, t9, t10, t11, t12⟩ :=
          FMUModelExchange.integrate_time fn st hreg fuel fuel' c.1 c.2 d r hn heps
            (hpos c (List.mem_cons_self _ _)) hlatch hr
        obtain ⟨i1, i2, i3, i4, i5⟩ :=
          ih r.2 q (fun c' hc' => hpos c' (List.mem_cons_of_mem _ hc'))
            (by rw [t10]; exact hn) (by rw [t12]; exact heps) t9 hq
        refine ⟨i1.trans t10, i2.trans t12, i3.trans t11, i4, ?_⟩
        intro x hx
        have hrest := i5 x hx
        rw [t1] at hrest
        exact List.Chain.cons (le_trans t2 t3) hrest

/-! ## C9: the driver time along a sequence of `integrate` calls -/

/-- C9, as stated, fails in step-over-event mode: the time returned can lie behind the
`tend` of the call.  Zigzag model, `Euler` stepper, `ε = 1`, driver at time `0`:
`integrate( 3/2, 1/2 )` locates the state event in `[1, 3/2]`, steps over it to
`tUpper = 3/2 + ε/8` and returns `13/8`, which is the driver time and exceeds `3/2`. -/
theorem integrate_returns_time_behind_tend :
    (FMUModelExchange.integrate zigzag zigzagEuler 10 (3/2) (1/2) (zigzagDriver false 1)).map
      (fun r => (r.1, r.2.time_, r.2.stateEvent_, r.2.integrator_.eventInfo_.tLower,
        r.2.integrator_.eventInfo_.tUpper))
      = some (13/8, 13/8, true, 1, 13/8) ∧
    ¬ ((13 : fmiTime) / 8 ≤ 3 / 2) := by
  constructor
  · decide!
  · norm_num

/-- C9 (amended): a driver with at least one continuous state and `ε > 0`, a regular
subclass of `OdeintStepper` as stepper, positive step-size hints, the latch in order at
the start.  After any sequence of successful `integrate` calls, one more successful call
`integrate( tend, deltaT )` leaves the driver time at the value it returns; the times
returned so far, from the driver time before the first call on, never decrease.  With
`T'` the driver time behind the step over a latched event at the start of the call: in
stop-before-event mode the value is at most `max T' tend`, in step-over-event mode at
most `max T tend + ε` (`T` the driver time before the call); a state event returns
`tLower ≤ tend` in stop-before-event mode and `tUpper ≤ tend + ε/8` in step-over-event
mode; without state, time and step event the value is `max T' tend`.  A driver without
continuous states is left at the value returned, which is at most `tend`, and is `tend`
unless a time event has been found. -/
theorem integrate_time_along_calls {W F : Type} (fn : FMU2Functions F)
    (st : OdeintStepper W (FMUModelExchange F (OdeintObj W))) (hreg : st.Regular)
    (fuel fuel' : Nat) (calls : List (fmiTime × fmiTime)) (tend deltaT : fmiTime)
    (d : FMUModelExchange F (OdeintObj W))
    (mid : List fmiTime × FMUModelExchange F (OdeintObj W))
    (out : fmiTime × FMUModelExchange F (OdeintObj W))
    (hpos : ∀ c ∈ calls, 0 < c.2) (hdt : 0 < deltaT)
    (hn : d.nStateVars_ ≠ 0) (heps : 0 < d.eventSearchPrecision_)
    (hlatch : d.LatchInOrder)
    (hcalls : FMUModelExchange.integrateAll fn
      (st.toStepper (FMUModelExchange.system fn) fuel) fuel' calls d = some mid)
    (h : FMUModelExchange.integrate fn (st.toStepper (FMUModelExchange.system fn) fuel) fuel'
      tend deltaT mid.2 = some out) :
    out.2.time_ = out.1 ∧
    List.Chain (· ≤ ·) d.time_ (mid.1 ++ [out.1]) ∧
    (d.stopBeforeEvent_ = true →
      out.1 ≤ max (FMUModelExchange.prepare fn tend mid.2).2.time_ tend) ∧
    (d.stopBeforeEvent_ = false →
      out.1 ≤ max mid.2.time_ tend + d.eventSearchPrecision_) ∧
    (out.2.stateEvent_ = true → d.stopBeforeEvent_ = true →
      out.1 = out.2.integrator_.eventInfo_.tLower ∧ out.1 ≤ tend) ∧
    (out.2.stateEvent_ = true → d.stopBeforeEvent_ = false →
      out.1 = out.2.integrator_.eventInfo_.tUpper ∧
      out.1 ≤ tend + d.eventSearchPrecision_ / 8) ∧
    (out.2.stateEvent_ = false → out.2.timeEvent_ = false →
      out.2.integrator_.eventInfo_.stepEvent = false →
      out.1 = max (FMUModelExchange.prepare fn tend mid.2).2.time_ tend) ∧
    (∀ (t : fmiTime) (d0 : FMUModelExchange F (OdeintObj W))
      (r : fmiTime × FMUModelExchange F (OdeintObj W)), d0.nStateVars_ = 0 →
      FMUModelExchange.integrate fn (st.toStepper (FMUModelExchange.system fn) fuel) fuel'
        t deltaT d0 = some r →
      r.2.time_ = r.1 ∧ r.1 ≤ t ∧ (r.2.timeEvent_ = false → r.1 = t)) := by
  obtain ⟨i1, i2, i3, i4, i5⟩ :=
    FMUModelExchange.integrateAll_inv fn st hreg fuel fuel' calls d mid hpos hn heps hlatch
      hcalls
  obtain ⟨t1, t2, t3, t4, t5, t6, t7, t8, -, -, -, -⟩ :=
    FMUModelExchange.integrate_time fn st hreg fuel fuel' tend deltaT mid.2 out
      (by rw [i1]; exact hn) (by rw [i2]; exact heps) hdt i4 h
  rw [i3] at t4 t5 t6 t7
  rw [i2] at t5 t7
  refine ⟨t1, i5 out.1 (le_trans t2 t3), t4, t5, t6, t7, t8, ?_⟩
  intro t d0 r h0 hr
  unfold FMUModelExchange.integrate at hr
  simp only [h0, if_true, Option.some.injEq] at hr
  subst hr
  exact FMUModelExchange.integrateNoStates_time fn t d0

/-- Witness for C9 (amended): zigzag model, `Euler` stepper, step-over-event mode,
`ε = 1`.  The call `integrate( 3/2, 1/2 )` returns `13/8`, the call `integrate( 2, 1/2 )`
behind it returns `2`, which is the driver time; `0 ≤ 13/8 ≤ 2`. -/
theorem integrate_time_along_calls_witness :
    ∃ (mid : List fmiTime × FMUModelExchange Zigzag (OdeintObj Unit))
      (out : fmiTime × FMUModelExchange Zigzag (OdeintObj Unit)),
      FMUModelExchange.integrateAll zigzag zigzagEuler 10 [(3/2, 1/2)] (zigzagDriver false 1)
        = some mid ∧
      FMUModelExchange.integrate zigzag zigzagEuler 10 2 (1/2) mid.2 = some out ∧
      mid.1 = [13/8] ∧ out.1 = 2 ∧
      out.2.time_ = out.1 ∧
      List.Chain (· ≤ ·) (zigzagDriver false 1).time_ (mid.1 ++ [out.1]) ∧
      out.1 ≤ max mid.2.time_ 2 + (zigzagDriver false 1).eventSearchPrecision_ := by
  have hs : ((FMUModelExchange.integrateAll zigzag zigzagEuler 10 [(3/2, 1/2)]
      (zigzagDriver false 1)).bind (fun m =>
        (FMUModelExchange.integrate zigzag zigzagEuler 10 2 (1/2) m.2).map
          (fun o => (m.1, o.1)))) = some ([13/8], 2) := by
    decide!
  cases hmid : FMUModelExchange.integrateAll zigzag zigzagEuler 10 [(3/2, 1/2)]
      (zigzagDriver false 1) with
  | none =>
    rw [hmid] at hs
    cases hs
  | some mid =>
    rw [hmid] at hs
    simp only [Option.some_bind] at hs
    cases hout : FMUModelExchange.integrate zigzag zigzagEuler 10 2 (1/2) mid.2 with
    | none =>
      rw [hout] at hs
      cases hs
    | some out =>
      rw [hout] at hs
      simp only [Option.map_some', Option.some.injEq, Prod.mk.injEq] at hs
      have hall := integrate_time_along_calls zigzag (Euler (FMUModelExchange.system zigzag))
        (Euler.regular zigzag) 10 10 [(3/2, 1/2)] 2 (1/2) (zigzagDriver false 1) mid out
        (by intro c hc; simp only [List.mem_singleton] at hc; subst hc; norm_num)
        (by norm_num) (by decide) (by decide!)
        (by intro hstop; cases hstop) hmid hout
      exact ⟨mid, out, rfl, hout, hs.1, hs.2, hall.1, hall.2.1, hall.2.2.2.1 rfl⟩

/-! ## The model calls of the event handshake -/

/-- A function table with the record of calls put next to it logs its calls. -/
theorem FMU2Functions.traced_logs {F : Type} (fn : FMU2Functions F) :
    (FMU2Functions.traced fn).Logs Prod.snd :=
  ⟨fun _ _ => rfl, fun _ _ => rfl, fun _ => rfl, fun _ => rfl, fun _ _ => rfl, fun _ => rfl⟩

/-- The zigzag model logs its calls. -/
theorem zigzag_logs : zigzag.Logs Zigzag.log :=
  ⟨fun _ _ => rfl, fun _ _ => rfl, fun _ => rfl, fun _ => rfl, fun _ _ => rfl, fun _ => rfl⟩

/-- The clock model logs its calls. -/
theorem clock_logs : clock.Logs Clock.log :=
  ⟨fun _ _ => rfl, fun _ _ => rfl, fun _ => rfl, fun _ => rfl, fun _ _ => rfl, fun _ => rfl⟩

/-- The bumper model logs its calls. -/
theorem bumper_logs : bumper.Logs Bumper.log :=
  ⟨fun _ _ => rfl, fun _ _ => rfl, fun _ => rfl, fun _ => rfl, fun _ _ => rfl, fun _ => rfl⟩

/-- `n` calls of `newDiscreteStates` in a row leave `n` entries in the record. -/
theorem FMUModelExchange.newDiscreteStatesTimes_log {F : Type} (fn : FMU2Functions F)
    (log : F → List FmiCall) (hlog : fn.Logs log) :
    ∀ (n : Nat) (inst : F) (info : fmi2EventInfo),
      log (FMUModelExchange.newDiscreteStatesTimes fn n inst info).1
        = log inst ++ List.replicate n FmiCall.newDiscreteStates := by
  intro n
  induction n with
  | zero =>
    intro inst info
    simp [FMUModelExchange.newDiscreteStatesTimes]
  | succ n ih =>
    intro inst info
    simp only [FMUModelExchange.newDiscreteStatesTimes]
    rw [ih, hlog.newDiscreteStates, List.replicate_succ]
    simp

/-- The `for` loop of `handleEvents` with `n` iterations left makes `k ≤ n` calls of
`newDiscreteStates`: before each of them the event info asks for one, and if fewer than
`n` are made the event info behind the last one asks for no more. -/
theorem FMUModelExchange.eventIterations_spec {F : Type} (fn : FMU2Functions F) :
    ∀ (n : Nat) (inst : F) (info : fmi2EventInfo),
      ∃ k, k ≤ n ∧
        FMUModelExchange.eventIterations fn n inst info
          = FMUModelExchange.newDiscreteStatesTimes fn k inst info ∧
        (∀ j, j < k →
          (FMUModelExchange.newDiscreteStatesTimes fn j inst info).2.newDiscreteStatesNeeded
            = true ∧
          (FMUModelExchange.newDiscreteStatesTimes fn j inst info).2.terminateSimulation
            = false) ∧
        (k < n →
          (FMUModelExchange.newDiscreteStatesTimes fn k inst info).2.newDiscreteStatesNeeded
            = false ∨
          (FMUModelExchange.newDiscreteStatesTimes fn k inst info).2.terminateSimulation
            = true) := by
  intro n
  induction n with
  | zero =>
    intro inst info
    exact ⟨0, le_refl _, rfl, fun j hj => absurd hj (Nat.not_lt_zero j),
      fun h => absurd h (Nat.lt_irrefl 0)⟩
  | succ n ih =>
    intro inst info
    by_cases hc : (info.newDiscreteStatesNeeded && !info.terminateSimulation) = true
    · obtain ⟨k, hk, heq, hbefore, hafter⟩ :=
        ih (fn.newDiscreteStates inst info).2.2 (fn.newDiscreteStates inst info).2.1
      refine ⟨k + 1, Nat.succ_le_succ hk, ?_, ?_, ?_⟩
      · simp only [FMUModelExchange.eventIterations, hc, if_true,
          FMUModelExchange.newDiscreteStatesTimes]
        exact heq
      · intro j hj
        cases j with
        | zero =>
          simp only [Bool.and_eq_true, Bool.not_eq_true'] at hc
          exact hc
        | succ j =>
          simp only [FMUModelExchange.newDiscreteStatesTimes]
          exact hbefore j (Nat.lt_of_succ_lt_succ hj)
      · intro hlt
        simp only [FMUModelExchange.newDiscreteStatesTimes]
        exact hafter (Nat.lt_of_succ_lt_succ hlt)
    · refine ⟨0, Nat.zero_le _, ?_, fun j hj => absurd hj (Nat.not_lt_zero j), ?_⟩
      · simp only [FMUModelExchange.eventIterations, hc, FMUModelExchange.newDiscreteStatesTimes]
        rfl
      · intro _
        simp only [FMUModelExchange.newDiscreteStatesTimes]
        cases h1 : info.newDiscreteStatesNeeded
        · exact Or.inl rfl
        · cases h2 : info.terminateSimulation
          · rw [h1, h2] at hc
            exact absurd rfl hc
          · exact Or.inr rfl

/-- The handshake of `handleEvents`: the number `k` of `newDiscreteStates` calls, with
`1 ≤ k ≤ 5`, is the least number of calls after which the model asks for no more, or `5`;
only the model instance and the event info change. -/
theorem FMUModelExchange.handleEvents_spec {F S : Type} (fn : FMU2Functions F)
    (self : FMUModelExchange F S) :
    ∃ k, 1 ≤ k ∧ k ≤ maxEventIterations_ ∧
      FMUModelExchange.handleEvents fn self
        = { self with
            instance_ := (fn.enterContinuousTimeMode
              (FMUModelExchange.newDiscreteStatesTimes fn k (fn.enterEventMode self.instance_).2
                { self.eventinfo_ with newDiscreteStatesNeeded := true,
                                       terminateSimulation := false }).1).2,
            eventinfo_ := FMUModelExchange.reported fn self k } ∧
      (∀ j, 1 ≤ j → j < k →
        (FMUModelExchange.reported fn self j).newDiscreteStatesNeeded = true ∧
        (FMUModelExchange.reported fn self j).terminateSimulation = false) ∧
      (k < maxEventIterations_ →
        (FMUModelExchange.reported fn self k).newDiscreteStatesNeeded = false ∨
        (FMUModelExchange.reported fn self k).terminateSimulation = true) := by
  obtain ⟨k, hk, heq, hbefore, hafter⟩ :=
    FMUModelExchange.eventIterations_spec fn maxEventIterations_
      (fn.enterEventMode self.instance_).2
      { self.eventinfo_ with newDiscreteStatesNeeded := true, terminateSimulation := false }
  have hk1 : 1 ≤ k := by
    rcases Nat.eq_zero_or_pos k with h0 | hpos
    · subst h0
      have := hafter (by decide)
      simp [FMUModelExchange.newDiscreteStatesTimes] at this
    · exact hpos
  refine ⟨k, hk1, hk, ?_, fun j _ hj => hbefore j hj, hafter⟩
  simp only [FMUModelExchange.handleEvents, FMUModelExchange.reported, heq]

/-- The record of model calls behind `handleEvents`. -/
theorem FMUModelExchange.handleEvents_log {F S : Type} (fn : FMU2Functions F)
    (log : F → List FmiCall) (hlog : fn.Logs log) (self : FMUModelExchange F S) (k : Nat)
    (h : FMUModelExchange.handleEvents fn self
      = { self with
          instance_ := (fn.enterContinuousTimeMode
            (FMUModelExchange.newDiscreteStatesTimes fn k (fn.enterEventMode self.instance_).2
              { self.eventinfo_ with newDiscreteStatesNeeded := true,
                                     terminateSimulation := false }).1).2,
          eventinfo_ := FMUModelExchange.reported fn self k }) :
    log (FMUModelExchange.handleEvents fn self).instance_
      = log self.instance_ ++ [FmiCall.enterEventMode]
        ++ List.replicate k FmiCall.newDiscreteStates ++ [FmiCall.enterContinuousTimeMode] := by
  rw [h]
  simp only
  rw [hlog.enterContinuousTimeMode, FMUModelExchange.newDiscreteStatesTimes_log fn log hlog,
    hlog.enterEventMode]

/-- The record of model calls behind `stepOverEvent` when an event is flagged, and what
it leaves in the driver. -/
theorem FMUModelExchange.stepOverEvent_log {F S : Type} (fn : FMU2Functions F)
    (log : F → List FmiCall) (hlog : fn.Logs log) (self : FMUModelExchange F S)
    (hflag : self.stateEvent_ = true ∨ self.timeEvent_ = true) :
    ∃ k, 1 ≤ k ∧ k ≤ maxEventIterations_ ∧
      (FMUModelExchange.stepOverEvent fn self).1 = true ∧
      log (FMUModelExchange.stepOverEvent fn self).2.instance_
        = log self.instance_
          ++ [FmiCall.setTime self.tend_,
              FmiCall.setContinuousStates
                (List.zipWith (fun x dx => x + (self.tend_ - self.time_) * dx)
                  (fn.getContinuousStates self.instance_).2
                  (fn.getDerivatives self.instance_).2),
              FmiCall.completedIntegratorStep, FmiCall.enterEventMode]
          ++ List.replicate k FmiCall.newDiscreteStates
          ++ [FmiCall.enterContinuousTimeMode] ∧
      (FMUModelExchange.stepOverEvent fn self).2.time_ = self.tend_ ∧
      (FMUModelExchange.stepOverEvent fn self).2.preeventsind_
        = (fn.getEventIndicators (FMUModelExchange.stepOverEvent fn self).2.instance_).2 ∧
      (FMUModelExchange.stepOverEvent fn self).2.upcomingEvent_ = false ∧
      (FMUModelExchange.stepOverEvent fn self).2.timeEvent_ = self.timeEvent_ ∧
      (FMUModelExchange.stepOverEvent fn self).2.stateEvent_ = self.stateEvent_ := by
  have hc : (!self.stateEvent_ && !self.timeEvent_) = false := by
    rcases hflag with h | h <;> simp [h]
  obtain ⟨T, hT⟩ : ∃ T : FMUModelExchange F S, T =
      FMUModelExchange.setContinuousStates fn
        (List.zipWith (fun x dx => x + (self.tend_ - self.time_) * dx)
          (fn.getContinuousStates self.instance_).2 (fn.getDerivatives self.instance_).2)
        (FMUModelExchange.setTime fn self.tend_
          { (FMUModelExchange.getDerivatives fn
              (FMUModelExchange.getContinuousStates fn self).2).2 with
            intStates_ := List.zipWith (fun x dx => x + (self.tend_ - self.time_) * dx)
              (fn.getContinuousStates self.instance_).2 (fn.getDerivatives self.instance_).2,
            intDerivatives_ := (fn.getDerivatives self.instance_).2 }) := ⟨_, rfl⟩
  have hso : FMUModelExchange.stepOverEvent fn self
      = (true, FMUModelExchange.saveEventIndicators fn
          { FMUModelExchange.handleEvents fn (FMUModelExchange.completedIntegratorStep fn T)
            with upcomingEvent_ := false }) := by
    rw [hT]
    simp only [FMUModelExchange.stepOverEvent, hc]
    rfl
  have hT1 : log (FMUModelExchange.completedIntegratorStep fn T).instance_
      = log self.instance_ ++ [FmiCall.setTime self.tend_,
          FmiCall.setContinuousStates
            (List.zipWith (fun x dx => x + (self.tend_ - self.time_) * dx)
              (fn.getContinuousStates self.instance_).2 (fn.getDerivatives self.instance_).2),
          FmiCall.completedIntegratorStep] := by
    rw [hT]
    show log (fn.completedIntegratorStep (fn.setContinuousStates
      (fn.setTime self.instance_ self.tend_).2 _).2).2.2.2 = _
    rw [hlog.completedIntegratorStep, hlog.setContinuousStates, hlog.setTime]
    simp
  have hT2 : T.time_ = self.tend_ ∧ T.timeEvent_ = self.timeEvent_ ∧
      T.stateEvent_ = self.stateEvent_ := by
    rw [hT]
    exact ⟨rfl, rfl, rfl⟩
  obtain ⟨k, hk1, hk5, heq, -, -⟩ := FMUModelExchange.handleEvents_spec fn
    (FMUModelExchange.completedIntegratorStep fn T)
  have hl := FMUModelExchange.handleEvents_log fn log hlog _ k heq
  rw [hso]
  refine ⟨k, hk1, hk5, rfl, ?_, hT2.1, rfl, rfl, hT2.2.1, hT2.2.2⟩
  show log (FMUModelExchange.handleEvents fn
    (FMUModelExchange.completedIntegratorStep fn T)).instance_ = _
  rw [hl, hT1]
  simp

/-! ## C11: the step over an event -/

/-- C11: when a state event or a time event is flagged, `stepOverEvent` makes exactly
one explicit Euler step over the event horizon `[time_, tend_]` (`tLower` and `tUpper`
of the event): with the states `x` and the derivatives `dx` read from the model at entry
it writes the time `tend_` and the states `x_i + (tend_ - time_) dx_i`, for every index
`i`, to the model, then notifies `completedIntegratorStep`, runs the event handshake
(`k` calls of `newDiscreteStates`, `1 ≤ k ≤ 5`), takes the indicator snapshot at the
model behind the handshake, clears the latch and returns `true`; the driver time is
`tend_`.  The model calls are recorded by `log`. -/
theorem stepOverEvent_single_euler_step {F S : Type} (fn : FMU2Functions F)
    (log : F → List FmiCall) (hlog : fn.Logs log) (self : FMUModelExchange F S)
    (hflag : self.stateEvent_ = true ∨ self.timeEvent_ = true) :
    ∃ (k : Nat) (written : state_type), 1 ≤ k ∧ k ≤ maxEventIterations_ ∧
      (∀ (i : Nat) (x dx : fmiReal), (fn.getContinuousStates self.instance_).2[i]? = some x →
        (fn.getDerivatives self.instance_).2[i]? = some dx →
        written[i]? = some (x + (self.tend_ - self.time_) * dx)) ∧
      written.length = min (fn.getContinuousStates self.instance_).2.length
        (fn.getDerivatives self.instance_).2.length ∧
      (FMUModelExchange.stepOverEvent fn self).1 = true ∧
      log (FMUModelExchange.stepOverEvent fn self).2.instance_
        = log self.instance_
          ++ [FmiCall.setTime self.tend_, FmiCall.setContinuousStates written,
              FmiCall.completedIntegratorStep, FmiCall.enterEventMode]
          ++ List.replicate k FmiCall.newDiscreteStates
          ++ [FmiCall.enterContinuousTimeMode] ∧
      (FMUModelExchange.stepOverEvent fn self).2.time_ = self.tend_ ∧
      (FMUModelExchange.stepOverEvent fn self).2.preeventsind_
        = (fn.getEventIndicators (FMUModelExchange.stepOverEvent fn self).2.instance_).2 ∧
      (FMUModelExchange.stepOverEvent fn self).2.upcomingEvent_ = false := by
  obtain ⟨k, hk1, hk5, h1, h2, h3, h4, h5, -, -⟩ :=
    FMUModelExchange.stepOverEvent_log fn log hlog self hflag
  refine ⟨k, _, hk1, hk5, ?_, ?_, h1, h2, h3, h4, h5⟩
  · intro i x dx hx hdx
    rw [List.getElem?_zipWith, hx, hdx]
  · exact List.length_zipWith _ _ _

/-- Witness for C11: the zigzag driver that has stopped before its first event, located
in `[0, 3]` (model at `t = 0`, `x = 0`, slope `1`): the step over the event writes
`t = 3`, `x = 0 + 3 * 1`. -/
theorem stepOverEvent_single_euler_step_witness :
    ({ zigzagFirstEngineResult.fmu with stateEvent_ := true, time_ := 0, tend_ := 3 } :
        FMUModelExchange Zigzag (OdeintObj Unit)).stateEvent_ = true ∧
    ∃ (k : Nat) (written : state_type), 1 ≤ k ∧ k ≤ maxEventIterations_ ∧
      written[0]? = some (0 + (3 - 0) * 1) ∧
      (FMUModelExchange.stepOverEvent zigzag
        { zigzagFirstEngineResult.fmu with stateEvent_ := true, time_ := 0, tend_ := 3 }).1
        = true ∧
      (FMUModelExchange.stepOverEvent zigzag
        { zigzagFirstEngineResult.fmu with stateEvent_ := true, time_ := 0, tend_ := 3 }
        ).2.instance_.log
        = zigzagFirstEngineResult.fmu.instance_.log
          ++ [FmiCall.setTime 3, FmiCall.setContinuousStates written,
              FmiCall.completedIntegratorStep, FmiCall.enterEventMode]
          ++ List.replicate k FmiCall.newDiscreteStates
          ++ [FmiCall.enterContinuousTimeMode] := by
  obtain ⟨k, written, hk1, hk5, hw, -, h1, h2, -, -, -⟩ :=
    stepOverEvent_single_euler_step zigzag Zigzag.log zigzag_logs
      { zigzagFirstEngineResult.fmu with stateEvent_ := true, time_ := 0, tend_ := 3 }
      (Or.inl rfl)
  exact ⟨rfl, k, written, hk1, hk5, hw 0 0 1 rfl rfl, h1, h2⟩

/-! ## C15: the call sequence of `handleEvents` -/

/-- C15: every call of `handleEvents` makes the model calls `enterEventMode` once, then
`newDiscreteStates` `k` times with `1 ≤ k ≤ 5`, then `enterContinuousTimeMode` once
(recorded by `log`); `k` is the least number of calls after which the model reports
`newDiscreteStatesNeeded = false` or `terminateSimulation = true`, or `5` if that does not
happen; the event info of the driver is the one reported last. -/
theorem handleEvents_call_sequence {F S : Type} (fn : FMU2Functions F)
    (log : F → List FmiCall) (hlog : fn.Logs log) (self : FMUModelExchange F S) :
    ∃ k, 1 ≤ k ∧ k ≤ 5 ∧
      log (FMUModelExchange.handleEvents fn self).instance_
        = log self.instance_ ++ [FmiCall.enterEventMode]
          ++ List.replicate k FmiCall.newDiscreteStates
          ++ [FmiCall.enterContinuousTimeMode] ∧
      (∀ j, 1 ≤ j → j < k →
        (FMUModelExchange.reported fn self j).newDiscreteStatesNeeded = true ∧
        (FMUModelExchange.reported fn self j).terminateSimulation = false) ∧
      (k < 5 →
        (FMUModelExchange.reported fn self k).newDiscreteStatesNeeded = false ∨
        (FMUModelExchange.reported fn self k).terminateSimulation = true) ∧
      (FMUModelExchange.handleEvents fn self).eventinfo_
        = FMUModelExchange.reported fn self k := by
  obtain ⟨k, hk1, hk5, heq, hbefore, hafter⟩ := FMUModelExchange.handleEvents_spec fn self
  refine ⟨k, hk1, hk5, FMUModelExchange.handleEvents_log fn log hlog self k heq, hbefore,
    hafter, ?_⟩
  rw [heq]

/-- Witness for C15: the clock model with events that need three `newDiscreteStates`
calls. -/
theorem handleEvents_call_sequence_witness :
    ∃ k, 1 ≤ k ∧ k ≤ 5 ∧
      (FMUModelExchange.handleEvents clock (clockDriver [] 3 false 1)).instance_.log
        = (clockDriver [] 3 false 1).instance_.log ++ [FmiCall.enterEventMode]
          ++ List.replicate k FmiCall.newDiscreteStates
          ++ [FmiCall.enterContinuousTimeMode] ∧
      (FMUModelExchange.handleEvents clock (clockDriver [] 3 false 1)).instance_.log
        = [FmiCall.enterEventMode, FmiCall.newDiscreteStates, FmiCall.newDiscreteStates,
           FmiCall.newDiscreteStates, FmiCall.enterContinuousTimeMode] := by
  obtain ⟨k, hk1, hk5, hl, -, -, -⟩ :=
    handleEvents_call_sequence clock Clock.log clock_logs (clockDriver [] 3 false 1)
  exact ⟨k, hk1, hk5, hl, by decide!⟩

/-! ## C16: the cap of the event iterations -/

/-- C16, as stated, fails: no warning is produced when the cap is reached.  Clock model
whose events need seven `newDiscreteStates` calls: `handleEvents` stops after the fifth
call with `newDiscreteStatesNeeded` still `true`, the model goes back to continuous-time
mode, and in the driver nothing but the model instance and the event info has changed;
the status `lastStatus_` is still `fmi2OK`. -/
theorem handleEvents_cap_without_warning :
    (FMUModelExchange.handleEvents clock (clockDriver [] 7 false 1)).instance_.log
      = [FmiCall.enterEventMode, FmiCall.newDiscreteStates, FmiCall.newDiscreteStates,
         FmiCall.newDiscreteStates, FmiCall.newDiscreteStates, FmiCall.newDiscreteStates,
         FmiCall.enterContinuousTimeMode] ∧
    (FMUModelExchange.handleEvents clock (clockDriver [] 7 false 1)
      ).eventinfo_.newDiscreteStatesNeeded = true ∧
    (FMUModelExchange.handleEvents clock (clockDriver [] 7 false 1)).lastStatus_
      = fmi2Status.fmi2OK ∧
    FMUModelExchange.handleEvents clock (clockDriver [] 7 false 1)
      = { clockDriver [] 7 false 1 with
          instance_ := (FMUModelExchange.handleEvents clock
            (clockDriver [] 7 false 1)).instance_,
          eventinfo_ := (FMUModelExchange.handleEvents clock
            (clockDriver [] 7 false 1)).eventinfo_ } := by
  refine ⟨by decide!, by decide!, rfl, rfl⟩

/-- C16 (amended): if the model still reports `newDiscreteStatesNeeded = true` (and no
`terminateSimulation`) after each of the first five `newDiscreteStates` calls of a
handshake, `handleEvents` makes exactly these five calls and returns the model to
continuous-time mode; the event info it leaves still has `newDiscreteStatesNeeded = true`;
no warning is produced: the status `lastStatus_` and every other member of the driver but
the model instance and the event info keep their values. -/
theorem handleEvents_cap_is_silent {F S : Type} (fn : FMU2Functions F)
    (log : F → List FmiCall) (hlog : fn.Logs log) (self : FMUModelExchange F S)
    (hneed : ∀ j, 1 ≤ j → j ≤ 5 →
      (FMUModelExchange.reported fn self j).newDiscreteStatesNeeded = true ∧
      (FMUModelExchange.reported fn self j).terminateSimulation = false) :
    log (FMUModelExchange.handleEvents fn self).instance_
      = log self.instance_ ++ [FmiCall.enterEventMode]
        ++ List.replicate 5 FmiCall.newDiscreteStates
        ++ [FmiCall.enterContinuousTimeMode] ∧
    (FMUModelExchange.handleEvents fn self).eventinfo_.newDiscreteStatesNeeded = true ∧
    (FMUModelExchange.handleEvents fn self).lastStatus_ = self.lastStatus_ ∧
    FMUModelExchange.handleEvents fn self
      = { self with
          instance_ := (FMUModelExchange.handleEvents fn self).instance_,
          eventinfo_ := (FMUModelExchange.handleEvents fn self).eventinfo_ } := by
  obtain ⟨k, hk1, hk5, heq, -, hafter⟩ := FMUModelExchange.handleEvents_spec fn self
  have hk : k = 5 := by
    by_contra hne
    have hlt : k < maxEventIterations_ := lt_of_le_of_ne hk5 hne
    have h1 := hneed k hk1 hk5
    rcases hafter hlt with h | h
    · rw [h1.1] at h
      cases h
    · rw [h1.2] at h
      cases h
  subst hk
  refine ⟨FMUModelExchange.handleEvents_log fn log hlog self 5 heq, ?_, rfl, rfl⟩
  rw [heq]
  exact (hneed 5 (by decide) (le_refl _)).1

/-- Witness for C16 (amended): the clock model whose events need seven
`newDiscreteStates` calls. -/
theorem handleEvents_cap_is_silent_witness :
    (∀ j, 1 ≤ j → j ≤ 5 →
      (FMUModelExchange.reported clock (clockDriver [] 7 false 1) j).newDiscreteStatesNeeded
        = true ∧
      (FMUModelExchange.reported clock (clockDriver [] 7 false 1) j).terminateSimulation
        = false) ∧
    (FMUModelExchange.handleEvents clock (clockDriver [] 7 false 1)).instance_.log
      = (clockDriver [] 7 false 1).instance_.log ++ [FmiCall.enterEventMode]
        ++ List.replicate 5 FmiCall.newDiscreteStates
        ++ [FmiCall.enterContinuousTimeMode] ∧
    (FMUModelExchange.handleEvents clock (clockDriver [] 7 false 1)
      ).eventinfo_.newDiscreteStatesNeeded = true ∧
    (FMUModelExchange.handleEvents clock (clockDriver [] 7 false 1)).lastStatus_
      = (clockDriver [] 7 false 1).lastStatus_ := by
  have hneed : ∀ j, 1 ≤ j → j ≤ 5 →
      (FMUModelExchange.reported clock (clockDriver [] 7 false 1) j).newDiscreteStatesNeeded
        = true ∧
      (FMUModelExchange.reported clock (clockDriver [] 7 false 1) j).terminateSimulation
        = false := by
    intro j h1 h5
    interval_cases j <;> exact ⟨by decide!, by decide!⟩
  obtain ⟨h1, h2, h3, -⟩ :=
    handleEvents_cap_is_silent clock Clock.log clock_logs (clockDriver [] 7 false 1) hneed
  exact ⟨hneed, h1, h2, h3⟩

/-! ## C12: time events in `integrate` -/

/-- C12: `integrate( tend, deltaT )` on a model with continuous states.  With the driver
as it is behind the step over a latched event (`afterLatch`), at time `T`: if the event
info has a next event time defined that is `≤ tend`, the integrator is asked for the
span `nextEventTime - ε/2 - T`, otherwise for `tend - T`.  If then the integrator
reports neither a state event nor a step event and the time event is flagged, the event
horizon is set to `[T1, T1 + ε]`, `T1` the driver time where the integrator stopped,
before the event is latched (stop-before-event mode, `T1` returned) or stepped over
(`T1 + ε` returned). -/
theorem integrate_time_event_span {F S : Type} (fn : FMU2Functions F)
    (st : IntegratorStepper S (FMUModelExchange F S)) (fuel : Nat) (tend deltaT : fmiTime)
    (self : FMUModelExchange F S) (hn : self.nStateVars_ ≠ 0) :
    (FMUModelExchange.prepare fn tend self).2.time_
      = (FMUModelExchange.afterLatch fn self).time_ ∧
    FMUModelExchange.integrate fn st fuel tend deltaT self
      = (Integrator.integrate (FMUModelExchange.system fn) st fuel
          ((if ((FMUModelExchange.afterLatch fn self).eventinfo_.nextEventTimeDefined &&
                decide ((FMUModelExchange.afterLatch fn self).eventinfo_.nextEventTime ≤ tend))
            then (FMUModelExchange.afterLatch fn self).eventinfo_.nextEventTime
              - (FMUModelExchange.afterLatch fn self).eventSearchPrecision_ / 2
            else tend) - (FMUModelExchange.afterLatch fn self).time_)
          deltaT (FMUModelExchange.afterLatch fn self).eventSearchPrecision_
          (FMUModelExchange.afterLatch fn self).integrator_
          (FMUModelExchange.prepare fn tend self).2).map
        (fun r => FMUModelExchange.classify fn r.ret { r.fmu with integrator_ := r.self }) ∧
    ∀ (e : EventInfo) (m : FMUModelExchange F S),
      e.stateEvent = false → e.stepEvent = false → m.timeEvent_ = true →
      (m.stopBeforeEvent_ = true →
        FMUModelExchange.classify fn e m
          = (m.time_,
             { m with stateEvent_ := false, tend_ := m.time_ + m.eventSearchPrecision_,
                      upcomingEvent_ := true, eventFlag_ := true })) ∧
      (m.stopBeforeEvent_ = false →
        FMUModelExchange.classify fn e m
          = (m.time_ + m.eventSearchPrecision_,
             { (FMUModelExchange.stepOverEvent fn
                 { m with stateEvent_ := false,
                          tend_ := m.time_ + m.eventSearchPrecision_ }).2
               with eventFlag_ := true })) := by
  refine ⟨rfl, ?_, ?_⟩
  · have key : ∀ (o : Option (IntegrateResult S (FMUModelExchange F S))),
        (match o with
          | none => none
          | some r =>
            some (FMUModelExchange.classify fn r.ret { r.fmu with integrator_ := r.self }))
          = o.map (fun r =>
            FMUModelExchange.classify fn r.ret { r.fmu with integrator_ := r.self }) := by
      intro o
      cases o <;> rfl
    unfold FMUModelExchange.integrate
    simp only [hn, if_false]
    exact key _
  · intro e m hse hstep hte
    constructor
    · intro hstop
      simp [FMUModelExchange.classify, hse, hstep, hte, hstop, FMUModelExchange.getTime]
    · intro hstop
      simp [FMUModelExchange.classify, hse, hstep, hte, hstop, FMUModelExchange.getTime,
        FMUModelExchange.stepOverEvent, FMUModelExchange.saveEventIndicators,
        FMUModelExchange.getEventIndicators, FMUModelExchange.handleEvents,
        FMUModelExchange.completedIntegratorStep, FMUModelExchange.setContinuousStates,
        FMUModelExchange.setTime, FMUModelExchange.getDerivatives,
        FMUModelExchange.getContinuousStates]

/-- Witness for C12: the clock model with one continuous state, first time event at `1`,
`ε = 1/2`, step-over-event mode: `integrate( 2, 1/2 )` from time `0` asks the integrator
for the span `1 - 1/4 - 0 = 3/4`, then sets the horizon `[3/4, 5/4]`, steps over the
event and returns `5/4`. -/
theorem integrate_time_event_span_witness :
    (clockDriver [0] 1 false (1/2)).nStateVars_ ≠ 0 ∧
    FMUModelExchange.integrate clock clockEuler 10 2 (1/2) (clockDriver [0] 1 false (1/2))
      = (Integrator.integrate (FMUModelExchange.system clock) clockEuler 10
          ((if ((FMUModelExchange.afterLatch clock
                  (clockDriver [0] 1 false (1/2))).eventinfo_.nextEventTimeDefined &&
                decide ((FMUModelExchange.afterLatch clock
                  (clockDriver [0] 1 false (1/2))).eventinfo_.nextEventTime ≤ 2))
            then (FMUModelExchange.afterLatch clock
                (clockDriver [0] 1 false (1/2))).eventinfo_.nextEventTime
              - (FMUModelExchange.afterLatch clock
                (clockDriver [0] 1 false (1/2))).eventSearchPrecision_ / 2
            else 2)
            - (FMUModelExchange.afterLatch clock (clockDriver [0] 1 false (1/2))).time_)
          (1/2)
          (FMUModelExchange.afterLatch clock (clockDriver [0] 1 false (1/2))).eventSearchPrecision_
          (FMUModelExchange.afterLatch clock (clockDriver [0] 1 false (1/2))).integrator_
          (FMUModelExchange.prepare clock 2 (clockDriver [0] 1 false (1/2))).2).map
        (fun r => FMUModelExchange.classify clock r.ret { r.fmu with integrator_ := r.self }) ∧
    (if ((FMUModelExchange.afterLatch clock
            (clockDriver [0] 1 false (1/2))).eventinfo_.nextEventTimeDefined &&
          decide ((FMUModelExchange.afterLatch clock
            (clockDriver [0] 1 false (1/2))).eventinfo_.nextEventTime ≤ 2))
      then (FMUModelExchange.afterLatch clock
          (clockDriver [0] 1 false (1/2))).eventinfo_.nextEventTime
        - (FMUModelExchange.afterLatch clock
          (clockDriver [0] 1 false (1/2))).eventSearchPrecision_ / 2
      else 2)
      - (FMUModelExchange.afterLatch clock (clockDriver [0] 1 false (1/2))).time_ = 3/4 ∧
    (FMUModelExchange.integrate clock clockEuler 10 2 (1/2)
        (clockDriver [0] 1 false (1/2))).map
      (fun r => (r.1, r.2.time_, r.2.tend_, r.2.instance_.t)) = some (5/4, 5/4, 5/4, 5/4) :=
  ⟨by decide,
   (integrate_time_event_span clock clockEuler 10 2 (1/2) (clockDriver [0] 1 false (1/2))
      (by decide)).2.1,
   by decide!, by decide!⟩

/-- The start of `integrate` for a model without continuous states: in step-over-event
mode nothing is done; in stop-before-event mode the model is notified and an event
latched by the call before is handled, the indicator snapshot taken and the latch
cleared. -/
theorem FMUModelExchange.afterLatchNoStates_spec {F S : Type} (fn : FMU2Functions F)
    (log : F → List FmiCall) (hlog : fn.Logs log) (self : FMUModelExchange F S) :
    (FMUModelExchange.afterLatchNoStates fn self).nStateVars_ = self.nStateVars_ ∧
    (FMUModelExchange.afterLatchNoStates fn self).stopBeforeEvent_ = self.stopBeforeEvent_ ∧
    (FMUModelExchange.afterLatchNoStates fn self).eventFlag_ = self.eventFlag_ ∧
    (self.stopBeforeEvent_ = false → FMUModelExchange.afterLatchNoStates fn self = self) ∧
    (self.stopBeforeEvent_ = true →
      (FMUModelExchange.afterLatchNoStates fn self).upcomingEvent_ = false) ∧
    (self.stopBeforeEvent_ = true → self.upcomingEvent_ = false →
      (FMUModelExchange.afterLatchNoStates fn self).eventinfo_ = self.eventinfo_ ∧
      log (FMUModelExchange.afterLatchNoStates fn self).instance_
        = log self.instance_ ++ [FmiCall.completedIntegratorStep]) ∧
    (self.stopBeforeEvent_ = true → self.upcomingEvent_ = true →
      ∃ k, 1 ≤ k ∧ k ≤ 5 ∧
        log (FMUModelExchange.afterLatchNoStates fn self).instance_
          = log self.instance_ ++ [FmiCall.completedIntegratorStep, FmiCall.enterEventMode]
            ++ List.replicate k FmiCall.newDiscreteStates
            ++ [FmiCall.enterContinuousTimeMode] ∧
        (FMUModelExchange.afterLatchNoStates fn self).preeventsind_
          = (fn.getEventIndicators
              (FMUModelExchange.afterLatchNoStates fn self).instance_).2) := by
  have hup : (FMUModelExchange.completedIntegratorStep fn self).upcomingEvent_
      = self.upcomingEvent_ := rfl
  cases hs : self.stopBeforeEvent_ with
  | false =>
    have h0 : FMUModelExchange.afterLatchNoStates fn self = self := by
      simp [FMUModelExchange.afterLatchNoStates, hs]
    rw [h0]
    exact ⟨rfl, hs, rfl, fun _ => rfl, fun h => Bool.noConfusion h,
      fun h => Bool.noConfusion h, fun h => Bool.noConfusion h⟩
  | true =>
    cases hu : self.upcomingEvent_ with
    | false =>
      have h0 : FMUModelExchange.afterLatchNoStates fn self
          = FMUModelExchange.completedIntegratorStep fn self := by
        simp [FMUModelExchange.afterLatchNoStates, hs, hup, hu]
      rw [h0]
      refine ⟨rfl, hs, rfl, fun h => Bool.noConfusion h, fun _ => hu, fun _ _ => ⟨rfl, ?_⟩,
        fun _ h => Bool.noConfusion h⟩
      exact hlog.completedIntegratorStep _
    | true =>
      have h0 : FMUModelExchange.afterLatchNoStates fn self
          = { FMUModelExchange.saveEventIndicators fn
                (FMUModelExchange.handleEvents fn
                  (FMUModelExchange.completedIntegratorStep fn self))
              with upcomingEvent_ := false } := by
        simp [FMUModelExchange.afterLatchNoStates, hs, hup, hu]
      obtain ⟨k, hk1, hk5, heq, -, -⟩ := FMUModelExchange.handleEvents_spec fn
        (FMUModelExchange.completedIntegratorStep fn self)
      have hl := FMUModelExchange.handleEvents_log fn log hlog _ k heq
      rw [h0]
      refine ⟨rfl, hs, rfl, fun h => Bool.noConfusion h, fun _ => rfl,
        fun _ h => Bool.noConfusion h, fun _ _ => ⟨k, hk1, hk5, ?_, rfl⟩⟩
      · show log (FMUModelExchange.handleEvents fn
          (FMUModelExchange.completedIntegratorStep fn self)).instance_ = _
        rw [hl]
        show log (fn.completedIntegratorStep self.instance_).2.2.2 ++ _ ++ _ ++ _ = _
        rw [hlog.completedIntegratorStep]
        simp

/-- The part of `integrate` for a model without continuous states behind its start, as a
function of the driver `s` behind the start. -/
theorem FMUModelExchange.integrateNoStates_tail {F S : Type} (fn : FMU2Functions F)
    (log : F → List FmiCall) (hlog : fn.Logs log) (tend : fmiTime)
    (self : FMUModelExchange F S) :
    (FMUModelExchange.integrateNoStates fn tend self).1
      = (if ((FMUModelExchange.afterLatchNoStates fn self).eventinfo_.nextEventTimeDefined &&
            decide ((FMUModelExchange.afterLatchNoStates fn self).eventinfo_.nextEventTime
              ≤ tend))
          then (FMUModelExchange.afterLatchNoStates fn self).eventinfo_.nextEventTime
          else tend) ∧
    (FMUModelExchange.integrateNoStates fn tend self).2.time_
      = (FMUModelExchange.integrateNoStates fn tend self).1 ∧
    (FMUModelExchange.integrateNoStates fn tend self).2.timeEvent_
      = ((FMUModelExchange.afterLatchNoStates fn self).eventinfo_.nextEventTimeDefined &&
          decide ((FMUModelExchange.afterLatchNoStates fn self).eventinfo_.nextEventTime
            ≤ tend)) ∧
    (FMUModelExchange.integrateNoStates fn tend self).2.nStateVars_
      = (FMUModelExchange.afterLatchNoStates fn self).nStateVars_ ∧
    (FMUModelExchange.integrateNoStates fn tend self).2.stopBeforeEvent_
      = (FMUModelExchange.afterLatchNoStates fn self).stopBeforeEvent_ ∧
    (FMUModelExchange.integrateNoStates fn tend self).2.eventFlag_
      = ((FMUModelExchange.afterLatchNoStates fn self).eventFlag_ ||
          (FMUModelExchange.integrateNoStates fn tend self).2.stateEvent_) ∧
    ((FMUModelExchange.afterLatchNoStates fn self).stopBeforeEvent_ = true →
      (FMUModelExchange.integrateNoStates fn tend self).2.upcomingEvent_
        = ((FMUModelExchange.afterLatchNoStates fn self).upcomingEvent_ ||
            ((FMUModelExchange.integrateNoStates fn tend self).2.timeEvent_ ||
              (FMUModelExchange.integrateNoStates fn tend self).2.enterEventMode_ ||
              (FMUModelExchange.integrateNoStates fn tend self).2.stateEvent_)) ∧
      (FMUModelExchange.integrateNoStates fn tend self).2.enterEventMode_
        = (FMUModelExchange.afterLatchNoStates fn self).enterEventMode_ ∧
      log (FMUModelExchange.integrateNoStates fn tend self).2.instance_
        = log (FMUModelExchange.afterLatchNoStates fn self).instance_
          ++ [FmiCall.setTime (FMUModelExchange.integrateNoStates fn tend self).1]) ∧
    ((FMUModelExchange.afterLatchNoStates fn self).stopBeforeEvent_ = false →
      ∃ tail, log (FMUModelExchange.integrateNoStates fn tend self).2.instance_
        = log (FMUModelExchange.afterLatchNoStates fn self).instance_
          ++ [FmiCall.setTime (FMUModelExchange.integrateNoStates fn tend self).1] ++ tail ∧
        (∀ t, FmiCall.setTime t ∉ tail) ∧
        (((FMUModelExchange.integrateNoStates fn tend self).2.timeEvent_ ||
            (FMUModelExchange.integrateNoStates fn tend self).2.enterEventMode_ ||
            (FMUModelExchange.integrateNoStates fn tend self).2.stateEvent_) = true →
          (FMUModelExchange.integrateNoStates fn tend self).2.preeventsind_
            = (fn.getEventIndicators
                (FMUModelExchange.integrateNoStates fn tend self).2.instance_).2)) := by
  suffices h : ∀ r, r = FMUModelExchange.integrateNoStates fn tend self →
      r.1 = (if ((FMUModelExchange.afterLatchNoStates fn self).eventinfo_.nextEventTimeDefined &&
            decide ((FMUModelExchange.afterLatchNoStates fn self).eventinfo_.nextEventTime
              ≤ tend))
          then (FMUModelExchange.afterLatchNoStates fn self).eventinfo_.nextEventTime
          else tend) ∧
      r.2.time_ = r.1 ∧
      r.2.timeEvent_
        = ((FMUModelExchange.afterLatchNoStates fn self).eventinfo_.nextEventTimeDefined &&
            decide ((FMUModelExchange.afterLatchNoStates fn self).eventinfo_.nextEventTime
              ≤ tend)) ∧
      r.2.nStateVars_ = (FMUModelExchange.afterLatchNoStates fn self).nStateVars_ ∧
      r.2.stopBeforeEvent_ = (FMUModelExchange.afterLatchNoStates fn self).stopBeforeEvent_ ∧
      r.2.eventFlag_
        = ((FMUModelExchange.afterLatchNoStates fn self).eventFlag_ || r.2.stateEvent_) ∧
      ((FMUModelExchange.afterLatchNoStates fn self).stopBeforeEvent_ = true →
        r.2.upcomingEvent_
          = ((FMUModelExchange.afterLatchNoStates fn self).upcomingEvent_ ||
              (r.2.timeEvent_ || r.2.enterEventMode_ || r.2.stateEvent_)) ∧
        r.2.enterEventMode_ = (FMUModelExchange.afterLatchNoStates fn self).enterEventMode_ ∧
        log r.2.instance_ = log (FMUModelExchange.afterLatchNoStates fn self).instance_
          ++ [FmiCall.setTime r.1]) ∧
      ((FMUModelExchange.afterLatchNoStates fn self).stopBeforeEvent_ = false →
        ∃ tail, log r.2.instance_
          = log (FMUModelExchange.afterLatchNoStates fn self).instance_
            ++ [FmiCall.setTime r.1] ++ tail ∧
          (∀ t, FmiCall.setTime t ∉ tail) ∧
          ((r.2.timeEvent_ || r.2.enterEventMode_ || r.2.stateEvent_) = true →
            r.2.preeventsind_ = (fn.getEventIndicators r.2.instance_).2)) from
    h _ rfl
  intro r hr
  unfold FMUModelExchange.integrateNoStates at hr
  lift_lets at hr
  extract_lets a src1 s1 timeEvent tend1 s2 c src2 s3 s4 at hr
  have hsetTime : log s3.instance_
      = log (FMUModelExchange.afterLatchNoStates fn self).instance_
        ++ [FmiCall.setTime tend1] :=
    hlog.setTime _ _
  split at hr
  · rename_i hmode
    have hmode' : (FMUModelExchange.afterLatchNoStates fn self).stopBeforeEvent_ = false := by
      have : (!(FMUModelExchange.afterLatchNoStates fn self).stopBeforeEvent_) = true := hmode
      simpa using this
    split at hr
    · subst hr
      obtain ⟨k, hk1, hk5, heq, -, -⟩ := FMUModelExchange.handleEvents_spec fn s4
      have hl := FMUModelExchange.handleEvents_log fn log hlog _ k heq
      refine ⟨rfl, rfl, rfl, rfl, rfl, rfl, fun h => ?_, fun _ => ⟨[FmiCall.completedIntegratorStep,
        FmiCall.enterEventMode] ++ List.replicate k FmiCall.newDiscreteStates
          ++ [FmiCall.enterContinuousTimeMode], ?_, ?_, fun _ => rfl⟩⟩
      · rw [hmode'] at h
        cases h
      · show log (FMUModelExchange.handleEvents fn s4).instance_ = _
        rw [hl]
        show log (fn.completedIntegratorStep s3.instance_).2.2.2 ++ _ ++ _ ++ _ = _
        rw [hlog.completedIntegratorStep, hsetTime]
        simp
      · intro t ht
        simp [List.mem_replicate] at ht
    · rename_i hev
      subst hr
      refine ⟨rfl, rfl, rfl, rfl, rfl, rfl, fun h => ?_,
        fun _ => ⟨[FmiCall.completedIntegratorStep], ?_, ?_, fun h => ?_⟩⟩
      · rw [hmode'] at h
        cases h
      · show log (fn.completedIntegratorStep s3.instance_).2.2.2 = _
        rw [hlog.completedIntegratorStep, hsetTime]
      · intro t ht
        simp at ht
      · exact absurd h hev
  · rename_i hmode
    have hmode' : (FMUModelExchange.afterLatchNoStates fn self).stopBeforeEvent_ = true := by
      have : ¬ (!(FMUModelExchange.afterLatchNoStates fn self).stopBeforeEvent_) = true := hmode
      simpa using this
    split at hr
    · rename_i hev
      subst hr
      have hev' : (s3.timeEvent_ || s3.enterEventMode_ || s3.stateEvent_) = true := hev
      refine ⟨rfl, rfl, rfl, rfl, rfl, rfl, fun _ => ⟨?_, rfl, hsetTime⟩, fun h => ?_⟩
      · show true = (_ || (s3.timeEvent_ || s3.enterEventMode_ || s3.stateEvent_))
        rw [hev']
        simp
      · rw [hmode'] at h
        cases h
    · rename_i hev
      subst hr
      have hev' : (s3.timeEvent_ || s3.enterEventMode_ || s3.stateEvent_) = false := by
        have : ¬ (s3.timeEvent_ || s3.enterEventMode_ || s3.stateEvent_) = true := hev
        simpa using this
      refine ⟨rfl, rfl, rfl, rfl, rfl, rfl, fun _ => ⟨?_, rfl, hsetTime⟩, fun h => ?_⟩
      · show (FMUModelExchange.afterLatchNoStates fn self).upcomingEvent_
          = ((FMUModelExchange.afterLatchNoStates fn self).upcomingEvent_ ||
              (s3.timeEvent_ || s3.enterEventMode_ || s3.stateEvent_))
        rw [hev']
        simp
      · rw [hmode'] at h
        cases h

/-! ## C13: the event flag -/

/-- C13 fails for a model without continuous states: that branch of `integrate` returns
without assigning `eventFlag_`.  Clock model without states, first time event at `1`,
`integrate( 2, 1/2 )` from time `0`.  In step-over-event mode the call returns `1`, has
found the time event and handled it (the handshake is on record), yet the event flag is
`false`; in stop-before-event mode it returns `1` with the time event found and latched,
and the event flag is `false` as well. -/
theorem integrate_event_flag_stale_without_states :
    (FMUModelExchange.integrate clock clockEuler 10 2 (1/2) (clockDriver [] 1 false 1)).map
      (fun r => ((r.1, r.2.timeEvent_, r.2.stateEvent_, r.2.upcomingEvent_, r.2.eventFlag_),
        r.2.instance_.log))
      = some ((1, true, false, false, false),
          [FmiCall.setTime 1, FmiCall.completedIntegratorStep, FmiCall.enterEventMode,
           FmiCall.newDiscreteStates, FmiCall.enterContinuousTimeMode]) ∧
    (FMUModelExchange.integrate clock clockEuler 10 2 (1/2) (clockDriver [] 1 true 1)).map
      (fun r => ((r.1, r.2.timeEvent_, r.2.stateEvent_, r.2.upcomingEvent_, r.2.eventFlag_),
        r.2.instance_.log))
      = some ((1, true, false, true, false),
          [FmiCall.completedIntegratorStep, FmiCall.setTime 1]) := by
  constructor <;> decide!

/-! ## C14: `integrate` for a model without continuous states -/

/-- C14: `integrate( tend, deltaT )` on a model without continuous states returns.  With
the event info as it is behind the start of the call (`afterLatchNoStates`; it is the
event info at entry unless an event latched in stop-before-event mode is handled there),
the value returned is the next event time if that is defined and `≤ tend`, and `tend`
otherwise; it is the driver time and the time of the last `setTime` call to the model
(the model calls are recorded by `log`).  In stop-before-event mode the call notifies
the model, handles an event latched by the call before (`k` calls of `newDiscreteStates`)
and then does nothing but set the time: the latch `upcomingEvent_` is set iff a time
event, a step event or a state event has been detected. -/
theorem integrate_without_states {F S : Type} (fn : FMU2Functions F)
    (log : F → List FmiCall) (hlog : fn.Logs log)
    (st : IntegratorStepper S (FMUModelExchange F S)) (fuel : Nat) (tend deltaT : fmiTime)
    (self : FMUModelExchange F S) (hn : self.nStateVars_ = 0) :
    ∃ out, FMUModelExchange.integrate fn st fuel tend deltaT self = some out ∧
      out.1 = (if ((FMUModelExchange.afterLatchNoStates fn self).eventinfo_.nextEventTimeDefined
            && decide ((FMUModelExchange.afterLatchNoStates fn self).eventinfo_.nextEventTime
              ≤ tend))
          then (FMUModelExchange.afterLatchNoStates fn self).eventinfo_.nextEventTime
          else tend) ∧
      out.2.time_ = out.1 ∧
      out.2.timeEvent_
        = ((FMUModelExchange.afterLatchNoStates fn self).eventinfo_.nextEventTimeDefined &&
            decide ((FMUModelExchange.afterLatchNoStates fn self).eventinfo_.nextEventTime
              ≤ tend)) ∧
      out.2.nStateVars_ = self.nStateVars_ ∧ out.2.stopBeforeEvent_ = self.stopBeforeEvent_ ∧
      (self.stopBeforeEvent_ = false →
        FMUModelExchange.afterLatchNoStates fn self = self ∧
        ∃ tail, log out.2.instance_ = log self.instance_ ++ [FmiCall.setTime out.1] ++ tail ∧
          ∀ t, FmiCall.setTime t ∉ tail) ∧
      (self.stopBeforeEvent_ = true →
        out.2.upcomingEvent_
          = (out.2.timeEvent_ || out.2.enterEventMode_ || out.2.stateEvent_) ∧
        (self.upcomingEvent_ = false →
          (FMUModelExchange.afterLatchNoStates fn self).eventinfo_ = self.eventinfo_ ∧
          log out.2.instance_
            = log self.instance_ ++ [FmiCall.completedIntegratorStep, FmiCall.setTime out.1]) ∧
        (self.upcomingEvent_ = true →
          ∃ k, 1 ≤ k ∧ k ≤ 5 ∧
            log out.2.instance_
              = log self.instance_ ++ [FmiCall.completedIntegratorStep, FmiCall.enterEventMode]
                ++ List.replicate k FmiCall.newDiscreteStates
                ++ [FmiCall.enterContinuousTimeMode, FmiCall.setTime out.1])) := by
  obtain ⟨a1, a2, -, a4, a5, a6, a7⟩ :=
    FMUModelExchange.afterLatchNoStates_spec fn log hlog self
  obtain ⟨t1, t2, t3, t4, t5, -, t7, t8⟩ :=
    FMUModelExchange.integrateNoStates_tail fn log hlog tend self
  refine ⟨FMUModelExchange.integrateNoStates fn tend self, ?_, t1, t2, t3, t4.trans a1,
    t5.trans a2, ?_, ?_⟩
  · unfold FMUModelExchange.integrate
    simp only [hn, if_true]
  · intro hstop
    refine ⟨a4 hstop, ?_⟩
    obtain ⟨tail, h1, h2, -⟩ := t8 (a2.trans hstop)
    rw [a4 hstop] at h1
    exact ⟨tail, h1, h2⟩
  · intro hstop
    obtain ⟨u1, -, u3⟩ := t7 (a2.trans hstop)
    refine ⟨?_, ?_, ?_⟩
    · rw [u1, a5 hstop]
      simp
    · intro hup
      obtain ⟨b1, b2⟩ := a6 hstop hup
      refine ⟨b1, ?_⟩
      rw [u3, b2]
      simp
    · intro hup
      obtain ⟨k, hk1, hk5, b1, -⟩ := a7 hstop hup
      refine ⟨k, hk1, hk5, ?_⟩
      rw [u3, b1]
      simp

/-- Witness for C14: the clock model without states in stop-before-event mode, first
time event at `1`: `integrate( 2, 1/2 )` from time `0` returns `1`, latches the event,
and the model has seen the notification and `setTime 1`. -/
theorem integrate_without_states_witness :
    (clockDriver [] 1 true 1).nStateVars_ = 0 ∧
    ∃ out, FMUModelExchange.integrate clock clockEuler 10 2 (1/2) (clockDriver [] 1 true 1)
        = some out ∧
      out.1 = 1 ∧ out.2.time_ = out.1 ∧ out.2.timeEvent_ = true ∧
      out.2.upcomingEvent_ = (out.2.timeEvent_ || out.2.enterEventMode_ || out.2.stateEvent_) ∧
      out.2.instance_.log
        = (clockDriver [] 1 true 1).instance_.log
          ++ [FmiCall.completedIntegratorStep, FmiCall.setTime out.1] := by
  obtain ⟨out, h0, h1, h2, h3, -, -, -, h7⟩ :=
    integrate_without_states clock Clock.log clock_logs clockEuler 10 2 (1/2)
      (clockDriver [] 1 true 1) rfl
  refine ⟨rfl, out, h0, ?_, h2, ?_, (h7 rfl).1, ((h7 rfl).2.1 rfl).2⟩
  · rw [h1]
    decide!
  · rw [h3]
    decide!

/-! ## C17: the indicator snapshot behind the event handshake -/

/-- The indicator snapshot behind a handshake of the branch of `integrate` for a model
without continuous states: fresh behind a handshake at the end of the call
(step-over-event mode) and behind the handshake of a latched event at the start
(stop-before-event mode). -/
theorem FMUModelExchange.integrateNoStates_snapshot {F S : Type} (fn : FMU2Functions F)
    (tend : fmiTime) (self : FMUModelExchange F S) :
    (self.stopBeforeEvent_ = false →
      ((FMUModelExchange.integrateNoStates fn tend self).2.timeEvent_ ||
        (FMUModelExchange.integrateNoStates fn tend self).2.enterEventMode_ ||
        (FMUModelExchange.integrateNoStates fn tend self).2.stateEvent_) = true →
      (FMUModelExchange.integrateNoStates fn tend self).2.preeventsind_
        = (fn.getEventIndicators
            (FMUModelExchange.integrateNoStates fn tend self).2.instance_).2) ∧
    (self.stopBeforeEvent_ = true → self.upcomingEvent_ = true →
      (FMUModelExchange.afterLatchNoStates fn self).preeventsind_
        = (fn.getEventIndicators (FMUModelExchange.afterLatchNoStates fn self).instance_).2) := by
  constructor
  · intro hstop
    suffices h : ∀ r, r = FMUModelExchange.integrateNoStates fn tend self →
        (r.2.timeEvent_ || r.2.enterEventMode_ || r.2.stateEvent_) = true →
        r.2.preeventsind_ = (fn.getEventIndicators r.2.instance_).2 from h _ rfl
    intro r hr
    unfold FMUModelExchange.integrateNoStates at hr
    lift_lets at hr
    extract_lets a src1 s1 timeEvent tend1 s2 c src2 s3 s4 at hr
    have hmode : s3.stopBeforeEvent_ = false := by
      show s1.stopBeforeEvent_ = false
      show (if self.stopBeforeEvent_ = true then _ else self).stopBeforeEvent_ = false
      rw [if_neg (by rw [hstop]; exact Bool.false_ne_true)]
      exact hstop
    split at hr
    · split at hr
      · subst hr
        intro _
        rfl
      · rename_i hev
        subst hr
        intro h
        exact absurd h hev
    · rename_i hm
      rw [hmode] at hm
      exact absurd rfl hm
  · intro hstop hup
    have h0 : FMUModelExchange.afterLatchNoStates fn self
        = { FMUModelExchange.saveEventIndicators fn
              (FMUModelExchange.handleEvents fn
                (FMUModelExchange.completedIntegratorStep fn self))
            with upcomingEvent_ := false } := by
      have hup' : (FMUModelExchange.completedIntegratorStep fn self).upcomingEvent_ = true :=
        hup
      simp [FMUModelExchange.afterLatchNoStates, hstop, hup']
    rw [h0]
    rfl

/-- C17 (failing input): the handshake behind a step event is not followed by a refresh
of the snapshot, unlike every other handshake of `integrate` (see
`integrate_snapshot_after_handshake`).  Bumper model, `Euler` stepper, step-over-event
mode, `integrate( 2, 1 )` from time `0`: the first substep ends at `t = 1`, `x = 1`,
where the model asks for event mode; `integrate` runs the handshake and returns `1`.
The previous-indicator snapshot is still `[10]`, taken at the start of the call, while
the event indicators at the post-event state are `[19]`. -/
theorem integrate_step_event_keeps_old_snapshot :
    (FMUModelExchange.integrate bumper bumperEuler 10 2 1 (bumperDriver false 1)).map
      (fun r => ((r.1, r.2.integrator_.eventInfo_.stepEvent, r.2.preeventsind_,
        (bumper.getEventIndicators r.2.instance_).2), r.2.instance_.log))
      = some ((1, true, [10], [19]),
          [FmiCall.setTime 0, FmiCall.setContinuousStates [0],
           FmiCall.setTime 1, FmiCall.setContinuousStates [1],
           FmiCall.completedIntegratorStep, FmiCall.enterEventMode,
           FmiCall.newDiscreteStates, FmiCall.enterContinuousTimeMode]) := by
  decide!

/-- The handshakes of `integrate` that are followed by a refresh of the snapshot: where
`integrate` runs the event handshake through `stepOverEvent` (a state event or a time
event, stepped over in the same call or, when latched, at the start of the next call) or
in the branch for a model without continuous states, the previous-indicator snapshot is
taken right behind the handshake, so that it equals the event indicators of the model at
the post-event state.  And every call for a model with continuous states takes the
snapshot before the integrator runs. -/
theorem integrate_snapshot_after_handshake {F S : Type} (fn : FMU2Functions F)
    (st : IntegratorStepper S (FMUModelExchange F S)) (fuel : Nat) (tend deltaT : fmiTime)
    (self : FMUModelExchange F S) :
    ((self.stateEvent_ = true ∨ self.timeEvent_ = true) →
      (FMUModelExchange.stepOverEvent fn self).2.preeventsind_
        = (fn.getEventIndicators (FMUModelExchange.stepOverEvent fn self).2.instance_).2) ∧
    (FMUModelExchange.prepare fn tend self).2.preeventsind_
      = (fn.getEventIndicators (FMUModelExchange.prepare fn tend self).2.instance_).2 ∧
    (self.nStateVars_ ≠ 0 → ∀ r,
      Integrator.integrate (FMUModelExchange.system fn) st fuel
        ((FMUModelExchange.prepare fn tend self).1
          - (FMUModelExchange.prepare fn tend self).2.time_)
        deltaT (FMUModelExchange.prepare fn tend self).2.eventSearchPrecision_
        (FMUModelExchange.prepare fn tend self).2.integrator_
        (FMUModelExchange.prepare fn tend self).2 = some r →
      r.ret.stepEvent = false → (r.ret.stateEvent = true ∨ r.fmu.timeEvent_ = true) →
      r.fmu.stopBeforeEvent_ = false →
      ∃ out, FMUModelExchange.integrate fn st fuel tend deltaT self = some out ∧
        out.2.preeventsind_ = (fn.getEventIndicators out.2.instance_).2) ∧
    (self.nStateVars_ = 0 →
      ∃ out, FMUModelExchange.integrate fn st fuel tend deltaT self = some out ∧
        (self.stopBeforeEvent_ = false →
          (out.2.timeEvent_ || out.2.enterEventMode_ || out.2.stateEvent_) = true →
          out.2.preeventsind_ = (fn.getEventIndicators out.2.instance_).2) ∧
        (self.stopBeforeEvent_ = true → self.upcomingEvent_ = true →
          (FMUModelExchange.afterLatchNoStates fn self).preeventsind_
            = (fn.getEventIndicators
                (FMUModelExchange.afterLatchNoStates fn self).instance_).2)) := by
  have hso : ∀ d : FMUModelExchange F S, (d.stateEvent_ = true ∨ d.timeEvent_ = true) →
      (FMUModelExchange.stepOverEvent fn d).2.preeventsind_
        = (fn.getEventIndicators (FMUModelExchange.stepOverEvent fn d).2.instance_).2 := by
    intro d hflag
    have hc : (!d.stateEvent_ && !d.timeEvent_) = false := by
      rcases hflag with h | h <;> simp [h]
    simp only [FMUModelExchange.stepOverEvent, hc]
    rfl
  refine ⟨hso self, rfl, ?_, ?_⟩
  · intro hn r hr hstep hev hmode
    refine ⟨FMUModelExchange.classify fn r.ret { r.fmu with integrator_ := r.self }, ?_, ?_⟩
    · unfold FMUModelExchange.integrate
      simp only [hn, if_false, hr]
    · cases hse : r.ret.stateEvent with
      | true =>
        have h1 : (FMUModelExchange.classify fn r.ret { r.fmu with integrator_ := r.self }).2
            = { (FMUModelExchange.stepOverEvent fn
                  { r.fmu with integrator_ := r.self, stateEvent_ := true,
                               time_ := r.self.eventInfo_.tLower,
                               tend_ := r.self.eventInfo_.tUpper }).2
                with eventFlag_ :=
                  (FMUModelExchange.stepOverEvent fn
                    { r.fmu with integrator_ := r.self, stateEvent_ := true,
                                 time_ := r.self.eventInfo_.tLower,
                                 tend_ := r.self.eventInfo_.tUpper }).2.timeEvent_ ||
                  (FMUModelExchange.stepOverEvent fn
                    { r.fmu with integrator_ := r.self, stateEvent_ := true,
                                 time_ := r.self.eventInfo_.tLower,
                                 tend_ := r.self.eventInfo_.tUpper }).2.stateEvent_ ||
                  (FMUModelExchange.stepOverEvent fn
                    { r.fmu with integrator_ := r.self, stateEvent_ := true,
                                 time_ := r.self.eventInfo_.tLower,
                                 tend_ := r.self.eventInfo_.tUpper }).2.upcomingEvent_ ||
                  false } := by
          simp only [FMUModelExchange.classify, hstep, hse, hmode,
            Integrator.getEventHorizon]
          rfl
        rw [h1]
        exact hso _ (Or.inl rfl)
      | false =>
        have hte : r.fmu.timeEvent_ = true := by
          rcases hev with h | h
          · rw [hse] at h
            cases h
          · exact h
        have h1 : (FMUModelExchange.classify fn r.ret { r.fmu with integrator_ := r.self }).2
            = { (FMUModelExchange.stepOverEvent fn
                  { r.fmu with integrator_ := r.self, stateEvent_ := false,
                               tend_ := r.fmu.time_ + r.fmu.eventSearchPrecision_ }).2
                with eventFlag_ :=
                  (FMUModelExchange.stepOverEvent fn
                    { r.fmu with integrator_ := r.self, stateEvent_ := false,
                                 tend_ := r.fmu.time_ + r.fmu.eventSearchPrecision_ }).2.timeEvent_ ||
                  (FMUModelExchange.stepOverEvent fn
                    { r.fmu with integrator_ := r.self, stateEvent_ := false,
                                 tend_ := r.fmu.time_ + r.fmu.eventSearchPrecision_ }).2.stateEvent_ ||
                  (FMUModelExchange.stepOverEvent fn
                    { r.fmu with integrator_ := r.self, stateEvent_ := false,
                                 tend_ := r.fmu.time_ + r.fmu.eventSearchPrecision_ }).2.upcomingEvent_ ||
                  false } := by
          simp only [FMUModelExchange.classify, hstep, hse, hmode, hte,
            FMUModelExchange.getTime]
          rfl
        rw [h1]
        exact hso _ (Or.inr hte)
  · intro hn
    refine ⟨FMUModelExchange.integrateNoStates fn tend self, ?_,
      (FMUModelExchange.integrateNoStates_snapshot fn tend self).1,
      (FMUModelExchange.integrateNoStates_snapshot fn tend self).2⟩
    unfold FMUModelExchange.integrate
    simp only [hn, if_true]

/-- An instance of `integrate_snapshot_after_handshake`: zigzag model, `Euler` stepper,
step-over-event mode, `ε = 1`: `integrate( 3/2, 1/2 )` locates the state event, steps
over it to `t = 13/8`, `x = 13/8`, where the slope turns to `-1`; the snapshot
`[1 + 13/8]` is the indicator at that state. -/
theorem integrate_snapshot_after_handshake_witness :
    (zigzagDriver false 1).nStateVars_ ≠ 0 ∧
    ∃ out, FMUModelExchange.integrate zigzag zigzagEuler 10 (3/2) (1/2) (zigzagDriver false 1)
        = some out ∧
      out.2.preeventsind_ = (zigzag.getEventIndicators out.2.instance_).2 ∧
      out.2.preeventsind_ = [21/8] := by
  have he : (Integrator.integrate (FMUModelExchange.system zigzag) zigzagEuler 10
      ((FMUModelExchange.prepare zigzag (3/2) (zigzagDriver false 1)).1
        - (FMUModelExchange.prepare zigzag (3/2) (zigzagDriver false 1)).2.time_)
      (1/2) (FMUModelExchange.prepare zigzag (3/2) (zigzagDriver false 1)).2.eventSearchPrecision_
      (FMUModelExchange.prepare zigzag (3/2) (zigzagDriver false 1)).2.integrator_
      (FMUModelExchange.prepare zigzag (3/2) (zigzagDriver false 1)).2).map
      (fun r => (r.ret.stepEvent, r.ret.stateEvent, r.fmu.stopBeforeEvent_))
        = some (false, true, false) := by
    decide!
  have hv : (FMUModelExchange.integrate zigzag zigzagEuler 10 (3/2) (1/2)
      (zigzagDriver false 1)).map (fun r => r.2.preeventsind_) = some [21/8] := by
    decide!
  cases hr : Integrator.integrate (FMUModelExchange.system zigzag) zigzagEuler 10
      ((FMUModelExchange.prepare zigzag (3/2) (zigzagDriver false 1)).1
        - (FMUModelExchange.prepare zigzag (3/2) (zigzagDriver false 1)).2.time_)
      (1/2) (FMUModelExchange.prepare zigzag (3/2) (zigzagDriver false 1)).2.eventSearchPrecision_
      (FMUModelExchange.prepare zigzag (3/2) (zigzagDriver false 1)).2.integrator_
      (FMUModelExchange.prepare zigzag (3/2) (zigzagDriver false 1)).2 with
  | none =>
    rw [hr] at he
    cases he
  | some r =>
    rw [hr] at he
    simp only [Option.map_some', Option.some.injEq, Prod.mk.injEq] at he
    obtain ⟨out, h1, h2⟩ :=
      (integrate_snapshot_after_handshake zigzag zigzagEuler 10 (3/2) (1/2)
        (zigzagDriver false 1)).2.2.1 (by decide) r hr he.1 (Or.inl he.2.1) he.2.2
    rw [h1] at hv
    simp only [Option.map_some', Option.some.injEq] at hv
    exact ⟨by decide, out, h1, h2, hv⟩

/-! ## C18: notifications of accepted steps -/

/-- C18, as stated, fails for the bisection of the event search: accepted half-steps
are written to the model without a `completedIntegratorStep` notification.  Zigzag
model, `Euler` stepper, step-over-event mode, `ε = 1/2`, `integrate( 6/5, 6/5 )` from
time `0`.  The substep to `6/5` finds the state event and is taken back.  The search
accepts the half-steps to `3/5` and to `9/10` (no event there: `tLower` moves on),
tries `21/20` (event) and takes it back; the step over the event goes to `89/80`.  In
the record of model calls (a `setTime`/`setContinuousStates` pair at the start of a step
is the evaluation of the derivative) the first notification comes behind the step over
the event; the states of `3/5` and of `9/10` were written with no notification in
between. -/
theorem integrate_bisection_without_notification :
    (FMUModelExchange.integrate zigzag zigzagEuler 10 (6/5) (6/5)
        (zigzagDriver false (1/2))).map
      (fun r => ((r.1, r.2.integrator_.eventInfo_.tLower, r.2.integrator_.eventInfo_.tUpper),
        r.2.instance_.log))
      = some ((89/80, 9/10, 89/80),
          [FmiCall.setTime 0, FmiCall.setContinuousStates [0],
           FmiCall.setTime (6/5), FmiCall.setContinuousStates [6/5],
           FmiCall.setTime 0, FmiCall.setContinuousStates [0],
           FmiCall.setTime 0, FmiCall.setContinuousStates [0],
           FmiCall.setContinuousStates [3/5], FmiCall.setTime (3/5),
           FmiCall.setTime (3/5), FmiCall.setContinuousStates [3/5],
           FmiCall.setContinuousStates [9/10], FmiCall.setTime (9/10),
           FmiCall.setTime (9/10), FmiCall.setContinuousStates [9/10],
           FmiCall.setContinuousStates [21/20], FmiCall.setTime (21/20),
           FmiCall.setContinuousStates [9/10], FmiCall.setTime (9/10),
           FmiCall.setTime (89/80), FmiCall.setContinuousStates [89/80],
           FmiCall.completedIntegratorStep, FmiCall.enterEventMode,
           FmiCall.newDiscreteStates, FmiCall.enterContinuousTimeMode]) := by
  decide!

/-- C18 (amended), with the model calls recorded by `log`.  A pass through the loop of
`OdeintStepper::invokeMethod` on a driver writes the time and the states of its substep
to the model; if the pass finds no state event (the substep is accepted), the
`completedIntegratorStep` notification follows before the pass ends, so before the next
substep; if it finds a state event, time and states of the backup are written instead.
The Euler step of `stepOverEvent` is followed by the notification, before the
handshake.  An accepted half-step of the event search of `Integrator::integrate` (no
state event at the midpoint, `tLower` moves there) is written to the model with no
notification. -/
theorem accepted_steps_and_notifications {W F : Type} (fn : FMU2Functions F)
    (log : F → List FmiCall) (hlog : fn.Logs log)
    (st : OdeintStepper W (FMUModelExchange F (OdeintObj W))) (time step_size : fmiTime)
    (s : InvokeState W (FMUModelExchange F (OdeintObj W)))
    (it : Iter (InvokeState W (FMUModelExchange F (OdeintObj W)))
      (InvokeResult (OdeintObj W) (FMUModelExchange F (OdeintObj W))))
    (h : OdeintStepper.iteration (FMUModelExchange.system fn) st time step_size s = some it) :
    (∃ v stop, OdeintStepper.substep st time step_size s = some (v, stop) ∧
      (∀ s', it = Iter.next s' →
        log s'.fmu.instance_ = log v.fmu.instance_
          ++ [FmiCall.setTime v.currentTime, FmiCall.setContinuousStates v.states,
              FmiCall.completedIntegratorStep]) ∧
      (∀ r, it = Iter.done r → r.eventInfo.stateEvent = false →
        log r.fmu.instance_ = log v.fmu.instance_
          ++ [FmiCall.setTime v.currentTime, FmiCall.setContinuousStates v.states,
              FmiCall.completedIntegratorStep]) ∧
      (∀ r, it = Iter.done r → r.eventInfo.stateEvent = true →
        log r.fmu.instance_ = log v.fmu.instance_
          ++ [FmiCall.setTime v.currentTime, FmiCall.setContinuousStates v.states,
              FmiCall.setTime s.currentTime, FmiCall.setContinuousStates s.states])) ∧
    (∀ d : FMUModelExchange F (OdeintObj W), (d.stateEvent_ = true ∨ d.timeEvent_ = true) →
      ∃ (k : Nat) (written : state_type),
        log (FMUModelExchange.stepOverEvent fn d).2.instance_
          = log d.instance_
            ++ [FmiCall.setTime d.tend_, FmiCall.setContinuousStates written,
                FmiCall.completedIntegratorStep, FmiCall.enterEventMode]
            ++ List.replicate k FmiCall.newDiscreteStates
            ++ [FmiCall.enterContinuousTimeMode]) ∧
    (∀ (ist : IntegratorStepper (OdeintObj W) (FMUModelExchange F (OdeintObj W)))
      (self : Integrator (OdeintObj W)) (fmu : FMUModelExchange F (OdeintObj W))
      (c : ConstResult (OdeintObj W) (FMUModelExchange F (OdeintObj W))),
      ist.do_step_const self.states_ self.eventInfo_.tLower
        ((self.eventInfo_.tUpper - self.eventInfo_.tLower) / 2) self.stepper_ fmu = some c →
      (FMUModelExchange.checkStateEvent fn
        (FMUModelExchange.setTime fn c.time
          (FMUModelExchange.setContinuousStates fn c.states c.fmu))).1 = false →
      ∃ out, Integrator.searchStep (FMUModelExchange.system fn) ist self fmu = some out ∧
        out.1.eventInfo_.tLower = (self.eventInfo_.tUpper + self.eventInfo_.tLower) / 2 ∧
        out.1.eventInfo_.tUpper = self.eventInfo_.tUpper ∧
        out.1.states_ = c.states ∧
        log out.2.instance_ = log c.fmu.instance_
          ++ [FmiCall.setContinuousStates c.states, FmiCall.setTime c.time]) := by
  refine ⟨?_, ?_, ?_⟩
  · obtain ⟨v, stop, hsub, hcase⟩ :=
      OdeintStepper.iteration_cases (FMUModelExchange.system fn) st time step_size s it h
    have hwritten : log (OdeintStepper.written (FMUModelExchange.system fn) v).instance_
        = log v.fmu.instance_
          ++ [FmiCall.setTime v.currentTime, FmiCall.setContinuousStates v.states] := by
      show log (fn.setContinuousStates (fn.setTime v.fmu.instance_ v.currentTime).2 v.states).2
        = _
      rw [hlog.setContinuousStates, hlog.setTime]
      simp
    have hnotified : log ((FMUModelExchange.system fn).checkStepEvent
        ((FMUModelExchange.system fn).checkStateEvent
          (OdeintStepper.written (FMUModelExchange.system fn) v)).2).2.instance_
        = log v.fmu.instance_
          ++ [FmiCall.setTime v.currentTime, FmiCall.setContinuousStates v.states,
              FmiCall.completedIntegratorStep] := by
      show log (fn.completedIntegratorStep
        (OdeintStepper.written (FMUModelExchange.system fn) v).instance_).2.2.2 = _
      rw [hlog.completedIntegratorStep, hwritten]
      simp
    have hrewound : log ((FMUModelExchange.system fn).setContinuousStates s.states
        ((FMUModelExchange.system fn).setTime s.currentTime
          ((FMUModelExchange.system fn).checkStateEvent
            (OdeintStepper.written (FMUModelExchange.system fn) v)).2)).instance_
        = log v.fmu.instance_
          ++ [FmiCall.setTime v.currentTime, FmiCall.setContinuousStates v.states,
              FmiCall.setTime s.currentTime, FmiCall.setContinuousStates s.states] := by
      show log (fn.setContinuousStates (fn.setTime
        (OdeintStepper.written (FMUModelExchange.system fn) v).instance_ s.currentTime).2
        s.states).2 = _
      rw [hlog.setContinuousStates, hlog.setTime, hwritten]
      simp
    refine ⟨v, stop, hsub, ?_, ?_, ?_⟩
    · intro s' hs'
      rcases hcase with ⟨-, hit⟩ | ⟨-, -, hit⟩ | ⟨-, -, hit⟩
      · rw [hit] at hs'
        cases hs'
      · rw [hit] at hs'
        cases hs'
      · rw [hit] at hs'
        cases hs'
        exact hnotified
    · intro r hr hse
      rcases hcase with ⟨-, hit⟩ | ⟨-, -, hit⟩ | ⟨-, -, hit⟩
      · rw [hit] at hr
        cases hr
        cases hse
      · rw [hit] at hr
        cases hr
        exact hnotified
      · rw [hit] at hr
        cases hr
    · intro r hr hse
      rcases hcase with ⟨-, hit⟩ | ⟨-, -, hit⟩ | ⟨-, -, hit⟩
      · rw [hit] at hr
        cases hr
        exact hrewound
      · rw [hit] at hr
        cases hr
        cases hse
      · rw [hit] at hr
        cases hr
  · intro d hflag
    obtain ⟨k, -, -, -, hl, -⟩ := FMUModelExchange.stepOverEvent_log fn log hlog d hflag
    exact ⟨k, _, hl⟩
  · intro ist self fmu c hc hev
    have hev' : ((FMUModelExchange.system fn).checkStateEvent
        ((FMUModelExchange.system fn).setTime c.time
          ((FMUModelExchange.system fn).setContinuousStates c.states c.fmu))).1 = false := hev
    refine ⟨({ self with
        stepper_ := c.stepper, states_ := c.states,
        eventInfo_ := { self.eventInfo_ with
          tLower := (self.eventInfo_.tUpper + self.eventInfo_.tLower) / 2 } },
      (FMUModelExchange.checkStateEvent fn
        (FMUModelExchange.setTime fn c.time
          (FMUModelExchange.setContinuousStates fn c.states c.fmu))).2), ?_, ?_⟩
    · unfold Integrator.searchStep
      simp only [hc, hev', Bool.not_false, if_true]
      rfl
    · refine ⟨rfl, rfl, rfl, ?_⟩
      show log (fn.setTime (fn.setContinuousStates c.fmu.instance_ c.states).2 c.time).2 = _
      rw [hlog.setTime, hlog.setContinuousStates]
      simp

/-- Witness for C18 (amended): the first pass of `Euler` on the zigzag driver, step size
`1/2` towards the integration end `3/2`: the substep to `t = 1/2` is accepted and
notified. -/
theorem accepted_steps_and_notifications_witness :
    ∃ it v stop,
      OdeintStepper.iteration (FMUModelExchange.system zigzag)
        (Euler (FMUModelExchange.system zigzag)) 0 (3/2)
        { eventInfo := { stateEvent := false, stepEvent := false, tLower := 0, tUpper := 0 },
          states := [0], currentTime := 0, dt := 1/2, stop := false,
          obj := OdeintObj.fresh (), fmu := zigzagDriver false 1 } = some it ∧
      OdeintStepper.substep (Euler (FMUModelExchange.system zigzag)) 0 (3/2)
        { eventInfo := { stateEvent := false, stepEvent := false, tLower := 0, tUpper := 0 },
          states := [0], currentTime := 0, dt := 1/2, stop := false,
          obj := OdeintObj.fresh (), fmu := zigzagDriver false 1 } = some (v, stop) ∧
      (∀ s', it = Iter.next s' →
        s'.fmu.instance_.log = v.fmu.instance_.log
          ++ [FmiCall.setTime v.currentTime, FmiCall.setContinuousStates v.states,
              FmiCall.completedIntegratorStep]) ∧
      (match it with
        | Iter.next s' => some s'.fmu.instance_.log
        | Iter.done _ => none)
        = some [FmiCall.setTime 0, FmiCall.setContinuousStates [0],
                FmiCall.setTime (1/2), FmiCall.setContinuousStates [1/2],
                FmiCall.completedIntegratorStep] := by
  have he : (OdeintStepper.iteration (FMUModelExchange.system zigzag)
      (Euler (FMUModelExchange.system zigzag)) 0 (3/2)
      { eventInfo := { stateEvent := false, stepEvent := false, tLower := 0, tUpper := 0 },
        states := [0], currentTime := 0, dt := 1/2, stop := false,
        obj := OdeintObj.fresh (), fmu := zigzagDriver false 1 }).bind
      (fun it => match it with
        | Iter.next s' => some s'.fmu.instance_.log
        | Iter.done _ => none)
      = some [FmiCall.setTime 0, FmiCall.setContinuousStates [0],
              FmiCall.setTime (1/2), FmiCall.setContinuousStates [1/2],
              FmiCall.completedIntegratorStep] := by
    decide!
  cases hit : OdeintStepper.iteration (FMUModelExchange.system zigzag)
      (Euler (FMUModelExchange.system zigzag)) 0 (3/2)
      { eventInfo := { stateEvent := false, stepEvent := false, tLower := 0, tUpper := 0 },
        states := [0], currentTime := 0, dt := 1/2, stop := false,
        obj := OdeintObj.fresh (), fmu := zigzagDriver false 1 } with
  | none =>
    rw [hit] at he
    cases he
  | some it =>
    rw [hit] at he
    obtain ⟨⟨v, stop, hsub, hnext, -, -⟩, -, -⟩ :=
      accepted_steps_and_notifications zigzag Zigzag.log zigzag_logs
        (Euler (FMUModelExchange.system zigzag)) 0 (3/2) _ it hit
    exact ⟨it, v, stop, rfl, hsub, hnext, he⟩

/-! ## C19 and C20: the tolerances in the stepper properties -/

/-- The correction of ill-formed input at the start of `createStepper` followed by "add
missing tolerances" with the default `dflt`: a finite non-negative tolerance is kept,
anything else becomes `dflt`; name, order and type are kept. -/
theorem addMissingTolerances_spec (dflt : ℚ) (p : Integrator.Properties) (name : String)
    (order : Int) :
    let p1 : Integrator.Properties :=
      if Double.eq p.abstol Double.inf || Double.lt p.abstol (Double.finite 0)
      then { p with abstol := Double.nan } else p
    let p2 : Integrator.Properties :=
      if Double.eq p1.reltol Double.inf || Double.lt p1.reltol (Double.finite 0)
      then { p1 with reltol := Double.nan } else p1
    addMissingTolerances dflt { p2 with name := name, order := order }
      = { type := p.type, name := name, order := order,
          abstol := (match p.abstol with
            | Double.finite q => if 0 ≤ q then Double.finite q else Double.finite dflt
            | _ => Double.finite dflt),
          reltol := (match p.reltol with
            | Double.finite q => if 0 ≤ q then Double.finite q else Double.finite dflt
            | _ => Double.finite dflt) } := by
  obtain ⟨type, nm, ord, a, r⟩ := p
  cases a with
  | nan =>
    cases r with
    | nan => simp [addMissingTolerances, Double.eq, Double.lt, Double.ne]
    | inf => simp [addMissingTolerances, Double.eq, Double.lt, Double.ne]
    | neginf => simp [addMissingTolerances, Double.eq, Double.lt, Double.ne]
    | finite q =>
      by_cases hq : 0 ≤ q
      · simp [addMissingTolerances, Double.eq, Double.lt, Double.ne, hq, not_lt.mpr hq]
      · simp [addMissingTolerances, Double.eq, Double.lt, Double.ne, hq, not_le.mp hq]
  | inf =>
    cases r with
    | nan => simp [addMissingTolerances, Double.eq, Double.lt, Double.ne]
    | inf => simp [addMissingTolerances, Double.eq, Double.lt, Double.ne]
    | neginf => simp [addMissingTolerances, Double.eq, Double.lt, Double.ne]
    | finite q =>
      by_cases hq : 0 ≤ q
      · simp [addMissingTolerances, Double.eq, Double.lt, Double.ne, hq, not_lt.mpr hq]
      · simp [addMissingTolerances, Double.eq, Double.lt, Double.ne, hq, not_le.mp hq]
  | neginf =>
    cases r with
    | nan => simp [addMissingTolerances, Double.eq, Double.lt, Double.ne]
    | inf => simp [addMissingTolerances, Double.eq, Double.lt, Double.ne]
    | neginf => simp [addMissingTolerances, Double.eq, Double.lt, Double.ne]
    | finite q =>
      by_cases hq : 0 ≤ q
      · simp [addMissingTolerances, Double.eq, Double.lt, Double.ne, hq, not_lt.mpr hq]
      · simp [addMissingTolerances, Double.eq, Double.lt, Double.ne, hq, not_le.mp hq]
  | finite qa =>
    by_cases hqa : 0 ≤ qa
    · cases r with
      | nan => simp [addMissingTolerances, Double.eq, Double.lt, Double.ne, hqa, not_lt.mpr hqa]
      | inf => simp [addMissingTolerances, Double.eq, Double.lt, Double.ne, hqa, not_lt.mpr hqa]
      | neginf =>
        simp [addMissingTolerances, Double.eq, Double.lt, Double.ne, hqa, not_lt.mpr hqa]
      | finite q =>
        by_cases hq : 0 ≤ q
        · simp [addMissingTolerances, Double.eq, Double.lt, Double.ne, hq, not_lt.mpr hq, hqa,
            not_lt.mpr hqa]
        · simp [addMissingTolerances, Double.eq, Double.lt, Double.ne, hq, not_le.mp hq, hqa,
            not_lt.mpr hqa]
    · cases r with
      | nan => simp [addMissingTolerances, Double.eq, Double.lt, Double.ne, hqa, not_le.mp hqa]
      | inf => simp [addMissingTolerances, Double.eq, Double.lt, Double.ne, hqa, not_le.mp hqa]
      | neginf =>
        simp [addMissingTolerances, Double.eq, Double.lt, Double.ne, hqa, not_le.mp hqa]
      | finite q =>
        by_cases hq : 0 ≤ q
        · simp [addMissingTolerances, Double.eq, Double.lt, Double.ne, hq, not_lt.mpr hq, hqa,
            not_le.mp hqa]
        · simp [addMissingTolerances, Double.eq, Double.lt, Double.ne, hq, not_le.mp hq, hqa,
            not_le.mp hqa]

/-- What `createStepper` returns for the five adaptive odeint types. -/
theorem IntegratorStepper.createStepper_adaptive (p : Integrator.Properties)
    (htype : p.type = IntegratorType.ck ∨ p.type = IntegratorType.dp ∨
      p.type = IntegratorType.fe ∨ p.type = IntegratorType.bs ∨ p.type = IntegratorType.ro) :
    ∃ (c : StepperClass) (name : String) (order : Int),
      IntegratorStepper.createStepper p
        = (some c,
           { type := p.type, name := name, order := order,
             abstol := (match p.abstol with
               | Double.finite q =>
                 if 0 ≤ q then Double.finite q else Double.finite (1 / 1000000)
               | _ => Double.finite (1 / 1000000)),
             reltol := (match p.reltol with
               | Double.finite q =>
                 if 0 ≤ q then Double.finite q else Double.finite (1 / 1000000)
               | _ => Double.finite (1 / 1000000)) }) := by
  rcases htype with h | h | h | h | h
  · refine ⟨StepperClass.CashKarp, "Cash Karp", 5, ?_⟩
    have h2 := addMissingTolerances_spec (1 / 1000000) p "Cash Karp" 5
    simp only at h2
    simp only [IntegratorStepper.createStepper, h, CashKarp.new]
    rw [← h, h2]
  · refine ⟨StepperClass.DormandPrince, "Dormand Prince", 5, ?_⟩
    have h2 := addMissingTolerances_spec (1 / 1000000) p "Dormand Prince" 5
    simp only at h2
    simp only [IntegratorStepper.createStepper, h, DormandPrince.new]
    rw [← h, h2]
  · refine ⟨StepperClass.Fehlberg, "Fehlberg", 8, ?_⟩
    have h2 := addMissingTolerances_spec (1 / 1000000) p "Fehlberg" 8
    simp only at h2
    simp only [IntegratorStepper.createStepper, h, Fehlberg.new]
    rw [← h, h2]
  · refine ⟨StepperClass.BulirschStoer, "Bulirsch Stoer", 0, ?_⟩
    have h2 := addMissingTolerances_spec (1 / 1000000) p "Bulirsch Stoer" 0
    simp only at h2
    simp only [IntegratorStepper.createStepper, h, BulirschStoer.new]
    rw [← h, h2]
  · refine ⟨StepperClass.Rosenbrock, "Rosenbrock", 4, ?_⟩
    have h2 := addMissingTolerances_spec (1 / 1000000) p "Rosenbrock" 4
    simp only at h2
    simp only [IntegratorStepper.createStepper, h, Rosenbrock.new]
    rw [← h, h2]

/-- C19: for the adaptive stepper types `ck`, `dp`, `fe`, `bs` and `ro`,
`createStepper` leaves a tolerance that is finite and non-negative as it is and replaces
any other value (not a number, plus or minus infinity, a negative number) by `1e-6`,
for `abstol` and for `reltol` each on its own; the type is kept; and these properties
are what `getProperties` returns after `setProperties` (which hands them back to the
caller as well). -/
theorem createStepper_normalises_tolerances (p : Integrator.Properties)
    (self : Integrator.Setup)
    (htype : p.type = IntegratorType.ck ∨ p.type = IntegratorType.dp ∨
      p.type = IntegratorType.fe ∨ p.type = IntegratorType.bs ∨ p.type = IntegratorType.ro) :
    (IntegratorStepper.createStepper p).2.abstol
      = (match p.abstol with
          | Double.finite q => if 0 ≤ q then Double.finite q else Double.finite (1 / 1000000)
          | _ => Double.finite (1 / 1000000)) ∧
    (IntegratorStepper.createStepper p).2.reltol
      = (match p.reltol with
          | Double.finite q => if 0 ≤ q then Double.finite q else Double.finite (1 / 1000000)
          | _ => Double.finite (1 / 1000000)) ∧
    (IntegratorStepper.createStepper p).2.type = p.type ∧
    Integrator.getProperties (Integrator.setProperties p self).1
      = (IntegratorStepper.createStepper p).2 ∧
    (Integrator.setProperties p self).2 = (IntegratorStepper.createStepper p).2 := by
  obtain ⟨c, name, order, h⟩ := IntegratorStepper.createStepper_adaptive p htype
  rw [h]
  refine ⟨rfl, rfl, rfl, ?_, ?_⟩
  · simp only [Integrator.getProperties, Integrator.setProperties, h]
  · simp only [Integrator.setProperties, h]

/-- Witness for C19: type `dp` with `abstol = 1/1000` and a negative `reltol`: the first
is kept, the second becomes `1e-6`. -/
theorem createStepper_normalises_tolerances_witness :
    (IntegratorStepper.createStepper
      { type := IntegratorType.dp, name := "", order := 0,
        abstol := Double.finite (1 / 1000), reltol := Double.finite (-1) }).2.abstol
      = Double.finite (1 / 1000) ∧
    (IntegratorStepper.createStepper
      { type := IntegratorType.dp, name := "", order := 0,
        abstol := Double.finite (1 / 1000), reltol := Double.finite (-1) }).2.reltol
      = Double.finite (1 / 1000000) ∧
    Integrator.getProperties (Integrator.setProperties
      { type := IntegratorType.dp, name := "", order := 0,
        abstol := Double.finite (1 / 1000), reltol := Double.finite (-1) }
      { stepper_ := none,
        properties_ := { type := IntegratorType.eu, name := "", order := 0,
                         abstol := Double.nan, reltol := Double.nan } }).1
      = (IntegratorStepper.createStepper
          { type := IntegratorType.dp, name := "", order := 0,
            abstol := Double.finite (1 / 1000), reltol := Double.finite (-1) }).2 := by
  obtain ⟨h1, h2, -, h4, -⟩ := createStepper_normalises_tolerances
    { type := IntegratorType.dp, name := "", order := 0,
      abstol := Double.finite (1 / 1000), reltol := Double.finite (-1) }
    { stepper_ := none,
      properties_ := { type := IntegratorType.eu, name := "", order := 0,
                       abstol := Double.nan, reltol := Double.nan } }
    (Or.inr (Or.inl rfl))
  refine ⟨?_, ?_, h4⟩
  · rw [h1]
    norm_num
  · rw [h2]
    norm_num

/-- C20: for the non-adaptive stepper types `eu`, `rk` and `abm`, `createStepper`
reports `abstol = reltol = +∞` in the properties, whatever the tolerances passed in: the
stepper created and the properties behind the call do not depend on them. -/
theorem createStepper_fixed_step_tolerances (p : Integrator.Properties)
    (htype : p.type = IntegratorType.eu ∨ p.type = IntegratorType.rk ∨
      p.type = IntegratorType.abm) :
    (IntegratorStepper.createStepper p).2.abstol = Double.inf ∧
    (IntegratorStepper.createStepper p).2.reltol = Double.inf ∧
    ∀ a r : Double,
      IntegratorStepper.createStepper { p with abstol := a, reltol := r }
        = IntegratorStepper.createStepper p := by
  rcases htype with h | h | h
  · refine ⟨?_, ?_, ?_⟩
    · simp only [IntegratorStepper.createStepper, h, Euler.new]
    · simp only [IntegratorStepper.createStepper, h, Euler.new]
    · intro a r
      simp only [IntegratorStepper.createStepper, h, Euler.new]
      split_ifs <;> simp [h]
  · refine ⟨?_, ?_, ?_⟩
    · simp only [IntegratorStepper.createStepper, h, RungeKutta.new]
    · simp only [IntegratorStepper.createStepper, h, RungeKutta.new]
    · intro a r
      simp only [IntegratorStepper.createStepper, h, RungeKutta.new]
      split_ifs <;> simp [h]
  · refine ⟨?_, ?_, ?_⟩
    · simp only [IntegratorStepper.createStepper, h, AdamsBashforthMoulton.new]
    · simp only [IntegratorStepper.createStepper, h, AdamsBashforthMoulton.new]
    · intro a r
      simp only [IntegratorStepper.createStepper, h, AdamsBashforthMoulton.new]
      split_ifs <;> simp [h]

/-- Witness for C20: type `rk` with `abstol = 1/1000` and `reltol` not a number. -/
theorem createStepper_fixed_step_tolerances_witness :
    (IntegratorStepper.createStepper
      { type := IntegratorType.rk, name := "", order := 0,
        abstol := Double.finite (1 / 1000), reltol := Double.nan }).2.abstol = Double.inf ∧
    (IntegratorStepper.createStepper
      { type := IntegratorType.rk, name := "", order := 0,
        abstol := Double.finite (1 / 1000), reltol := Double.nan }).2.reltol = Double.inf :=
  ⟨(createStepper_fixed_step_tolerances
      { type := IntegratorType.rk, name := "", order := 0,
        abstol := Double.finite (1 / 1000), reltol := Double.nan } (Or.inr (Or.inl rfl))).1,
   (createStepper_fixed_step_tolerances
      { type := IntegratorType.rk, name := "", order := 0,
        abstol := Double.finite (1 / 1000), reltol := Double.nan } (Or.inr (Or.inl rfl))).2.1⟩

/-! ## C21: the tolerances stored by `setProperties` and `setType` -/

/-- The tolerance `createStepper` leaves for the input `t` when it is normalised with the
default `dflt`. -/
theorem Double.normalised_cases (t : Double) (dflt : ℚ) (hd : 0 < dflt) :
    let stored : Double := match t with
      | Double.finite q => if 0 ≤ q then Double.finite q else Double.finite dflt
      | _ => Double.finite dflt
    (Double.lt (Double.finite 0) stored = true ∨
      (stored = Double.finite 0 ∧ t = Double.finite 0)) ∧
    (t = Double.finite 0 → stored = Double.finite 0) ∧
    (Double.ne t t = true → stored = Double.finite dflt) := by
  cases t with
  | nan => simp [Double.lt, Double.ne, Double.eq, hd]
  | inf => simp [Double.lt, Double.ne, Double.eq, hd]
  | neginf => simp [Double.lt, Double.ne, Double.eq, hd]
  | finite q =>
    by_cases hq : 0 ≤ q
    · rcases hq.lt_or_eq with h | h
      · simp [Double.lt, Double.ne, Double.eq, hq, h]
      · subst h
        simp [Double.lt, Double.ne, Double.eq]
    · have h0 : q ≠ 0 := fun h => hq (by rw [h])
      simp [Double.lt, Double.ne, Double.eq, hq, hd, h0]

/-- Setting name and order behind "add missing tolerances" is the same as setting them
before. -/
theorem addMissingTolerances_named (dflt : ℚ) (q : Integrator.Properties) (name : String)
    (order : Int) :
    { addMissingTolerances dflt q with name := name, order := order }
      = addMissingTolerances dflt { q with name := name, order := order } := by
  unfold addMissingTolerances
  simp only
  split_ifs <;> rfl

/-- What `createStepper` returns for the two Sundials types. -/
theorem IntegratorStepper.createStepper_sundials (p : Integrator.Properties)
    (htype : p.type = IntegratorType.bdf ∨ p.type = IntegratorType.abm2) :
    ∃ (c : StepperClass) (name : String),
      IntegratorStepper.createStepper p
        = (some c,
           { type := p.type, name := name, order := 0,
             abstol := (match p.abstol with
               | Double.finite q =>
                 if 0 ≤ q then Double.finite q else Double.finite (1 / 10000000000)
               | _ => Double.finite (1 / 10000000000)),
             reltol := (match p.reltol with
               | Double.finite q =>
                 if 0 ≤ q then Double.finite q else Double.finite (1 / 10000000000)
               | _ => Double.finite (1 / 10000000000)) }) := by
  rcases htype with h | h
  · refine ⟨StepperClass.BackwardsDifferentiationFormula, "BDF", ?_⟩
    have h2 := addMissingTolerances_spec (1 / 10000000000) p "BDF" 0
    simp only at h2
    simp only [IntegratorStepper.createStepper, h, BackwardsDifferentiationFormula.new,
      SundialsStepper.new]
    rw [← h, addMissingTolerances_named, h2]
  · refine ⟨StepperClass.AdamsBashforthMoulton2, "ABM2", ?_⟩
    have h2 := addMissingTolerances_spec (1 / 10000000000) p "ABM2" 0
    simp only at h2
    simp only [IntegratorStepper.createStepper, h, AdamsBashforthMoulton2.new,
      SundialsStepper.new]
    rw [← h, addMissingTolerances_named, h2]

/-- What `createStepper` returns for the three fixed-step types. -/
theorem IntegratorStepper.createStepper_fixed (p : Integrator.Properties)
    (htype : p.type = IntegratorType.eu ∨ p.type = IntegratorType.rk ∨
      p.type = IntegratorType.abm) :
    (IntegratorStepper.createStepper p).2.abstol = Double.inf ∧
    (IntegratorStepper.createStepper p).2.reltol = Double.inf := by
  rcases htype with h | h | h <;>
    simp [IntegratorStepper.createStepper, h, Euler.new, RungeKutta.new,
      AdamsBashforthMoulton.new]

/-- The tolerances behind `createStepper` for each of the ten stepper types, `abstol` and
`reltol` alike: `dflt` is the default of the type, `+∞` for the fixed-step types. -/
theorem IntegratorStepper.createStepper_stored (p : Integrator.Properties)
    (htype : p.type ≠ IntegratorType.NSTEPPERS) :
    ∃ dflt : Double,
      dflt = (match p.type with
        | IntegratorType.eu => Double.inf
        | IntegratorType.rk => Double.inf
        | IntegratorType.abm => Double.inf
        | IntegratorType.bdf => Double.finite (1 / 10000000000)
        | IntegratorType.abm2 => Double.finite (1 / 10000000000)
        | _ => Double.finite (1 / 1000000)) ∧
      ∀ (input stored : Double),
        (input = p.abstol ∧ stored = (IntegratorStepper.createStepper p).2.abstol) ∨
        (input = p.reltol ∧ stored = (IntegratorStepper.createStepper p).2.reltol) →
        (Double.lt (Double.finite 0) stored = true ∨
          (stored = Double.finite 0 ∧ input = Double.finite 0)) ∧
        (Double.ne input input = true → stored = dflt) ∧
        (input = Double.finite 0 → stored = Double.finite 0 ∨ dflt = Double.inf) := by
  have fixed : (p.type = IntegratorType.eu ∨ p.type = IntegratorType.rk ∨
      p.type = IntegratorType.abm) → ∀ (input stored : Double),
        (input = p.abstol ∧ stored = (IntegratorStepper.createStepper p).2.abstol) ∨
        (input = p.reltol ∧ stored = (IntegratorStepper.createStepper p).2.reltol) →
        (Double.lt (Double.finite 0) stored = true ∨
          (stored = Double.finite 0 ∧ input = Double.finite 0)) ∧
        (Double.ne input input = true → stored = Double.inf) ∧
        (input = Double.finite 0 → stored = Double.finite 0 ∨ Double.inf = Double.inf) := by
    intro h input stored hs
    obtain ⟨ha, hr⟩ := IntegratorStepper.createStepper_fixed p h
    have : stored = Double.inf := by
      rcases hs with ⟨-, hs⟩ | ⟨-, hs⟩
      · rw [hs, ha]
      · rw [hs, hr]
    subst this
    exact ⟨Or.inl rfl, fun _ => rfl, fun _ => Or.inr rfl⟩
  have adaptive : ∀ d : ℚ, 0 < d →
      (IntegratorStepper.createStepper p).2.abstol
        = (match p.abstol with
            | Double.finite q => if 0 ≤ q then Double.finite q else Double.finite d
            | _ => Double.finite d) →
      (IntegratorStepper.createStepper p).2.reltol
        = (match p.reltol with
            | Double.finite q => if 0 ≤ q then Double.finite q else Double.finite d
            | _ => Double.finite d) →
      ∀ (input stored : Double),
        (input = p.abstol ∧ stored = (IntegratorStepper.createStepper p).2.abstol) ∨
        (input = p.reltol ∧ stored = (IntegratorStepper.createStepper p).2.reltol) →
        (Double.lt (Double.finite 0) stored = true ∨
          (stored = Double.finite 0 ∧ input = Double.finite 0)) ∧
        (Double.ne input input = true → stored = Double.finite d) ∧
        (input = Double.finite 0 → stored = Double.finite 0 ∨ Double.finite d = Double.inf) := by
    intro d hd ha hr input stored hs
    rcases hs with ⟨hi, hs⟩ | ⟨hi, hs⟩
    · obtain ⟨h1, h2, h3⟩ := Double.normalised_cases p.abstol d hd
      subst hi
      rw [hs, ha]
      exact ⟨h1, h3, fun h0 => Or.inl (h2 h0)⟩
    · obtain ⟨h1, h2, h3⟩ := Double.normalised_cases p.reltol d hd
      subst hi
      rw [hs, hr]
      exact ⟨h1, h3, fun h0 => Or.inl (h2 h0)⟩
  cases hty : p.type with
  | eu => exact ⟨_, rfl, fixed (Or.inl hty)⟩
  | rk => exact ⟨_, rfl, fixed (Or.inr (Or.inl hty))⟩
  | abm => exact ⟨_, rfl, fixed (Or.inr (Or.inr hty))⟩
  | ck =>
    obtain ⟨c, name, order, h⟩ := IntegratorStepper.createStepper_adaptive p (Or.inl hty)
    exact ⟨_, rfl, adaptive _ (by norm_num) (by rw [h]) (by rw [h])⟩
  | dp =>
    obtain ⟨c, name, order, h⟩ :=
      IntegratorStepper.createStepper_adaptive p (Or.inr (Or.inl hty))
    exact ⟨_, rfl, adaptive _ (by norm_num) (by rw [h]) (by rw [h])⟩
  | fe =>
    obtain ⟨c, name, order, h⟩ :=
      IntegratorStepper.createStepper_adaptive p (Or.inr (Or.inr (Or.inl hty)))
    exact ⟨_, rfl, adaptive _ (by norm_num) (by rw [h]) (by rw [h])⟩
  | bs =>
    obtain ⟨c, name, order, h⟩ :=
      IntegratorStepper.createStepper_adaptive p (Or.inr (Or.inr (Or.inr (Or.inl hty))))
    exact ⟨_, rfl, adaptive _ (by norm_num) (by rw [h]) (by rw [h])⟩
  | ro =>
    obtain ⟨c, name, order, h⟩ :=
      IntegratorStepper.createStepper_adaptive p (Or.inr (Or.inr (Or.inr (Or.inr hty))))
    exact ⟨_, rfl, adaptive _ (by norm_num) (by rw [h]) (by rw [h])⟩
  | bdf =>
    obtain ⟨c, name, h⟩ := IntegratorStepper.createStepper_sundials p (Or.inl hty)
    exact ⟨_, rfl, adaptive _ (by norm_num) (by rw [h]) (by rw [h])⟩
  | abm2 =>
    obtain ⟨c, name, h⟩ := IntegratorStepper.createStepper_sundials p (Or.inr hty)
    exact ⟨_, rfl, adaptive _ (by norm_num) (by rw [h]) (by rw [h])⟩
  | NSTEPPERS => exact absurd hty htype

/-- C21 (counterexample): for the type `dp`, `setProperties` with `abstol = reltol = 0`
stores the tolerances `0`, and so does `setType( dp )` on an integrator whose properties
hold these tolerances: the stored tolerances are not greater than `0`. -/
theorem setProperties_keeps_zero_tolerance :
    (Integrator.setProperties
        { type := IntegratorType.dp, name := "", order := 0,
          abstol := Double.finite 0, reltol := Double.finite 0 }
        Integrator.Setup.fresh).1.properties_.abstol = Double.finite 0 ∧
    (Integrator.setProperties
        { type := IntegratorType.dp, name := "", order := 0,
          abstol := Double.finite 0, reltol := Double.finite 0 }
        Integrator.Setup.fresh).1.properties_.reltol = Double.finite 0 ∧
    (Integrator.setType IntegratorType.dp
        { stepper_ := none,
          properties_ := { type := IntegratorType.eu, name := "", order := 0,
                           abstol := Double.finite 0, reltol := Double.finite 0 } }
      ).properties_.abstol = Double.finite 0 ∧
    Double.lt (Double.finite 0) (Double.finite 0) = false := by
  refine ⟨?_, ?_, ?_, ?_⟩ <;> decide!

/-- C21 (amended): after `setProperties( p )` and after `setType( type )`, for each of the
ten stepper types, each stored tolerance (`abstol` and `reltol` alike) is greater than `0`
(`+∞` for the fixed-step types) or it is exactly `0`, which happens only if the input
tolerance was exactly `0`; it is never negative and never not a number.  An unset (not a
number) input is replaced by the default of the type: `+∞` for `eu`, `rk`, `abm`, `1e-10`
for `bdf`, `abm2`, and `1e-6` for the others; and an input `0` is stored as `0` by every
type with tolerances.  For `setType` the input is the tolerance stored before. -/
theorem setProperties_stored_tolerances (p : Integrator.Properties) (self : Integrator.Setup)
    (type : IntegratorType) (hp : p.type ≠ IntegratorType.NSTEPPERS)
    (htype : type ≠ IntegratorType.NSTEPPERS) :
    let dflt : IntegratorType → Double := fun t =>
      match t with
      | IntegratorType.eu => Double.inf
      | IntegratorType.rk => Double.inf
      | IntegratorType.abm => Double.inf
      | IntegratorType.bdf => Double.finite (1 / 10000000000)
      | IntegratorType.abm2 => Double.finite (1 / 10000000000)
      | _ => Double.finite (1 / 1000000)
    let good : IntegratorType → Double → Double → Prop := fun t input stored =>
      (Double.lt (Double.finite 0) stored = true ∨
        (stored = Double.finite 0 ∧ input = Double.finite 0)) ∧
      (Double.ne input input = true → stored = dflt t) ∧
      (input = Double.finite 0 → stored = Double.finite 0 ∨ dflt t = Double.inf)
    good p.type p.abstol (Integrator.setProperties p self).1.properties_.abstol ∧
    good p.type p.reltol (Integrator.setProperties p self).1.properties_.reltol ∧
    good type self.properties_.abstol (Integrator.setType type self).properties_.abstol ∧
    good type self.properties_.reltol (Integrator.setType type self).properties_.reltol := by
  intro dflt good
  obtain ⟨d1, hd1, h1⟩ := IntegratorStepper.createStepper_stored p hp
  obtain ⟨d2, hd2, h2⟩ := IntegratorStepper.createStepper_stored
    { self.properties_ with type := type } htype
  have e1 : d1 = dflt p.type := hd1
  have e2 : d2 = dflt type := hd2
  rw [e1] at h1
  rw [e2] at h2
  exact ⟨h1 _ _ (Or.inl ⟨rfl, rfl⟩), h1 _ _ (Or.inr ⟨rfl, rfl⟩),
    h2 _ _ (Or.inl ⟨rfl, rfl⟩), h2 _ _ (Or.inr ⟨rfl, rfl⟩)⟩

/-- Witness for C21: `setProperties` with type `dp`, an unset `abstol` and `reltol = 0`
on an integrator of type `eu`, followed by the view of `setType( bdf )` on it. -/
theorem setProperties_stored_tolerances_witness :
    (Integrator.setProperties
        { type := IntegratorType.dp, name := "", order := 0,
          abstol := Double.nan, reltol := Double.finite 0 }
        Integrator.Setup.fresh).1.properties_.abstol = Double.finite (1 / 1000000) ∧
    (Double.lt (Double.finite 0) (Integrator.setProperties
        { type := IntegratorType.dp, name := "", order := 0,
          abstol := Double.nan, reltol := Double.finite 0 }
        Integrator.Setup.fresh).1.properties_.reltol = true ∨
      (Integrator.setProperties
        { type := IntegratorType.dp, name := "", order := 0,
          abstol := Double.nan, reltol := Double.finite 0 }
        Integrator.Setup.fresh).1.properties_.reltol = Double.finite 0) ∧
    (Integrator.setType IntegratorType.bdf Integrator.Setup.fresh).properties_.abstol
      = Double.finite (1 / 10000000000) := by
  obtain ⟨⟨-, ha, -⟩, ⟨hr, -, -⟩, ⟨-, hb, -⟩, -⟩ := setProperties_stored_tolerances
    { type := IntegratorType.dp, name := "", order := 0,
      abstol := Double.nan, reltol := Double.finite 0 }
    Integrator.Setup.fresh IntegratorType.bdf (by decide) (by decide)
  exact ⟨ha rfl, hr.imp id (fun h => h.1), hb rfl⟩

/-! ## C22: access by a name that is not in the variable table -/

/-- C22: for a name that the variable table `varMap_` does not hold, each of the four
setters by name returns `fmiDiscard` and leaves the driver as `doesNotExist` makes it,
and each of the four getters by name does the same and hands back the output argument as
it was passed in.  That driver state has `fmi2Discard` as last status, the same model
instance and variable table as before, and one more logged message, the warning
"`name` does not exist"; it does not depend on the function table, so no function of the
model is called. -/
theorem by_name_access_unknown_name {F : Type} (fn : FMU2ValueFunctions F) (name : String)
    (self : FMUModelExchange.Variables F) (hname : self.varMap_.lookup name = none) :
    (∀ val, FMUModelExchange.setValueReal fn name val self
      = (fmiStatus.fmiDiscard, FMUModelExchange.Variables.doesNotExist name self)) ∧
    (∀ val, FMUModelExchange.setValueInteger fn name val self
      = (fmiStatus.fmiDiscard, FMUModelExchange.Variables.doesNotExist name self)) ∧
    (∀ val, FMUModelExchange.setValueBoolean fn name val self
      = (fmiStatus.fmiDiscard, FMUModelExchange.Variables.doesNotExist name self)) ∧
    (∀ val, FMUModelExchange.setValueString fn name val self
      = (fmiStatus.fmiDiscard, FMUModelExchange.Variables.doesNotExist name self)) ∧
    (∀ val, FMUModelExchange.getValueReal fn name val self
      = (fmiStatus.fmiDiscard, val, FMUModelExchange.Variables.doesNotExist name self)) ∧
    (∀ val, FMUModelExchange.getValueInteger fn name val self
      = (fmiStatus.fmiDiscard, val, FMUModelExchange.Variables.doesNotExist name self)) ∧
    (∀ val, FMUModelExchange.getValueBoolean fn name val self
      = (fmiStatus.fmiDiscard, val, FMUModelExchange.Variables.doesNotExist name self)) ∧
    (∀ val, FMUModelExchange.getValueString fn name val self
      = (fmiStatus.fmiDiscard, val, FMUModelExchange.Variables.doesNotExist name self)) ∧
    (FMUModelExchange.Variables.doesNotExist name self).lastStatus_ = fmi2Status.fmi2Discard ∧
    (FMUModelExchange.Variables.doesNotExist name self).instance_ = self.instance_ ∧
    (FMUModelExchange.Variables.doesNotExist name self).varMap_ = self.varMap_ ∧
    (FMUModelExchange.Variables.doesNotExist name self).logged
      = self.logged ++ [(fmi2Status.fmi2Discard, "WARNING", name ++ " does not exist")] := by
  refine ⟨?_, ?_, ?_, ?_, ?_, ?_, ?_, ?_, rfl, rfl, rfl, rfl⟩
  · intro val
    simp only [FMUModelExchange.setValueReal, hname]
    rfl
  · intro val
    simp only [FMUModelExchange.setValueInteger, hname]
    rfl
  · intro val
    simp only [FMUModelExchange.setValueBoolean, hname]
    rfl
  · intro val
    simp only [FMUModelExchange.setValueString, hname]
    rfl
  · intro val
    simp only [FMUModelExchange.getValueReal, hname]
    rfl
  · intro val
    simp only [FMUModelExchange.getValueInteger, hname]
    rfl
  · intro val
    simp only [FMUModelExchange.getValueBoolean, hname]
    rfl
  · intro val
    simp only [FMUModelExchange.getValueString, hname]
    rfl

/-- Witness for C22: the name `y` on the driver `storeDriver`, whose table holds `x`, `n`,
`b` and `s`: setting the real `y` and reading the string `y` are discarded, the model
has still seen no call, and the output argument comes back as it was. -/
theorem by_name_access_unknown_name_witness :
    storeDriver.varMap_.lookup "y" = none ∧
    (FMUModelExchange.setValueReal store "y" 7 storeDriver).1 = fmiStatus.fmiDiscard ∧
    (FMUModelExchange.setValueReal store "y" 7 storeDriver).2.instance_.calls = 0 ∧
    (FMUModelExchange.getValueString store "y" "out" storeDriver).1 = fmiStatus.fmiDiscard ∧
    (FMUModelExchange.getValueString store "y" "out" storeDriver).2.1 = "out" ∧
    (FMUModelExchange.getValueString store "y" "out" storeDriver).2.2.lastStatus_
      = fmi2Status.fmi2Discard := by
  obtain ⟨h1, -, -, -, -, -, -, h8, -⟩ :=
    by_name_access_unknown_name store "y" storeDriver (by decide)
  refine ⟨by decide, ?_, ?_, ?_, ?_, ?_⟩
  · rw [h1]
  · rw [h1]
    rfl
  · rw [h8]
  · rw [h8]
  · rw [h8]
    rfl

/-! ## C23 and C24: `instantiate` and `initialize` -/

/-- C23: a driver constructed while the model manager returned no FMU has no model
instance; `instantiate` on it returns `fmiError`, records `fmi2Error` as the last status
and changes nothing but the instance name and the last status, so there is still no model
instance; `initialize` after it returns `fmiError` as well and changes nothing. -/
theorem instantiate_without_fmu {F : Type} (loggingOn : Bool) (type : IntegratorType)
    (integrator : Integrator.Setup) (instanceName : String) (allocated : fmi2EventInfo) :
    (FMUModelExchange.new (none : Option (BareFMU2 F)) loggingOn type integrator).fmu_ = none ∧
    (FMUModelExchange.new (none : Option (BareFMU2 F)) loggingOn type integrator).instance_
      = none ∧
    FMUModelExchange.instantiate instanceName allocated
        (FMUModelExchange.new (none : Option (BareFMU2 F)) loggingOn type integrator)
      = (fmiStatus.fmiError,
         { FMUModelExchange.new (none : Option (BareFMU2 F)) loggingOn type integrator with
           instanceName_ := instanceName, lastStatus_ := fmi2Status.fmi2Error }) ∧
    (FMUModelExchange.instantiate instanceName allocated
        (FMUModelExchange.new (none : Option (BareFMU2 F)) loggingOn type integrator)
      ).2.instance_ = none ∧
    FMUModelExchange.initialize
        (FMUModelExchange.instantiate instanceName allocated
          (FMUModelExchange.new (none : Option (BareFMU2 F)) loggingOn type integrator)).2
      = (fmiStatus.fmiError,
         (FMUModelExchange.instantiate instanceName allocated
          (FMUModelExchange.new (none : Option (BareFMU2 F)) loggingOn type integrator)).2) :=
  ⟨rfl, rfl, rfl, rfl, rfl⟩

/-- C24: after an `instantiate( instanceName )` that returns `fmiOK` the driver's time is
`0` and the time of the next time event is `+∞`; with `n > 0` event indicators the
current and the previous indicator buffer each hold `n` zeros (without event indicators
no buffer is allocated: they are left as they were); the numbers of states and event
indicators read from the model description are untouched. -/
theorem instantiate_resets_time {F : Type} (instanceName : String) (allocated : fmi2EventInfo)
    (self : FMUModelExchange.Shell F)
    (hok : (FMUModelExchange.instantiate instanceName allocated self).1 = fmiStatus.fmiOK) :
    (FMUModelExchange.instantiate instanceName allocated self).2.time_ = Double.finite 0 ∧
    (FMUModelExchange.instantiate instanceName allocated self).2.tnextevent_ = Double.inf ∧
    (FMUModelExchange.instantiate instanceName allocated self).2.nEventInds_
      = self.nEventInds_ ∧
    (0 < self.nEventInds_ →
      (FMUModelExchange.instantiate instanceName allocated self).2.eventsind_
        = some (List.replicate self.nEventInds_ 0) ∧
      (FMUModelExchange.instantiate instanceName allocated self).2.preeventsind_
        = some (List.replicate self.nEventInds_ 0)) ∧
    (self.nEventInds_ = 0 →
      (FMUModelExchange.instantiate instanceName allocated self).2.eventsind_
        = self.eventsind_ ∧
      (FMUModelExchange.instantiate instanceName allocated self).2.preeventsind_
        = self.preeventsind_) ∧
    (FMUModelExchange.instantiate instanceName allocated self).2.instance_.isSome = true := by
  obtain ⟨fmu_, instance_, instanceName_, loggingOn_, nStateVars_, nEventInds_, integrator_,
    time_, tnextevent_, eventinfo_, eventsind_, preeventsind_, lastStatus_⟩ := self
  cases fmu_ with
  | none => exact absurd hok (by simp [FMUModelExchange.instantiate, fmi2Status.toFmiStatus])
  | some fmu =>
    by_cases hn : 0 < nEventInds_
    · simp only [FMUModelExchange.instantiate, gt_iff_lt, hn, if_true] at hok ⊢
      cases hi : fmu.functions.instantiate instanceName fmu.description.guid loggingOn_ with
      | none =>
        rw [hi] at hok
        exact absurd hok (by simp [fmi2Status.toFmiStatus])
      | some inst => simp [Nat.pos_iff_ne_zero.mp hn]
    · have h0 : nEventInds_ = 0 := by omega
      subst h0
      simp only [FMUModelExchange.instantiate, gt_iff_lt, lt_self_iff_false, if_false]
        at hok ⊢
      cases hi : fmu.functions.instantiate instanceName fmu.description.guid loggingOn_ with
      | none =>
        rw [hi] at hok
        exact absurd hok (by simp [fmi2Status.toFmiStatus])
      | some inst => simp

/-- Witness for C24: the driver constructed for `counterFMU`, whose default experiment
starts at time `5`, is at time `5`; after `instantiate` it is at time `0`, the next time
event is at `+∞`, and the two indicator buffers hold two zeros each. -/
theorem instantiate_resets_time_witness :
    (FMUModelExchange.new (some counterFMU) false IntegratorType.dp Integrator.Setup.fresh).time_
      = Double.finite 5 ∧
    (FMUModelExchange.instantiate "counter" fmi2EventInfo.clear
      (FMUModelExchange.new (some counterFMU) false IntegratorType.dp
        Integrator.Setup.fresh)).1 = fmiStatus.fmiOK ∧
    (FMUModelExchange.instantiate "counter" fmi2EventInfo.clear
      (FMUModelExchange.new (some counterFMU) false IntegratorType.dp
        Integrator.Setup.fresh)).2.time_ = Double.finite 0 ∧
    (FMUModelExchange.instantiate "counter" fmi2EventInfo.clear
      (FMUModelExchange.new (some counterFMU) false IntegratorType.dp
        Integrator.Setup.fresh)).2.tnextevent_ = Double.inf ∧
    (FMUModelExchange.instantiate "counter" fmi2EventInfo.clear
      (FMUModelExchange.new (some counterFMU) false IntegratorType.dp
        Integrator.Setup.fresh)).2.eventsind_ = some [0, 0] ∧
    (FMUModelExchange.instantiate "counter" fmi2EventInfo.clear
      (FMUModelExchange.new (some counterFMU) false IntegratorType.dp
        Integrator.Setup.fresh)).2.preeventsind_ = some [0, 0] := by
  have hok : (FMUModelExchange.instantiate "counter" fmi2EventInfo.clear
      (FMUModelExchange.new (some counterFMU) false IntegratorType.dp
        Integrator.Setup.fresh)).1 = fmiStatus.fmiOK := by decide!
  obtain ⟨h1, h2, -, h4, -, -⟩ := instantiate_resets_time "counter" fmi2EventInfo.clear
    (FMUModelExchange.new (some counterFMU) false IntegratorType.dp Integrator.Setup.fresh) hok
  have hn : 0 < (FMUModelExchange.new (some counterFMU) false IntegratorType.dp
      Integrator.Setup.fresh).nEventInds_ := by decide!
  exact ⟨by decide!, hok, h1, h2, (h4 hn).1, (h4 hn).2⟩

/-! ## C25: rejected steps of the PowerFactory front end -/

/-- C25 (failing input): on the front end `gridFrontEnd` (last communication point `0`),
`doStep( 0, 1 )` is rejected with `fmiDiscard` because the power flow is not valid, and
the last communication point is `1` behind the call.  The retry from the same
communication point with the smaller step, `doStep( 0, 1/2 )`, is then rejected with
"wrong communication point", although the same call succeeds on the front end as it was
before the rejected step.  The two other rejections (negative step size, wrong
communication point) leave the last communication point as it is. -/
theorem doStep_discard_moves_communication_point :
    gridFrontEnd.lastComPoint_ = 0 ∧
    (PowerFactoryFrontEnd.doStep grid 0 1 gridFrontEnd).1 = fmiStatus.fmiDiscard ∧
    (PowerFactoryFrontEnd.doStep grid 0 1 gridFrontEnd).2.logged
      = [(fmiStatus.fmiDiscard, "DISCARD", "power flow calculation not valid")] ∧
    (PowerFactoryFrontEnd.doStep grid 0 1 gridFrontEnd).2.lastComPoint_ = 1 ∧
    (PowerFactoryFrontEnd.doStep grid 0 (1/2)
      (PowerFactoryFrontEnd.doStep grid 0 1 gridFrontEnd).2).1 = fmiStatus.fmiDiscard ∧
    (PowerFactoryFrontEnd.doStep grid 0 (1/2)
      (PowerFactoryFrontEnd.doStep grid 0 1 gridFrontEnd).2).2.logged
      = [(fmiStatus.fmiDiscard, "DISCARD", "power flow calculation not valid"),
         (fmiStatus.fmiDiscard, "DISCARD", "wrong communication point")] ∧
    (PowerFactoryFrontEnd.doStep grid 0 (1/2) gridFrontEnd).1 = fmiStatus.fmiOK ∧
    (PowerFactoryFrontEnd.doStep grid 0 (-1) gridFrontEnd).1 = fmiStatus.fmiDiscard ∧
    (PowerFactoryFrontEnd.doStep grid 0 (-1) gridFrontEnd).2.lastComPoint_ = 0 ∧
    (PowerFactoryFrontEnd.doStep grid 1 1 gridFrontEnd).1 = fmiStatus.fmiDiscard ∧
    (PowerFactoryFrontEnd.doStep grid 1 1 gridFrontEnd).2.lastComPoint_ = 0 := by
  refine ⟨?_, ?_, ?_, ?_, ?_, ?_, ?_, ?_, ?_, ?_, ?_⟩ <;> decide!

/-! ## C29: the step-event flag of the reused `eventInfo` -/

/-- C29 (failing input): on the model `dx/dt = 1` with the event indicator `10 - x` and no
step events, `invokeMethod( eventInfo, states = [0], time = 0, step_size = 1, dt = 1/2 )`
ends normally at time `1` without a state event and without a step event.  Called with an
`eventInfo` that an earlier call left with `stepEvent = true`, the dense-output steppers
`DormandPrince`, `BulirschStoer` and `Rosenbrock` return `stepEvent = true`; called with
a clear `eventInfo` they return `stepEvent = false`.  `OdeintStepper::invokeMethod`
(here `Euler`) returns `stepEvent = false` for both. -/
theorem invokeMethod_reports_stale_step_event :
    ((rampDormandPrince 10).invokeMethod EventInfo.afterStepEvent [0] 0 1 (1/2) 1
        LinearDense.fresh (rampStart 10)).map
      (fun r => (r.eventInfo.stateEvent, r.eventInfo.stepEvent, r.fmu.time, r.fmu.x))
      = some (false, true, 1, [1]) ∧
    ((rampDormandPrince 10).invokeMethod (Integrator.fresh ()).eventInfo_ [0] 0 1 (1/2) 1
        LinearDense.fresh (rampStart 10)).map
      (fun r => (r.eventInfo.stateEvent, r.eventInfo.stepEvent, r.fmu.time, r.fmu.x))
      = some (false, false, 1, [1]) ∧
    ((BulirschStoer (ramp 10) (linearDense (ramp 10)) 10).invokeMethod
        EventInfo.afterStepEvent [0] 0 1 (1/2) 1 LinearDense.fresh (rampStart 10)).map
      (fun r => (r.eventInfo.stateEvent, r.eventInfo.stepEvent, r.fmu.time, r.fmu.x))
      = some (false, true, 1, [1]) ∧
    ((Rosenbrock (ramp 10) (linearDense (ramp 10)) 10).invokeMethod
        EventInfo.afterStepEvent [0] 0 1 (1/2) 1 ⟨[], LinearDense.fresh⟩ (rampStart 10)).map
      (fun r => (r.eventInfo.stateEvent, r.eventInfo.stepEvent, r.fmu.time, r.fmu.x))
      = some (false, true, 1, [1]) ∧
    ((rampEuler 10).invokeMethod EventInfo.afterStepEvent [0] 0 1 (1/2) 1
        (OdeintObj.fresh ()) (rampStart 10)).map
      (fun r => (r.eventInfo.stateEvent, r.eventInfo.stepEvent, r.fmu.time, r.fmu.x))
      = some (false, false, 1, [1]) ∧
    ((rampEuler 10).invokeMethod (Integrator.fresh ()).eventInfo_ [0] 0 1 (1/2) 1
        (OdeintObj.fresh ()) (rampStart 10)).map
      (fun r => (r.eventInfo.stateEvent, r.eventInfo.stepEvent, r.fmu.time, r.fmu.x))
      = some (false, false, 1, [1]) := by
  refine ⟨?_, ?_, ?_, ?_, ?_, ?_⟩ <;> decide!

/-! ## C26: `FMIComponentBackEnd::initializeVariables` -/

/-- The map `scalarMap` has no entry for a name iff no retrieved scalar has that name. -/
theorem FMIComponentBackEnd.scalarMap_none {C P : Type} (scalars : List (ScalarVariable C P))
    (name : String) :
    FMIComponentBackEnd.scalarMap scalars name = none ↔ ∀ s ∈ scalars, s.name_ ≠ name := by
  induction scalars with
  | nil => simp [FMIComponentBackEnd.scalarMap]
  | cons a rest ih =>
    cases h : FMIComponentBackEnd.scalarMap rest name with
    | some later =>
      have hn : ¬ ∀ s ∈ rest, s.name_ ≠ name := fun hall => by
        rw [ih.mpr hall] at h
        exact Option.noConfusion h
      simp only [FMIComponentBackEnd.scalarMap, h, List.mem_cons, forall_eq_or_imp]
      constructor
      · intro h'
        exact Option.noConfusion h'
      · intro h'
        exact absurd h'.2 hn
    | none =>
      have hall := ih.mp h
      simp only [FMIComponentBackEnd.scalarMap, h, List.mem_cons, forall_eq_or_imp]
      by_cases ha : a.name_ = name
      · simp [ha]
      · simpa [ha] using hall

/-- The entry of `scalarMap` for a name is the last retrieved scalar of that name. -/
theorem FMIComponentBackEnd.scalarMap_some {C P : Type} (scalars : List (ScalarVariable C P))
    (name : String) (s : ScalarVariable C P) :
    FMIComponentBackEnd.scalarMap scalars name = some s ↔
      ∃ l1 l2, scalars = l1 ++ s :: l2 ∧ s.name_ = name ∧ ∀ s' ∈ l2, s'.name_ ≠ name := by
  induction scalars with
  | nil => simp [FMIComponentBackEnd.scalarMap]
  | cons a rest ih =>
    cases h : FMIComponentBackEnd.scalarMap rest name with
    | some later =>
      simp only [FMIComponentBackEnd.scalarMap, h]
      constructor
      · intro hs
        obtain ⟨l1, l2, e, hn, hl⟩ := ih.mp (h.trans hs)
        exact ⟨a :: l1, l2, by rw [e]; rfl, hn, hl⟩
      · rintro ⟨l1, l2, e, hn, hl⟩
        cases l1 with
        | nil =>
          simp only [List.nil_append, List.cons.injEq] at e
          obtain ⟨-, e2⟩ := e
          subst e2
          rw [(FMIComponentBackEnd.scalarMap_none rest name).mpr hl] at h
          exact Option.noConfusion h
        | cons b l1' =>
          simp only [List.cons_append, List.cons.injEq] at e
          have := ih.mpr ⟨l1', l2, e.2, hn, hl⟩
          rw [← h, this]
    | none =>
      simp only [FMIComponentBackEnd.scalarMap, h]
      constructor
      · intro hs
        by_cases ha : a.name_ = name
        · simp only [ha, if_true, Option.some.injEq] at hs
          subst hs
          exact ⟨[], rest, rfl, ha, (FMIComponentBackEnd.scalarMap_none rest name).mp h⟩
        · simp [ha] at hs
      · rintro ⟨l1, l2, e, hn, hl⟩
        cases l1 with
        | nil =>
          simp only [List.nil_append, List.cons.injEq] at e
          obtain ⟨e1, -⟩ := e
          subst e1
          simp [hn]
        | cons b l1' =>
          simp only [List.cons_append, List.cons.injEq] at e
          have := ih.mpr ⟨l1', l2, e.2, hn, hl⟩
          rw [this] at h
          exact Option.noConfusion h

/-- The loop of `initializeVariables` through the requested names: the status behind it
and, if every name was found, the pointers. -/
theorem FMIComponentBackEnd.storePointers_spec {C P : Type} [DecidableEq C]
    (find : String → Option (ScalarVariable C P)) (causality : C) (describe : C → String)
    (names : List String) :
    ∀ (result : fmiStatus) (variablePointers : List P) (logged : List FrontEndMessage),
      result ≠ fmiStatus.fmiFatal →
      ((FMIComponentBackEnd.storePointers find causality describe names result
          variablePointers logged).1 = fmiStatus.fmiFatal ↔
        ∃ n ∈ names, find n = none) ∧
      ((FMIComponentBackEnd.storePointers find causality describe names result
          variablePointers logged).1 = fmiStatus.fmiOK ↔
        result = fmiStatus.fmiOK ∧
          ∀ n ∈ names, ∃ s, find n = some s ∧ s.causality_ = causality) ∧
      ((∀ n ∈ names, find n ≠ none) →
        (FMIComponentBackEnd.storePointers find causality describe names result
          variablePointers logged).2.1.map some
          = variablePointers.map some
            ++ names.map (fun n => (find n).map (fun s => s.value_))) := by
  induction names with
  | nil =>
    intro result variablePointers logged hres
    simp [FMIComponentBackEnd.storePointers, hres]
  | cons name rest ih =>
    intro result variablePointers logged hres
    cases hf : find name with
    | none =>
      simp only [FMIComponentBackEnd.storePointers, hf]
      refine ⟨?_, ?_, ?_⟩
      · exact ⟨fun _ => ⟨name, List.mem_cons_self _ _, hf⟩, fun _ => trivial⟩
      · constructor
        · intro h
          exact fmiStatus.noConfusion h
        · rintro ⟨-, h⟩
          obtain ⟨s, hs, -⟩ := h name (List.mem_cons_self _ _)
          rw [hf] at hs
          exact Option.noConfusion hs
      · intro h
        exact absurd hf (h name (List.mem_cons_self _ _))
    | some s =>
      have hmem : (∃ n ∈ name :: rest, find n = none) ↔ ∃ n ∈ rest, find n = none := by
        constructor
        · rintro ⟨n, hn, hnone⟩
          rcases List.mem_cons.mp hn with e | e
          · rw [e, hf] at hnone
            exact Option.noConfusion hnone
          · exact ⟨n, e, hnone⟩
        · rintro ⟨n, hn, hnone⟩
          exact ⟨n, List.mem_cons_of_mem _ hn, hnone⟩
      have htail : ∀ (r : fmiStatus × List P × List FrontEndMessage) (ptrs : List P),
          (∀ n ∈ rest, find n ≠ none) →
          r.2.1.map some = (ptrs ++ [s.value_]).map some
            ++ rest.map (fun n => (find n).map (fun s => s.value_)) →
          r.2.1.map some = ptrs.map some
            ++ (name :: rest).map (fun n => (find n).map (fun s => s.value_)) := by
        intro r ptrs _ h
        rw [h]
        simp [hf]
      by_cases hc : causality = s.causality_
      · obtain ⟨i1, i2, i3⟩ := ih result (variablePointers ++ [s.value_]) logged hres
        have e : FMIComponentBackEnd.storePointers find causality describe (name :: rest)
            result variablePointers logged
            = FMIComponentBackEnd.storePointers find causality describe rest result
                (variablePointers ++ [s.value_]) logged := by
          simp only [FMIComponentBackEnd.storePointers, hf, ne_eq, hc, not_true_eq_false,
            if_false]
        rw [e]
        refine ⟨?_, ?_, ?_⟩
        · rw [i1, hmem]
        · rw [i2]
          constructor
          · rintro ⟨h1, h2⟩
            refine ⟨h1, fun n hn => ?_⟩
            rcases List.mem_cons.mp hn with e' | e'
            · exact ⟨s, by rw [e', hf], hc.symm⟩
            · exact h2 n e'
          · rintro ⟨h1, h2⟩
            exact ⟨h1, fun n hn => h2 n (List.mem_cons_of_mem _ hn)⟩
        · intro h
          exact htail _ _ (fun n hn => h n (List.mem_cons_of_mem _ hn))
            (i3 (fun n hn => h n (List.mem_cons_of_mem _ hn)))
      · obtain ⟨i1, i2, i3⟩ := ih fmiStatus.fmiWarning (variablePointers ++ [s.value_])
          (logged ++ [(fmiStatus.fmiFatal, "ABORT",
            "scalar variable '" ++ name ++ "' has wrong causality: "
              ++ describe s.causality_ ++ " instead of " ++ describe causality)])
          (fun h => fmiStatus.noConfusion h)
        have e : FMIComponentBackEnd.storePointers find causality describe (name :: rest)
            result variablePointers logged
            = FMIComponentBackEnd.storePointers find causality describe rest
                fmiStatus.fmiWarning (variablePointers ++ [s.value_])
                (logged ++ [(fmiStatus.fmiFatal, "ABORT",
                  "scalar variable '" ++ name ++ "' has wrong causality: "
                    ++ describe s.causality_ ++ " instead of " ++ describe causality)]) := by
          simp only [FMIComponentBackEnd.storePointers, hf, ne_eq, hc, not_false_eq_true,
            if_true]
        rw [e]
        refine ⟨?_, ?_, ?_⟩
        · rw [i1, hmem]
        · rw [i2]
          constructor
          · rintro ⟨h, -⟩
            exact fmiStatus.noConfusion h
          · rintro ⟨-, h⟩
            obtain ⟨s', hs', hc'⟩ := h name (List.mem_cons_self _ _)
            rw [hf] at hs'
            cases hs'
            exact absurd hc'.symm hc
        · intro h
          exact htail _ _ (fun n hn => h n (List.mem_cons_of_mem _ hn))
            (i3 (fun n hn => h n (List.mem_cons_of_mem _ hn)))

/-- C26: `initializeVariables` returns `fmiOK` iff for every requested name the map of
the retrieved scalars has an entry and that scalar has the requested causality, and
`fmiFatal` iff for some requested name the map has no entry.  Unless it returns
`fmiFatal` (so in particular when it returns `fmiOK`) the pointer list behind the call has
one entry per requested name, in the order of the names, each the value of the map's
entry for that name, whatever the list held before.  The map's entry for a name is the
last retrieved scalar of that name, and there is none iff no retrieved scalar has the
name. -/
theorem initializeVariables_status_and_pointers {C P : Type} [DecidableEq C]
    (describe : C → String) (variablePointers : List P)
    (scalars : List (ScalarVariable C P)) (scalarNames : List String) (causality : C) :
    ((FMIComponentBackEnd.initializeVariables describe variablePointers scalars scalarNames
        causality).1 = fmiStatus.fmiOK ↔
      ∀ n ∈ scalarNames, ∃ s, FMIComponentBackEnd.scalarMap scalars n = some s ∧
        s.causality_ = causality) ∧
    ((FMIComponentBackEnd.initializeVariables describe variablePointers scalars scalarNames
        causality).1 = fmiStatus.fmiFatal ↔
      ∃ n ∈ scalarNames, FMIComponentBackEnd.scalarMap scalars n = none) ∧
    ((FMIComponentBackEnd.initializeVariables describe variablePointers scalars scalarNames
        causality).1 ≠ fmiStatus.fmiFatal →
      (FMIComponentBackEnd.initializeVariables describe variablePointers scalars scalarNames
        causality).2.1.map some
        = scalarNames.map
            (fun n => (FMIComponentBackEnd.scalarMap scalars n).map (fun s => s.value_)) ∧
      (FMIComponentBackEnd.initializeVariables describe variablePointers scalars scalarNames
        causality).2.1.length = scalarNames.length) ∧
    (∀ n s, FMIComponentBackEnd.scalarMap scalars n = some s ↔
      ∃ l1 l2, scalars = l1 ++ s :: l2 ∧ s.name_ = n ∧ ∀ s' ∈ l2, s'.name_ ≠ n) ∧
    (∀ n, FMIComponentBackEnd.scalarMap scalars n = none ↔ ∀ s ∈ scalars, s.name_ ≠ n) := by
  obtain ⟨L, e⟩ : ∃ L, FMIComponentBackEnd.initializeVariables describe variablePointers
      scalars scalarNames causality
      = FMIComponentBackEnd.storePointers (FMIComponentBackEnd.scalarMap scalars) causality
          describe scalarNames fmiStatus.fmiOK [] L := by
    cases variablePointers with
    | nil => exact ⟨_, rfl⟩
    | cons a l => exact ⟨_, rfl⟩
  rw [e]
  obtain ⟨h1, h2, h3⟩ := FMIComponentBackEnd.storePointers_spec
    (FMIComponentBackEnd.scalarMap scalars) causality describe scalarNames fmiStatus.fmiOK
    [] L (fun h => fmiStatus.noConfusion h)
  refine ⟨?_, h1, ?_, fun n s => FMIComponentBackEnd.scalarMap_some scalars n s,
    fun n => FMIComponentBackEnd.scalarMap_none scalars n⟩
  · exact h2.trans ⟨fun h => h.2, fun h => ⟨rfl, h⟩⟩
  · intro hnf
    have hall : ∀ n ∈ scalarNames, FMIComponentBackEnd.scalarMap scalars n ≠ none :=
      fun n hn hnone => hnf (h1.mpr ⟨n, hn, hnone⟩)
    have hm := h3 hall
    simp only [List.map_nil, List.nil_append] at hm
    refine ⟨hm, ?_⟩
    have := congrArg List.length hm
    simpa using this

/-! ## C27: the number of passes of the event search -/

/-- With a `do_step_const` that returns, a pass of the event search returns. -/
theorem Integrator.searchStep_returns {S M : Type} (ds : DynamicalSystem M)
    (st : IntegratorStepper S M)
    (hconst : ∀ x t h s m, (st.do_step_const x t h s m).isSome = true)
    (self : Integrator S) (fmu : M) :
    ∃ r, Integrator.searchStep ds st self fmu = some r := by
  unfold Integrator.searchStep
  obtain ⟨c, hc⟩ := Option.isSome_iff_exists.mp (hconst self.states_ self.eventInfo_.tLower
    ((self.eventInfo_.tUpper - self.eventInfo_.tLower) / 2) self.stepper_ fmu)
  simp only [hc]
  split
  · exact ⟨_, rfl⟩
  · exact ⟨_, rfl⟩

/-- If `n` is the least number of halvings after which the horizon is at most half the
precision wide, the event search makes exactly `n` passes: it does not return with less
fuel than `n`, and with any fuel from `n` on it returns the horizon halved `n` times. -/
theorem Integrator.search_passes {S M : Type} (ds : DynamicalSystem M)
    (st : IntegratorStepper S M) (eps : fmiTime)
    (hconst : ∀ x t h s m, (st.do_step_const x t h s m).isSome = true) :
    ∀ (n : Nat) (self : Integrator S) (fmu : M),
      self.eventInfo_.tLower ≤ self.eventInfo_.tUpper →
      (self.eventInfo_.tUpper - self.eventInfo_.tLower) / 2 ^ n ≤ eps / 2 →
      (∀ k, k < n → eps / 2 < (self.eventInfo_.tUpper - self.eventInfo_.tLower) / 2 ^ k) →
      (∀ fuel, fuel < n → Integrator.search ds st eps fuel self fmu = none) ∧
      (∀ fuel, n ≤ fuel → ∃ q, Integrator.search ds st eps fuel self fmu = some q ∧
        q.1.eventInfo_.tUpper - q.1.eventInfo_.tLower
          = (self.eventInfo_.tUpper - self.eventInfo_.tLower) / 2 ^ n ∧
        self.eventInfo_.tLower ≤ q.1.eventInfo_.tLower ∧
        q.1.eventInfo_.tLower ≤ q.1.eventInfo_.tUpper ∧
        q.1.eventInfo_.tUpper ≤ self.eventInfo_.tUpper) := by
  intro n
  induction n with
  | zero =>
    intro self fmu hle hw _
    have hc : ¬ (self.eventInfo_.tUpper - self.eventInfo_.tLower > eps / 2) := by
      simpa using hw
    refine ⟨fun fuel h => absurd h (Nat.not_lt_zero _), fun fuel _ => ?_⟩
    refine ⟨(self, fmu), ?_, by simp, le_refl _, hle, le_refl _⟩
    unfold Integrator.search
    simp [hc]
  | succ n ih =>
    intro self fmu hle hw hk
    have hc : self.eventInfo_.tUpper - self.eventInfo_.tLower > eps / 2 := by
      simpa using hk 0 (Nat.succ_pos n)
    obtain ⟨r, hr⟩ := Integrator.searchStep_returns ds st hconst self fmu
    obtain ⟨-, -, -, hwid, hends⟩ := Integrator.searchStep_spec ds st self fmu r hr
    have hrle : r.1.eventInfo_.tLower ≤ r.1.eventInfo_.tUpper := by
      have : 0 ≤ r.1.eventInfo_.tUpper - r.1.eventInfo_.tLower := by
        rw [hwid]
        linarith
      linarith
    have hlow : self.eventInfo_.tLower ≤ r.1.eventInfo_.tLower := by
      rcases hends with ⟨h1, -⟩ | ⟨h1, -⟩
      · rw [h1]
        linarith
      · rw [h1]
    have hup : r.1.eventInfo_.tUpper ≤ self.eventInfo_.tUpper := by
      rcases hends with ⟨-, h2⟩ | ⟨-, h2⟩
      · rw [h2]
      · rw [h2]
        linarith
    have hpow : ∀ k : Nat, (r.1.eventInfo_.tUpper - r.1.eventInfo_.tLower) / 2 ^ k
        = (self.eventInfo_.tUpper - self.eventInfo_.tLower) / 2 ^ (k + 1) := by
      intro k
      rw [hwid, pow_succ, div_div, mul_comm]
    obtain ⟨i1, i2⟩ := ih r.1 r.2 hrle (by rw [hpow]; exact hw)
      (fun k hkn => by rw [hpow]; exact hk (k + 1) (Nat.succ_lt_succ hkn))
    constructor
    · intro fuel hf
      cases fuel with
      | zero =>
        unfold Integrator.search
        simp [hc]
      | succ f =>
        unfold Integrator.search
        simp only [hc, if_true, hr]
        exact i1 f (Nat.lt_of_succ_lt_succ hf)
    · intro fuel hf
      obtain ⟨f, rfl⟩ : ∃ f, fuel = f + 1 := ⟨fuel - 1, by omega⟩
      obtain ⟨q, hq, hqw, h1, h2, h3⟩ := i2 f (Nat.le_of_succ_le_succ hf)
      refine ⟨q, ?_, ?_, le_trans hlow h1, h2, le_trans h3 hup⟩
      · unfold Integrator.search
        simp only [hc, if_true, hr]
        exact hq
      · rw [hqw, hpow]

/-- C27: with a search precision `ε > 0`, a horizon `tLower ≤ tUpper` and a stepper whose
`do_step_const` returns, the event-search loop of `Integrator::integrate` makes exactly
`n` passes, where `n` is the least number with `(tUpper - tLower) / 2 ^ n ≤ ε / 2`: the
loop does not end within fewer than `n` passes, and with room for `n` passes or more it
returns a horizon of width `(tUpper - tLower) / 2 ^ n` that lies within the one it
started from.  Each single pass halves the width and moves one end point to the midpoint
while the other stays, so on an ordered horizon `tLower` does not decrease and `tUpper`
does not increase. -/
theorem search_halves_until_precision {S M : Type} (ds : DynamicalSystem M)
    (st : IntegratorStepper S M) (eps : fmiTime) (heps : 0 < eps)
    (hconst : ∀ x t h s m, (st.do_step_const x t h s m).isSome = true)
    (self : Integrator S) (fmu : M)
    (hle : self.eventInfo_.tLower ≤ self.eventInfo_.tUpper) :
    (∃ n : Nat,
      (self.eventInfo_.tUpper - self.eventInfo_.tLower) / 2 ^ n ≤ eps / 2 ∧
      (∀ k, k < n → eps / 2 < (self.eventInfo_.tUpper - self.eventInfo_.tLower) / 2 ^ k) ∧
      (∀ fuel, fuel < n → Integrator.search ds st eps fuel self fmu = none) ∧
      (∀ fuel, n ≤ fuel → ∃ q, Integrator.search ds st eps fuel self fmu = some q ∧
        q.1.eventInfo_.tUpper - q.1.eventInfo_.tLower
          = (self.eventInfo_.tUpper - self.eventInfo_.tLower) / 2 ^ n ∧
        self.eventInfo_.tLower ≤ q.1.eventInfo_.tLower ∧
        q.1.eventInfo_.tLower ≤ q.1.eventInfo_.tUpper ∧
        q.1.eventInfo_.tUpper ≤ self.eventInfo_.tUpper)) ∧
    (∀ (s : Integrator S) (m : M), ∃ r, Integrator.searchStep ds st s m = some r ∧
      r.1.eventInfo_.tUpper - r.1.eventInfo_.tLower
        = (s.eventInfo_.tUpper - s.eventInfo_.tLower) / 2 ∧
      ((r.1.eventInfo_.tLower = (s.eventInfo_.tUpper + s.eventInfo_.tLower) / 2 ∧
          r.1.eventInfo_.tUpper = s.eventInfo_.tUpper) ∨
       (r.1.eventInfo_.tLower = s.eventInfo_.tLower ∧
          r.1.eventInfo_.tUpper = (s.eventInfo_.tUpper + s.eventInfo_.tLower) / 2)) ∧
      (s.eventInfo_.tLower ≤ s.eventInfo_.tUpper →
        s.eventInfo_.tLower ≤ r.1.eventInfo_.tLower ∧
        r.1.eventInfo_.tUpper ≤ s.eventInfo_.tUpper)) := by
  constructor
  · have hex : ∃ n : Nat,
        (self.eventInfo_.tUpper - self.eventInfo_.tLower) / 2 ^ n ≤ eps / 2 := by
      obtain ⟨n, hn⟩ := pow_unbounded_of_one_lt
        ((self.eventInfo_.tUpper - self.eventInfo_.tLower) / (eps / 2)) (one_lt_two)
      refine ⟨n, ?_⟩
      have h2 : (0 : ℚ) < 2 ^ n := by positivity
      have he : (0 : ℚ) < eps / 2 := by linarith
      rw [div_lt_iff₀ he] at hn
      rw [div_le_iff₀ h2]
      linarith
    classical
    refine ⟨Nat.find hex, Nat.find_spec hex, fun k hk => ?_, ?_⟩
    · exact not_le.mp (Nat.find_min hex hk)
    · exact Integrator.search_passes ds st eps hconst (Nat.find hex) self fmu hle
        (Nat.find_spec hex) (fun k hk => not_le.mp (Nat.find_min hex hk))
  · intro s m
    obtain ⟨r, hr⟩ := Integrator.searchStep_returns ds st hconst s m
    obtain ⟨-, -, -, hwid, hends⟩ := Integrator.searchStep_spec ds st s m r hr
    refine ⟨r, hr, hwid, hends, fun hs => ?_⟩
    rcases hends with ⟨h1, h2⟩ | ⟨h1, h2⟩
    · rw [h1, h2]
      constructor <;> linarith
    · rw [h1, h2]
      constructor <;> linarith

/-- Witness for C27: the Dormand-Prince wrapper on the ramp model, the horizon `[0, 1]`
and the precision `1/4`: the search makes three passes, `1 / 2 ^ 3 ≤ 1/8`. -/
theorem search_halves_until_precision_witness :
    ∃ n : Nat,
      ((1 : ℚ) - 0) / 2 ^ n ≤ 1 / 4 / 2 ∧
      (∀ fuel, fuel < n →
        Integrator.search (ramp 10) (rampDormandPrince 10) (1 / 4) fuel
          { Integrator.fresh LinearDense.fresh with
            eventInfo_ := { stateEvent := true, stepEvent := false, tLower := 0, tUpper := 1 } }
          (rampStart 10) = none) ∧
      (∀ fuel, n ≤ fuel → ∃ q,
        Integrator.search (ramp 10) (rampDormandPrince 10) (1 / 4) fuel
          { Integrator.fresh LinearDense.fresh with
            eventInfo_ := { stateEvent := true, stepEvent := false, tLower := 0, tUpper := 1 } }
          (rampStart 10) = some q ∧
        q.1.eventInfo_.tUpper - q.1.eventInfo_.tLower = ((1 : ℚ) - 0) / 2 ^ n) := by
  obtain ⟨⟨n, h1, -, h3, h4⟩, -⟩ := search_halves_until_precision (ramp 10)
    (rampDormandPrince 10) (1 / 4) (by norm_num) (fun _ _ _ _ _ => rfl)
    { Integrator.fresh LinearDense.fresh with
      eventInfo_ := { stateEvent := true, stepEvent := false, tLower := 0, tUpper := 1 } }
    (rampStart 10) (by norm_num [Integrator.fresh])
  refine ⟨n, h1, h3, fun fuel hf => ?_⟩
  obtain ⟨q, hq, hw, -⟩ := h4 fuel hf
  exact ⟨q, hq, hw⟩

/-! ## C28: the substeps of the fixed-step steppers -/

/-- `Euler` is a fixed-step subclass. -/
theorem Euler.euler_fixedStep {M : Type} (ds : DynamicalSystem M) : (Euler ds).FixedStep :=
  ⟨fun _ => ⟨_, rfl, rfl, rfl⟩, fun _ => ⟨_, rfl, rfl, rfl⟩⟩

/-- `RungeKutta` is a fixed-step subclass. -/
theorem RungeKutta.rk_fixedStep {M : Type}
    (rk4 : state_type → fmiTime → fmiTime → M → state_type × M) :
    (RungeKutta rk4).FixedStep :=
  ⟨fun _ => ⟨_, rfl, rfl, rfl⟩, fun _ => ⟨_, rfl, rfl, rfl⟩⟩

/-- `AdamsBashforthMoulton` is a fixed-step subclass. -/
theorem AdamsBashforthMoulton.abm_fixedStep {A M : Type} (fresh : A)
    (abm : A → state_type → fmiTime → fmiTime → M → state_type × A × M) :
    (AdamsBashforthMoulton fresh abm).FixedStep :=
  ⟨fun _ => ⟨_, rfl, rfl, rfl⟩, fun _ => ⟨_, rfl, rfl, rfl⟩⟩

/-- The model `drift` raises no events and keeps the time written to it. -/
theorem drift_quiet : drift.Quiet :=
  ⟨fun _ => by simp [drift, Plant.system, signChange], fun _ => rfl, fun _ _ _ => rfl⟩

/-- A pass of `OdeintStepper::invokeMethod` with a fixed-step subclass on a model without
events goes round again: it is the forced last step, which ends at the integration end
and sets `stop`, if the step size reaches the integration end, and a step of the step
size otherwise. -/
theorem OdeintStepper.iteration_fixed {W M : Type} (ds : DynamicalSystem M)
    (st : OdeintStepper W M) (hst : st.FixedStep) (hds : ds.Quiet)
    (time step_size : fmiTime) (s : InvokeState W M) :
    ∃ s', OdeintStepper.iteration ds st time step_size s = some (Iter.next s') ∧
      s'.eventInfo = s.eventInfo ∧ ds.getTime s'.fmu = s'.currentTime ∧
      ((s.currentTime + s.dt ≥ time + step_size ∧ s'.currentTime = time + step_size ∧
          s'.stop = true) ∨
       (s.currentTime + s.dt < time + step_size ∧ s'.currentTime = s.currentTime + s.dt ∧
          s'.dt = s.dt ∧ s'.stop = s.stop)) := by
  by_cases hc : s.currentTime + s.dt ≥ time + step_size
  · obtain ⟨v, hv, ht, -⟩ := hst.do_step_const
      ⟨s.obj.stepper, s.fmu, s.states, s.currentTime, time + step_size - s.currentTime⟩
    have hsub : OdeintStepper.substep st time step_size s
        = some ({ v with stepper := st.reset v.stepper }, true) := by
      unfold OdeintStepper.substep
      simp only [hc, if_true, hv]
    have ht' : v.currentTime = time + step_size := by
      rw [ht]
      ring
    refine ⟨{ eventInfo := s.eventInfo, states := v.states, currentTime := v.currentTime,
              dt := v.dt, stop := true,
              obj := ⟨s.states, s.currentTime, st.reset v.stepper⟩,
              fmu := (ds.checkStepEvent (ds.checkStateEvent (ds.setContinuousStates v.states
                (ds.setTime v.currentTime v.fmu))).2).2 },
      ?_, ?_, ?_, Or.inl ⟨hc, ?_, ?_⟩⟩
    · unfold OdeintStepper.iteration
      simp only [hsub, hds.no_state_event, hds.no_step_event, Bool.false_eq_true, if_false]
    · rfl
    · exact hds.time_written _ _ _
    · exact ht'
    · rfl
  · obtain ⟨v, hv, ht, hd⟩ := hst.do_step
      ⟨s.obj.stepper, s.fmu, s.states, s.currentTime, s.dt⟩
    have hsub : OdeintStepper.substep st time step_size s = some (v, s.stop) := by
      unfold OdeintStepper.substep
      simp only [hc, if_false, hv]
    refine ⟨{ eventInfo := s.eventInfo, states := v.states, currentTime := v.currentTime,
              dt := v.dt, stop := s.stop,
              obj := ⟨s.states, s.currentTime, v.stepper⟩,
              fmu := (ds.checkStepEvent (ds.checkStateEvent (ds.setContinuousStates v.states
                (ds.setTime v.currentTime v.fmu))).2).2 },
      ?_, ?_, ?_, Or.inr ⟨not_le.mp hc, ?_, ?_, ?_⟩⟩
    · unfold OdeintStepper.iteration
      simp only [hsub, hds.no_state_event, hds.no_step_event, Bool.false_eq_true, if_false]
    · rfl
    · exact hds.time_written _ _ _
    · exact ht
    · exact hd
    · rfl

/-- The passes of `OdeintStepper::invokeMethod` with a fixed-step subclass on a model
without events, from a state that is more than `n` and at most `n + 1` step sizes before
the integration end: `n` steps of the step size, then the forced last step. -/
theorem OdeintStepper.passes_fixed {W M : Type} (ds : DynamicalSystem M)
    (st : OdeintStepper W M) (hst : st.FixedStep) (hds : ds.Quiet)
    (time step_size dt : fmiTime) (hdt : 0 < dt) :
    ∀ (n : Nat) (s : InvokeState W M), s.stop = false → s.dt = dt →
      (n : ℚ) * dt < time + step_size - s.currentTime →
      time + step_size - s.currentTime ≤ ((n : ℚ) + 1) * dt →
      (∀ k, k ≤ n → ∃ s', OdeintStepper.passes ds st time step_size k s = some s' ∧
        s'.currentTime = s.currentTime + (k : ℚ) * dt ∧ s'.stop = false ∧ s'.dt = dt) ∧
      (∃ s', OdeintStepper.passes ds st time step_size (n + 1) s = some s' ∧
        s'.currentTime = time + step_size ∧ s'.stop = true ∧
        ds.getTime s'.fmu = time + step_size) := by
  intro n
  induction n with
  | zero =>
    intro s hstop hsdt hlo hhi
    simp only [Nat.cast_zero, zero_mul, zero_add, one_mul] at hlo hhi
    have hcond : s.currentTime < time + step_size ∧ s.stop = false := ⟨by linarith, hstop⟩
    obtain ⟨s', hit, -, htime, hcase⟩ :=
      OdeintStepper.iteration_fixed ds st hst hds time step_size s
    constructor
    · intro k hk
      obtain rfl : k = 0 := by omega
      exact ⟨s, rfl, by simp, hstop, hsdt⟩
    · rcases hcase with ⟨-, h1, h2⟩ | ⟨h0, -⟩
      · refine ⟨s', ?_, h1, h2, by rw [htime, h1]⟩
        simp only [OdeintStepper.passes, hcond, and_self, if_true, hit]
      · rw [hsdt] at h0
        linarith
  | succ n ih =>
    intro s hstop hsdt hlo hhi
    push_cast at hlo hhi
    have hn : (0 : ℚ) ≤ n := Nat.cast_nonneg n
    have hcond : s.currentTime < time + step_size ∧ s.stop = false := by
      refine ⟨?_, hstop⟩
      nlinarith
    obtain ⟨s', hit, -, -, hcase⟩ :=
      OdeintStepper.iteration_fixed ds st hst hds time step_size s
    rcases hcase with ⟨h0, -⟩ | ⟨-, h1, h2, h3⟩
    · rw [hsdt] at h0
      nlinarith
    · rw [hsdt] at h1
      obtain ⟨i1, i2⟩ := ih s' (h3.trans hstop) (h2.trans hsdt)
        (by rw [h1]; linarith) (by rw [h1]; linarith)
      have hstep : ∀ k, OdeintStepper.passes ds st time step_size (k + 1) s
          = OdeintStepper.passes ds st time step_size k s' := by
        intro k
        simp only [OdeintStepper.passes, hcond, and_self, if_true, hit]
      constructor
      · intro k hk
        cases k with
        | zero => exact ⟨s, rfl, by simp, hstop, hsdt⟩
        | succ k =>
          obtain ⟨t, hp, ht, hs, hd⟩ := i1 k (Nat.le_of_succ_le_succ hk)
          refine ⟨t, by rw [hstep]; exact hp, ?_, hs, hd⟩
          rw [ht, h1]
          push_cast
          ring
      · obtain ⟨t, hp, ht, hs, hg⟩ := i2
        exact ⟨t, by rw [hstep]; exact hp, ht, hs, hg⟩

/-- C28: `OdeintStepper::invokeMethod` with a fixed-step subclass (`Euler`, `RungeKutta`
and `AdamsBashforthMoulton` are: `Euler.euler_fixedStep`, `RungeKutta.rk_fixedStep`,
`AdamsBashforthMoulton.abm_fixedStep`) on a model that raises no state and no step event,
called with `step_size > 0` and `dt > 0`, makes exactly `N = ⌈step_size / dt⌉` passes
through its loop.  After `k < N` passes the time is `time + k * dt` and the loop goes on;
after `N` passes it is `time + step_size` and the loop has been told to stop, so every
substep but the last has size `dt` and the last has a size in `(0, dt]`.  With room for
fewer than `N` passes the call does not return; with room for `N` or more it returns
with `stateEvent = false`, `stepEvent = false`, the horizon untouched and the model time
equal to `time + step_size`. -/
theorem fixed_step_invokeMethod_substeps {W M : Type} (ds : DynamicalSystem M)
    (st : OdeintStepper W M) (hst : st.FixedStep) (hds : ds.Quiet)
    (eventInfo : EventInfo) (states : state_type) (time step_size dt eps : fmiTime)
    (obj : OdeintObj W) (fmu : M) (hspan : 0 < step_size) (hdt : 0 < dt) :
    (∀ k, k < ⌈step_size / dt⌉₊ →
      ∃ s, OdeintStepper.passes ds st time step_size k
          { eventInfo := eventInfo, states := states, currentTime := time, dt := dt,
            stop := false, obj := obj, fmu := fmu } = some s ∧
        s.currentTime = time + (k : ℚ) * dt ∧ s.stop = false ∧ s.dt = dt) ∧
    (∃ s, OdeintStepper.passes ds st time step_size ⌈step_size / dt⌉₊
        { eventInfo := eventInfo, states := states, currentTime := time, dt := dt,
          stop := false, obj := obj, fmu := fmu } = some s ∧
      s.currentTime = time + step_size ∧ s.stop = true) ∧
    (((⌈step_size / dt⌉₊ : ℚ) - 1) * dt < step_size ∧
      step_size ≤ (⌈step_size / dt⌉₊ : ℚ) * dt) ∧
    (∀ fuel, fuel < ⌈step_size / dt⌉₊ →
      OdeintStepper.invokeMethod ds st fuel eventInfo states time step_size dt eps obj fmu
        = none) ∧
    (∀ fuel, ⌈step_size / dt⌉₊ ≤ fuel →
      ∃ r, OdeintStepper.invokeMethod ds st fuel eventInfo states time step_size dt eps
          obj fmu = some r ∧
        r.eventInfo.stateEvent = false ∧ r.eventInfo.stepEvent = false ∧
        r.eventInfo.tLower = eventInfo.tLower ∧ r.eventInfo.tUpper = eventInfo.tUpper ∧
        ds.getTime r.fmu = time + step_size) := by
  have hpos : 0 < ⌈step_size / dt⌉₊ := Nat.ceil_pos.mpr (div_pos hspan hdt)
  obtain ⟨n, hn⟩ : ∃ n, ⌈step_size / dt⌉₊ = n + 1 := ⟨⌈step_size / dt⌉₊ - 1, by omega⟩
  have hlo : (n : ℚ) * dt < step_size := by
    have : n < ⌈step_size / dt⌉₊ := by omega
    have := Nat.lt_ceil.mp this
    rwa [lt_div_iff₀ hdt] at this
  have hhi : step_size ≤ ((n : ℚ) + 1) * dt := by
    have := Nat.le_ceil (step_size / dt)
    rw [hn, div_le_iff₀ hdt] at this
    push_cast at this
    exact this
  obtain ⟨p1, sN, hpN, htN, hsN, hgN⟩ := OdeintStepper.passes_fixed ds st hst hds time
    step_size dt hdt n
    { eventInfo := eventInfo, states := states, currentTime := time, dt := dt,
      stop := false, obj := obj, fmu := fmu } rfl rfl
    (by simp only; linarith) (by simp only; linarith)
  rw [hn]
  refine ⟨fun k hk => p1 k (by omega), ⟨sN, hpN, htN, hsN⟩, ⟨by push_cast; linarith,
    by push_cast; linarith⟩, ?_, ?_⟩
  · intro fuel hf
    obtain ⟨s, hp, ht, hs, -⟩ := p1 fuel (by omega)
    have h0 := OdeintStepper.loop_after_passes ds st time step_size fuel _ s hp 0
    simp only [Nat.add_zero] at h0
    unfold OdeintStepper.invokeMethod
    rw [h0]
    have hk : (fuel : ℚ) ≤ n := by exact_mod_cast (show fuel ≤ n by omega)
    have hcond : s.currentTime < time + step_size ∧ s.stop = false := by
      refine ⟨?_, hs⟩
      rw [ht]
      simp only
      nlinarith
    unfold OdeintStepper.loop
    simp only [hcond, and_self, if_true]
  · intro fuel hf
    obtain ⟨m, rfl⟩ : ∃ m, fuel = n + 1 + m := ⟨fuel - (n + 1), by omega⟩
    have h0 := OdeintStepper.loop_after_passes ds st time step_size (n + 1) _ sN hpN m
    have he := OdeintStepper.passes_eventInfo ds st time step_size (n + 1) _ sN hpN
    have hcond : ¬ (sN.currentTime < time + step_size ∧ sN.stop = false) := by
      rw [hsN]
      simp
    refine ⟨{ eventInfo := { sN.eventInfo with stateEvent := false, stepEvent := false },
              states := sN.states, stepper := sN.obj, fmu := sN.fmu }, ?_, rfl, rfl, ?_, ?_,
      hgN⟩
    · unfold OdeintStepper.invokeMethod
      rw [h0]
      unfold OdeintStepper.loop
      simp only [hcond, if_false]
    · simp only [he]
    · simp only [he]

/-- Witness for C28: `Euler` on the model `dx/dt = 1` without events, from time `0` over
the span `1` with the step size `3/10`: four passes, `⌈10/3⌉ = 4`. -/
theorem fixed_step_invokeMethod_substeps_witness :
    (∀ fuel, fuel < ⌈(1 : ℚ) / (3 / 10)⌉₊ →
      OdeintStepper.invokeMethod drift (Euler drift) fuel (Integrator.fresh ()).eventInfo_
        [0] 0 1 (3 / 10) 1 (OdeintObj.fresh ()) { time := 0, x := [0], pre := [] } = none) ∧
    (∀ fuel, ⌈(1 : ℚ) / (3 / 10)⌉₊ ≤ fuel →
      ∃ r, OdeintStepper.invokeMethod drift (Euler drift) fuel
          (Integrator.fresh ()).eventInfo_ [0] 0 1 (3 / 10) 1 (OdeintObj.fresh ())
          { time := 0, x := [0], pre := [] } = some r ∧
        r.eventInfo.stateEvent = false ∧ r.eventInfo.stepEvent = false ∧
        drift.getTime r.fmu = 0 + 1) ∧
    ⌈(1 : ℚ) / (3 / 10)⌉₊ = 4 ∧
    (OdeintStepper.invokeMethod drift (Euler drift) 4 (Integrator.fresh ()).eventInfo_
        [0] 0 1 (3 / 10) 1 (OdeintObj.fresh ()) { time := 0, x := [0], pre := [] }).map
      (fun r => (r.fmu.time, r.fmu.x)) = some (1, [1]) := by
  obtain ⟨-, -, -, h4, h5⟩ := fixed_step_invokeMethod_substeps drift (Euler drift)
    (Euler.euler_fixedStep drift) drift_quiet (Integrator.fresh ()).eventInfo_ [0] 0 1
    (3 / 10) 1
    (OdeintObj.fresh ()) { time := 0, x := [0], pre := [] } (by norm_num) (by norm_num)
  refine ⟨h4, fun fuel hf => ?_, ?_, by decide!⟩
  · obtain ⟨r, hr, h1, h2, -, -, h3⟩ := h5 fuel hf
    exact ⟨r, hr, h1, h2, h3⟩
  · rw [Nat.ceil_eq_iff (by norm_num)]
    norm_num

/-! ## C30: the latch and the event flags -/

/-- A substep of a regular subclass keeps the setup of the driver. -/
theorem OdeintStepper.substep_setup {W F : Type}
    (st : OdeintStepper W (FMUModelExchange F (OdeintObj W))) (hreg : st.Regular)
    (time step_size : fmiTime) (s : InvokeState W (FMUModelExchange F (OdeintObj W)))
    (v : StepVars W (FMUModelExchange F (OdeintObj W))) (stop : Bool)
    (h : OdeintStepper.substep st time step_size s = some (v, stop)) :
    FMUModelExchange.SameSetup s.fmu v.fmu := by
  unfold OdeintStepper.substep at h
  split at h
  · split at h
    · cases h
    · rename_i v0 hv0
      cases h
      exact hreg.do_step_const_setup _ _ hv0
  · split at h
    · cases h
    · rename_i v0 hv0
      cases h
      exact hreg.do_step_setup _ _ hv0

/-- The loop of `OdeintStepper::invokeMethod` on a driver, for a regular subclass, keeps
the setup of the driver, whatever the step size. -/
theorem OdeintStepper.loop_setup {W F : Type} (fn : FMU2Functions F)
    (st : OdeintStepper W (FMUModelExchange F (OdeintObj W))) (hreg : st.Regular)
    (m0 : FMUModelExchange F (OdeintObj W)) (time step_size : fmiTime) :
    ∀ (fuel : Nat) (s : InvokeState W (FMUModelExchange F (OdeintObj W)))
      (r : InvokeResult (OdeintObj W) (FMUModelExchange F (OdeintObj W))),
      OdeintStepper.loop (FMUModelExchange.system fn) st time step_size fuel s = some r →
      FMUModelExchange.SameSetup m0 s.fmu → FMUModelExchange.SameSetup m0 r.fmu := by
  intro fuel
  induction fuel with
  | zero =>
    intro s r h hsetup
    unfold OdeintStepper.loop at h
    split at h
    · cases h
    · cases h
      exact hsetup
  | succ n ih =>
    intro s r h hsetup
    unfold OdeintStepper.loop at h
    split at h
    · simp only at h
      cases hit : OdeintStepper.iteration (FMUModelExchange.system fn) st time step_size s with
      | none => simp [hit] at h
      | some out =>
        obtain ⟨v, stop, hsub, hcase⟩ :=
          OdeintStepper.iteration_cases (FMUModelExchange.system fn) st time step_size s out hit
        have h5 := OdeintStepper.substep_setup st hreg time step_size s v stop hsub
        have hchk := FMUModelExchange.after_checks fn v.states v.currentTime v.fmu
        simp only at hchk
        obtain ⟨-, -, c3, c4, -, -⟩ := hchk
        rcases hcase with ⟨-, hout⟩ | ⟨-, -, hout⟩ | ⟨-, -, hout⟩
        · subst hout
          simp only [hit] at h
          cases h
          exact (hsetup.trans (h5.trans c3)).trans ⟨rfl, rfl, rfl, rfl, rfl⟩
        · subst hout
          simp only [hit] at h
          cases h
          exact hsetup.trans (h5.trans c4)
        · subst hout
          simp only [hit] at h
          exact ih _ r h (hsetup.trans (h5.trans c4))
    · cases h
      exact hsetup

/-- With a regular subclass of `OdeintStepper`, `Integrator::integrate` keeps the setup
of the driver. -/
theorem OdeintStepper.Regular.keepsSetup {W F : Type} (fn : FMU2Functions F)
    {st : OdeintStepper W (FMUModelExchange F (OdeintObj W))} (hreg : st.Regular)
    (fuel : Nat) :
    Integrator.KeepsSetup fn (st.toStepper (FMUModelExchange.system fn) fuel) := by
  intro fuel' step_size dt eps self fmu r h
  obtain ⟨inv, hinv, hcase⟩ := Integrator.integrate_cases _ _ fuel' step_size dt eps self fmu r h
  have l1 : FMUModelExchange.SameSetup fmu inv.fmu :=
    OdeintStepper.loop_setup fn st hreg fmu fmu.time_ step_size fuel _ inv hinv
      ⟨rfl, rfl, rfl, rfl, rfl⟩
  rcases hcase with ⟨-, hr⟩ | ⟨-, -, c, hc, hcl⟩ | ⟨-, -, q, hq, hr⟩
  · subst hr
    exact l1
  · have hcs : FMUModelExchange.SameSetup inv.fmu c.fmu := by
      simp only [OdeintStepper.toStepper] at hc
      split at hc
      · cases hc
      · rename_i v hv
        cases hc
        exact hreg.do_step_const_setup _ _ hv
    have hcm : FMUModelExchange.SameSetup c.fmu
        ((FMUModelExchange.system fn).checkStateEvent
          (Integrator.clampedModel (FMUModelExchange.system fn) fmu step_size c)).2 :=
      ⟨rfl, rfl, rfl, rfl, rfl⟩
    rcases hcl with ⟨-, hr⟩ | ⟨-, q, hq, hr⟩
    · subst hr
      exact l1.trans (hcs.trans hcm)
    · subst hr
      exact (l1.trans (hcs.trans hcm)).trans
        (Integrator.search_on_driver fn st hreg fuel eps fuel' _ _ q hq)
  · subst hr
    exact l1.trans (Integrator.search_on_driver fn st hreg fuel eps fuel' _ _ q hq)

/-- With the flags `stateEvent_` or `timeEvent_` set, `stepOverEvent` returns `true`. -/
theorem FMUModelExchange.stepOverEvent_true {F S : Type} (fn : FMU2Functions F)
    (d : FMUModelExchange F S) (h : d.stateEvent_ = true ∨ d.timeEvent_ = true) :
    (FMUModelExchange.stepOverEvent fn d).1 = true := by
  unfold FMUModelExchange.stepOverEvent
  rcases h with h | h
  · simp [h]
  · simp [h]

/-- The code of `integrate` in front of the integrator call clears the latch, if the
latch is only ever set in stop-before-event mode and together with one of the two
flags. -/
theorem FMUModelExchange.prepare_latch {F S : Type} (fn : FMU2Functions F) (tend : fmiTime)
    (d : FMUModelExchange F S)
    (hinv : d.upcomingEvent_ = true →
      d.stopBeforeEvent_ = true ∧ (d.stateEvent_ = true ∨ d.timeEvent_ = true)) :
    (FMUModelExchange.prepare fn tend d).2.upcomingEvent_ = false ∧
    (FMUModelExchange.prepare fn tend d).2.nStateVars_ = d.nStateVars_ := by
  obtain ⟨s1, -, -, -, -, -, s7, -⟩ := FMUModelExchange.stepOverEvent_spec fn d
  obtain ⟨-, p2, -, -, p5, -, -⟩ := FMUModelExchange.prepare_fields fn tend d _ rfl
  rw [p2, p5]
  by_cases hgo : (d.stopBeforeEvent_ && d.upcomingEvent_) = true
  · rw [if_pos hgo]
    have hb : d.stopBeforeEvent_ = true ∧ d.upcomingEvent_ = true := by simpa using hgo
    exact ⟨(s7 (hinv hb.2).2).2, s1⟩
  · rw [if_neg hgo]
    refine ⟨?_, rfl⟩
    cases hu : d.upcomingEvent_ with
    | false => rfl
    | true =>
      have := (hinv hu).1
      simp [this, hu] at hgo

/-- The code of `integrate` behind the integrator call sets the latch only in
stop-before-event mode and together with one of the two flags. -/
theorem FMUModelExchange.classify_latch {F S : Type} (fn : FMU2Functions F) (e : EventInfo)
    (s : FMUModelExchange F S) (hu : s.upcomingEvent_ = false) :
    (FMUModelExchange.classify fn e s).2.upcomingEvent_ = true →
      (FMUModelExchange.classify fn e s).2.stopBeforeEvent_ = true ∧
      ((FMUModelExchange.classify fn e s).2.stateEvent_ = true ∨
        (FMUModelExchange.classify fn e s).2.timeEvent_ = true) := by
  cases h1 : e.stepEvent <;> cases h2 : e.stateEvent <;> cases h3 : s.timeEvent_ <;>
    cases h4 : s.stopBeforeEvent_ <;>
    simp [FMUModelExchange.classify, h1, h2, h3, h4, hu, Integrator.getEventHorizon,
      FMUModelExchange.getTime, FMUModelExchange.stepOverEvent,
      FMUModelExchange.saveEventIndicators, FMUModelExchange.getEventIndicators,
      FMUModelExchange.handleEvents, FMUModelExchange.completedIntegratorStep,
      FMUModelExchange.setContinuousStates, FMUModelExchange.setTime,
      FMUModelExchange.getDerivatives, FMUModelExchange.getContinuousStates]

/-- One `integrate` call of a driver with continuous states keeps the number of states
and leaves the latch set only in stop-before-event mode and together with one of the two
flags, if it found it so. -/
theorem FMUModelExchange.integrate_latch {F S : Type} (fn : FMU2Functions F)
    (st : IntegratorStepper S (FMUModelExchange F S)) (hst : Integrator.KeepsSetup fn st)
    (fuel : Nat) (tend deltaT : fmiTime) (d : FMUModelExchange F S)
    (out : fmiTime × FMUModelExchange F S) (hn : d.nStateVars_ ≠ 0)
    (hinv : d.upcomingEvent_ = true →
      d.stopBeforeEvent_ = true ∧ (d.stateEvent_ = true ∨ d.timeEvent_ = true))
    (h : FMUModelExchange.integrate fn st fuel tend deltaT d = some out) :
    out.2.nStateVars_ = d.nStateVars_ ∧
    (out.2.upcomingEvent_ = true →
      out.2.stopBeforeEvent_ = true ∧ (out.2.stateEvent_ = true ∨ out.2.timeEvent_ = true)) := by
  obtain ⟨hp1, hp2⟩ := FMUModelExchange.prepare_latch fn tend d hinv
  unfold FMUModelExchange.integrate at h
  simp only [hn, if_false] at h
  split at h
  · cases h
  · rename_i r hr
    cases h
    obtain ⟨k1, -, -, -, k5⟩ := hst _ _ _ _ _ _ r hr
    obtain ⟨-, c2, -⟩ := FMUModelExchange.classify_spec fn r.ret
      { r.fmu with integrator_ := r.self }
    refine ⟨?_, ?_⟩
    · show (FMUModelExchange.classify fn r.ret { r.fmu with integrator_ := r.self }).2.nStateVars_
        = d.nStateVars_
      rw [c2]
      exact k1.trans hp2
    · exact FMUModelExchange.classify_latch fn r.ret { r.fmu with integrator_ := r.self }
        (k5.trans hp1)

/-- Along a sequence of `integrate` and `resetEventFlags` calls on a driver with
continuous states, the latch is set only in stop-before-event mode and together with one
of the two flags. -/
theorem FMUModelExchange.run_latch {F S : Type} (fn : FMU2Functions F)
    (st : IntegratorStepper S (FMUModelExchange F S)) (hst : Integrator.KeepsSetup fn st)
    (fuel : Nat) :
    ∀ (ops : List DriverCall) (d0 d : FMUModelExchange F S), d0.nStateVars_ ≠ 0 →
      (d0.upcomingEvent_ = true →
        d0.stopBeforeEvent_ = true ∧ (d0.stateEvent_ = true ∨ d0.timeEvent_ = true)) →
      FMUModelExchange.run fn st fuel ops d0 = some d →
      d.nStateVars_ ≠ 0 ∧
      (d.upcomingEvent_ = true →
        d.stopBeforeEvent_ = true ∧ (d.stateEvent_ = true ∨ d.timeEvent_ = true)) := by
  intro ops
  induction ops with
  | nil =>
    intro d0 d hn hinv h
    simp only [FMUModelExchange.run, Option.some.injEq] at h
    subst h
    exact ⟨hn, hinv⟩
  | cons op rest ih =>
    intro d0 d hn hinv h
    cases op with
    | integrate tend deltaT =>
      simp only [FMUModelExchange.run] at h
      split at h
      · cases h
      · rename_i out hout
        obtain ⟨i1, i2⟩ :=
          FMUModelExchange.integrate_latch fn st hst fuel tend deltaT d0 out hn hinv hout
        exact ih out.2 d (by rw [i1]; exact hn) i2 h
    | resetEventFlags =>
      simp only [FMUModelExchange.run] at h
      exact ih (FMUModelExchange.resetEventFlags d0) d hn
        (fun hu => Bool.noConfusion (show false = true from hu)) h

/-- C30: for a driver with at least one continuous state whose latch `upcomingEvent_` is
clear at the start, such as one with all event flags clear, and an integrator that acts
on the driver only through the `DynamicalSystem` interface, after every sequence of
`integrate` and `resetEventFlags` calls that return: `upcomingEvent_ = true` implies
`stateEvent_ = true` or `timeEvent_ = true` (and stop-before-event mode).  So in
stop-before-event mode with the latch set, `stepOverEvent` returns `true` and clears the
latch, and the latch is clear behind the code of the next `integrate` in front of the
integrator call.  And `stepOverEvent` on any driver with neither flag set returns
`false` and the driver unchanged. -/
theorem latch_implies_event_flag {F S : Type} (fn : FMU2Functions F)
    (st : IntegratorStepper S (FMUModelExchange F S)) (hst : Integrator.KeepsSetup fn st)
    (fuel : Nat) (ops : List DriverCall) (d0 d : FMUModelExchange F S)
    (hn : d0.nStateVars_ ≠ 0) (hclear : d0.upcomingEvent_ = false)
    (hrun : FMUModelExchange.run fn st fuel ops d0 = some d) :
    (d.upcomingEvent_ = true → d.stateEvent_ = true ∨ d.timeEvent_ = true) ∧
    (d.upcomingEvent_ = true → d.stopBeforeEvent_ = true) ∧
    (d.stopBeforeEvent_ = true → d.upcomingEvent_ = true →
      (FMUModelExchange.stepOverEvent fn d).1 = true ∧
      (FMUModelExchange.stepOverEvent fn d).2.upcomingEvent_ = false) ∧
    (∀ tend, (FMUModelExchange.prepare fn tend d).2.upcomingEvent_ = false) ∧
    (∀ e : FMUModelExchange F S, e.stateEvent_ = false → e.timeEvent_ = false →
      FMUModelExchange.stepOverEvent fn e = (false, e)) := by
  obtain ⟨-, hinv⟩ := FMUModelExchange.run_latch fn st hst fuel ops d0 d hn
    (fun hu => by rw [hclear] at hu; exact Bool.noConfusion hu) hrun
  refine ⟨fun hu => (hinv hu).2, fun hu => (hinv hu).1, fun _ hu => ?_, fun tend => ?_,
    fun e h1 h2 => ?_⟩
  · obtain ⟨-, -, -, -, -, -, s7, -⟩ := FMUModelExchange.stepOverEvent_spec fn d
    exact ⟨FMUModelExchange.stepOverEvent_true fn d (hinv hu).2, (s7 (hinv hu).2).2⟩
  · exact (FMUModelExchange.prepare_latch fn tend d hinv).1
  · obtain ⟨-, -, -, -, -, -, -, s8⟩ := FMUModelExchange.stepOverEvent_spec fn e
    exact s8 h1 h2

/-- Witness for C30: the zigzag driver in stop-before-event mode with all flags clear;
`integrate( 2, 2 )` latches the state event, and then `stepOverEvent` is not a no-op. -/
theorem latch_implies_event_flag_witness :
    (zigzagDriver true 8).upcomingEvent_ = false ∧
    ∃ d, FMUModelExchange.run zigzag zigzagEuler 10 [DriverCall.integrate 2 2]
        (zigzagDriver true 8) = some d ∧
      d.upcomingEvent_ = true ∧ (d.stateEvent_ = true ∨ d.timeEvent_ = true) ∧
      (FMUModelExchange.stepOverEvent zigzag d).1 = true ∧
      (FMUModelExchange.stepOverEvent zigzag d).2.upcomingEvent_ = false := by
  refine ⟨rfl, ?_⟩
  have hmap : (FMUModelExchange.run zigzag zigzagEuler 10 [DriverCall.integrate 2 2]
      (zigzagDriver true 8)).map (fun d => (d.upcomingEvent_, d.stopBeforeEvent_))
        = some (true, true) := by decide!
  cases hr : FMUModelExchange.run zigzag zigzagEuler 10 [DriverCall.integrate 2 2]
      (zigzagDriver true 8) with
  | none =>
    rw [hr] at hmap
    exact Option.noConfusion hmap
  | some d =>
    rw [hr] at hmap
    simp only [Option.map_some', Option.some.injEq, Prod.mk.injEq] at hmap
    obtain ⟨h1, -, h3, -, -⟩ := latch_implies_event_flag zigzag zigzagEuler
      ((Euler.regular zigzag).keepsSetup zigzag 10) 10 [DriverCall.integrate 2 2]
      (zigzagDriver true 8) d (by decide) rfl hr
    exact ⟨d, rfl, hmap.1, h1 hmap.1, h3 hmap.2 hmap.1⟩

end FMIPP
